import Mathlib

/-!
# A verification development for the teaching kernel (RISC-V, Sv39)

Shallow embedding of the filesystem (`kfs.c`), the VirtIO block driver
(`vioblk.c`), the memory manager (`memory.c`) and the system-call layer
(`syscall.c`), followed by theorems about them.

Conventions.
* Machine integers are natural numbers, reduced modulo `2^32` or `2^64` at the
  places where the C code computes in `uint32_t` or `uint64_t`.
* A byte buffer is a function from byte index to byte value.  A C object that
  lives in memory is the initial segment of such a function; the indices past
  the end of the object stand for whatever memory lies behind it.
* A `long` result is an integer (`toLong` reinterprets an `unsigned long`).
* Sleep locks and interrupt masking are not part of the functional model; the
  section on sleep locks adds the lock to the handle operations one by one.
-/

namespace KOS

/-! ## Bytes and buffers -/

/-- A byte buffer: index to byte value. -/
abbrev Buf := Nat → Nat

def U32 : Nat := 2 ^ 32
def U64 : Nat := 2 ^ 64

/-- Reinterpretation of an `unsigned long` as a `long` (two's complement). -/
def toLong (x : Nat) : Int :=
  if x % U64 < 2 ^ 63 then ((x % U64 : Nat) : Int) else ((x % U64 : Nat) : Int) - (U64 : Int)

/-- The C call `memcpy(dst + doff, src + soff, n)`. -/
def memcpy (dst : Buf) (doff : Nat) (src : Buf) (soff n : Nat) : Buf :=
  fun i => if doff ≤ i ∧ i < doff + n then src (soff + (i - doff)) else dst i

/-- A little-endian `uint32_t` stored at byte offset `off` of a packed struct. -/
def u32le (b : Buf) (off : Nat) : Nat :=
  b off % 256 + 256 * (b (off + 1) % 256) + 65536 * (b (off + 2) % 256)
    + 16777216 * (b (off + 3) % 256)

/-! ## Error numbers (`error.h`) -/

/-- Modelled from the spec: `error.h` is not among the sources; the doc comment
of `sysdevopen` gives `-EINVAL(-1)` and `-EMFILE(-10)`. -/
def EINVAL : Int := 1
/-- Modelled from the spec: see `EINVAL`; the value between `EBUSY` and `ENODEV`. -/
def ENOTSUP : Int := 3
/-- Modelled from the spec: see `EINVAL`. -/
def EBADFD : Int := 9
/-- Modelled from the spec: see `EINVAL`. -/
def EMFILE : Int := 10

/-! ## VirtIO block driver (`vioblk.c`) -/

/-- The fields of `struct vioblk_device` that carry data, together with the
backing store `disk` of the device itself. -/
structure vioblk_device where
  blksz : Nat
  pos : Nat
  size : Nat
  opened : Bool
  readonly : Bool
  blkbuf : Buf
  disk : Buf

/-- Modelled from the spec: the device side of one `VIRTIO_BLK_T_IN` request.
The device is a byte array served one sector request at a time; sector `sector`
is copied into the block buffer (descriptor 2, `blksz` bytes). -/
def vioblk_device.serve_in (dev : vioblk_device) (sector : Nat) : vioblk_device :=
  { dev with blkbuf := fun j =>
      if j < dev.blksz then dev.disk (sector * dev.blksz + j) else dev.blkbuf j }

/-- Modelled from the spec: the device side of one `VIRTIO_BLK_T_OUT` request;
the block buffer replaces sector `sector` of the byte array. -/
def vioblk_device.serve_out (dev : vioblk_device) (sector : Nat) : vioblk_device :=
  { dev with disk := fun a =>
      if sector * dev.blksz ≤ a ∧ a < sector * dev.blksz + dev.blksz
      then dev.blkbuf (a - sector * dev.blksz) else dev.disk a }

/-- The `while (total_read < bufsz)` loop of `vioblk_read`.  Every iteration
transfers at least one byte, so `bufsz` iterations are enough (`fuel`). -/
def vioblk_read_loop : Nat → vioblk_device → Buf → Nat → Nat → vioblk_device × Buf × Nat
  | 0, dev, buf, _, total_read => (dev, buf, total_read)
  | fuel + 1, dev, buf, bufsz, total_read =>
    if total_read < bufsz then
      if dev.pos ≥ dev.size then (dev, buf, total_read)
      else
        let sector_index := (dev.pos / dev.blksz) % U32
        let sector_offset := (dev.pos % dev.blksz) % U32
        let bytes_available_in_block := dev.blksz - sector_offset
        let bytes_remaining := bufsz - total_read
        let bytes_this_read :=
          if bytes_available_in_block < bytes_remaining then bytes_available_in_block
          else bytes_remaining
        let dev1 := dev.serve_in sector_index
        let buf1 := memcpy buf total_read dev1.blkbuf sector_offset bytes_this_read
        vioblk_read_loop fuel { dev1 with pos := (dev1.pos + bytes_this_read) % U64 } buf1 bufsz
          (total_read + bytes_this_read)
    else (dev, buf, total_read)

/-- `vioblk_read(io, buf, bufsz)`: device after the call, buffer after the call,
and the returned count. -/
def vioblk_read (dev : vioblk_device) (buf : Buf) (bufsz : Nat) : vioblk_device × Buf × Int :=
  let r := vioblk_read_loop bufsz dev buf bufsz 0
  (r.1, r.2.1, toLong r.2.2)

/-- The `while (total_written < n)` loop of `vioblk_write`; the early
`return 0` at the end of the device is the `(dev, 0)` branch. -/
def vioblk_write_loop : Nat → vioblk_device → Buf → Nat → Nat → vioblk_device × Int
  | 0, dev, _, _, total_written => (dev, toLong total_written)
  | fuel + 1, dev, buf, n, total_written =>
    if total_written < n then
      if dev.pos ≥ dev.size then (dev, 0)
      else
        let sector_index := (dev.pos / dev.blksz) % U32
        let sector_offset := (dev.pos % dev.blksz) % U32
        let bytes_available_in_block := dev.blksz - sector_offset
        let bytes_remaining := n - total_written
        let bytes_this_write :=
          if bytes_available_in_block < bytes_remaining then bytes_available_in_block
          else bytes_remaining
        let dev1 := if bytes_this_write ≠ dev.blksz then dev.serve_in sector_index else dev
        let dev2 := { dev1 with
          blkbuf := memcpy dev1.blkbuf sector_offset buf total_written bytes_this_write }
        let dev3 := dev2.serve_out sector_index
        vioblk_write_loop fuel { dev3 with pos := (dev3.pos + bytes_this_write) % U64 } buf n
          (total_written + bytes_this_write)
    else (dev, toLong total_written)

/-- `vioblk_write(io, buf, n)`. -/
def vioblk_write (dev : vioblk_device) (buf : Buf) (n : Nat) : vioblk_device × Int :=
  if dev.readonly then (dev, -EINVAL) else vioblk_write_loop n dev buf n 0

/-- `vioblk_setpos`, reached through `ctl(IOCTL_SETPOS, &new_pos)` with a
non-null argument. -/
def vioblk_setpos (dev : vioblk_device) (new_pos : Nat) : vioblk_device × Int :=
  if new_pos > dev.size then (dev, -EINVAL) else ({ dev with pos := new_pos }, 0)

/-! ## Filesystem (`kfs.c`, `kfs.h`) -/

def FS_BLKSZ : Nat := 4096
def FS_NAMELEN : Nat := 32
def FS_MAXOPEN : Nat := 32

/-- The data fields of `struct file_struct` (`refcnt` is the field of the
embedded `struct io_intf`). -/
structure file_struct where
  refcnt : Nat
  file_position : Nat
  file_size : Nat
  inode_number : Nat
  flags : Nat

/-- The global variables of `kfs.c`.  `blkdev` is the device behind the
handle `vioblk_io`; `boot_block`, `inode` and `data_block` are the global
objects of those names seen as bytes. -/
structure FsState where
  blkdev : vioblk_device
  fs_initialized : Bool
  boot_block : Buf
  file_structs : Nat → file_struct
  inode : Buf
  data_block : Buf

/-- Field `boot_block.num_dentry`. -/
def num_dentry (bb : Buf) : Nat := u32le bb 0
/-- Field `boot_block.num_inodes`. -/
def num_inodes (bb : Buf) : Nat := u32le bb 4
/-- Field `boot_block.dir_entries[i].file_name[j]`. -/
def dentry_name (bb : Buf) (i : Nat) : Buf := fun j => bb (64 + 64 * i + j)
/-- Field `boot_block.dir_entries[i].inode`. -/
def dentry_inode (bb : Buf) (i : Nat) : Nat := u32le bb (64 + 64 * i + 32)
/-- Field `inode.byte_len`. -/
def byte_len (ino : Buf) : Nat := u32le ino 0
/-- The array access `inode.data_block_num[i]`; the array has 1023 entries and
the access is not bounds-checked by the language. -/
def data_block_num (ino : Buf) (i : Nat) : Nat := u32le ino (4 + 4 * i)

/-- `strncpy(fname, src, FS_NAMELEN); fname[FS_NAMELEN] = 0`: the bytes of
`src` up to its first NUL among the first 32, zero padded. -/
def strncpy_name (src : Buf) : Buf :=
  fun j => if j < FS_NAMELEN ∧ (List.range (j + 1)).all (fun k => src k != 0) = true then src j else 0

/-- `strncmp(a, b, n) == 0`. -/
def strncmp_eq (a b : Buf) : Nat → Bool
  | 0 => true
  | n + 1 =>
    if a 0 ≠ b 0 then false
    else if a 0 = 0 then true
    else strncmp_eq (fun j => a (j + 1)) (fun j => b (j + 1)) n

/-- The directory scan of `fs_open`: the first index `i` with
`start ≤ i < start + fuel` whose name matches. -/
def dentry_search (bb : Buf) (name : Buf) : Nat → Nat → Option Nat
  | 0, _ => none
  | fuel + 1, i =>
    if strncmp_eq name (strncpy_name (dentry_name bb i)) FS_NAMELEN then some i
    else dentry_search bb name fuel (i + 1)

/-- The slot scan of `fs_open`: the first index below `FS_MAXOPEN` whose
`flags` is zero. -/
def find_free_slot (fs : Nat → file_struct) : Nat → Nat → Option Nat
  | 0, _ => none
  | fuel + 1, i => if (fs i).flags = 0 then some i else find_free_slot fs fuel (i + 1)

/-- `fs_open(name, ioptr)`: return value, state after the call, and the slot
whose handle was stored through `ioptr` (`none` when nothing was stored). -/
def fs_open (s : FsState) (name : Buf) : Int × FsState × Option Nat :=
  if !s.fs_initialized then (-1, s, none)
  else
    match find_free_slot s.file_structs FS_MAXOPEN 0 with
    | none => (-1, s, none)
    | some slot =>
      match dentry_search s.boot_block name (num_dentry s.boot_block) 0 with
      | none => (-1, s, none)
      | some d =>
        let file := s.file_structs slot
        let file1 := { file with file_position := 0, inode_number := dentry_inode s.boot_block d }
        let s1 := { s with file_structs := Function.update s.file_structs slot file1 }
        let inode_pos := (FS_BLKSZ + file1.inode_number * FS_BLKSZ) % U64
        let r := vioblk_setpos s1.blkdev inode_pos
        if r.2 ≠ 0 then (-1, { s1 with blkdev := r.1 }, none)
        else
          let rd := vioblk_read r.1 s1.inode 4096
          let s2 := { s1 with blkdev := rd.1, inode := rd.2.1 }
          if rd.2.2 ≠ 4096 then (-1, s2, none)
          else
            let file2 := { file1 with file_size := byte_len s2.inode, flags := 1, refcnt := 1 }
            (0, { s2 with file_structs := Function.update s2.file_structs slot file2 }, some slot)

/-- Device offset of data block `d` as `fs_read` computes it: the three terms
are `uint32_t` (or `int`) values and so is their sum. -/
def data_block_offset (bb : Buf) (d : Nat) : Nat :=
  (FS_BLKSZ + num_inodes bb * FS_BLKSZ + d * FS_BLKSZ) % U32

/-- Device offset of inode `inode_number` as `fs_read` and `fs_write` compute
it, from a `uint32_t` copy of the inode number. -/
def inode_offset (inode_number : Nat) : Nat :=
  (FS_BLKSZ + (inode_number % U32) * FS_BLKSZ) % U32

/-- The `while (bytes_to_read > 0)` loop of `fs_read`.  The last component is
`none` when a device operation failed (the function then returns -1) and
`some (total_bytes_read, file_pos)` when the loop was left normally.  Every
iteration transfers at least one byte, so `bytes_to_read` iterations are
enough (`fuel`). -/
def fs_read_loop : Nat → FsState → Buf → Nat → Nat → Nat → FsState × Buf × Option (Nat × Nat)
  | 0, s, buf, _, total_bytes_read, file_pos => (s, buf, some (total_bytes_read, file_pos))
  | fuel + 1, s, buf, bytes_to_read, total_bytes_read, file_pos =>
    if bytes_to_read > 0 then
      let block_index := (file_pos / FS_BLKSZ) % U32
      let block_offset := (file_pos % FS_BLKSZ) % U32
      if block_index ≥ 4096 then (s, buf, some (total_bytes_read, file_pos))
      else
        let d := data_block_num s.inode block_index
        let r := vioblk_setpos s.blkdev (data_block_offset s.boot_block d)
        if r.2 ≠ 0 then ({ s with blkdev := r.1 }, buf, none)
        else
          let bytes_available := FS_BLKSZ - block_offset
          let bytes_this_read :=
            if bytes_to_read < bytes_available then bytes_to_read else bytes_available
          let rd := vioblk_read r.1 s.data_block 4096
          let s1 := { s with blkdev := rd.1, data_block := rd.2.1 }
          if rd.2.2 ≠ 4096 then (s1, buf, none)
          else
            let buf1 := memcpy buf total_bytes_read s1.data_block block_offset bytes_this_read
            fs_read_loop fuel s1 buf1 (bytes_to_read - bytes_this_read)
              (total_bytes_read + bytes_this_read) ((file_pos + bytes_this_read) % U64)
    else (s, buf, some (total_bytes_read, file_pos))

/-- `fs_read(io, buf, n)`.  `io` is the slot of the file whose handle is passed
(`none` for a null handle), `buf` the caller's buffer (`none` for a null
pointer).  Result: return value, state after the call, buffer after the call. -/
def fs_read (s : FsState) (io : Option Nat) (buf : Option Buf) (n : Nat) :
    Int × FsState × Option Buf :=
  match io, buf with
  | none, _ => (-1, s, buf)
  | some _, none => (-1, s, none)
  | some fd, some b =>
    let file := s.file_structs fd
    if file.flags = 0 then (-1, s, some b)
    else if !s.fs_initialized then (-1, s, some b)
    else if file.file_position ≥ file.file_size then (0, s, some b)
    else
      let n1 :=
        if (file.file_position + n) % U64 > file.file_size
        then file.file_size - file.file_position else n
      let r := vioblk_setpos s.blkdev (inode_offset file.inode_number)
      if r.2 ≠ 0 then (-1, { s with blkdev := r.1 }, some b)
      else
        let rd := vioblk_read r.1 s.inode 4096
        let s1 := { s with blkdev := rd.1, inode := rd.2.1 }
        if rd.2.2 ≠ 4096 then (-1, s1, some b)
        else
          match fs_read_loop n1 s1 b n1 0 file.file_position with
          | (s2, b2, none) => (-1, s2, some b2)
          | (s2, b2, some (total_bytes_read, file_pos)) =>
            (toLong total_bytes_read,
             { s2 with file_structs :=
                 Function.update s2.file_structs fd { file with file_position := file_pos } },
             some b2)

/-- The `while (bytes_to_write > 0)` loop of `fs_write`.  The last component is
`Except.error c` when a device operation failed (the function then returns
`c`) and `Except.ok (total_bytes_written, file_pos)` otherwise. -/
def fs_write_loop : Nat → FsState → Buf → Nat → Nat → Nat → FsState × Except Int (Nat × Nat)
  | 0, s, _, _, total_bytes_written, file_pos => (s, Except.ok (total_bytes_written, file_pos))
  | fuel + 1, s, buf, bytes_to_write, total_bytes_written, file_pos =>
    if bytes_to_write > 0 then
      let block_index := (file_pos / FS_BLKSZ) % U32
      let block_offset := (file_pos % FS_BLKSZ) % U32
      if block_index ≥ 4096 then (s, Except.ok (total_bytes_written, file_pos))
      else
        let d := data_block_num s.inode block_index
        let r := vioblk_setpos s.blkdev
          ((FS_BLKSZ + num_inodes s.boot_block * FS_BLKSZ + d * FS_BLKSZ + block_offset) % U32)
        if r.2 ≠ 0 then ({ s with blkdev := r.1 }, Except.error (-6))
        else
          let bytes_available := FS_BLKSZ - block_offset
          let bytes_this_write :=
            if bytes_to_write < bytes_available then bytes_to_write else bytes_available
          let data_block1 := memcpy s.data_block 0 buf total_bytes_written bytes_this_write
          let w := vioblk_write r.1 data_block1 bytes_this_write
          let s1 := { s with blkdev := w.1, data_block := data_block1 }
          if w.2 ≠ (bytes_this_write : Int) then (s1, Except.error (-7))
          else
            fs_write_loop fuel s1 buf (bytes_to_write - bytes_this_write)
              (total_bytes_written + bytes_this_write) ((file_pos + bytes_this_write) % U64)
    else (s, Except.ok (total_bytes_written, file_pos))

/-- `fs_write(io, buf, n)`: return value and state after the call. -/
def fs_write (s : FsState) (io : Option Nat) (buf : Option Buf) (n : Nat) : Int × FsState :=
  match io, buf with
  | none, _ => (-1, s)
  | some _, none => (-1, s)
  | some fd, some b =>
    let file := s.file_structs fd
    if file.flags = 0 then (-2, s)
    else if !s.fs_initialized then (-3, s)
    else if file.file_position ≥ file.file_size then (0, s)
    else
      let n1 :=
        if (file.file_position + n) % U64 > file.file_size
        then file.file_size - file.file_position else n
      let r := vioblk_setpos s.blkdev (inode_offset file.inode_number)
      if r.2 ≠ 0 then (-1, { s with blkdev := r.1 })
      else
        let rd := vioblk_read r.1 s.inode 4096
        let s1 := { s with blkdev := rd.1, inode := rd.2.1 }
        if rd.2.2 ≠ 4096 then (-5, s1)
        else
          match fs_write_loop n1 s1 b n1 0 file.file_position with
          | (s2, Except.error c) => (c, s2)
          | (s2, Except.ok (total_bytes_written, file_pos)) =>
            (toLong total_bytes_written,
             { s2 with file_structs :=
                 Function.update s2.file_structs fd { file with file_position := file_pos } })

/-- `fs_setpos(fd, arg)` with non-null `fd`; `arg` is the value pointed to
(`none` for a null pointer). -/
def fs_setpos (file : file_struct) (arg : Option Nat) : Int × file_struct :=
  match arg with
  | none => (-1, file)
  | some new_pos =>
    if new_pos > file.file_size then (-1, file) else (0, { file with file_position := new_pos })

/-- Modelled from the spec: `io.h` is not among the sources; the four ioctl
command numbers the handles recognise (only their being distinct matters). -/
def IOCTL_GETLEN : Int := 1
/-- Modelled from the spec: see `IOCTL_GETLEN`. -/
def IOCTL_GETPOS : Int := 3
/-- Modelled from the spec: see `IOCTL_GETLEN`. -/
def IOCTL_SETPOS : Int := 4
/-- Modelled from the spec: see `IOCTL_GETLEN`. -/
def IOCTL_GETBLKSZ : Int := 6

/-- `fs_ioctl(io, cmd, arg)` for the handle of slot `fd`.  `arg` is the value
found behind the argument pointer (`none` for a null pointer).  Result: return
value, state after the call, value behind the argument pointer after the
call. -/
def fs_ioctl (s : FsState) (fd : Nat) (cmd : Int) (arg : Option Nat) :
    Int × FsState × Option Nat :=
  let file := s.file_structs fd
  if file.flags = 0 then (-1, s, arg)
  else if cmd = IOCTL_GETLEN then
    match arg with
    | none => (-1, s, none)
    | some _ => (0, s, some file.file_size)
  else if cmd = IOCTL_GETPOS then
    match arg with
    | none => (-1, s, none)
    | some _ => (0, s, some file.file_position)
  else if cmd = IOCTL_SETPOS then
    let r := fs_setpos file arg
    (r.1, { s with file_structs := Function.update s.file_structs fd r.2 }, arg)
  else if cmd = IOCTL_GETBLKSZ then
    match arg with
    | none => (-1, s, none)
    | some _ => (0, s, some FS_BLKSZ)
  else (-ENOTSUP, s, arg)

/-! ## What the code fetches, and the on-disk layout of the specification -/

/-- The inode of the file in slot `fd` as `fs_read` and `fs_write` fetch it:
the device bytes at the offset these functions compute (`inode_offset`, in 32
bits). -/
def disk_inode (s : FsState) (fd : Nat) : Buf :=
  fun j => s.blkdev.disk (inode_offset (s.file_structs fd).inode_number + j)

/-- The device address from which `fs_read` takes byte `i` of a file whose
inode it has fetched as `ino`: the offset the code computes for the block
`ino.data_block_num[i / 4096]` (`data_block_offset`, in 32 bits) plus
`i mod 4096`.  This follows the code, not the layout of the specification. -/
def fetch_addr (bb ino : Buf) (i : Nat) : Nat :=
  data_block_offset bb (data_block_num ino (i / FS_BLKSZ)) + i % FS_BLKSZ

/-- The device byte `fs_read` takes for byte `i` of the file in slot `fd`. -/
def fetch_byte (s : FsState) (fd : Nat) (i : Nat) : Nat :=
  s.blkdev.disk (fetch_addr s.boot_block (disk_inode s fd) i)

/-- Spec side: the device offset of inode `n` in the on-disk layout
`[boot block | inodes | data blocks]`, the exact integer
`FS_BLKSZ + n * FS_BLKSZ`. -/
def spec_inode_offset (n : Nat) : Nat := FS_BLKSZ + n * FS_BLKSZ

/-- Spec side: the device offset of data block `d` in the on-disk layout, the
exact integer `FS_BLKSZ + num_inodes * FS_BLKSZ + d * FS_BLKSZ`. -/
def spec_data_block_offset (bb : Buf) (d : Nat) : Nat :=
  FS_BLKSZ + num_inodes bb * FS_BLKSZ + d * FS_BLKSZ

/-- Spec side: the inode of the file in slot `fd`, at its place in the
layout. -/
def spec_inode (s : FsState) (fd : Nat) : Buf :=
  fun j => s.blkdev.disk (spec_inode_offset (s.file_structs fd).inode_number + j)

/-- Spec side: byte `i` of the file in slot `fd`, that is byte `i mod 4096` of
the data block `inode.data_block_num[i / 4096]`. -/
def spec_file_byte (s : FsState) (fd : Nat) (i : Nat) : Nat :=
  s.blkdev.disk
    (spec_data_block_offset s.boot_block (data_block_num (spec_inode s fd) (i / FS_BLKSZ))
      + i % FS_BLKSZ)

/-! ## A small disk image used to instantiate the filesystem theorems -/

/-- A three-block image: boot block with `num_inodes = 1`, inode 0 with
`byte_len = 10` and all data-block numbers 0, and data block 0 holding the
bytes 0, 1, 2, ... -/
def sampleDisk : Buf :=
  fun a => if a = 4 then 1 else if a = 4096 then 10 else if 8192 ≤ a then (a - 8192) % 256 else 0

def sampleDev : vioblk_device :=
  { blksz := 512, pos := 0, size := 12288, opened := true, readonly := false,
    blkbuf := fun _ => 0, disk := sampleDisk }

/-- The sample image mounted, with slot 0 open on inode 0 (ten bytes long) at
position 2. -/
def sampleFs : FsState :=
  { blkdev := sampleDev, fs_initialized := true, boot_block := sampleDisk,
    file_structs := fun i =>
      if i = 0 then { refcnt := 1, file_position := 2, file_size := 10, inode_number := 0,
                      flags := 1 }
      else { refcnt := 0, file_position := 0, file_size := 0, inode_number := 0, flags := 0 },
    inode := fun _ => 0, data_block := fun _ => 0 }

/-! ## Memory manager (`memory.c`)

Physical memory is a function from the byte address of an aligned 64-bit word
to the word stored there.  Kernel pointers are physical addresses (the kernel
runs on the identity mapping set up by `memory_init`).  `panic` halts the
kernel: a function that can panic returns `Res.panic` with the state reached. -/

/-- Physical memory: aligned byte address to 64-bit word. -/
abbrev Mem := Nat → Nat

def PAGE_SIZE : Nat := 4096
def PAGE_ORDER : Nat := 12
def PTE_CNT : Nat := 512

/-- Modelled from the spec: `memory.h` is not among the sources; the flag bits
of a page-table entry are those of RISC-V Sv39 (V, R, W, X, U, G, A, D from bit
0 upwards). -/
def PTE_V : Nat := 1
/-- Modelled from the spec: see `PTE_V`. -/
def PTE_R : Nat := 2
/-- Modelled from the spec: see `PTE_V`. -/
def PTE_W : Nat := 4
/-- Modelled from the spec: see `PTE_V`. -/
def PTE_X : Nat := 8
/-- Modelled from the spec: see `PTE_V`. -/
def PTE_U : Nat := 16
/-- Modelled from the spec: see `PTE_V`. -/
def PTE_G : Nat := 32
/-- Modelled from the spec: see `PTE_V`. -/
def PTE_A : Nat := 64
/-- Modelled from the spec: see `PTE_V`. -/
def PTE_D : Nat := 128

/-- Modelled from the spec: `struct pte` is declared in `memory.h` (not among
the sources) as the Sv39 entry `{flags:8, rsw:2, ppn:44, ...}`; field `flags`
of the entry stored in word `w`. -/
def pte_flags (w : Nat) : Nat := w % 256
/-- Modelled from the spec: see `pte_flags`; field `ppn` (bits 10 to 53). -/
def pte_ppn (w : Nat) : Nat := (w / 1024) % 2 ^ 44
/-- Modelled from the spec: see `pte_flags`; the assignment `pte.flags = f`. -/
def pte_set_flags (w f : Nat) : Nat := w / 256 * 256 + f % 256
/-- Modelled from the spec: see `pte_flags`; the assignment `pte.ppn = p`. -/
def pte_set_ppn (w p : Nat) : Nat := w / 2 ^ 54 * 2 ^ 54 + (p % 2 ^ 44) * 1024 + w % 1024
/-- Modelled from the spec: see `pte_flags`; the struct value
`(struct pte){ .flags = f, .ppn = p }`. -/
def mk_pte (f p : Nat) : Nat := (p % 2 ^ 44) * 1024 + f % 256

/-- The constants of `config.h` (not among the sources) that the memory
manager uses, and the address of the primary root table `main_pt2`. -/
structure Layout where
  USER_START_VMA : Nat
  USER_END_VMA : Nat
  main_pt2 : Nat

/-- The global state of the memory manager: physical memory, the head of the
free-page list, and the `satp` register (the active address-space tag). -/
structure MemState where
  mem : Mem
  free_list : Nat
  satp : Nat

/-- Result of a kernel function that may panic. -/
inductive Res (α : Type) where
  | ok : α → MemState → Res α
  | panic : MemState → Res α

/-- The state a result carries. -/
def Res.state {α : Type} : Res α → MemState
  | Res.ok _ st => st
  | Res.panic st => st

/-- The returned value, if the function returned. -/
def Res.val {α : Type} : Res α → Option α
  | Res.ok a _ => some a
  | Res.panic _ => none

def VPN2 (vma : Nat) : Nat := (vma / 2 ^ 30) % 512
def VPN1 (vma : Nat) : Nat := (vma / 2 ^ 21) % 512
def VPN0 (vma : Nat) : Nat := (vma / 2 ^ 12) % 512

/-- `wellformed_vma`: with `bits = (intptr_t)vma >> 38`, the test `!bits || !(bits+1)`
holds exactly when bits 63:38 of `vma` are all 0 or all 1. -/
def wellformed_vma (vma : Nat) : Bool :=
  decide (vma % U64 < 2 ^ 38) || decide (vma % U64 ≥ 2 ^ 64 - 2 ^ 38)

def aligned_addr (vma blksz : Nat) : Bool := vma % blksz == 0

def round_down_addr (addr blksz : Nat) : Nat := addr / blksz * blksz

/-- `mtag_to_root`: `(mtag << 20) >> 8` in 64 bits. -/
def mtag_to_root (mtag : Nat) : Nat := (mtag * 2 ^ 20 % U64) / 2 ^ 8

/-- `active_space_root`: the root table of the address space in `satp`. -/
def active_space_root (st : MemState) : Nat := mtag_to_root st.satp

/-- `leaf_pte(pptr, rwxug_flags)`. -/
def leaf_pte (pptr rwxug_flags : Nat) : Nat :=
  mk_pte (rwxug_flags ||| PTE_A ||| PTE_D ||| PTE_V) (pptr / 2 ^ PAGE_ORDER)

/-- `memset(p, 0, PAGE_SIZE)` for a page pointer `p`. -/
def zero_page (m : Mem) (p : Nat) : Mem :=
  fun a => if p ≤ a ∧ a < p + PAGE_SIZE then 0 else m a

/-- `memcpy(dst, src, PAGE_SIZE)` for page pointers. -/
def copy_page (m : Mem) (dst src : Nat) : Mem :=
  fun a => if dst ≤ a ∧ a < dst + PAGE_SIZE then m (src + (a - dst)) else m a

/-- A store of one 64-bit word. -/
def store (m : Mem) (addr val : Nat) : Mem :=
  fun a => if a = addr then val else m a

/-- `memory_alloc_page`: pops the head of the free list and zeroes it; panics
when the list is empty. -/
def memory_alloc_page (st : MemState) : Res Nat :=
  if st.free_list = 0 then Res.panic st
  else
    let page := st.free_list
    Res.ok page { st with free_list := st.mem page, mem := zero_page st.mem page }

/-- `memory_free_page(pp)`: zeroes the page and pushes it on the free list;
panics on a null or misaligned pointer. -/
def memory_free_page (st : MemState) (pp : Nat) : Res Unit :=
  if pp % PAGE_SIZE ≠ 0 ∨ pp = 0 then Res.panic st
  else
    Res.ok () { st with mem := store (zero_page st.mem pp) pp st.free_list, free_list := pp }

/-- One pass of the `for (level = 2; level > 0; level--)` loop of `walk_pt` on
the table `pt` with index `idx`: `some p` when the walk goes on in table `p`,
`none` when `walk_pt` returns NULL here. -/
def walk_level (st : MemState) (pt idx : Nat) (create : Bool) : Res (Option Nat) :=
  let e := pt + 8 * idx
  if pt ≠ 0 ∧ pte_flags (st.mem e) &&& PTE_V ≠ 0 then
    if pte_flags (st.mem e) &&& (PTE_R ||| PTE_W ||| PTE_X) ≠ 0 then Res.ok none st
    else Res.ok (some (pte_ppn (st.mem e) * 2 ^ PAGE_ORDER)) st
  else if create then
    match memory_alloc_page st with
    | Res.panic s1 => Res.panic s1
    | Res.ok new_pt s1 =>
      Res.ok (some new_pt)
        { s1 with
          mem := store s1.mem e
            (pte_set_flags (pte_set_ppn (s1.mem e) (new_pt / 2 ^ PAGE_ORDER)) PTE_V) }
  else Res.ok none st

/-- `walk_pt(root, vma, create)`: the address of the level-0 entry for `vma`,
or 0 (NULL). -/
def walk_pt (st : MemState) (root vma : Nat) (create : Bool) : Res Nat :=
  match walk_level st root (VPN2 vma) create with
  | Res.panic s => Res.panic s
  | Res.ok none s => Res.ok 0 s
  | Res.ok (some pt1) s1 =>
    match walk_level s1 pt1 (VPN1 vma) create with
    | Res.panic s => Res.panic s
    | Res.ok none s => Res.ok 0 s
    | Res.ok (some pt0) s2 => Res.ok (pt0 + 8 * VPN0 vma) s2

/-- The pointer `walk_pt(root, vma, 0)` returns; a walk without `create`
neither allocates nor stores. -/
def walk_pt_lookup (st : MemState) (root vma : Nat) : Nat :=
  match walk_pt st root vma false with
  | Res.ok p _ => p
  | Res.panic _ => 0

/-- `memory_alloc_and_map_page(vma, rwxug_flags)`: returns `vma`, or 0 (NULL). -/
def memory_alloc_and_map_page (st : MemState) (vma rwxug_flags : Nat) : Res Nat :=
  if !wellformed_vma vma || !aligned_addr vma PAGE_SIZE then Res.ok 0 st
  else
    match memory_alloc_page st with
    | Res.panic s => Res.panic s
    | Res.ok physical_page s1 =>
      if physical_page = 0 then Res.panic s1
      else
        match walk_pt s1 (active_space_root s1) vma true with
        | Res.panic s => Res.panic s
        | Res.ok pte s2 =>
          if pte = 0 then
            match memory_free_page s2 physical_page with
            | Res.panic s => Res.panic s
            | Res.ok _ s3 => Res.ok 0 s3
          else
            Res.ok vma { s2 with mem := store s2.mem pte (leaf_pte physical_page rwxug_flags) }

/-- The rollback loop of `memory_alloc_and_map_range`: `memory_free_page` is
called with the addresses `start_vma + i * page_size` for `i < pages_mapped`. -/
def rollback_loop (start_vma pages_mapped : Nat) : Nat → Nat → MemState → Res Unit
  | 0, _, st => Res.ok () st
  | fuel + 1, i, st =>
    if i < pages_mapped then
      match memory_free_page st ((start_vma + i * PAGE_SIZE) % U64) with
      | Res.panic s => Res.panic s
      | Res.ok _ s1 => rollback_loop start_vma pages_mapped fuel (i + 1) s1
    else Res.ok () st

/-- The mapping loop of `memory_alloc_and_map_range`. -/
def map_range_loop (start_vma num_pages rwxug_flags : Nat) : Nat → Nat → MemState → Res Nat
  | 0, _, st => Res.ok start_vma st
  | fuel + 1, pages_mapped, st =>
    if pages_mapped < num_pages then
      match memory_alloc_and_map_page st ((start_vma + pages_mapped * PAGE_SIZE) % U64)
          rwxug_flags with
      | Res.panic s => Res.panic s
      | Res.ok result s1 =>
        if result = 0 then
          match rollback_loop start_vma pages_mapped pages_mapped 0 s1 with
          | Res.panic s => Res.panic s
          | Res.ok _ s2 => Res.ok 0 s2
        else map_range_loop start_vma num_pages rwxug_flags fuel (pages_mapped + 1) s1
    else Res.ok start_vma st

/-- `memory_alloc_and_map_range(vma, size, rwxug_flags)`.  The results of
`round_down_addr` and `round_up_addr` are discarded by the code, so
`num_pages = (end_vma - start_vma) / page_size` with the unrounded bounds. -/
def memory_alloc_and_map_range (st : MemState) (vma size rwxug_flags : Nat) : Res Nat :=
  let start_vma := vma
  let end_vma := (start_vma + size) % U64
  let num_pages := ((end_vma + U64 - start_vma) % U64) / PAGE_SIZE
  map_range_loop start_vma num_pages rwxug_flags num_pages 0 st

/-- The page loop of `memory_validate_vptr_len`; `none` stands for a loop that
does not terminate (the fuel covers one full cycle of `current_vma` through
the 64-bit addresses). -/
def validate_loop (st : MemState) (end_vma rwxug_flags : Nat) : Nat → Nat → Option Int
  | 0, _ => none
  | fuel + 1, current_vma =>
    if current_vma < end_vma then
      let pte := walk_pt_lookup st (active_space_root st) current_vma
      if pte = 0 ∨ pte_flags (st.mem pte) &&& PTE_V = 0 then some (-1)
      else if pte_flags (st.mem pte) &&& rwxug_flags ≠ rwxug_flags then some (-1)
      else validate_loop st end_vma rwxug_flags fuel ((current_vma + PAGE_SIZE) % U64)
    else some 0

/-- `memory_validate_vptr_len(vp, len, rwxug_flags)`.  The results of
`round_down_addr` and `round_up_addr` are discarded by the code, so the loop
starts at `vp` itself. -/
def memory_validate_vptr_len (st : MemState) (vp len rwxug_flags : Nat) : Option Int :=
  if !wellformed_vma vp || len == 0 then some (-1)
  else
    let start_vma := vp
    let end_vma := (start_vma + len) % U64
    validate_loop st end_vma rwxug_flags (2 ^ 52 + 1) start_vma

/-- `memory_handle_page_fault(vptr)`. -/
def memory_handle_page_fault (L : Layout) (st : MemState) (vptr : Nat) : Res Unit :=
  if vptr < L.USER_START_VMA ∨ vptr ≥ L.USER_END_VMA then Res.panic st
  else
    let va := round_down_addr vptr PAGE_SIZE
    if !aligned_addr va PAGE_SIZE then Res.panic st
    else
      match walk_pt st (active_space_root st) va true with
      | Res.panic s => Res.panic s
      | Res.ok pa_pte s1 =>
        if pa_pte = 0 then Res.panic s1
        else
          match memory_alloc_and_map_page s1 va (PTE_R ||| PTE_W ||| PTE_U) with
          | Res.panic s => Res.panic s
          | Res.ok new_pp s2 => if new_pp = 0 then Res.panic s2 else Res.ok () s2

/-- The body of the loop of `memory_unmap_and_free_user` for one `vma`. -/
def unmap_user_page (st : MemState) (root_pt vma : Nat) : Res Unit :=
  let pte := walk_pt_lookup st root_pt vma
  if pte = 0 ∨ pte_flags (st.mem pte) &&& PTE_V = 0 then Res.ok () st
  else if pte_flags (st.mem pte) &&& PTE_U = 0 then Res.ok () st
  else if pte_flags (st.mem pte) &&& (PTE_R ||| PTE_W ||| PTE_X) ≠ 0 then
    let s1 := { st with mem := store st.mem pte (pte_set_flags (st.mem pte) 0) }
    let pa := pte_ppn (s1.mem pte) * 2 ^ 12
    memory_free_page s1 pa
  else Res.ok () st

/-- The loop `for (vma = USER_START_VMA; vma < USER_END_VMA; vma += PAGE_SIZE)`
of `memory_unmap_and_free_user`. -/
def unmap_user_loop (L : Layout) (root_pt : Nat) : Nat → Nat → MemState → Res Unit
  | 0, _, st => Res.ok () st
  | fuel + 1, vma, st =>
    if vma < L.USER_END_VMA then
      match unmap_user_page st root_pt vma with
      | Res.panic s => Res.panic s
      | Res.ok _ s1 => unmap_user_loop L root_pt fuel (vma + PAGE_SIZE) s1
    else Res.ok () st

/-- Number of iterations of a loop that steps through the user region page by
page. -/
def user_pages (L : Layout) : Nat :=
  (L.USER_END_VMA - L.USER_START_VMA + (PAGE_SIZE - 1)) / PAGE_SIZE

/-- `memory_unmap_and_free_user()`. -/
def memory_unmap_and_free_user (L : Layout) (st : MemState) : Res Unit :=
  unmap_user_loop L (mtag_to_root st.satp) (user_pages L) L.USER_START_VMA st

/-- The loop of `memory_space_clone` that copies the entries of `main_pt2`
marked `G` into the child root, for the indices from `i` on. -/
def copy_global_entries (main_pt2 child_root : Nat) : Nat → Nat → Mem → Mem
  | 0, _, m => m
  | fuel + 1, i, m =>
    if i < PTE_CNT then
      let m1 :=
        if pte_flags (m (main_pt2 + 8 * i)) &&& PTE_G ≠ 0
        then store m (child_root + 8 * i) (m (main_pt2 + 8 * i)) else m
      copy_global_entries main_pt2 child_root fuel (i + 1) m1
    else m

/-- The body of the cloning loop of `memory_space_clone` for one `vma`. -/
def clone_user_page (st : MemState) (parent_root_pt child_root vma : Nat) : Res Unit :=
  let parent_pte := walk_pt_lookup st parent_root_pt vma
  if parent_pte = 0 ∨ pte_flags (st.mem parent_pte) &&& PTE_V = 0 then Res.ok () st
  else
    let parent_phys_page := pte_ppn (st.mem parent_pte) * 2 ^ PAGE_ORDER
    match walk_pt st child_root vma true with
    | Res.panic s => Res.panic s
    | Res.ok child_pte s1 =>
      match memory_alloc_page s1 with
      | Res.panic s => Res.panic s
      | Res.ok child_pt s2 =>
        let m1 := store s2.mem child_pte
          (pte_set_ppn (s2.mem child_pte) (child_pt / 2 ^ PAGE_ORDER))
        let m2 := store m1 child_pte
          (pte_set_flags (m1 child_pte)
            (pte_flags (m1 child_pte) ||| pte_flags (m1 parent_pte)))
        let child_phys_page := pte_ppn (m2 child_pte) * 2 ^ PAGE_ORDER
        Res.ok () { s2 with mem := copy_page m2 child_phys_page parent_phys_page }

/-- The cloning loop of `memory_space_clone`. -/
def clone_user_loop (L : Layout) (parent_root_pt child_root : Nat) :
    Nat → Nat → MemState → Res Unit
  | 0, _, st => Res.ok () st
  | fuel + 1, vma, st =>
    if vma < L.USER_END_VMA then
      match clone_user_page st parent_root_pt child_root vma with
      | Res.panic s => Res.panic s
      | Res.ok _ s1 => clone_user_loop L parent_root_pt child_root fuel (vma + PAGE_SIZE) s1
    else Res.ok () st

/-- `memory_space_clone(asid)`; `parent_mtag` is `current_process()->mtag`.
Returns the new tag `Sv39 | asid | ppn(child_root)`. -/
def memory_space_clone (L : Layout) (st : MemState) (parent_mtag asid : Nat) : Res Nat :=
  let parent_root_pt := mtag_to_root parent_mtag
  match memory_alloc_page st with
  | Res.panic s => Res.panic s
  | Res.ok new_root s1 =>
    if new_root = 0 then Res.ok 0 s1
    else
      let s2 := { s1 with mem := zero_page s1.mem new_root }
      let s3 := { s2 with mem := copy_global_entries L.main_pt2 new_root PTE_CNT 0 s2.mem }
      match clone_user_loop L parent_root_pt new_root (user_pages L) L.USER_START_VMA s3 with
      | Res.panic s => Res.panic s
      | Res.ok _ s4 =>
        Res.ok ((8 * 2 ^ 60) ||| ((asid * 2 ^ 44) % U64) ||| (new_root / 2 ^ PAGE_ORDER)) s4

/-- The loop of `memory_init` that puts the pages of `[heap_end, RAM_END)` on
the free list. -/
def init_free_loop (ram_end : Nat) : Nat → Nat → MemState → MemState
  | 0, _, st => st
  | fuel + 1, pp, st =>
    if pp < ram_end then
      init_free_loop ram_end fuel (pp + PAGE_SIZE)
        { st with mem := store st.mem pp st.free_list, free_list := pp }
    else st

/-- The part of `memory_init` that builds the free-page list:
`free_list = heap_end;` followed by the loop over `[heap_end, RAM_END)`. -/
def memory_init_free_list (st : MemState) (heap_end ram_end : Nat) : MemState :=
  init_free_loop ram_end ((ram_end - heap_end + (PAGE_SIZE - 1)) / PAGE_SIZE) heap_end
    { st with free_list := heap_end }

/-! ## A small address space used to instantiate the memory theorems -/

/-- Physical memory holding one address space: root table at `0x80200000`,
whose entry 3 points to the level-1 table at `0x80201000`, whose entry 0 points
to the level-0 table at `0x80202000`, whose entry 0 maps the user page
`0xC0000000` to the physical page `0x80300000` with `R|W|U`; and a free list
`0x80400000 -> 0x80401000 -> 0x80402000 -> NULL`. -/
def sampleMem : Mem := fun a =>
  if a = 0x80200018 then mk_pte PTE_V 0x80201
  else if a = 0x80201000 then mk_pte PTE_V 0x80202
  else if a = 0x80202000 then leaf_pte 0x80300000 (PTE_R ||| PTE_W ||| PTE_U)
  else if a = 0x80400000 then 0x80401000
  else if a = 0x80401000 then 0x80402000
  else 0

/-- The sample address space active (`satp` = Sv39 mode, root page number
`0x80200`), with the three-page free list. -/
def sampleSpace : MemState :=
  { mem := sampleMem, free_list := 0x80400000, satp := 8 * 2 ^ 60 + 0x80200 }

/-- A layout with the user region `[0xC0000000, 0x100000000)`. -/
def sampleLayout : Layout :=
  { USER_START_VMA := 0xC0000000, USER_END_VMA := 0x100000000, main_pt2 := 0x80010000 }

/-! ## System calls (`syscall.c`) -/

/-- A store the kernel makes through a user pointer: address, width in bytes
and the value stored. -/
structure UserStore where
  addr : Nat
  width : Nat
  value : Nat
deriving DecidableEq

/-- `sysnumprograms(arg)`: the return value and the stores made through `arg`
(`*(int*) arg = boot_block.num_inodes`). -/
def sysnumprograms (fs : FsState) (arg : Nat) : Int × List UserStore :=
  if arg = 0 then (-EINVAL, [])
  else (0, [{ addr := arg, width := 4, value := num_inodes fs.boot_block }])

/-- The free-page pool of the smallest kind: the state `memory_init` leaves
when `[heap_end, RAM_END)` is `[0x80100000, 0x80102000)`, two pages. -/
def twoPagePool : MemState :=
  memory_init_free_list { mem := fun _ => 0, free_list := 0, satp := 0 } 0x80100000 0x80102000

/-- The state `memory_init` leaves with `heap_end = 0x80100000` and
`RAM_END = 0x80800000` (8 MiB of RAM at `0x80000000`). -/
def bootPool : MemState :=
  memory_init_free_list { mem := fun _ => 0, free_list := 0, satp := 0 } 0x80100000 0x80800000

/-! ## Invariants used in the proofs -/

/-- The free-list invariant the loop of `memory_init` keeps once it has
linked `j >= 1` pages: the head and every link point to one of the `j` pages. -/
def PoolClosed (heap_end j : Nat) (st : MemState) : Prop :=
  (∃ i, i < j ∧ st.free_list = heap_end + 4096 * i) ∧
  ∀ i, i < j → ∃ i2, i2 < j ∧ st.mem (heap_end + 4096 * i) = heap_end + 4096 * i2


/-! ## Well-formed address spaces -/

/-- The entry is valid: `flags & PTE_V` is non-zero. -/
def pte_valid (w : Nat) : Prop := pte_flags w &&& PTE_V ≠ 0

/-- The entry is a leaf: `flags & (PTE_R | PTE_W | PTE_X)` is non-zero. -/
def pte_rwx (w : Nat) : Prop := pte_flags w &&& (PTE_R ||| PTE_W ||| PTE_X) ≠ 0

instance (w : Nat) : Decidable (pte_valid w) := by unfold pte_valid; infer_instance
instance (w : Nat) : Decidable (pte_rwx w) := by unfold pte_rwx; infer_instance

/-- The page an entry points to: `ppn << PAGE_ORDER`. -/
def pte_target (w : Nat) : Nat := pte_ppn w * 2 ^ PAGE_ORDER

/-- The table the walk goes on to from entry `idx` of table `pt`, when that
entry is a valid pointer to a next-level table. -/
def next_table (m : Mem) (pt idx : Nat) : Option Nat :=
  if pt ≠ 0 ∧ pte_valid (m (pt + 8 * idx)) ∧ ¬ pte_rwx (m (pt + 8 * idx))
  then some (pte_target (m (pt + 8 * idx))) else none

/-- The leaf mapping of `va` in the address space rooted at `root`: the
level-0 entry the walk finds, when it finds one and that entry is valid. -/
def leaf_mapping (st : MemState) (root va : Nat) : Option Nat :=
  if walk_pt_lookup st root va ≠ 0 ∧ pte_valid (st.mem (walk_pt_lookup st root va))
  then some (st.mem (walk_pt_lookup st root va)) else none

/-- The translation of `va` meets an entry that is not valid: the page of `va`
is not mapped, neither by a level-0 leaf nor by a larger page. -/
def page_unmapped (m : Mem) (root va : Nat) : Prop :=
  ¬ pte_valid (m (root + 8 * VPN2 va)) ∨
  (∃ t1, next_table m root (VPN2 va) = some t1 ∧ ¬ pte_valid (m (t1 + 8 * VPN1 va))) ∨
  (∃ t1 t0, next_table m root (VPN2 va) = some t1 ∧ next_table m t1 (VPN1 va) = some t0 ∧
    ¬ pte_valid (m (t0 + 8 * VPN0 va)))

/-- The part a page plays in an address space. -/
inductive Role where
  | root : Role
  | l1 : Nat → Role
  | l0 : Nat → Nat → Role
  | data : Nat → Nat → Nat → Role
deriving DecidableEq

/-- The page tables rooted at `root` form a tree: `τ` gives every page-table
page its one place in the tree (the root, the level-1 table of root entry `i`,
the level-0 table of entries `i, j`), so no page serves as two tables. -/
structure TypedSpace (m : Mem) (root : Nat) (τ : Nat → Option Role) : Prop where
  root_role : τ root = some Role.root
  null_role : τ 0 = none
  aligned : ∀ t r, τ t = some r → t % 4096 = 0
  l1_role : ∀ i, i < 512 → pte_valid (m (root + 8 * i)) → ¬ pte_rwx (m (root + 8 * i)) →
    τ (pte_target (m (root + 8 * i))) = some (Role.l1 i)
  l0_role : ∀ t i j, τ t = some (Role.l1 i) → j < 512 →
    pte_valid (m (t + 8 * j)) → ¬ pte_rwx (m (t + 8 * j)) →
    τ (pte_target (m (t + 8 * j))) = some (Role.l0 i j)

/-- The free-page list: `l` lists the first pages reached from `head` by
following the link in the first word of each page. -/
def FreeChain (m : Mem) : Nat → List Nat → Prop
  | _, [] => True
  | head, p :: ps => head = p ∧ FreeChain m (m p) ps

/-- The pages of `l` are usable and unused: non-null, page-aligned, below
`2^56` (so that they fit the `ppn` field), pairwise distinct, and without a
part in the address space typed by `τ`. -/
structure FreshPages (τ : Nat → Option Role) (l : List Nat) : Prop where
  nodup : l.Nodup
  ne_null : ∀ p, p ∈ l → p ≠ 0
  aligned : ∀ p, p ∈ l → p % 4096 = 0
  small : ∀ p, p ∈ l → p < 2 ^ 56
  unused : ∀ p, p ∈ l → τ p = none

/-- The level-0 entry address the walk for `va` arrives at, as a function of
memory alone (0 when the walk stops early). -/
def lookup (m : Mem) (root va : Nat) : Nat :=
  match next_table m root (VPN2 va) with
  | none => 0
  | some t1 =>
    match next_table m t1 (VPN1 va) with
    | none => 0
    | some t0 => t0 + 8 * VPN0 va

/-- The valid level-0 entry of `va`, as a function of memory alone. -/
def leaf_of (m : Mem) (root va : Nat) : Option Nat :=
  if lookup m root va ≠ 0 ∧ pte_valid (m (lookup m root va)) then some (m (lookup m root va))
  else none

/-- The memory after `walk_level` has installed the fresh table `p` in the
entry at address `e`. -/
def install_table (m : Mem) (e p : Nat) : Mem :=
  store (zero_page m p) e
    (pte_set_flags (pte_set_ppn (zero_page m p e) (p / 2 ^ PAGE_ORDER)) PTE_V)

/-- Going from memory `m` to `m2` keeps every level-0 entry the walk can reach
from `root`: an entry reached in `m` is reached in `m2` with the same content,
and an entry only reached in `m2` is zero. -/
def SlotsPreserved (m m2 : Mem) (root : Nat) : Prop :=
  ∀ va,
    (lookup m root va ≠ 0 →
      lookup m2 root va = lookup m root va ∧ m2 (lookup m root va) = m (lookup m root va)) ∧
    (lookup m root va = 0 → lookup m2 root va = 0 ∨ m2 (lookup m2 root va) = 0)

/-- No leaf above level 0 (giga- or megapage) lies on the path of `va`. -/
def no_large_leaf (m : Mem) (root va : Nat) : Prop :=
  ¬ (pte_valid (m (root + 8 * VPN2 va)) ∧ pte_rwx (m (root + 8 * VPN2 va))) ∧
  ∀ t1, next_table m root (VPN2 va) = some t1 →
    ¬ (pte_valid (m (t1 + 8 * VPN1 va)) ∧ pte_rwx (m (t1 + 8 * VPN1 va)))

/-- The parts the pages of `sampleMem` play: the three page-table pages of the
sample address space and the one data page it maps. -/
def sampleRoles : Nat → Option Role := fun t =>
  if t = 0x80200000 then some Role.root
  else if t = 0x80201000 then some (Role.l1 3)
  else if t = 0x80202000 then some (Role.l0 3 0)
  else if t = 0x80300000 then some (Role.data 3 0 0)
  else none

/-- The sample address space with an empty free-page list. -/
def sampleSpaceNoFree : MemState :=
  { mem := sampleMem, free_list := 0, satp := 8 * 2 ^ 60 + 0x80200 }

/-! ## User mappings -/

/-- The entry is a valid leaf that carries `U`: the three tests
`flags & PTE_V`, `flags & PTE_U` and `flags & (PTE_R | PTE_W | PTE_X)` of
`memory_unmap_and_free_user` all succeed. -/
def pte_user_leaf (w : Nat) : Prop :=
  pte_valid w ∧ pte_flags w &&& PTE_U ≠ 0 ∧ pte_rwx w

instance (w : Nat) : Decidable (pte_user_leaf w) := by unfold pte_user_leaf; infer_instance

/-- A page-aligned address of the user region. -/
def user_page (L : Layout) (va : Nat) : Prop :=
  L.USER_START_VMA ≤ va ∧ va < L.USER_END_VMA ∧ va % PAGE_SIZE = 0

/-- The page of `va` is mapped for the user: `walk_pt(root, va, 0)` returns an
entry, and that entry is a valid leaf carrying `U`. -/
def user_leaf_at (st : MemState) (root va : Nat) : Prop :=
  walk_pt_lookup st root va ≠ 0 ∧ pte_user_leaf (st.mem (walk_pt_lookup st root va))

/-- The physical page the level-0 entry of `va` points to. -/
def mapped_page (st : MemState) (root va : Nat) : Nat :=
  pte_target (st.mem (walk_pt_lookup st root va))

/-- The same as `user_leaf_at`, as a function of memory alone. -/
def leaf_slot (m : Mem) (root va : Nat) : Prop :=
  lookup m root va ≠ 0 ∧ pte_user_leaf (m (lookup m root va))

/-- The role is that of a page-table page. -/
def table_role (r : Role) : Prop := ∀ a b c, r ≠ Role.data a b c

/-- The user mappings of a well-formed address space: every user page is
mapped, if at all, by a level-0 leaf, and the pages so mapped are data pages
of their own, one for each mapped address and none of them a page table. -/
structure UserData (L : Layout) (st : MemState) (root : Nat) (τ : Nat → Option Role) :
    Prop where
  data_role : ∀ va, user_page L va → user_leaf_at st root va →
    τ (mapped_page st root va) = some (Role.data (VPN2 va) (VPN1 va) (VPN0 va))
  small_leaf : ∀ va, user_page L va → no_large_leaf st.mem root va

/-- The state of the loop of `memory_unmap_and_free_user` when the user pages
below `v` have been visited, starting from memory `m0`: the visited user
leaves have their flags cleared, every other page-table entry is what it was,
and the pages that were mapped by the visited leaves are the list `l` at the
head of the free list, each zero after its first word. -/
structure UnmapInv (L : Layout) (m0 : Mem) (root : Nat) (τ : Nat → Option Role) (v : Nat)
    (st : MemState) (l : List Nat) : Prop where
  cleared : ∀ va, user_page L va → va < v → leaf_slot m0 root va →
    st.mem (lookup m0 root va) = pte_set_flags (m0 (lookup m0 root va)) 0
  kept : ∀ t r i, τ t = some r → table_role r → i < 512 →
    (∀ va, user_page L va → va < v → leaf_slot m0 root va → lookup m0 root va ≠ t + 8 * i) →
    st.mem (t + 8 * i) = m0 (t + 8 * i)
  chain : FreeChain st.mem st.free_list l
  freed : ∀ va, user_page L va → va < v → leaf_slot m0 root va →
    pte_target (m0 (lookup m0 root va)) ∈ l
  from_user : ∀ p, p ∈ l →
    ∃ va, user_page L va ∧ va < v ∧ τ p = some (Role.data (VPN2 va) (VPN1 va) (VPN0 va))
  zeroed : ∀ p, p ∈ l → ∀ b, p < b → b < p + 4096 → st.mem b = 0

/-- A layout with a user region of four pages, `[0xC0000000, 0xC0004000)`. -/
def smallLayout : Layout :=
  { USER_START_VMA := 0xC0000000, USER_END_VMA := 0xC0004000, main_pt2 := 0x80010000 }

/-! ## Block device: attach, open and sample devices -/

/-- Modelled from the spec: see `EINVAL`; the value before `ENOTSUP`. -/
def EBUSY : Int := 2

/-- The data fields `vioblk_attach` initialises: `blksz` is the block size of
the device configuration when the feature `VIRTIO_BLK_F_BLK_SIZE` was
negotiated and 512 otherwise, `size = capacity * 512` in 64 bits, `pos = 0`. -/
def vioblk_attach (has_blk_size : Bool) (blk_size capacity : Nat) (disk : Buf) :
    vioblk_device :=
  { blksz := if has_blk_size then blk_size % U32 else 512, pos := 0,
    size := (capacity * 512) % U64, opened := false, readonly := false,
    blkbuf := fun _ => 0, disk := disk }

/-- `vioblk_open`: fails with `-EBUSY` on a device that is open already. -/
def vioblk_open (dev : vioblk_device) : vioblk_device × Int :=
  if dev.opened then (dev, -EBUSY) else ({ dev with opened := true }, 0)

/-- `vioblk_getpos`, reached through `ctl(IOCTL_GETPOS, &pos)` with a non-null
argument: the value stored through the pointer. -/
def vioblk_getpos (dev : vioblk_device) : Nat × Int := (dev.pos, 0)

/-- A device that reports one 512-byte sector of capacity and a block size of
4096, attached and opened. -/
def bigBlockDev : vioblk_device := (vioblk_open (vioblk_attach true 4096 1 (fun _ => 0))).1

/-- The sample device positioned 100 bytes before its end. -/
def sampleDevNearEnd : vioblk_device :=
  { blksz := 512, pos := 12188, size := 12288, opened := true, readonly := false,
    blkbuf := fun _ => 0, disk := sampleDisk }

/-- A device of `2^42` bytes, all zero, with 512-byte blocks, positioned at
byte `2^41` (sector `2^32`). -/
def hugeDev : vioblk_device :=
  { blksz := 512, pos := 2 ^ 41, size := 2 ^ 42, opened := true, readonly := false,
    blkbuf := fun _ => 0, disk := fun _ => 0 }

/-! ## I/O endpoints (`io.c`) -/

/-- A little-endian `uint16_t` at byte offset `off`. -/
def u16le (b : Buf) (off : Nat) : Nat := b off % 256 + 256 * (b (off + 1) % 256)

/-- A little-endian `uint64_t` at byte offset `off`. -/
def u64le (b : Buf) (off : Nat) : Nat := u32le b off + 2 ^ 32 * u32le b (off + 4)

/-- An I/O endpoint with internal state `σ`, as `ioread_full` and `elf_load`
use it: whether `ops->read` is non-null, the call `ops->read(io, buf, n)`
(state afterwards, the bytes it stored at `buf`, its return value), and
`ioseek(io, pos)` (state afterwards, return value). -/
structure io_intf (σ : Type) where
  has_read : Bool
  read : σ → Nat → σ × Buf × Int
  seek : σ → Nat → σ × Int

/-- What `ioread_full` leaves behind: the endpoint, the destination buffer,
the number of bytes stored there, and the return value. -/
structure ReadResult (σ : Type) where
  ios : σ
  buf : Buf
  stored : Nat
  ret : Int

/-- The `while (acc < bufsz)` loop of `ioread_full`; every iteration that
goes on adds at least one byte, so `bufsz` iterations are enough. -/
def ioread_full_loop {σ : Type} (io : io_intf σ) : Nat → σ → Buf → Nat → Nat → ReadResult σ
  | 0, s, buf, _, acc => { ios := s, buf := buf, stored := acc, ret := toLong acc }
  | fuel + 1, s, buf, bufsz, acc =>
    if acc < bufsz then
      let r := io.read s (bufsz - acc)
      if r.2.2 < 0 then { ios := r.1, buf := buf, stored := acc, ret := r.2.2 }
      else if r.2.2 = 0 then { ios := r.1, buf := buf, stored := acc, ret := toLong acc }
      else
        ioread_full_loop io fuel r.1 (memcpy buf acc r.2.1 0 r.2.2.toNat) bufsz
          (acc + r.2.2.toNat)
    else { ios := s, buf := buf, stored := acc, ret := toLong acc }

/-- `ioread_full(io, buf, bufsz)`. -/
def ioread_full {σ : Type} (io : io_intf σ) (s : σ) (bufsz : Nat) : ReadResult σ :=
  if !io.has_read then { ios := s, buf := fun _ => 0, stored := 0, ret := -ENOTSUP }
  else ioread_full_loop io bufsz s (fun _ => 0) bufsz 0

/-- The data fields of `struct io_lit`: a memory buffer used as an endpoint. -/
structure io_lit where
  buf : Buf
  size : Nat
  pos : Nat

/-- `lit_read`: copies up to `bufsz` bytes from the current position; the
position itself is not advanced by the code. -/
def lit_read (lit : io_lit) (bufsz : Nat) : io_lit × Buf × Int :=
  if lit.pos ≥ lit.size then (lit, fun _ => 0, 0)
  else
    let remaining := lit.size - lit.pos
    let to_read := if bufsz < remaining then bufsz else remaining
    (lit, fun i => lit.buf (lit.pos + i), toLong to_read)

/-- `lit_ioctl(io, IOCTL_SETPOS, &pos)`. -/
def lit_setpos (lit : io_lit) (pos : Nat) : io_lit × Int :=
  if pos > lit.size then (lit, -1) else ({ lit with pos := pos }, 0)

/-- The endpoint `iolit_init` sets up.  Modelled from the spec: `ioseek` is
declared in `io.h` (not among the sources) and is the `IOCTL_SETPOS` control
call. -/
def iolit : io_intf io_lit :=
  { has_read := true, read := lit_read, seek := lit_setpos }

/-! ## Stores through virtual addresses -/

/-- Modelled from the spec: the Sv39 translation of a supervisor store to the
address `va` through a 4K mapping of the active address space (`SUM` is set
by `memory_init`): the physical address, or `none` when the level-0 entry is
missing, not valid or not writable, in which case the store raises a page
fault, which `smode_excp_handler` turns into a panic. -/
def translate_store (st : MemState) (va : Nat) : Option Nat :=
  let pte := walk_pt_lookup st (active_space_root st) va
  if pte = 0 ∨ pte_flags (st.mem pte) &&& PTE_V = 0 ∨ pte_flags (st.mem pte) &&& PTE_W = 0
  then none
  else some (pte_ppn (st.mem pte) * 2 ^ PAGE_ORDER + va % PAGE_SIZE)

/-- Modelled from the spec: the byte a load from the virtual address `va`
returns, when `va` has a valid 4K mapping. -/
def vload (st : MemState) (va : Nat) : Option Nat :=
  let pte := walk_pt_lookup st (active_space_root st) va
  if pte = 0 ∨ pte_flags (st.mem pte) &&& PTE_V = 0 then none
  else some (st.mem (pte_ppn (st.mem pte) * 2 ^ PAGE_ORDER + va % PAGE_SIZE))

/-- The stores of `n` bytes `src 0, ..., src (n-1)` to the virtual addresses
`va, ..., va + n - 1`, in that order (`memcpy` or `memset` into user memory). -/
def vstore_range (st : MemState) (va : Nat) (src : Buf) : Nat → Res Unit
  | 0 => Res.ok () st
  | n + 1 =>
    match vstore_range st va src n with
    | Res.panic s => Res.panic s
    | Res.ok _ s =>
      match translate_store s ((va + n) % U64) with
      | none => Res.panic s
      | some pa => Res.ok () { s with mem := store s.mem pa (src n % 256) }

/-- Modelled from the spec: `PTE_FLAGS_MASK` of `memory.h` (not among the
sources), the flags a caller may set: `R|W|X|U|G`. -/
def PTE_FLAGS_MASK : Nat := PTE_R ||| PTE_W ||| PTE_X ||| PTE_U ||| PTE_G

/-- `memory_set_page_flags(vp, rwxug_flags)`. -/
def memory_set_page_flags (st : MemState) (vp rwxug_flags : Nat) : MemState :=
  if vp % PAGE_SIZE ≠ 0 then st
  else
    let pte := walk_pt_lookup st (active_space_root st) vp
    if pte = 0 ∨ pte_flags (st.mem pte) &&& PTE_V = 0 then st
    else
      let flags := (pte_flags (st.mem pte) &&& (255 - PTE_FLAGS_MASK)) ||| rwxug_flags
      { st with mem := store st.mem pte (pte_set_flags (st.mem pte) flags) }

/-- The page loop of `memory_set_range_flags`. -/
def set_range_flags_loop (start_addr num_pages rwxug_flags : Nat) : Nat → Nat → MemState → MemState
  | 0, _, st => st
  | fuel + 1, current_page, st =>
    if current_page < num_pages then
      set_range_flags_loop start_addr num_pages rwxug_flags fuel (current_page + 1)
        (memory_set_page_flags st ((start_addr + current_page * PAGE_SIZE) % U64) rwxug_flags)
    else st

/-- `memory_set_range_flags(vp, size, rwxug_flags)`; as in
`memory_alloc_and_map_range` the rounded bounds are discarded. -/
def memory_set_range_flags (st : MemState) (vp size rwxug_flags : Nat) : MemState :=
  let end_addr := (vp + size) % U64
  let num_pages := ((end_addr + U64 - vp) % U64) / PAGE_SIZE
  set_range_flags_loop vp num_pages rwxug_flags num_pages 0 st

/-! ## ELF loader (`elf.c`, `elf.h`) -/

def PT_LOAD : Nat := 1
def PF_X : Nat := 1
def PF_W : Nat := 2
def PF_R : Nat := 4
def RV64_MACHINE : Nat := 243
def ELFDATA2LSB : Nat := 1

/-- Field `e_ident[i]` of an `Elf64_Ehdr` held in the bytes `h`. -/
def e_ident (h : Buf) (i : Nat) : Nat := h i % 256
def e_type (h : Buf) : Nat := u16le h 16
def e_machine (h : Buf) : Nat := u16le h 18
def e_entry (h : Buf) : Nat := u64le h 24
def e_phoff (h : Buf) : Nat := u64le h 32
def e_phentsize (h : Buf) : Nat := u16le h 54
def e_phnum (h : Buf) : Nat := u16le h 56

/-- Field `p_type` of an `Elf64_Phdr` held in the bytes `p`. -/
def p_type (p : Buf) : Nat := u32le p 0
def p_flags (p : Buf) : Nat := u32le p 4
def p_offset (p : Buf) : Nat := u64le p 8
def p_vaddr (p : Buf) : Nat := u64le p 16
def p_paddr (p : Buf) : Nat := u64le p 24
def p_filesz (p : Buf) : Nat := u64le p 32
def p_memsz (p : Buf) : Nat := u64le p 40

/-- `ELF_MAGIC_OK(ehdr)`: the bytes `0x7f 'E' 'L' 'F'`. -/
def ELF_MAGIC_OK (h : Buf) : Bool :=
  e_ident h 0 == 0x7f && e_ident h 1 == 69 && e_ident h 2 == 76 && e_ident h 3 == 70

/-- `round_up_size(n, blksz)` of `elf.c`, in 64 bits. -/
def round_up_size (n blksz : Nat) : Nat := ((n + blksz - 1) % U64) / blksz * blksz

/-- The conversion of `p_flags` to PTE flags in `elf_load` (`rwxug_flags`). -/
def elf_pte_flags (pf : Nat) : Nat :=
  (if pf &&& PF_R ≠ 0 then PTE_R else 0) ||| (if pf &&& PF_W ≠ 0 then PTE_W else 0) |||
    (if pf &&& PF_X ≠ 0 then PTE_X else 0) ||| PTE_U

/-- Outcome of `elf_load`: it returns a code, leaving the endpoint, the memory
and possibly a value stored in `*entryptr`; or the kernel panics on the way
(out of memory, or a page fault on a store). -/
inductive ElfRes (σ : Type) where
  | ret : Int → σ → MemState → Option Nat → ElfRes σ
  | fault : σ → MemState → ElfRes σ

/-- The code returned, if the function returned. -/
def ElfRes.code {σ : Type} : ElfRes σ → Option Int
  | ElfRes.ret c _ _ _ => some c
  | ElfRes.fault _ _ => none

/-- The memory afterwards. -/
def ElfRes.mst {σ : Type} : ElfRes σ → MemState
  | ElfRes.ret _ _ st _ => st
  | ElfRes.fault _ st => st

/-- The value stored in `*entryptr`, if one was stored. -/
def ElfRes.entry {σ : Type} : ElfRes σ → Option Nat
  | ElfRes.ret _ _ _ e => e
  | ElfRes.fault _ _ => none

/-- The body of the program-header loop of `elf_load` for header `i`; the
code 0 stands for reaching the end of the body. -/
def elf_load_phdr {σ : Type} (L : Layout) (USER_STACK_VMA : Nat) (io : io_intf σ) (s : σ)
    (st : MemState) (hdr : Buf) (i : Nat) : ElfRes σ :=
  let sk := io.seek s ((e_phoff hdr + i * e_phentsize hdr) % U64)
  if sk.2 ≠ 0 then ElfRes.ret (-4) sk.1 st none
  else
    let r := ioread_full io sk.1 56
    if r.ret ≠ 56 then ElfRes.ret (-5) r.ios st none
    else if (p_vaddr r.buf + p_memsz r.buf) % U64 > USER_STACK_VMA then
      ElfRes.ret (-11) r.ios st none
    else if p_type r.buf = PT_LOAD then
      if p_vaddr r.buf < L.USER_START_VMA ∨
          (p_vaddr r.buf + p_memsz r.buf) % U64 > L.USER_END_VMA then
        ElfRes.ret (-6) r.ios st none
      else
        let aligned_vaddr := round_down_addr (p_vaddr r.buf) PAGE_SIZE
        let aligned_memsz := round_up_size (p_memsz r.buf) PAGE_SIZE
        let rwxug_flags := elf_pte_flags (p_flags r.buf)
        match memory_alloc_and_map_range st aligned_vaddr aligned_memsz
            (rwxug_flags ||| PTE_W) with
        | Res.panic st1 => ElfRes.fault r.ios st1
        | Res.ok mapped_range st1 =>
          if mapped_range = 0 then ElfRes.ret (-10) r.ios st1 none
          else
            let sk2 := io.seek r.ios (p_offset r.buf)
            if sk2.2 ≠ 0 then ElfRes.ret (-7) sk2.1 st1 none
            else
              let rd := ioread_full io sk2.1 (p_filesz r.buf)
              match vstore_range st1 (p_paddr r.buf) rd.buf rd.stored with
              | Res.panic st2 => ElfRes.fault rd.ios st2
              | Res.ok _ st2 =>
                if rd.ret % (U64 : Int) ≠ (p_filesz r.buf : Int) then
                  ElfRes.ret (-8) rd.ios st2 none
                else
                  match (if p_memsz r.buf > p_filesz r.buf then
                      vstore_range st2 ((p_vaddr r.buf + p_filesz r.buf) % U64) (fun _ => 0)
                        (p_memsz r.buf - p_filesz r.buf)
                    else Res.ok () st2) with
                  | Res.panic st3 => ElfRes.fault rd.ios st3
                  | Res.ok _ st3 =>
                    ElfRes.ret 0 rd.ios
                      (memory_set_range_flags st3 aligned_vaddr aligned_memsz rwxug_flags) none
    else ElfRes.ret 0 r.ios st none

/-- The loop `for (uint16_t i = 0; i < elf_header.e_phnum; i++)`. -/
def elf_load_loop {σ : Type} (L : Layout) (USER_STACK_VMA : Nat) (io : io_intf σ) (hdr : Buf) :
    Nat → Nat → σ → MemState → ElfRes σ
  | 0, _, s, st => ElfRes.ret 0 s st none
  | fuel + 1, i, s, st =>
    if i < e_phnum hdr then
      match elf_load_phdr L USER_STACK_VMA io s st hdr i with
      | ElfRes.ret c s1 st1 e =>
        if c = 0 then elf_load_loop L USER_STACK_VMA io hdr fuel (i + 1) s1 st1
        else ElfRes.ret c s1 st1 e
      | ElfRes.fault s1 st1 => ElfRes.fault s1 st1
    else ElfRes.ret 0 s st none

/-- `elf_load(io, entryptr)`. -/
def elf_load {σ : Type} (L : Layout) (USER_STACK_VMA : Nat) (io : io_intf σ) (s : σ)
    (st : MemState) : ElfRes σ :=
  let r := ioread_full io s 64
  if r.ret ≠ 64 then ElfRes.ret (-1) r.ios st none
  else if !ELF_MAGIC_OK r.buf then ElfRes.ret (-2) r.ios st none
  else if e_type r.buf ≠ 2 ∨ e_machine r.buf ≠ RV64_MACHINE then ElfRes.ret (-3) r.ios st none
  else if e_ident r.buf 5 ≠ ELFDATA2LSB then ElfRes.ret (-9) r.ios st none
  else
    match elf_load_loop L USER_STACK_VMA io r.buf (e_phnum r.buf) 0 r.ios st with
    | ElfRes.ret c s1 st1 e =>
      if c = 0 then ElfRes.ret 0 s1 st1 (some (e_entry r.buf)) else ElfRes.ret c s1 st1 e
    | ElfRes.fault s1 st1 => ElfRes.fault s1 st1

/-! ### A sample executable -/

/-- Byte `k` of the little-endian encoding of `v`. -/
def le_byte (v k : Nat) : Nat := (v / 256 ^ k) % 256

/-- An ELF image of 122 bytes: a valid RISC-V header with entry `0xC0001000`,
one `PT_LOAD` program header at offset 64 with flags `R|W`, file offset 120
and the given `p_vaddr`, `p_paddr`, `p_filesz`, `p_memsz`, and the two data
bytes `0x11 0x22` at offset 120. -/
def sampleElf (vaddr paddr filesz memsz : Nat) : Buf := fun i =>
  if i = 0 then 0x7f else if i = 1 then 69 else if i = 2 then 76 else if i = 3 then 70
  else if i = 4 then 2 else if i = 5 then 1 else if i = 6 then 1
  else if i = 16 then 2 else if i = 18 then 243
  else if 24 ≤ i ∧ i < 32 then le_byte 0xC0001000 (i - 24)
  else if i = 32 then 64 else if i = 54 then 56 else if i = 56 then 1
  else if i = 64 then 1 else if i = 68 then 6 else if i = 72 then 120
  else if 80 ≤ i ∧ i < 88 then le_byte vaddr (i - 80)
  else if 88 ≤ i ∧ i < 96 then le_byte paddr (i - 88)
  else if 96 ≤ i ∧ i < 104 then le_byte filesz (i - 96)
  else if 104 ≤ i ∧ i < 112 then le_byte memsz (i - 104)
  else if i = 120 then 0x11 else if i = 121 then 0x22 else 0

/-- The sample image behind a memory endpoint positioned at 0. -/
def sampleElfLit (vaddr paddr filesz memsz : Nat) : io_lit :=
  { buf := sampleElf vaddr paddr filesz memsz, size := 122, pos := 0 }

/-! ## Processes, fork and signals (`process.c`, `syscall.c`, `signals.c`) -/

def NPROC : Nat := 16
def PROCESS_IOMAX : Nat := 16
def NSIG : Nat := 10
def SIGTERM : Nat := 1
def SIGKILL : Nat := 2

/-- The fields of `struct process`; an `iotab` entry is the address of a
`struct io_intf`, 0 for NULL, and a handler is a code address, 0 for NULL. -/
structure process where
  id : Int
  tid : Int
  mtag : Nat
  iotab : Nat → Nat
  pending_signals : Nat
  blocked_signals : Nat
  signal_handler : Nat → Nat

/-- A `struct process` after `memset(p, 0, sizeof(struct process))`. -/
def process_zero : process :=
  { id := 0, tid := 0, mtag := 0, iotab := fun _ => 0, pending_signals := 0,
    blocked_signals := 0, signal_handler := fun _ => 0 }

/-- The process manager: the table `proctab` (`none` for a NULL slot, else
the struct the slot points to), the field `refcnt` of the `io_intf` at each
address, and the slot of the process of the running thread. -/
structure ProcState where
  proctab : Nat → Option process
  refcnt : Nat → Nat
  current : Nat

/-- Modelled from the spec: `ioref` is defined in `io.h` (not among the
sources); it adds one to the reference count of the endpoint. -/
def ioref (rc : Nat → Nat) (io : Nat) : Nat → Nat :=
  fun a => if a = io then rc a + 1 else rc a

/-- Modelled from the spec: `ioclose` is defined in `io.h` (not among the
sources); it takes one from the reference count of the endpoint (and closes
the endpoint when the count reaches zero). -/
def ioclose (rc : Nat → Nat) (io : Nat) : Nat → Nat :=
  fun a => if a = io then rc a - 1 else rc a

/-- The loop of `sysfork` that calls `ioref` on every non-null entry
`iotab[0], ..., iotab[n-1]`. -/
def ioref_all (iotab : Nat → Nat) : Nat → (Nat → Nat) → (Nat → Nat)
  | 0, rc => rc
  | j + 1, rc =>
    if iotab j ≠ 0 then ioref (ioref_all iotab j rc) (iotab j) else ioref_all iotab j rc

/-- The loop that calls `ioclose` on every non-null entry
`iotab[0], ..., iotab[n-1]`. -/
def ioclose_all (iotab : Nat → Nat) : Nat → (Nat → Nat) → (Nat → Nat)
  | 0, rc => rc
  | j + 1, rc =>
    if iotab j ≠ 0 then ioclose (ioclose_all iotab j rc) (iotab j) else ioclose_all iotab j rc

/-- The first loop of `sysfork`: the first index `i` at or after `i0` with
`proctab[i] == NULL`. -/
def first_free_slot (proctab : Nat → Option process) : Nat → Nat → Option Nat
  | 0, _ => none
  | fuel + 1, i =>
    if i < NPROC then
      match proctab i with
      | none => some i
      | some _ => first_free_slot proctab fuel (i + 1)
    else none

/-- `sysfork(tfr)`.  `fresh` is the content of the struct `kmalloc` returns,
and `thread_fork_to_user` (defined in `thread.c`, not among the sources) is
a parameter: its result and the child struct as it leaves it.  When no slot
is free the code tests an uninitialised pointer; the model takes the
`return -1` branch. -/
def sysfork (ps : ProcState) (fresh : process)
    (thread_fork_to_user : process → Int × process) : ProcState × Int :=
  match first_free_slot ps.proctab NPROC 0, ps.proctab ps.current with
  | none, _ => (ps, -1)
  | some _, none => (ps, -1)
  | some i, some cur =>
    let child : process :=
      { id := (i : Int), tid := -1, mtag := 0,
        iotab := fun j => if j < PROCESS_IOMAX then cur.iotab j else fresh.iotab j,
        pending_signals := fresh.pending_signals, blocked_signals := fresh.blocked_signals,
        signal_handler := fresh.signal_handler }
    let rc1 := ioref_all cur.iotab PROCESS_IOMAX ps.refcnt
    let r := thread_fork_to_user child
    if r.1 < 0 then
      let cleared := process_zero
      let tab1 : Nat → Option process := fun k => if k = i then some cleared else ps.proctab k
      let tab2 : Nat → Option process := fun k => if k = cleared.id.toNat then none else tab1 k
      ({ proctab := tab2, refcnt := ioclose_all cur.iotab PROCESS_IOMAX rc1,
         current := ps.current }, r.1)
    else
      ({ proctab := fun k => if k = i then some r.2 else ps.proctab k, refcnt := rc1,
         current := ps.current }, r.2.id)

/-- The `for (sig = 1; sig < NSIG; sig++)` loop of `signal_deliver`: the first
signal number whose bit is set in `unmasked`. -/
def signal_deliver_loop (unmasked : Nat) : Nat → Nat → Option Nat
  | 0, _ => none
  | fuel + 1, sig =>
    if sig < NSIG then
      if unmasked &&& (2 ^ sig % U32) ≠ 0 then some sig
      else signal_deliver_loop unmasked fuel (sig + 1)
    else none

/-- `signal_handle(sig)`: whether it ends in `process_exit` (the default
action of `SIGTERM`). -/
def signal_handle (p : process) (sig : Nat) : Bool :=
  if p.signal_handler sig = 0 then decide (sig = SIGTERM) else false

/-- `signal_deliver()` on the current process: the process afterwards and
whether it exits.  `unmasked` and `mask` are `unsigned int`. -/
def signal_deliver (p : process) : process × Bool :=
  let unmasked := (p.pending_signals &&& (U64 - 1 - p.blocked_signals % U64)) % U32
  if unmasked = 0 then (p, false)
  else
    match signal_deliver_loop unmasked NSIG 1 with
    | none => (p, false)
    | some sig =>
      let mask := 2 ^ sig % U32
      let p1 := { p with pending_signals := p.pending_signals &&& (U32 - 1 - mask) }
      (p1, signal_handle p1 sig)

/-- `find_process_by_pid(pid)`. -/
def find_process_by_pid (ps : ProcState) (pid : Int) : Option process :=
  if pid < 0 ∨ pid ≥ (NPROC : Int) then none else ps.proctab pid.toNat

/-- The part of `process_exit` that works on the process table: every open
endpoint of the current process is closed and its `iotab` entry set to NULL
(the memory space is reclaimed and the thread exits thereafter). -/
def process_exit (ps : ProcState) : ProcState :=
  match ps.proctab ps.current with
  | none => ps
  | some cur =>
    { proctab := fun k =>
        if k = ps.current then
          some { cur with iotab := fun j => if j < PROCESS_IOMAX then 0 else cur.iotab j }
        else ps.proctab k,
      refcnt := ioclose_all cur.iotab PROCESS_IOMAX ps.refcnt, current := ps.current }

/-- Outcome of a system call: it returns (`none` when the C function returns
without a value), or the calling thread exits. -/
inductive SysOutcome where
  | returned : Option Int → ProcState → SysOutcome
  | exited : ProcState → SysOutcome

/-- The value `(uint64_t)(1 << sig)` for an `int sig`; the shift is undefined
in C outside `0..31`, for which the model gives 0. -/
def signal_mask (sig : Int) : Nat :=
  if 0 ≤ sig ∧ sig < 31 then 2 ^ sig.toNat else if sig = 31 then U64 - 2 ^ 31 else 0

/-- `syssignal(pid, sig)`; `process_terminate(pid)` calls `process_exit` when
the target is the current process and does nothing otherwise. -/
def syssignal (ps : ProcState) (pid sig : Int) : SysOutcome :=
  match find_process_by_pid ps pid with
  | none => SysOutcome.returned (some (-EINVAL)) ps
  | some p =>
    if sig = (SIGKILL : Int) then
      if pid.toNat = ps.current then SysOutcome.exited (process_exit ps)
      else SysOutcome.returned none ps
    else
      SysOutcome.returned (some 0)
        { ps with proctab := fun k =>
            if k = pid.toNat then
              some { p with pending_signals := (p.pending_signals ||| signal_mask sig) % U64 }
            else ps.proctab k }

/-- The process table afterwards. -/
def SysOutcome.state : SysOutcome → ProcState
  | SysOutcome.returned _ ps => ps
  | SysOutcome.exited ps => ps

/-- Whether the calling thread exited. -/
def SysOutcome.hasExited : SysOutcome → Bool
  | SysOutcome.returned _ _ => false
  | SysOutcome.exited _ => true

/-- The value returned, if the call returned one. -/
def SysOutcome.value : SysOutcome → Option Int
  | SysOutcome.returned v _ => v
  | SysOutcome.exited _ => none

/-! ### A sample process table -/

/-- A process with the endpoint at address 5 open as descriptor 0 and the
given pending and blocked signal sets. -/
def sampleProc (id : Int) (pending blocked : Nat) : process :=
  { id := id, tid := id, mtag := 0, iotab := fun j => if j = 0 then 5 else 0,
    pending_signals := pending, blocked_signals := blocked, signal_handler := fun _ => 0 }

/-- Two processes, in slots 0 (the main process, running) and 1, both
holding the endpoint at address 5, whose reference count is 2. -/
def sampleProcs : ProcState :=
  { proctab := fun k =>
      if k = 0 then some (sampleProc 0 0 0) else if k = 1 then some (sampleProc 1 0 0) else none,
    refcnt := fun a => if a = 5 then 2 else 0, current := 0 }

/-! ## Cloning an address space: well-formedness and the loop invariant -/

/-- The level-0 entry of `va` exists and is valid: the test
`parent_pte && (parent_pte->flags & PTE_V)` of `memory_space_clone`, as a
function of memory alone. -/
def mapped_slot (m : Mem) (root va : Nat) : Prop :=
  lookup m root va ≠ 0 ∧ pte_valid (m (lookup m root va))

/-- The entries of `main_pt2` marked `G`, which every address space shares,
form a tree of page tables typed by `τg`, and none of them lies at a root
index of the user region. -/
structure KernelPart (L : Layout) (m : Mem) (τg : Nat → Option Role) : Prop where
  null_role : τg 0 = none
  aligned : ∀ t r, τg t = some r → t % 4096 = 0
  main_role : τg L.main_pt2 = some Role.root
  l1_role : ∀ i, i < 512 → pte_flags (m (L.main_pt2 + 8 * i)) &&& PTE_G ≠ 0 →
    pte_valid (m (L.main_pt2 + 8 * i)) → ¬ pte_rwx (m (L.main_pt2 + 8 * i)) →
    τg (pte_target (m (L.main_pt2 + 8 * i))) = some (Role.l1 i)
  l0_role : ∀ t i j, τg t = some (Role.l1 i) → j < 512 →
    pte_valid (m (t + 8 * j)) → ¬ pte_rwx (m (t + 8 * j)) →
    τg (pte_target (m (t + 8 * j))) = some (Role.l0 i j)
  user_free : ∀ va, user_page L va →
    pte_flags (m (L.main_pt2 + 8 * VPN2 va)) &&& PTE_G = 0
  user_roles : ∀ t r va, τg t = some r → user_page L va →
    r ≠ Role.l1 (VPN2 va) ∧ ∀ j, r ≠ Role.l0 (VPN2 va) j

/-- The state of the cloning loop of `memory_space_clone` when the user pages
below `v` have been visited, starting from memory `m0` with the free list
`fl0`, of which the first `k` pages have been taken: the child tables (typed
by `τc`) are shared kernel tables or taken pages, nothing outside the taken
pages has changed, no large page lies on a user path of the child, every
visited page that the parent maps is mapped in the child with the parent's
flags to a taken page holding a copy of the parent's page, and the child maps
no other user page. -/
structure CloneInv (L : Layout) (m0 : Mem) (proot croot : Nat) (τg : Nat → Option Role)
    (fl0 : List Nat) (v : Nat) (st : MemState) (τc : Nat → Option Role) (k : Nat) : Prop where
  typed : TypedSpace st.mem croot τc
  origin : ∀ t r, τc t = some r → τg t = some r ∨ t ∈ fl0.take k
  root_taken : croot ∈ fl0.take k
  chain : FreeChain st.mem st.free_list (fl0.drop k)
  fresh : FreshPages τc (fl0.drop k)
  frame : ∀ a, (∀ p, p ∈ fl0.take k → ¬ (p ≤ a ∧ a < p + 4096)) → st.mem a = m0 a
  root_small : ∀ va, user_page L va →
    ¬ (pte_valid (st.mem (croot + 8 * VPN2 va)) ∧ pte_rwx (st.mem (croot + 8 * VPN2 va)))
  l1_small : ∀ t i j, τc t = some (Role.l1 i) → t ∈ fl0.take k → j < 512 →
    ¬ (pte_valid (st.mem (t + 8 * j)) ∧ pte_rwx (st.mem (t + 8 * j)))
  copied : ∀ va, user_page L va → va < v → mapped_slot m0 proot va →
    mapped_slot st.mem croot va ∧
    pte_flags (st.mem (lookup st.mem croot va)) = pte_flags (m0 (lookup m0 proot va)) ∧
    pte_target (st.mem (lookup st.mem croot va)) ∈ fl0.take k ∧
    τc (pte_target (st.mem (lookup st.mem croot va))) = none ∧
    ∀ i, i < 4096 →
      st.mem (pte_target (st.mem (lookup st.mem croot va)) + i)
        = m0 (pte_target (m0 (lookup m0 proot va)) + i)
  empty : ∀ va, user_page L va → (v ≤ va ∨ ¬ mapped_slot m0 proot va) →
    lookup st.mem croot va = 0 ∨ st.mem (lookup st.mem croot va) = 0
  count : k ≤ 1 + 3 * ((v - L.USER_START_VMA) / 4096)

/-- A layout with a user region of one page, `[0xC0000000, 0xC0001000)`. -/
def tinyLayout : Layout :=
  { USER_START_VMA := 0xC0000000, USER_END_VMA := 0xC0001000, main_pt2 := 0x80010000 }

/-- The sample memory with a fourth page, `0x80403000`, on the free list. -/
def cloneMem : Mem := fun a => if a = 0x80402000 then 0x80403000 else sampleMem a

/-- The sample address space over `cloneMem`. -/
def cloneSpace : MemState :=
  { mem := cloneMem, free_list := 0x80400000, satp := 8 * 2 ^ 60 + 0x80200 }

/-- The typing of the shared kernel tables of the sample: `main_pt2` alone,
which holds no entry. -/
def kernelRoles : Nat → Option Role := fun t =>
  if t = 0x80010000 then some Role.root else none

/-! ## Sleep locks (`lock.h`) and the handle operations that take one -/

/-- The data field of `struct lock`: the thread holding the lock, or -1. -/
structure lock where
  tid : Int
deriving DecidableEq

/-- `lock_init`: nobody holds the lock. -/
def lock_init : lock := { tid := -1 }

/-- `lock_acquire` called by thread `running_thread`: the lock afterwards, or
`none` when the lock is held, in which case the caller sleeps in
`condition_wait` and does not go on until some thread releases the lock. -/
def lock_acquire (lk : lock) (running_thread : Int) : Option lock :=
  if lk.tid = -1 then some { tid := running_thread } else none

/-- `lock_release`: `lk->tid = -1` (the assertion that the caller holds the
lock is left aside). -/
def lock_release (_lk : lock) : lock := { tid := -1 }

/-- `vioblk_getlen(dev, lenptr)`; `arg` is the value behind the pointer, `none`
for a null pointer.  Result: return value and the value behind the pointer
afterwards. -/
def vioblk_getlen (dev : vioblk_device) (arg : Option Nat) : Int × Option Nat :=
  match arg with
  | none => (-EINVAL, none)
  | some _ => (0, some dev.size)

/-- `vioblk_getblksz(dev, blkszptr)`: the block size is stored through a
`uint32_t *`, that is in the low four bytes of the eight the caller owns. -/
def vioblk_getblksz (dev : vioblk_device) (arg : Option Nat) : Int × Option Nat :=
  match arg with
  | none => (-EINVAL, none)
  | some v => (0, some (v / U32 * U32 + dev.blksz % U32))

/-- The `switch` of `vioblk_ioctl(io, cmd, arg)`: return value, device
afterwards, value behind `arg` afterwards. -/
def vioblk_ioctl (dev : vioblk_device) (cmd : Int) (arg : Option Nat) :
    Int × vioblk_device × Option Nat :=
  if cmd = IOCTL_GETLEN then ((vioblk_getlen dev arg).1, dev, (vioblk_getlen dev arg).2)
  else if cmd = IOCTL_GETPOS then
    match arg with
    | none => (-EINVAL, dev, none)
    | some _ => ((vioblk_getpos dev).2, dev, some (vioblk_getpos dev).1)
  else if cmd = IOCTL_SETPOS then
    match arg with
    | none => (-EINVAL, dev, none)
    | some new_pos => ((vioblk_setpos dev new_pos).2, (vioblk_setpos dev new_pos).1, arg)
  else if cmd = IOCTL_GETBLKSZ then
    ((vioblk_getblksz dev arg).1, dev, (vioblk_getblksz dev arg).2)
  else (-ENOTSUP, dev, arg)

/-- What a handle operation of the block driver leaves: return value, device,
the device's `io_lock`, and the value behind the argument pointer. -/
structure BlkOutcome where
  ret : Int
  dev : vioblk_device
  io_lock : lock
  arg : Option Nat

/-- `vioblk_ioctl` with the lock: `lock_acquire`, the `switch`, and
`lock_release` after it; the `default:` branch is `return -ENOTSUP;` inside
the `switch`.  `none`: the caller sleeps on the lock. -/
def vioblk_ioctl_lk (dev : vioblk_device) (io_lock : lock) (running_thread : Int) (cmd : Int)
    (arg : Option Nat) : Option BlkOutcome :=
  match lock_acquire io_lock running_thread with
  | none => none
  | some lk =>
    let r := vioblk_ioctl dev cmd arg
    if cmd = IOCTL_GETLEN ∨ cmd = IOCTL_GETPOS ∨ cmd = IOCTL_SETPOS ∨ cmd = IOCTL_GETBLKSZ then
      some { ret := r.1, dev := r.2.1, io_lock := lock_release lk, arg := r.2.2 }
    else some { ret := r.1, dev := r.2.1, io_lock := lk, arg := r.2.2 }

/-- The `while (total_written < n)` loop of `vioblk_write` together with the
lock: leaving the loop normally leads to `lock_release` and
`return total_written`; the statement `if (dev->pos >= dev->size) return 0;`
inside the loop returns at once. -/
def vioblk_write_loop_lk : Nat → vioblk_device → lock → Buf → Nat → Nat →
    vioblk_device × lock × Int
  | 0, dev, lk, _, _, total_written => (dev, lock_release lk, toLong total_written)
  | fuel + 1, dev, lk, buf, n, total_written =>
    if total_written < n then
      if dev.pos ≥ dev.size then (dev, lk, 0)
      else
        let sector_index := (dev.pos / dev.blksz) % U32
        let sector_offset := (dev.pos % dev.blksz) % U32
        let bytes_available_in_block := dev.blksz - sector_offset
        let bytes_remaining := n - total_written
        let bytes_this_write :=
          if bytes_available_in_block < bytes_remaining then bytes_available_in_block
          else bytes_remaining
        let dev1 := if bytes_this_write ≠ dev.blksz then dev.serve_in sector_index else dev
        let dev2 := { dev1 with
          blkbuf := memcpy dev1.blkbuf sector_offset buf total_written bytes_this_write }
        let dev3 := dev2.serve_out sector_index
        vioblk_write_loop_lk fuel { dev3 with pos := (dev3.pos + bytes_this_write) % U64 } lk buf n
          (total_written + bytes_this_write)
    else (dev, lock_release lk, toLong total_written)

/-- `vioblk_write` with the lock; the read-only test comes before
`lock_acquire`. -/
def vioblk_write_lk (dev : vioblk_device) (io_lock : lock) (running_thread : Int) (buf : Buf)
    (n : Nat) : Option BlkOutcome :=
  if dev.readonly then some { ret := -EINVAL, dev := dev, io_lock := io_lock, arg := none }
  else
    match lock_acquire io_lock running_thread with
    | none => none
    | some lk =>
      let r := vioblk_write_loop_lk n dev lk buf n 0
      some { ret := r.2.2, dev := r.1, io_lock := r.2.1, arg := none }

/-- What `fs_ioctl` leaves: return value, filesystem state, `fs_lock`, and
the value behind the argument pointer. -/
structure FsOutcome where
  ret : Int
  fs : FsState
  fs_lock : lock
  arg : Option Nat

/-- `fs_ioctl` with the lock: `lock_acquire`; the test of `file->flags`, which
releases the lock before `return -1`; the `switch`, whose `default:` branch is
`return -ENOTSUP;`; and `lock_release` after the `switch`. -/
def fs_ioctl_lk (s : FsState) (fs_lock : lock) (running_thread : Int) (fd : Nat) (cmd : Int)
    (arg : Option Nat) : Option FsOutcome :=
  match lock_acquire fs_lock running_thread with
  | none => none
  | some lk =>
    let r := fs_ioctl s fd cmd arg
    if (s.file_structs fd).flags = 0 then
      some { ret := r.1, fs := r.2.1, fs_lock := lock_release lk, arg := r.2.2 }
    else if cmd = IOCTL_GETLEN ∨ cmd = IOCTL_GETPOS ∨ cmd = IOCTL_SETPOS ∨ cmd = IOCTL_GETBLKSZ
    then some { ret := r.1, fs := r.2.1, fs_lock := lock_release lk, arg := r.2.2 }
    else some { ret := r.1, fs := r.2.1, fs_lock := lk, arg := r.2.2 }

/-! ## The control call of the memory-buffer handle (`io.c`) -/

/-- `lit_ioctl(io, cmd, arg)` for a non-null `arg` (the code dereferences
`arg` without a test); `arg` is the value behind the pointer.  Result: return
value, handle afterwards, value behind `arg` afterwards. -/
def lit_ioctl (lit : io_lit) (cmd : Int) (arg : Nat) : Int × io_lit × Nat :=
  if cmd = IOCTL_GETLEN then (0, lit, lit.size)
  else if cmd = IOCTL_GETPOS then (0, lit, lit.pos)
  else if cmd = IOCTL_SETPOS then
    if arg > lit.size then (-1, lit, arg) else (0, { lit with pos := arg }, arg)
  else (-ENOTSUP, lit, arg)

/-! ## Mounting (`fs_mount`) -/

/-- The global variables of `kfs.c` that `fs_mount` writes: the recorded
handle `vioblk_io` (an address), `fs_lock`, `fs_initialized`, `boot_block` and
the open-file pool. -/
structure KfsState where
  vioblk_io : Nat
  fs_lock : lock
  fs_initialized : Bool
  boot_block : Buf
  file_structs : Nat → file_struct

/-- A `struct file_struct` after `memset(file_structs, 0, ...)`. -/
def file_struct_zero : file_struct :=
  { refcnt := 0, file_position := 0, file_size := 0, inode_number := 0, flags := 0 }

/-- `fs_mount(blkio)`, where `dev` is the block device behind the handle
`blkio`.  Modelled from the spec: `ioread` of `io.h` (not among the sources) is
the call of `ops->read`.  Result: return value, globals, device. -/
def fs_mount (k : KfsState) (blkio : Nat) (dev : vioblk_device) :
    Int × KfsState × vioblk_device :=
  let k1 := { k with fs_lock := lock_init, vioblk_io := blkio }
  if k1.fs_initialized then (-1, k1, dev)
  else
    let r := vioblk_ioctl dev IOCTL_SETPOS (some 0)
    if r.1 ≠ 0 then (-1, k1, r.2.1)
    else
      let rd := vioblk_read r.2.1 k1.boot_block FS_BLKSZ
      if rd.2.2 < 0 then (-1, { k1 with boot_block := rd.2.1 }, rd.1)
      else
        (0, { k1 with boot_block := rd.2.1, fs_initialized := true,
                      file_structs := fun _ => file_struct_zero }, rd.1)

/-! ## System calls on descriptors (`syscall.c`) -/

/-- The kernel functions that the descriptor system calls call, over a state
`ω` of the rest of the kernel (memory, devices, files, threads).  An endpoint
is the address of its `struct io_intf`; `read`, `write` and `ctl` are the
calls through `ops`.  `device_open` and `fs_open` give the return value and
the handle stored through `ioptr`. -/
structure Services (ω : Type) where
  memory_validate_vstr : ω → Nat → Nat → Int
  memory_validate_vptr_len : ω → Nat → Nat → Nat → Int
  device_open : ω → Nat → Int → Int × Nat × ω
  fs_open : ω → Nat → Int × Nat × ω
  ioclose : ω → Nat → ω
  read : ω → Nat → Nat → Nat → Int × ω
  write : ω → Nat → Nat → Nat → Int × ω
  ctl : ω → Nat → Int → Nat → Int × ω

/-- The state the descriptor system calls act on: the table
`current_process()->iotab` (0 for NULL) and the rest of the kernel. -/
structure SysState (ω : Type) where
  iotab : Nat → Nat
  world : ω

/-- `sysdevopen(fd, name, instno)`. -/
def sysdevopen {ω : Type} (K : Services ω) (s : SysState ω) (fd : Int) (name : Nat)
    (instno : Int) : Int × SysState ω :=
  if fd < 0 ∨ fd ≥ (PROCESS_IOMAX : Int) then (-EMFILE, s)
  else if K.memory_validate_vstr s.world name PTE_U ≠ 0 then (-EINVAL, s)
  else
    let r := K.device_open s.world name instno
    if r.1 < 0 then (r.1, { s with world := r.2.2 })
    else (r.1, { iotab := Function.update s.iotab fd.toNat r.2.1, world := r.2.2 })

/-- `sysfsopen(fd, name)`. -/
def sysfsopen {ω : Type} (K : Services ω) (s : SysState ω) (fd : Int) (name : Nat) :
    Int × SysState ω :=
  if fd < 0 ∨ fd ≥ (PROCESS_IOMAX : Int) then (-EMFILE, s)
  else if K.memory_validate_vstr s.world name (PTE_U ||| PTE_A) ≠ 0 then (-EINVAL, s)
  else
    let r := K.fs_open s.world name
    if r.1 < 0 then (r.1, { s with world := r.2.2 })
    else (r.1, { iotab := Function.update s.iotab fd.toNat r.2.1, world := r.2.2 })

/-- `sysclose(fd)`. -/
def sysclose {ω : Type} (K : Services ω) (s : SysState ω) (fd : Int) : Int × SysState ω :=
  if fd < 0 ∨ fd ≥ (PROCESS_IOMAX : Int) ∨ s.iotab fd.toNat = 0 then (-EBADFD, s)
  else
    (0, { iotab := Function.update s.iotab fd.toNat 0,
          world := K.ioclose s.world (s.iotab fd.toNat) })

/-- `sysread(fd, buf, bufsz)`. -/
def sysread {ω : Type} (K : Services ω) (s : SysState ω) (fd : Int) (buf bufsz : Nat) :
    Int × SysState ω :=
  if fd < 0 ∨ fd ≥ (PROCESS_IOMAX : Int) ∨ s.iotab fd.toNat = 0 then (-EBADFD, s)
  else if K.memory_validate_vptr_len s.world buf bufsz (PTE_W ||| PTE_U) ≠ 0 then (-EINVAL, s)
  else
    let r := K.read s.world (s.iotab fd.toNat) buf bufsz
    (r.1, { s with world := r.2 })

/-- `syswrite(fd, buf, len)`. -/
def syswrite {ω : Type} (K : Services ω) (s : SysState ω) (fd : Int) (buf len : Nat) :
    Int × SysState ω :=
  if fd < 0 ∨ fd ≥ (PROCESS_IOMAX : Int) ∨ s.iotab fd.toNat = 0 then (-EBADFD, s)
  else if K.memory_validate_vptr_len s.world buf len (PTE_R ||| PTE_U) ≠ 0 then (-EINVAL, s)
  else
    let r := K.write s.world (s.iotab fd.toNat) buf len
    (r.1, { s with world := r.2 })

/-- `sysioctl(fd, cmd, arg)`. -/
def sysioctl {ω : Type} (K : Services ω) (s : SysState ω) (fd : Int) (cmd : Int) (arg : Nat) :
    Int × SysState ω :=
  if fd < 0 ∨ fd ≥ (PROCESS_IOMAX : Int) ∨ s.iotab fd.toNat = 0 then (-EBADFD, s)
  else if arg = 0 then (-EINVAL, s)
  else if cmd = IOCTL_GETLEN ∨ cmd = IOCTL_GETPOS ∨ cmd = IOCTL_GETBLKSZ then
    if K.memory_validate_vptr_len s.world arg 8 (PTE_W ||| PTE_U) ≠ 0 then (-EINVAL, s)
    else
      let r := K.ctl s.world (s.iotab fd.toNat) cmd arg
      (r.1, { s with world := r.2 })
  else if cmd = IOCTL_SETPOS then
    if K.memory_validate_vptr_len s.world arg 8 (PTE_R ||| PTE_W ||| PTE_U) ≠ 0 then (-EINVAL, s)
    else
      let r := K.ctl s.world (s.iotab fd.toNat) cmd arg
      (r.1, { s with world := r.2 })
  else (-ENOTSUP, s)

/-- `sysexec(fd)`; `process_exec` (which may rebuild the whole process, the
descriptor table included) is a parameter. -/
def sysexec {ω : Type} (process_exec : SysState ω → Nat → Int × SysState ω) (s : SysState ω)
    (fd : Int) : Int × SysState ω :=
  if fd < 0 ∨ fd ≥ (PROCESS_IOMAX : Int) ∨ s.iotab fd.toNat = 0 then (-EBADFD, s)
  else process_exec { s with iotab := Function.update s.iotab fd.toNat 0 } (s.iotab fd.toNat)

/-! ## Specification-side notions for the later theorems -/

/-- The name `name` agrees with the 32-byte name field `field` on the first 32
bytes, the comparison stopping at a NUL: every byte up to and including the
first NUL of `name`, or all 32 when there is none, equals the byte of the
field at the same place. -/
def name_matches (name field : Buf) : Prop :=
  ∀ j, j < FS_NAMELEN → (∀ k, k < j → name k ≠ 0) → name j = field j

/-- The reads a read-fully loop for `n` bytes issues from endpoint state `s`
once `acc` bytes are there: `tr` lists the results of successive calls of
`read`, each asking for the bytes still missing and each delivering a positive
count. -/
def read_run {σ : Type} (io : io_intf σ) (n : Nat) : σ → Nat → List (σ × Buf × Int) → Prop
  | _, _, [] => True
  | s, acc, r :: rest =>
    acc < n ∧ io.read s (n - acc) = r ∧ 0 < r.2.2 ∧
      read_run io n r.1 (acc + r.2.2.toNat) rest

/-- The number of bytes the reads of a run delivered. -/
def run_total {σ : Type} : List (σ × Buf × Int) → Nat
  | [] => 0
  | r :: rest => r.2.2.toNat + run_total rest

/-- The endpoint state after the reads of a run. -/
def run_end {σ : Type} : σ → List (σ × Buf × Int) → σ
  | s, [] => s
  | _, r :: rest => run_end r.1 rest

/-- The chunks the reads of a run delivered, one after another. -/
def concat_chunks {σ : Type} : List (σ × Buf × Int) → Buf
  | [] => fun _ => 0
  | r :: rest => fun i =>
    if i < r.2.2.toNat then r.2.1 i else concat_chunks rest (i - r.2.2.toNat)

/-- The walk for `va` meets a leaf above level 0: a valid entry with one of
`R`, `W`, `X` set, at level 2 or at level 1. -/
def meets_large_leaf (m : Mem) (root va : Nat) : Prop :=
  (pte_valid (m (root + 8 * VPN2 va)) ∧ pte_rwx (m (root + 8 * VPN2 va))) ∨
  ∃ t1, next_table m root (VPN2 va) = some t1 ∧
    pte_valid (m (t1 + 8 * VPN1 va)) ∧ pte_rwx (m (t1 + 8 * VPN1 va))

/-- The walk for `va` meets an entry that is not valid, at level 2 or at
level 1. -/
def meets_invalid (m : Mem) (root va : Nat) : Prop :=
  ¬ pte_valid (m (root + 8 * VPN2 va)) ∨
  ∃ t1, next_table m root (VPN2 va) = some t1 ∧ ¬ pte_valid (m (t1 + 8 * VPN1 va))

/-! ## More sample states -/

/-- A device of `2^33` bytes with 512-byte blocks.  Boot block:
`num_inodes = 0xFFFFF`.  Inode 0 (device offset 4096): `byte_len = 10`,
`data_block_num[0] = 1`.  The byte at `2^32 + 4096`, where data block 1 starts,
is `0x41`. -/
def wrapDisk : Buf := fun a =>
  if a = 4 then 0xFF else if a = 5 then 0xFF else if a = 6 then 0x0F
  else if a = 4096 then 10 else if a = 4100 then 1
  else if a = 2 ^ 32 + 4096 then 0x41 else 0

def wrapDev : vioblk_device :=
  { blksz := 512, pos := 0, size := 2 ^ 33, opened := true, readonly := false,
    blkbuf := fun _ => 0, disk := wrapDisk }

/-- The image `wrapDisk` mounted, with slot 0 open on inode 0 at position 0. -/
def wrapFs : FsState :=
  { blkdev := wrapDev, fs_initialized := true, boot_block := wrapDisk,
    file_structs := fun i =>
      if i = 0 then { refcnt := 1, file_position := 0, file_size := 10, inode_number := 0,
                      flags := 1 }
      else { refcnt := 0, file_position := 0, file_size := 0, inode_number := 0, flags := 0 },
    inode := fun _ => 0, data_block := fun _ => 0 }

/-- An image of five blocks: boot block with `num_inodes = 1`; inode 0 with
`byte_len = 1024 * 4096` (bytes `00 00 40 00`) and all 1023 data-block numbers
0; data blocks 0, 1 and 2. -/
def longDisk : Buf := fun a => if a = 4 then 1 else if a = 4098 then 0x40 else 0

def longDev : vioblk_device :=
  { blksz := 512, pos := 0, size := 20480, opened := true, readonly := false,
    blkbuf := fun _ => 0, disk := longDisk }

/-- The image `longDisk` mounted, with slot 0 open on inode 0 at position
`1023 * 4096`, and the four bytes of memory behind the global `inode` holding
the number `behind`. -/
def longFs (behind : Nat) : FsState :=
  { blkdev := longDev, fs_initialized := true, boot_block := longDisk,
    file_structs := fun i =>
      if i = 0 then { refcnt := 1, file_position := 1023 * 4096, file_size := 1024 * 4096,
                      inode_number := 0, flags := 1 }
      else { refcnt := 0, file_position := 0, file_size := 0, inode_number := 0, flags := 0 },
    inode := fun i => if i = 4096 then behind else 0, data_block := fun _ => 0 }

/-- The filesystem globals after a mount on the handle at `0x1000`, while
thread 3 holds `fs_lock`. -/
def mountedKfs : KfsState :=
  { vioblk_io := 0x1000, fs_lock := { tid := 3 }, fs_initialized := true,
    boot_block := sampleDisk, file_structs := sampleFs.file_structs }

/-- Descriptor services that accept every pointer and answer every call
with 0. -/
def okServices : Services Unit :=
  { memory_validate_vstr := fun _ _ _ => 0,
    memory_validate_vptr_len := fun _ _ _ _ => 0,
    device_open := fun _ _ _ => (0, 0x5000, ()),
    fs_open := fun _ _ => (0, 0x6000, ()),
    ioclose := fun _ _ => (),
    read := fun _ _ _ _ => (0, ()),
    write := fun _ _ _ _ => (0, ()),
    ctl := fun _ _ _ _ => (0, ()) }

/-- A descriptor table with descriptor 0 open. -/
def oneFdState : SysState Unit :=
  { iotab := fun i => if i = 0 then 0x4000 else 0, world := () }

/-- An image with one directory entry: `num_dentry = 1`, `num_inodes = 1`, the
name field of entry 0 holds 32 times the letter `a` (no NUL), its inode number
is 0, and inode 0 has `byte_len = 10`. -/
def dirDisk : Buf := fun a =>
  if a = 0 then 1 else if a = 4 then 1 else if 64 ≤ a ∧ a < 96 then 97
  else if a = 4096 then 10 else 0

/-- The image `dirDisk` mounted, with every slot of the open-file pool free. -/
def dirFs : FsState :=
  { blkdev := { blksz := 512, pos := 0, size := 12288, opened := true, readonly := false,
                blkbuf := fun _ => 0, disk := dirDisk },
    fs_initialized := true, boot_block := dirDisk,
    file_structs := fun _ => file_struct_zero,
    inode := fun _ => 0, data_block := fun _ => 0 }

/-! ## Theorems: block driver and filesystem -/

theorem toLong_small (x : Nat) (h : x < 2 ^ 63) : toLong x = (x : Int) := by
  have h1 : x % U64 = x := Nat.mod_eq_of_lt (by unfold U64; omega)
  unfold toLong
  rw [h1, if_pos h]

theorem vioblk_read_loop_spec (fuel : Nat) : ∀ (dev : vioblk_device) (buf : Buf) (bufsz total : Nat),
    bufsz - total ≤ fuel → total ≤ bufsz → 0 < dev.blksz →
    dev.pos + (bufsz - total) ≤ dev.size → dev.pos + (bufsz - total) ≤ U32 →
    (vioblk_read_loop fuel dev buf bufsz total).2.2 = bufsz ∧
    (vioblk_read_loop fuel dev buf bufsz total).1.pos = dev.pos + (bufsz - total) ∧
    (vioblk_read_loop fuel dev buf bufsz total).1.size = dev.size ∧
    (vioblk_read_loop fuel dev buf bufsz total).1.blksz = dev.blksz ∧
    (vioblk_read_loop fuel dev buf bufsz total).1.disk = dev.disk ∧
    (vioblk_read_loop fuel dev buf bufsz total).1.opened = dev.opened ∧
    (vioblk_read_loop fuel dev buf bufsz total).1.readonly = dev.readonly ∧
    (vioblk_read_loop fuel dev buf bufsz total).2.1 =
      fun i => if total ≤ i ∧ i < bufsz then dev.disk (dev.pos + (i - total)) else buf i := by
  induction fuel with
  | zero =>
    intro dev buf bufsz total hf ht _ _ _
    have : total = bufsz := by omega
    subst this
    refine ⟨rfl, by simp [vioblk_read_loop], rfl, rfl, rfl, rfl, rfl, ?_⟩
    funext i
    have : ¬ (total ≤ i ∧ i < total) := by omega
    simp [vioblk_read_loop, this]
  | succ fuel ih =>
    intro dev buf bufsz total hf ht hb hsz h32
    by_cases hlt : total < bufsz
    · have hpos : ¬ dev.pos ≥ dev.size := by omega
      have hmodlt : dev.pos % dev.blksz < dev.blksz := Nat.mod_lt _ hb
      have hdm : dev.pos / dev.blksz * dev.blksz + dev.pos % dev.blksz = dev.pos := by
        rw [Nat.mul_comm]; exact Nat.div_add_mod _ _
      have hdivle : dev.pos / dev.blksz ≤ dev.pos := Nat.div_le_self _ _
      have hmodle : dev.pos % dev.blksz ≤ dev.pos := Nat.mod_le _ _
      have hU : U32 = 4294967296 := by unfold U32; norm_num
      have hs1 : (dev.pos / dev.blksz) % U32 = dev.pos / dev.blksz := Nat.mod_eq_of_lt (by omega)
      have hs2 : (dev.pos % dev.blksz) % U32 = dev.pos % dev.blksz := Nat.mod_eq_of_lt (by omega)
      rw [vioblk_read_loop, if_pos hlt, if_neg hpos]
      simp only [hs1, hs2, vioblk_device.serve_in]
      generalize hthis : (if dev.blksz - dev.pos % dev.blksz < bufsz - total
        then dev.blksz - dev.pos % dev.blksz else bufsz - total) = this
      have hthis_pos : 0 < this := by rw [← hthis]; split_ifs <;> omega
      have hthis_le : this ≤ bufsz - total := by rw [← hthis]; split_ifs <;> omega
      have hthis_le2 : this ≤ dev.blksz - dev.pos % dev.blksz := by rw [← hthis]; split_ifs <;> omega
      have hU64 : (dev.pos + this) % U64 = dev.pos + this :=
        Nat.mod_eq_of_lt (by unfold U64; omega)
      rw [hU64]
      have key := ih { dev with
          blkbuf := fun j => if j < dev.blksz then dev.disk (dev.pos / dev.blksz * dev.blksz + j)
            else dev.blkbuf j,
          pos := dev.pos + this }
        (memcpy buf total (fun j => if j < dev.blksz then
          dev.disk (dev.pos / dev.blksz * dev.blksz + j) else dev.blkbuf j)
          (dev.pos % dev.blksz) this) bufsz (total + this)
        (by omega) (by omega) hb (by simp only; omega) (by simp only; omega)
      obtain ⟨k1, k2, k3, k4, k5, k6, k7, k8⟩ := key
      refine ⟨k1, ?_, k3, k4, k5, k6, k7, ?_⟩
      · rw [k2]; simp only; omega
      · rw [k8]
        funext i
        simp only [memcpy]
        by_cases c1 : total + this ≤ i ∧ i < bufsz
        · have c2 : total ≤ i ∧ i < bufsz := by omega
          rw [if_pos c1, if_pos c2]
          congr 1; omega
        · rw [if_neg c1]
          by_cases c3 : total ≤ i ∧ i < total + this
          · have c2 : total ≤ i ∧ i < bufsz := by omega
            have c4 : dev.pos % dev.blksz + (i - total) < dev.blksz := by omega
            rw [if_pos c3, if_pos c2, if_pos c4]
            congr 1; omega
          · have c2 : ¬ (total ≤ i ∧ i < bufsz) := by omega
            rw [if_neg c3, if_neg c2]
    · have : total = bufsz := by omega
      subst this
      rw [vioblk_read_loop, if_neg hlt]
      refine ⟨rfl, by simp, rfl, rfl, rfl, rfl, rfl, ?_⟩
      funext i
      have : ¬ (total ≤ i ∧ i < total) := by omega
      simp [this]

theorem data_block_offset_bound (bb : Buf) (d : Nat) : data_block_offset bb d + 4096 ≤ U32 := by
  unfold data_block_offset FS_BLKSZ U32
  omega

theorem inode_offset_bound (n : Nat) : inode_offset n + 4096 ≤ U32 := by
  unfold inode_offset FS_BLKSZ U32
  omega

theorem vioblk_read_block (dev : vioblk_device) (buf : Buf) (off : Nat)
    (hb : 0 < dev.blksz) (h1 : off + 4096 ≤ dev.size) (h2 : off + 4096 ≤ U32) :
    (vioblk_read (vioblk_setpos dev off).1 buf 4096).2.2 = 4096 ∧
    (vioblk_setpos dev off).2 = 0 ∧
    (vioblk_read (vioblk_setpos dev off).1 buf 4096).1.pos = off + 4096 ∧
    (vioblk_read (vioblk_setpos dev off).1 buf 4096).1.size = dev.size ∧
    (vioblk_read (vioblk_setpos dev off).1 buf 4096).1.blksz = dev.blksz ∧
    (vioblk_read (vioblk_setpos dev off).1 buf 4096).1.disk = dev.disk ∧
    (vioblk_read (vioblk_setpos dev off).1 buf 4096).1.opened = dev.opened ∧
    (vioblk_read (vioblk_setpos dev off).1 buf 4096).1.readonly = dev.readonly ∧
    (vioblk_read (vioblk_setpos dev off).1 buf 4096).2.1 =
      fun i => if i < 4096 then dev.disk (off + i) else buf i := by
  have hsp : vioblk_setpos dev off = ({ dev with pos := off }, 0) := by
    unfold vioblk_setpos
    rw [if_neg (by omega)]
  rw [hsp]
  have key := vioblk_read_loop_spec 4096 { dev with pos := off } buf 4096 0
    (by omega) (by omega) hb (by simp only; omega) (by simp only; omega)
  obtain ⟨k1, k2, k3, k4, k5, k6, k7, k8⟩ := key
  refine ⟨?_, rfl, ?_, k3, k4, k5, k6, k7, ?_⟩
  · show toLong (vioblk_read_loop 4096 { dev with pos := off } buf 4096 0).2.2 = 4096
    rw [k1]; rw [toLong_small 4096 (by norm_num)]; rfl
  · show (vioblk_read_loop 4096 { dev with pos := off } buf 4096 0).1.pos = off + 4096
    rw [k2]
  · show (vioblk_read_loop 4096 { dev with pos := off } buf 4096 0).2.1 = _
    rw [k8]; funext i; simp

theorem fs_read_loop_spec (fuel : Nat) : ∀ (s : FsState) (buf : Buf) (btr total fp m : Nat),
    btr ≤ fuel → 0 < s.blkdev.blksz → fp ≤ 4096 * 4096 → min btr (4096 * 4096 - fp) = m →
    (∀ i, fp ≤ i → i < fp + m →
      data_block_offset s.boot_block (data_block_num s.inode (i / 4096)) + 4096
        ≤ s.blkdev.size) →
    (fs_read_loop fuel s buf btr total fp).2.2 = some (total + m, fp + m) ∧
    (fs_read_loop fuel s buf btr total fp).1.inode = s.inode ∧
    (fs_read_loop fuel s buf btr total fp).1.boot_block = s.boot_block ∧
    (fs_read_loop fuel s buf btr total fp).1.file_structs = s.file_structs ∧
    (fs_read_loop fuel s buf btr total fp).1.fs_initialized = s.fs_initialized ∧
    (fs_read_loop fuel s buf btr total fp).1.blkdev.disk = s.blkdev.disk ∧
    (fs_read_loop fuel s buf btr total fp).1.blkdev.size = s.blkdev.size ∧
    (fs_read_loop fuel s buf btr total fp).1.blkdev.blksz = s.blkdev.blksz ∧
    (fs_read_loop fuel s buf btr total fp).2.1 =
      fun i => if total ≤ i ∧ i < total + m then
        s.blkdev.disk (data_block_offset s.boot_block
          (data_block_num s.inode ((fp + (i - total)) / 4096)) + (fp + (i - total)) % 4096)
        else buf i := by
  induction fuel with
  | zero =>
    intro s buf btr total fp m hf _ _ hm _
    have : btr = 0 := by omega
    subst this
    have : m = 0 := by omega
    subst this
    refine ⟨rfl, rfl, rfl, rfl, rfl, rfl, rfl, rfl, ?_⟩
    funext i
    show buf i = _
    rw [if_neg (by omega)]
  | succ fuel ih =>
    intro s buf btr total fp m hf hb hfp hm hdev
    have hU : U32 = 4294967296 := by unfold U32; norm_num
    have hB : FS_BLKSZ = 4096 := rfl
    have hi1 : (fp / 4096) % U32 = fp / 4096 := by rw [hU]; omega
    have hi2 : (fp % 4096) % U32 = fp % 4096 := by rw [hU]; omega
    by_cases hbtr : btr > 0
    · by_cases hidx : fp / 4096 ≥ 4096
      · have : m = 0 := by omega
        subst this
        have hstop : fs_read_loop (fuel + 1) s buf btr total fp = (s, buf, some (total, fp)) := by
          rw [fs_read_loop, if_pos hbtr]
          simp only [hB, hi1, if_pos hidx]
        rw [hstop]
        refine ⟨rfl, rfl, rfl, rfl, rfl, rfl, rfl, rfl, ?_⟩
        funext i
        show buf i = _
        rw [if_neg (by omega)]
      · have hoff := hdev fp (le_refl _) (by omega)
        have hrd := vioblk_read_block s.blkdev s.data_block
          (data_block_offset s.boot_block (data_block_num s.inode (fp / 4096))) hb hoff
          (data_block_offset_bound _ _)
        obtain ⟨r1, r2, _, r4, r5, r6, _, _, r9⟩ := hrd
        rw [fs_read_loop, if_pos hbtr]
        simp only [hB, hi1, hi2, if_neg hidx, r1, r2, ne_eq, not_true_eq_false, if_false]
        generalize hthis : (if btr < 4096 - fp % 4096 then btr else 4096 - fp % 4096) = this
        have hthis_pos : 0 < this := by rw [← hthis]; split_ifs <;> omega
        have hthis_le : this ≤ btr := by rw [← hthis]; split_ifs <;> omega
        have hthis_le2 : this ≤ 4096 - fp % 4096 := by rw [← hthis]; split_ifs <;> omega
        have hU64 : (fp + this) % U64 = fp + this := Nat.mod_eq_of_lt (by unfold U64; omega)
        rw [hU64]
        have key := ih
          { s with
            blkdev := (vioblk_read (vioblk_setpos s.blkdev (data_block_offset s.boot_block
              (data_block_num s.inode (fp / 4096)))).1 s.data_block 4096).1,
            data_block := (vioblk_read (vioblk_setpos s.blkdev (data_block_offset s.boot_block
              (data_block_num s.inode (fp / 4096)))).1 s.data_block 4096).2.1 }
          (memcpy buf total (vioblk_read (vioblk_setpos s.blkdev (data_block_offset s.boot_block
              (data_block_num s.inode (fp / 4096)))).1 s.data_block 4096).2.1 (fp % 4096) this)
          (btr - this) (total + this) (fp + this) (m - this)
          (by omega) (by simp only; rw [r5]; exact hb) (by omega) (by omega)
          (by
            intro i h1 h2
            simp only
            rw [r4]
            exact hdev i (by omega) (by omega))
        obtain ⟨k1, k2, k3, k4, k5, k6, k7, k8, k9⟩ := key
        have hmthis : this ≤ m := by omega
        refine ⟨?_, k2, k3, k4, k5, ?_, ?_, ?_, ?_⟩
        · rw [k1]; congr 2 <;> omega
        · rw [k6]; exact r6
        · rw [k7]; exact r4
        · rw [k8]; exact r5
        · rw [k9]
          funext i
          simp only [memcpy, r9, r6]
          by_cases c1 : total + this ≤ i ∧ i < total + this + (m - this)
          · have c2 : total ≤ i ∧ i < total + m := by omega
            rw [if_pos c1, if_pos c2]
            have e1 : fp + this + (i - (total + this)) = fp + (i - total) := by omega
            rw [e1]
          · rw [if_neg c1]
            by_cases c3 : total ≤ i ∧ i < total + this
            · have c2 : total ≤ i ∧ i < total + m := by omega
              have c4 : fp % 4096 + (i - total) < 4096 := by omega
              rw [if_pos c3, if_pos c2, if_pos c4]
              have e1 : (fp + (i - total)) / 4096 = fp / 4096 := by omega
              have e2 : (fp + (i - total)) % 4096 = fp % 4096 + (i - total) := by omega
              rw [e1, e2]
            · have c2 : ¬ (total ≤ i ∧ i < total + m) := by omega
              rw [if_neg c3, if_neg c2]
    · have : btr = 0 := by omega
      subst this
      have : m = 0 := by omega
      subst this
      rw [fs_read_loop, if_neg hbtr]
      refine ⟨rfl, rfl, rfl, rfl, rfl, rfl, rfl, rfl, ?_⟩
      funext i
      show buf i = _
      rw [if_neg (by omega)]

theorem data_block_num_prefix (a b : Buf) (i : Nat) (hi : i < 1023)
    (h : ∀ j, j < 4096 → a j = b j) : data_block_num a i = data_block_num b i := by
  unfold data_block_num u32le
  rw [h (4 + 4 * i) (by omega), h (4 + 4 * i + 1) (by omega), h (4 + 4 * i + 2) (by omega),
    h (4 + 4 * i + 3) (by omega)]

/-- What `fs_read` does on an open file whose position is inside the file. -/
theorem fs_read_inside (s : FsState) (fd : Nat) (buf : Buf) (n : Nat) (file : file_struct)
    (hfile : s.file_structs fd = file)
    (hinit : s.fs_initialized = true)
    (hopen : file.flags ≠ 0)
    (hblk : 0 < s.blkdev.blksz)
    (hp : file.file_position < file.file_size)
    (hsz : file.file_size ≤ 1023 * 4096)
    (hn : file.file_position + n < 2 ^ 64)
    (hino : inode_offset file.inode_number + 4096 ≤ s.blkdev.size)
    (hdata : ∀ i, i < file.file_size →
      data_block_offset s.boot_block (data_block_num (disk_inode s fd) (i / FS_BLKSZ)) + 4096
        ≤ s.blkdev.size) :
    ∃ s2 : FsState,
      fs_read s (some fd) (some buf) n =
        (((min n (file.file_size - file.file_position) : Nat) : Int),
         { s2 with
           file_structs := Function.update s.file_structs fd
             { file with
               file_position :=
                 file.file_position + min n (file.file_size - file.file_position) } },
         some (fun j =>
           if j < min n (file.file_size - file.file_position)
           then fetch_byte s fd (file.file_position + j) else buf j)) ∧
      s2.blkdev.disk = s.blkdev.disk ∧ s2.blkdev.size = s.blkdev.size ∧
      s2.blkdev.blksz = s.blkdev.blksz ∧ s2.boot_block = s.boot_block ∧
      s2.fs_initialized = s.fs_initialized := by
  have hdi : disk_inode s fd = fun j => s.blkdev.disk (inode_offset file.inode_number + j) := by
    unfold disk_inode; rw [hfile]
  have hB : FS_BLKSZ = 4096 := rfl
  have hU64 : U64 = 2 ^ 64 := rfl
  obtain ⟨r1, r2, _, r4, r5, r6, _, _, r9⟩ := vioblk_read_block s.blkdev s.inode
    (inode_offset file.inode_number) hblk hino (inode_offset_bound _)
  generalize hk : min n (file.file_size - file.file_position) = k
  have hn1 : (if (file.file_position + n) % U64 > file.file_size
      then file.file_size - file.file_position else n) = k := by
    rw [Nat.mod_eq_of_lt (by rw [hU64]; exact hn), ← hk]
    split_ifs <;> omega
  have hkle : file.file_position + k ≤ file.file_size := by omega
  have hino_eq : ∀ i, i < 1023 →
      data_block_num (vioblk_read (vioblk_setpos s.blkdev
        (inode_offset file.inode_number)).1 s.inode 4096).2.1 i
      = data_block_num (disk_inode s fd) i := by
    intro i hi
    apply data_block_num_prefix _ _ i hi
    intro j hj
    rw [r9]
    rw [hdi]; simp only [if_pos hj]
  have key := fs_read_loop_spec k
    { s with
      blkdev := (vioblk_read (vioblk_setpos s.blkdev
        (inode_offset file.inode_number)).1 s.inode 4096).1,
      inode := (vioblk_read (vioblk_setpos s.blkdev
        (inode_offset file.inode_number)).1 s.inode 4096).2.1 }
    buf k 0 file.file_position k (le_refl _)
    (by simp only; rw [r5]; exact hblk) (by omega) (by omega)
    (by
      intro i h1 h2
      simp only
      rw [r4, hino_eq (i / 4096) (by omega)]
      exact hdata i (by omega))
  obtain ⟨k1, k2, k3, k4, k5, k6, k7, k8, k9⟩ := key
  simp only at k1 k2 k3 k4 k5 k6 k7 k8 k9
  rcases hres : fs_read_loop k
    { s with
      blkdev := (vioblk_read (vioblk_setpos s.blkdev
        (inode_offset file.inode_number)).1 s.inode 4096).1,
      inode := (vioblk_read (vioblk_setpos s.blkdev
        (inode_offset file.inode_number)).1 s.inode 4096).2.1 }
    buf k 0 file.file_position with ⟨s2, b2, o⟩
  rw [hres] at k1 k2 k3 k4 k5 k6 k7 k8 k9
  simp only at k1 k2 k3 k4 k5 k6 k7 k8 k9
  refine ⟨s2, ?_, by rw [k6, r6], by rw [k7, r4], by rw [k8, r5], k3, k5⟩
  subst k1 k9
  rw [hinit] at hres
  unfold fs_read
  simp only [hfile, if_neg hopen, hinit, if_neg (not_le.mpr hp), r1, r2, hn1, hres, k4,
    Bool.not_true, Bool.false_eq_true, if_false, ne_eq, not_true_eq_false, ge_iff_le]
  rw [Nat.zero_add, toLong_small k (by omega)]
  congr 3
  funext j
  by_cases c : j < k
  · have c2 : 0 ≤ j ∧ j < k := by omega
    rw [if_pos c, if_pos c2]
    simp only [fetch_byte, fetch_addr, r6, hB, Nat.sub_zero]
    rw [hino_eq _ (by omega)]
  · have c2 : ¬ (0 ≤ j ∧ j < k) := by omega
    rw [if_neg c, if_neg c2]

/-- What `fs_read` does on an open file whose position is not beyond the
file size: the count returned, the bytes stored (those the code fetches, see
`fetch_byte`), and the new position. -/
theorem fs_read_fetches (s : FsState) (fd : Nat) (buf : Buf) (n : Nat)
    (hinit : s.fs_initialized = true)
    (hopen : (s.file_structs fd).flags ≠ 0)
    (hblk : 0 < s.blkdev.blksz)
    (hp : (s.file_structs fd).file_position ≤ (s.file_structs fd).file_size)
    (hsz : (s.file_structs fd).file_size ≤ 1023 * 4096)
    (hn : (s.file_structs fd).file_position + n < 2 ^ 64)
    (hino : inode_offset (s.file_structs fd).inode_number + 4096 ≤ s.blkdev.size)
    (hdata : ∀ i, i < (s.file_structs fd).file_size →
      data_block_offset s.boot_block (data_block_num (disk_inode s fd) (i / FS_BLKSZ)) + 4096
        ≤ s.blkdev.size) :
    (fs_read s (some fd) (some buf) n).1
      = ((min n ((s.file_structs fd).file_size - (s.file_structs fd).file_position) : Nat) : Int) ∧
    (fs_read s (some fd) (some buf) n).2.2
      = some (fun j =>
          if j < min n ((s.file_structs fd).file_size - (s.file_structs fd).file_position)
          then fetch_byte s fd ((s.file_structs fd).file_position + j) else buf j) ∧
    ((fs_read s (some fd) (some buf) n).2.1.file_structs fd).file_position
      = (s.file_structs fd).file_position
        + min n ((s.file_structs fd).file_size - (s.file_structs fd).file_position) ∧
    ((s.file_structs fd).file_position = (s.file_structs fd).file_size →
      fs_read s (some fd) (some buf) n = (0, s, some buf)) := by
  by_cases hlt : (s.file_structs fd).file_position < (s.file_structs fd).file_size
  · obtain ⟨s2, h, _⟩ := fs_read_inside s fd buf n (s.file_structs fd) rfl hinit hopen hblk hlt
      hsz hn hino hdata
    rw [h]
    refine ⟨rfl, rfl, ?_, ?_⟩
    · simp only [Function.update_same]
    · intro h; omega
  · have heq : (s.file_structs fd).file_position = (s.file_structs fd).file_size := by omega
    have hres : fs_read s (some fd) (some buf) n = (0, s, some buf) := by
      unfold fs_read
      simp only [if_neg hopen, hinit, heq, ge_iff_le, le_refl, if_true, Bool.not_true,
        Bool.false_eq_true, if_false]
    rw [hres, heq]
    refine ⟨?_, ?_, ?_, fun _ => rfl⟩
    · simp
    · simp
    · simp

theorem vioblk_write_loop_spec (fuel : Nat) :
    ∀ (dev : vioblk_device) (buf : Buf) (n total : Nat),
    n - total ≤ fuel → total ≤ n → n < 2 ^ 63 → 0 < dev.blksz →
    dev.pos + (n - total) ≤ dev.size → dev.pos + (n - total) ≤ U32 →
    (vioblk_write_loop fuel dev buf n total).2 = (n : Int) ∧
    (vioblk_write_loop fuel dev buf n total).1.pos = dev.pos + (n - total) ∧
    (vioblk_write_loop fuel dev buf n total).1.size = dev.size ∧
    (vioblk_write_loop fuel dev buf n total).1.blksz = dev.blksz ∧
    (vioblk_write_loop fuel dev buf n total).1.opened = dev.opened ∧
    (vioblk_write_loop fuel dev buf n total).1.readonly = dev.readonly ∧
    (vioblk_write_loop fuel dev buf n total).1.disk =
      fun a => if dev.pos ≤ a ∧ a < dev.pos + (n - total)
        then buf (total + (a - dev.pos)) else dev.disk a := by
  induction fuel with
  | zero =>
    intro dev buf n total hf ht hn _ _ _
    have : total = n := by omega
    subst this
    refine ⟨toLong_small _ hn, by simp [vioblk_write_loop], rfl, rfl, rfl, rfl, ?_⟩
    funext a
    show dev.disk a = _
    rw [if_neg (by omega)]
  | succ fuel ih =>
    intro dev buf n total hf ht hn hb hsz h32
    by_cases hlt : total < n
    · have hpos : ¬ dev.pos ≥ dev.size := by omega
      have hmodlt : dev.pos % dev.blksz < dev.blksz := Nat.mod_lt _ hb
      have hdm : dev.pos / dev.blksz * dev.blksz + dev.pos % dev.blksz = dev.pos := by
        rw [Nat.mul_comm]; exact Nat.div_add_mod _ _
      have hdivle : dev.pos / dev.blksz ≤ dev.pos := Nat.div_le_self _ _
      have hmodle : dev.pos % dev.blksz ≤ dev.pos := Nat.mod_le _ _
      have hU : U32 = 4294967296 := by unfold U32; norm_num
      have hs1 : (dev.pos / dev.blksz) % U32 = dev.pos / dev.blksz := Nat.mod_eq_of_lt (by omega)
      have hs2 : (dev.pos % dev.blksz) % U32 = dev.pos % dev.blksz := Nat.mod_eq_of_lt (by omega)
      rw [vioblk_write_loop, if_pos hlt, if_neg hpos]
      simp only [hs1, hs2]
      generalize hthis : (if dev.blksz - dev.pos % dev.blksz < n - total
        then dev.blksz - dev.pos % dev.blksz else n - total) = this
      have hthis_pos : 0 < this := by rw [← hthis]; split_ifs <;> omega
      have hthis_le : this ≤ n - total := by rw [← hthis]; split_ifs <;> omega
      have hthis_le2 : this ≤ dev.blksz - dev.pos % dev.blksz := by rw [← hthis]; split_ifs <;> omega
      generalize hd1 : (if this ≠ dev.blksz then dev.serve_in (dev.pos / dev.blksz) else dev) = dev1
      have d1pos : dev1.pos = dev.pos := by rw [← hd1]; split_ifs <;> rfl
      have d1size : dev1.size = dev.size := by rw [← hd1]; split_ifs <;> rfl
      have d1blksz : dev1.blksz = dev.blksz := by rw [← hd1]; split_ifs <;> rfl
      have d1opened : dev1.opened = dev.opened := by rw [← hd1]; split_ifs <;> rfl
      have d1ro : dev1.readonly = dev.readonly := by rw [← hd1]; split_ifs <;> rfl
      have d1disk : dev1.disk = dev.disk := by rw [← hd1]; split_ifs <;> rfl
      have d1buf : this ≠ dev.blksz → ∀ j, j < dev.blksz →
          dev1.blkbuf j = dev.disk (dev.pos / dev.blksz * dev.blksz + j) := by
        intro hne j hj
        rw [← hd1, if_pos hne]
        simp only [vioblk_device.serve_in, if_pos hj]
      simp only [vioblk_device.serve_out, d1pos, d1blksz, d1disk, d1size, d1opened, d1ro]
      have hU64 : (dev.pos + this) % U64 = dev.pos + this :=
        Nat.mod_eq_of_lt (by unfold U64; omega)
      rw [hU64]
      have key := ih
        { blksz := dev.blksz, pos := dev.pos + this, size := dev.size, opened := dev.opened,
          readonly := dev.readonly,
          blkbuf := memcpy dev1.blkbuf (dev.pos % dev.blksz) buf total this,
          disk := fun a =>
            if dev.pos / dev.blksz * dev.blksz ≤ a ∧ a < dev.pos / dev.blksz * dev.blksz + dev.blksz
            then memcpy dev1.blkbuf (dev.pos % dev.blksz) buf total this
              (a - dev.pos / dev.blksz * dev.blksz)
            else dev.disk a }
        buf n (total + this)
        (by omega) (by omega) hn (by simp only; omega) (by simp only; omega) (by simp only; omega)
      obtain ⟨k1, k2, k3, k4, k5, k6, k7⟩ := key
      refine ⟨k1, ?_, ?_, ?_, ?_, ?_, ?_⟩
      · rw [k2]; simp only; omega
      · rw [k3]
      · rw [k4]
      · rw [k5]
      · rw [k6]
      · rw [k7]
        funext a
        simp only [memcpy]
        generalize hS : dev.pos / dev.blksz * dev.blksz = S at *
        by_cases c1 : dev.pos + this ≤ a ∧ a < dev.pos + this + (n - (total + this))
        · have c2 : dev.pos ≤ a ∧ a < dev.pos + (n - total) := by omega
          rw [if_pos c1, if_pos c2]
          congr 1; omega
        · rw [if_neg c1]
          by_cases c3 : dev.pos ≤ a ∧ a < dev.pos + this
          · have c2 : dev.pos ≤ a ∧ a < dev.pos + (n - total) := by omega
            have c4 : S ≤ a ∧ a < S + dev.blksz := by omega
            have c5 : dev.pos % dev.blksz ≤ a - S ∧ a - S < dev.pos % dev.blksz + this := by omega
            rw [if_pos c4, if_pos c5, if_pos c2]
            congr 1; omega
          · have c2 : ¬ (dev.pos ≤ a ∧ a < dev.pos + (n - total)) := by omega
            rw [if_neg c2]
            by_cases c4 : S ≤ a ∧ a < S + dev.blksz
            · have c5 : ¬ (dev.pos % dev.blksz ≤ a - S ∧ a - S < dev.pos % dev.blksz + this) := by
                omega
              have hne : this ≠ dev.blksz := by omega
              rw [if_pos c4, if_neg c5, d1buf hne _ (by omega)]
              congr 1; omega
            · rw [if_neg c4]
    · have : total = n := by omega
      subst this
      rw [vioblk_write_loop, if_neg hlt]
      refine ⟨toLong_small _ hn, by simp, rfl, rfl, rfl, rfl, ?_⟩
      funext a
      show dev.disk a = _
      rw [if_neg (by omega)]

theorem vioblk_write_block (dev : vioblk_device) (buf : Buf) (off n : Nat)
    (hb : 0 < dev.blksz) (hro : dev.readonly = false) (h1 : off + n ≤ dev.size)
    (h2 : off + n ≤ U32) :
    (vioblk_setpos dev off).2 = 0 ∧
    (vioblk_write (vioblk_setpos dev off).1 buf n).2 = (n : Int) ∧
    (vioblk_write (vioblk_setpos dev off).1 buf n).1.size = dev.size ∧
    (vioblk_write (vioblk_setpos dev off).1 buf n).1.blksz = dev.blksz ∧
    (vioblk_write (vioblk_setpos dev off).1 buf n).1.readonly = dev.readonly ∧
    (vioblk_write (vioblk_setpos dev off).1 buf n).1.disk =
      fun a => if off ≤ a ∧ a < off + n then buf (a - off) else dev.disk a := by
  have hsp : vioblk_setpos dev off = ({ dev with pos := off }, 0) := by
    unfold vioblk_setpos
    rw [if_neg (by omega)]
  rw [hsp]
  have hU : U32 = 4294967296 := by unfold U32; norm_num
  have key := vioblk_write_loop_spec n { dev with pos := off } buf n 0
    (by omega) (by omega) (by omega) hb (by simp only; omega) (by simp only; omega)
  obtain ⟨k1, _, k3, k4, _, k6, k7⟩ := key
  have hw : vioblk_write { dev with pos := off } buf n
      = vioblk_write_loop n { dev with pos := off } buf n 0 := by
    unfold vioblk_write
    simp only [hro, Bool.false_eq_true, if_false]
  rw [hw]
  refine ⟨rfl, k1, k3, k4, k6, ?_⟩
  rw [k7]
  funext a
  simp

theorem data_block_offset_mod (bb : Buf) (d : Nat) : data_block_offset bb d % 4096 = 0 := by
  unfold data_block_offset FS_BLKSZ U32
  omega

theorem fs_write_seek_eq (bb : Buf) (d o : Nat) (ho : o < 4096) :
    (FS_BLKSZ + num_inodes bb * FS_BLKSZ + d * FS_BLKSZ + o) % U32 = data_block_offset bb d + o := by
  unfold data_block_offset FS_BLKSZ U32
  omega

theorem fs_write_loop_spec (fuel : Nat) : ∀ (s : FsState) (buf : Buf) (btw total fp : Nat),
    btw ≤ fuel → 0 < s.blkdev.blksz → s.blkdev.readonly = false → fp + btw ≤ 4096 * 4096 →
    (∀ i, fp ≤ i → i < fp + btw →
      data_block_offset s.boot_block (data_block_num s.inode (i / 4096)) + 4096
        ≤ s.blkdev.size) →
    (∀ i j, fp ≤ i → i < fp + btw → fp ≤ j → j < fp + btw →
      fetch_addr s.boot_block s.inode i = fetch_addr s.boot_block s.inode j → i = j) →
    (fs_write_loop fuel s buf btw total fp).2 = Except.ok (total + btw, fp + btw) ∧
    (fs_write_loop fuel s buf btw total fp).1.inode = s.inode ∧
    (fs_write_loop fuel s buf btw total fp).1.boot_block = s.boot_block ∧
    (fs_write_loop fuel s buf btw total fp).1.file_structs = s.file_structs ∧
    (fs_write_loop fuel s buf btw total fp).1.fs_initialized = s.fs_initialized ∧
    (fs_write_loop fuel s buf btw total fp).1.blkdev.size = s.blkdev.size ∧
    (fs_write_loop fuel s buf btw total fp).1.blkdev.blksz = s.blkdev.blksz ∧
    (fs_write_loop fuel s buf btw total fp).1.blkdev.readonly = s.blkdev.readonly ∧
    (∀ q, fp ≤ q → q < fp + btw →
      (fs_write_loop fuel s buf btw total fp).1.blkdev.disk
        (fetch_addr s.boot_block s.inode q) = buf (total + (q - fp))) ∧
    (∀ a, (∀ q, fp ≤ q → q < fp + btw → fetch_addr s.boot_block s.inode q ≠ a) →
      (fs_write_loop fuel s buf btw total fp).1.blkdev.disk a = s.blkdev.disk a) := by
  induction fuel with
  | zero =>
    intro s buf btw total fp hf _ _ _ _ _
    have : btw = 0 := by omega
    subst this
    refine ⟨rfl, rfl, rfl, rfl, rfl, rfl, rfl, rfl, ?_, ?_⟩
    · intro q h1 h2; omega
    · intro a _; rfl
  | succ fuel ih =>
    intro s buf btw total fp hf hb hro hfp hdev hinj
    have hU : U32 = 4294967296 := by unfold U32; norm_num
    have hB : FS_BLKSZ = 4096 := rfl
    have hi1 : (fp / 4096) % U32 = fp / 4096 := by rw [hU]; omega
    have hi2 : (fp % 4096) % U32 = fp % 4096 := by rw [hU]; omega
    by_cases hbtw : btw > 0
    · have hidx : ¬ fp / 4096 ≥ 4096 := by omega
      have hoff := hdev fp (le_refl _) (by omega)
      have hbound := data_block_offset_bound s.boot_block (data_block_num s.inode (fp / 4096))
      have hmod0 := data_block_offset_mod s.boot_block (data_block_num s.inode (fp / 4096))
      generalize hthis : (if btw < 4096 - fp % 4096 then btw else 4096 - fp % 4096) = this
      have hthis_pos : 0 < this := by rw [← hthis]; split_ifs <;> omega
      have hthis_le : this ≤ btw := by rw [← hthis]; split_ifs <;> omega
      have hthis_le2 : this ≤ 4096 - fp % 4096 := by rw [← hthis]; split_ifs <;> omega
      have hseek := fs_write_seek_eq s.boot_block (data_block_num s.inode (fp / 4096))
        (fp % 4096) (by omega)
      rw [hB] at hseek
      have hwr := vioblk_write_block s.blkdev (memcpy s.data_block 0 buf total this)
        (data_block_offset s.boot_block (data_block_num s.inode (fp / 4096)) + fp % 4096) this
        hb hro (by omega) (by omega)
      obtain ⟨w1, w2, w3, w4, w5, w6⟩ := hwr
      rw [fs_write_loop, if_pos hbtw]
      simp only [hB, hi1, hi2, if_neg hidx, hseek, hthis, w1, w2, ne_eq, not_true_eq_false,
        if_false]
      have hU64 : (fp + this) % U64 = fp + this := Nat.mod_eq_of_lt (by unfold U64; omega)
      rw [hU64]
      have key := ih
        { s with
          blkdev := (vioblk_write (vioblk_setpos s.blkdev
            (data_block_offset s.boot_block (data_block_num s.inode (fp / 4096)) + fp % 4096)).1
            (memcpy s.data_block 0 buf total this) this).1,
          data_block := memcpy s.data_block 0 buf total this }
        buf (btw - this) (total + this) (fp + this)
        (by omega) (by simp only; rw [w4]; exact hb) (by simp only; rw [w5]; exact hro)
        (by omega)
        (by
          intro i h1 h2
          simp only
          rw [w3]
          exact hdev i (by omega) (by omega))
        (by
          intro i j h1 h2 h3 h4 h5
          exact hinj i j (by omega) (by omega) (by omega) (by omega) h5)
      obtain ⟨k1, k2, k3, k4, k5, k6, k7, k8, k9, k10⟩ := key
      simp only at k9 k10
      have haddr : ∀ q, fp ≤ q → q < fp + this →
          fetch_addr s.boot_block s.inode q
            = data_block_offset s.boot_block (data_block_num s.inode (fp / 4096)) + fp % 4096
              + (q - fp) := by
        intro q h1 h2
        unfold fetch_addr
        rw [hB]
        have e1 : q / 4096 = fp / 4096 := by omega
        rw [e1]
        omega
      refine ⟨?_, k2, k3, k4, k5, ?_, ?_, ?_, ?_, ?_⟩
      · rw [k1]; congr 2 <;> omega
      · rw [k6]; exact w3
      · rw [k7]; exact w4
      · rw [k8]; exact w5
      · intro q h1 h2
        by_cases c : q < fp + this
        · rw [k10 _ (by
            intro q2 h3 h4 h5
            have := hinj q2 q (by omega) (by omega) h1 h2 h5
            omega)]
          rw [w6, haddr q h1 c]
          simp only [memcpy]
          rw [if_pos (by omega), if_pos (by omega)]
          congr 1; omega
        · rw [k9 q (by omega) (by omega)]
          congr 1; omega
      · intro a ha
        rw [k10 a (by intro q h3 h4; exact ha q (by omega) (by omega))]
        rw [w6]
        by_cases c : data_block_offset s.boot_block (data_block_num s.inode (fp / 4096))
            + fp % 4096 ≤ a ∧ a < data_block_offset s.boot_block
              (data_block_num s.inode (fp / 4096)) + fp % 4096 + this
        · exfalso
          apply ha (fp + (a - (data_block_offset s.boot_block
            (data_block_num s.inode (fp / 4096)) + fp % 4096))) (by omega) (by omega)
          rw [haddr _ (by omega) (by omega)]
          omega
        · simp only [if_neg c]
    · have : btw = 0 := by omega
      subst this
      rw [fs_write_loop, if_neg hbtw]
      refine ⟨rfl, rfl, rfl, rfl, rfl, rfl, rfl, rfl, ?_, ?_⟩
      · intro q h1 h2; omega
      · intro a _; rfl

theorem fetch_addr_congr (bb a b : Buf) (q : Nat) (hq : q / 4096 < 1023)
    (h : ∀ j, j < 4096 → a j = b j) : fetch_addr bb a q = fetch_addr bb b q := by
  unfold fetch_addr
  have hB : FS_BLKSZ = 4096 := rfl
  rw [hB, data_block_num_prefix a b _ hq h]

/-- What `fs_write` does on an open file when the bytes fit before the end of
the file. -/
theorem fs_write_inside (s : FsState) (fd : Nat) (data : Buf) (k : Nat) (file : file_struct)
    (hfile : s.file_structs fd = file)
    (hinit : s.fs_initialized = true)
    (hopen : file.flags ≠ 0)
    (hblk : 0 < s.blkdev.blksz)
    (hro : s.blkdev.readonly = false)
    (hp : file.file_position < file.file_size)
    (hk : file.file_position + k ≤ file.file_size)
    (hsz : file.file_size ≤ 1023 * 4096)
    (hino : inode_offset file.inode_number + 4096 ≤ s.blkdev.size)
    (hdata : ∀ i, i < file.file_size →
      data_block_offset s.boot_block (data_block_num (disk_inode s fd) (i / FS_BLKSZ)) + 4096
        ≤ s.blkdev.size)
    (hinj : ∀ i j, i < file.file_size → j < file.file_size →
      fetch_addr s.boot_block (disk_inode s fd) i
        = fetch_addr s.boot_block (disk_inode s fd) j → i = j) :
    ∃ s2 : FsState,
      fs_write s (some fd) (some data) k =
        ((k : Int),
         { s2 with
           file_structs := Function.update s.file_structs fd
             { file with file_position := file.file_position + k } }) ∧
      s2.blkdev.size = s.blkdev.size ∧
      s2.blkdev.blksz = s.blkdev.blksz ∧ s2.blkdev.readonly = s.blkdev.readonly ∧
      s2.boot_block = s.boot_block ∧
      s2.fs_initialized = s.fs_initialized ∧
      (∀ q, file.file_position ≤ q → q < file.file_position + k →
        s2.blkdev.disk (fetch_addr s.boot_block (disk_inode s fd) q)
          = data (q - file.file_position)) ∧
      (∀ a, (∀ q, file.file_position ≤ q → q < file.file_position + k →
          fetch_addr s.boot_block (disk_inode s fd) q ≠ a) →
        s2.blkdev.disk a = s.blkdev.disk a) := by
  have hdi : disk_inode s fd = fun j => s.blkdev.disk (inode_offset file.inode_number + j) := by
    unfold disk_inode; rw [hfile]
  have hB : FS_BLKSZ = 4096 := rfl
  have hU64 : U64 = 2 ^ 64 := rfl
  obtain ⟨r1, r2, _, r4, r5, r6, _, r8, r9⟩ := vioblk_read_block s.blkdev s.inode
    (inode_offset file.inode_number) hblk hino (inode_offset_bound _)
  have hn1 : (if (file.file_position + k) % U64 > file.file_size
      then file.file_size - file.file_position else k) = k := by
    rw [Nat.mod_eq_of_lt (by rw [hU64]; omega)]
    split_ifs <;> omega
  have hpre : ∀ j, j < 4096 →
      (vioblk_read (vioblk_setpos s.blkdev (inode_offset file.inode_number)).1 s.inode 4096).2.1 j
        = disk_inode s fd j := by
    intro j hj
    rw [r9, hdi]
    simp only [if_pos hj]
  have haddr : ∀ q, q < file.file_size →
      fetch_addr s.boot_block
        (vioblk_read (vioblk_setpos s.blkdev (inode_offset file.inode_number)).1 s.inode 4096).2.1 q
      = fetch_addr s.boot_block (disk_inode s fd) q := by
    intro q hq
    exact fetch_addr_congr _ _ _ q (by omega) hpre
  have key := fs_write_loop_spec k
    { s with
      blkdev := (vioblk_read (vioblk_setpos s.blkdev
        (inode_offset file.inode_number)).1 s.inode 4096).1,
      inode := (vioblk_read (vioblk_setpos s.blkdev
        (inode_offset file.inode_number)).1 s.inode 4096).2.1 }
    data k 0 file.file_position (le_refl _)
    (by simp only; rw [r5]; exact hblk) (by simp only; rw [r8]; exact hro) (by omega)
    (by
      intro i h1 h2
      simp only
      rw [r4, data_block_num_prefix _ _ (i / 4096) (by omega) hpre]
      exact hdata i (by omega))
    (by
      intro i j h1 h2 h3 h4 h5
      simp only at h5
      rw [haddr i (by omega), haddr j (by omega)] at h5
      exact hinj i j (by omega) (by omega) h5)
  obtain ⟨k1, k2, k3, k4, k5, k6, k7, k8, k9, k10⟩ := key
  simp only at k1 k2 k3 k4 k5 k6 k7 k8 k9 k10
  rcases hres : fs_write_loop k
    { s with
      blkdev := (vioblk_read (vioblk_setpos s.blkdev
        (inode_offset file.inode_number)).1 s.inode 4096).1,
      inode := (vioblk_read (vioblk_setpos s.blkdev
        (inode_offset file.inode_number)).1 s.inode 4096).2.1 }
    data k 0 file.file_position with ⟨s2, o⟩
  rw [hres] at k1 k2 k3 k4 k5 k6 k7 k8 k9 k10
  simp only at k1 k2 k3 k4 k5 k6 k7 k8 k9 k10
  refine ⟨s2, ?_, by rw [k6, r4], by rw [k7, r5], by rw [k8, r8], k3, k5, ?_, ?_⟩
  · subst k1
    rw [hinit] at hres
    unfold fs_write
    simp only [hfile, if_neg hopen, hinit, if_neg (not_le.mpr hp), r1, r2, hn1, hres, k4,
      Bool.not_true, Bool.false_eq_true, if_false, ne_eq, not_true_eq_false, ge_iff_le]
    rw [Nat.zero_add, toLong_small k (by omega)]
  · intro q h1 h2
    have := k9 q h1 h2
    rw [haddr q (by omega)] at this
    rw [this]
    congr 1; omega
  · intro a ha
    have := k10 a (by
      intro q h1 h2
      rw [haddr q (by omega)]
      exact ha q h1 h2)
    rw [this, r6]

theorem inode_offset_mod (n : Nat) : inode_offset n % 4096 = 0 := by
  unfold inode_offset FS_BLKSZ U32
  omega

/-- C2: for an open file on a writable device, a position `p` and `k` bytes with
`p + k <= file_size` (the inode mapping the block indices of the file to
distinct data blocks on the device, none of them the inode block), `fs_write`
of the `k` bytes at `p` returns `k` and leaves `file_size` unchanged, the
following `SETPOS(p)` succeeds, and the following `fs_read` of `k` bytes
returns `k` and delivers exactly the bytes written. -/
theorem fs_write_then_read (s : FsState) (fd : Nat) (data buf : Buf) (k : Nat)
    (hinit : s.fs_initialized = true)
    (hopen : (s.file_structs fd).flags ≠ 0)
    (hblk : 0 < s.blkdev.blksz)
    (hro : s.blkdev.readonly = false)
    (hk : (s.file_structs fd).file_position + k ≤ (s.file_structs fd).file_size)
    (hsz : (s.file_structs fd).file_size ≤ 1023 * 4096)
    (hino : inode_offset (s.file_structs fd).inode_number + 4096 ≤ s.blkdev.size)
    (hdata : ∀ b, b * 4096 < (s.file_structs fd).file_size →
      data_block_offset s.boot_block (data_block_num (disk_inode s fd) b) + 4096
        ≤ s.blkdev.size)
    (hinj : ∀ b1 b2, b1 * 4096 < (s.file_structs fd).file_size →
      b2 * 4096 < (s.file_structs fd).file_size →
      data_block_offset s.boot_block (data_block_num (disk_inode s fd) b1)
        = data_block_offset s.boot_block (data_block_num (disk_inode s fd) b2) → b1 = b2)
    (hsep : ∀ b, b * 4096 < (s.file_structs fd).file_size →
      data_block_offset s.boot_block (data_block_num (disk_inode s fd) b)
        ≠ inode_offset (s.file_structs fd).inode_number) :
    (fs_write s (some fd) (some data) k).1 = (k : Int) ∧
    ((fs_write s (some fd) (some data) k).2.file_structs fd).file_size
      = (s.file_structs fd).file_size ∧
    (fs_ioctl (fs_write s (some fd) (some data) k).2 fd IOCTL_SETPOS
      (some (s.file_structs fd).file_position)).1 = 0 ∧
    (fs_read (fs_ioctl (fs_write s (some fd) (some data) k).2 fd IOCTL_SETPOS
      (some (s.file_structs fd).file_position)).2.1 (some fd) (some buf) k).1 = (k : Int) ∧
    (fs_read (fs_ioctl (fs_write s (some fd) (some data) k).2 fd IOCTL_SETPOS
      (some (s.file_structs fd).file_position)).2.1 (some fd) (some buf) k).2.2
      = some (fun j => if j < k then data j else buf j) := by
  have hB : FS_BLKSZ = 4096 := rfl
  generalize hfile : s.file_structs fd = file at *
  have hcmd1 : ¬ IOCTL_SETPOS = IOCTL_GETLEN := by decide
  have hcmd2 : ¬ IOCTL_SETPOS = IOCTL_GETPOS := by decide
  -- the state after the write, in both cases
  have hw : ∃ s2 : FsState, ∃ k2 : Nat,
      fs_write s (some fd) (some data) k = ((k : Int), s2) ∧
      s2.file_structs fd = { file with file_position := file.file_position + k2 } ∧
      s2.blkdev.size = s.blkdev.size ∧ s2.blkdev.blksz = s.blkdev.blksz ∧
      s2.boot_block = s.boot_block ∧ s2.fs_initialized = true ∧
      (∀ q, file.file_position ≤ q → q < file.file_position + k →
        s2.blkdev.disk (fetch_addr s.boot_block (disk_inode s fd) q)
          = data (q - file.file_position)) ∧
      (∀ a, (∀ q, file.file_position ≤ q → q < file.file_position + k →
          fetch_addr s.boot_block (disk_inode s fd) q ≠ a) →
        s2.blkdev.disk a = s.blkdev.disk a) := by
    by_cases hlt : file.file_position < file.file_size
    · obtain ⟨s2, h1, h2, h3, _, h5, h6, h7, h8⟩ := fs_write_inside s fd data k file hfile hinit
        hopen hblk hro hlt hk hsz hino
        (by
          intro i hi
          rw [hB]
          exact hdata (i / 4096) (by omega))
        (by
          intro i j hi hj h
          unfold fetch_addr at h
          rw [hB] at h
          have m1 := data_block_offset_mod s.boot_block
            (data_block_num (disk_inode s fd) (i / 4096))
          have m2 := data_block_offset_mod s.boot_block
            (data_block_num (disk_inode s fd) (j / 4096))
          have e := hinj (i / 4096) (j / 4096) (by omega) (by omega) (by omega)
          omega)
      refine ⟨_, k, h1, ?_, h2, h3, h5, ?_, h7, h8⟩
      · simp only [Function.update_same]
      · simp only; rw [h6, hinit]
    · have hk0 : k = 0 := by omega
      subst hk0
      refine ⟨s, 0, ?_, ?_, rfl, rfl, rfl, hinit, ?_, ?_⟩
      · unfold fs_write
        simp only [hfile, if_neg hopen, hinit, Bool.not_true, Bool.false_eq_true, if_false,
          ge_iff_le, if_pos (not_lt.mp hlt)]
        rfl
      · rw [hfile]; rfl
      · intro q h1 h2; omega
      · intro a _; rfl
  obtain ⟨s2, k2, w1, w2, w3, w4, w5, w6, w7, w8⟩ := hw
  rw [w1]
  simp only
  -- the SETPOS ioctl
  have hio : fs_ioctl s2 fd IOCTL_SETPOS (some file.file_position)
      = (0, { s2 with file_structs := Function.update s2.file_structs fd file },
          some file.file_position) := by
    unfold fs_ioctl
    simp only [w2, if_neg hopen, if_neg hcmd1, if_neg hcmd2, if_true, fs_setpos]
    rw [if_neg (by omega)]
  rw [hio]
  simp only
  refine ⟨trivial, ?_, trivial, ?_⟩
  · rw [w2]
  -- the inode block is untouched by the write
  have hinode : ∀ j, j < 4096 →
      s2.blkdev.disk (inode_offset file.inode_number + j)
        = s.blkdev.disk (inode_offset file.inode_number + j) := by
    intro j hj
    apply w8
    intro q h1 h2 h3
    unfold fetch_addr at h3
    rw [hB] at h3
    have m1 := data_block_offset_mod s.boot_block (data_block_num (disk_inode s fd) (q / 4096))
    have m2 := inode_offset_mod file.inode_number
    have := hsep (q / 4096) (by omega)
    omega
  have hdi : ∀ j, j < 4096 →
      disk_inode { s2 with file_structs := Function.update s2.file_structs fd file } fd j
        = disk_inode s fd j := by
    intro j hj
    unfold disk_inode
    simp only [Function.update_same, hfile]
    exact hinode j hj
  have hrd := fs_read_fetches
    { s2 with file_structs := Function.update s2.file_structs fd file } fd buf k
    w6 (by simp only [Function.update_same]; exact hopen) (by simp only; rw [w4]; exact hblk)
    (by simp only [Function.update_same]; omega) (by simp only [Function.update_same]; exact hsz)
    (by simp only [Function.update_same]; omega)
    (by simp only [Function.update_same]; rw [w3]; exact hino)
    (by
      intro i hi
      simp only [Function.update_same] at hi
      simp only
      rw [hB, data_block_num_prefix _ _ (i / 4096) (by omega) hdi, w3, w5]
      exact hdata (i / 4096) (by omega))
  obtain ⟨g1, g2, _, _⟩ := hrd
  simp only [Function.update_same] at g1 g2
  have hmin : min k (file.file_size - file.file_position) = k := by omega
  rw [hmin] at g1 g2
  refine ⟨g1, ?_⟩
  rw [g2]
  congr 1
  funext j
  by_cases c : j < k
  · rw [if_pos c, if_pos c]
    unfold fetch_byte
    simp only
    rw [fetch_addr_congr _ _ (disk_inode s fd) _ (by omega) hdi, w5]
    rw [w7 _ (by omega) (by omega)]
    congr 1; omega
  · rw [if_neg c, if_neg c]

/-- Instance of `fs_write_then_read` on the sample image: three bytes written
at position 2 and read back. -/
theorem fs_write_then_read_witness :
    (fs_write sampleFs (some 0) (some (fun j => 200 + j)) 3).1 = 3 ∧
    (fs_read (fs_ioctl (fs_write sampleFs (some 0) (some (fun j => 200 + j)) 3).2 0 IOCTL_SETPOS
      (some 2)).2.1 (some 0) (some (fun _ => 7)) 3).2.2
      = some (fun j => if j < 3 then 200 + j else 7) := by
  have hb0 : ∀ b : Nat, b * 4096 < (sampleFs.file_structs 0).file_size → b = 0 := by
    intro b hb
    have : b * 4096 < 10 := hb
    omega
  have h := fs_write_then_read sampleFs 0 (fun j => 200 + j) (fun _ => 7) 3 rfl (by decide)
    (by decide) rfl (by decide) (by decide) (by decide)
    (by intro b hb; rw [hb0 b hb]; decide)
    (by intro b1 b2 h1 h2 _; rw [hb0 b1 h1, hb0 b2 h2])
    (by intro b hb; rw [hb0 b hb]; decide)
  exact ⟨h.1, h.2.2.2.2⟩

/-- What `fs_read` does when `file_position + n` wraps around `2^64`: the byte
count is not clamped and the loop runs until block index 4096. -/
theorem fs_read_unclamped (s : FsState) (fd : Nat) (buf : Buf) (n : Nat) (file : file_struct)
    (hfile : s.file_structs fd = file)
    (hinit : s.fs_initialized = true)
    (hopen : file.flags ≠ 0)
    (hblk : 0 < s.blkdev.blksz)
    (hp : file.file_position < file.file_size)
    (hp2 : file.file_position ≤ 4096 * 4096)
    (hwrap : (file.file_position + n) % U64 ≤ file.file_size)
    (hbig : 4096 * 4096 - file.file_position ≤ n)
    (hino : inode_offset file.inode_number + 4096 ≤ s.blkdev.size)
    (hdev : ∀ b, b < 4096 →
      data_block_offset s.boot_block
        (data_block_num (fun i => if i < 4096
          then s.blkdev.disk (inode_offset file.inode_number + i) else s.inode i) b) + 4096
        ≤ s.blkdev.size) :
    (fs_read s (some fd) (some buf) n).1 = ((4096 * 4096 - file.file_position : Nat) : Int) ∧
    ((fs_read s (some fd) (some buf) n).2.1.file_structs fd).file_position = 4096 * 4096 ∧
    ((fs_read s (some fd) (some buf) n).2.1.file_structs fd).file_size = file.file_size := by
  obtain ⟨r1, r2, _, r4, r5, r6, _, _, r9⟩ := vioblk_read_block s.blkdev s.inode
    (inode_offset file.inode_number) hblk hino (inode_offset_bound _)
  have hn1 : (if (file.file_position + n) % U64 > file.file_size
      then file.file_size - file.file_position else n) = n := by
    rw [if_neg (by omega)]
  have key := fs_read_loop_spec n
    { s with
      blkdev := (vioblk_read (vioblk_setpos s.blkdev
        (inode_offset file.inode_number)).1 s.inode 4096).1,
      inode := (vioblk_read (vioblk_setpos s.blkdev
        (inode_offset file.inode_number)).1 s.inode 4096).2.1 }
    buf n 0 file.file_position (4096 * 4096 - file.file_position) (le_refl _)
    (by simp only; rw [r5]; exact hblk) hp2 (by omega)
    (by
      intro i h1 h2
      simp only
      rw [r4, r9]
      exact hdev (i / 4096) (by omega))
  obtain ⟨k1, k2, k3, k4, k5, k6, k7, k8, k9⟩ := key
  rcases hres : fs_read_loop n
    { s with
      blkdev := (vioblk_read (vioblk_setpos s.blkdev
        (inode_offset file.inode_number)).1 s.inode 4096).1,
      inode := (vioblk_read (vioblk_setpos s.blkdev
        (inode_offset file.inode_number)).1 s.inode 4096).2.1 }
    buf n 0 file.file_position with ⟨s2, b2, o⟩
  rw [hres] at k1 k2 k3 k4 k5 k6 k7 k8 k9
  simp only at k1 k4
  subst k1
  rw [hinit] at hres
  have hfr : fs_read s (some fd) (some buf) n =
      (toLong (0 + (4096 * 4096 - file.file_position)),
       { s2 with
         file_structs := Function.update s2.file_structs fd
           { file with file_position := file.file_position + (4096 * 4096 - file.file_position) } },
       some b2) := by
    unfold fs_read
    simp only [hfile, if_neg hopen, hinit, if_neg (not_le.mpr hp), r1, r2, hn1, hres,
      Bool.not_true, Bool.false_eq_true, if_false, ne_eq, not_true_eq_false, ge_iff_le]
  rw [hfr]
  refine ⟨?_, ?_, ?_⟩
  · show toLong (0 + (4096 * 4096 - file.file_position)) = _
    rw [Nat.zero_add, toLong_small _ (by omega)]
  · simp only [Function.update_same]; omega
  · simp only [Function.update_same]

/-- C3 (failing input): on the sample image the open file has
`file_position = 2 <= file_size = 10`; `fs_read` with the byte count `2^64 - 1`
passes the end-of-file clamp because `file_position + n` wraps around, returns
16777214 and leaves `file_position = 16777216 > file_size`. -/
theorem fs_read_overflow_breaks_invariant :
    (sampleFs.file_structs 0).file_position ≤ (sampleFs.file_structs 0).file_size ∧
    ((fs_read sampleFs (some 0) (some (fun _ => 0)) (2 ^ 64 - 1)).2.1.file_structs 0).file_position
      = 16777216 ∧
    ((fs_read sampleFs (some 0) (some (fun _ => 0)) (2 ^ 64 - 1)).2.1.file_structs 0).file_size
      = 10 ∧
    (fs_read sampleFs (some 0) (some (fun _ => 0)) (2 ^ 64 - 1)).1 = 16777214 := by
  have hd : ∀ b, data_block_num (fun i => if i < 4096
      then sampleFs.blkdev.disk (inode_offset (sampleFs.file_structs 0).inode_number + i)
      else sampleFs.inode i) b = 0 := by
    intro b
    have hio : inode_offset (sampleFs.file_structs 0).inode_number = 4096 := by decide
    rw [hio]
    have hz : ∀ j, 1 ≤ j → (if j < 4096 then sampleFs.blkdev.disk (4096 + j)
        else sampleFs.inode j) = 0 := by
      intro j hj
      show (if j < 4096 then sampleDisk (4096 + j) else 0) = 0
      unfold sampleDisk
      split_ifs <;> omega
    unfold data_block_num u32le
    simp only
    rw [hz _ (by omega), hz _ (by omega), hz _ (by omega), hz _ (by omega)]
  have h := fs_read_unclamped sampleFs 0 (fun _ => 0) (2 ^ 64 - 1) (sampleFs.file_structs 0) rfl
    rfl (by decide) (by decide) (by decide) (by decide) (by decide) (by decide) (by decide)
    (by intro b _; rw [hd b]; decide)
  exact ⟨by decide, h.2.1, h.2.2, h.1⟩

/-! ## Theorems: memory manager -/

/-- C4 (failing input): in the sample address space only the user page
`0xC0000000` is mapped.  The range `[0xC0000FFF, 0xC0001001)` contains the byte
`0xC0001000` of the next page, whose entry is not valid, and yet
`memory_validate_vptr_len(0xC0000FFF, 2, R|U)` returns 0: the loop starts at the
unrounded pointer and steps over the second page. -/
theorem validate_vptr_len_misses_page :
    memory_validate_vptr_len sampleSpace 0xC0000FFF 2 (PTE_R ||| PTE_U) = some 0 ∧
    (0xC0000FFF ≤ 0xC0001000 ∧ 0xC0001000 < 0xC0000FFF + 2) ∧
    pte_flags (sampleSpace.mem
      (walk_pt_lookup sampleSpace (active_space_root sampleSpace) 0xC0001000)) &&& PTE_V = 0 := by
  decide

/-- C5 (failing input): in the sample address space the user address
`0xC0001000` is not mapped, so validation of a 4-byte output range there fails;
`sysnumprograms(0xC0001000)` nevertheless stores `num_inodes` through the
pointer and returns 0, not `-EINVAL`. -/
theorem sysnumprograms_skips_validation :
    memory_validate_vptr_len sampleSpace 0xC0001000 4 (PTE_W ||| PTE_U) = some (-1) ∧
    sysnumprograms sampleFs 0xC0001000
      = (0, [{ addr := 0xC0001000, width := 4, value := 1 }]) ∧
    (0 : Int) ≠ -EINVAL := by
  decide

/-- C7 (failing input): in the sample address space
`memory_alloc_and_map_range(0xC0001000, 4097, R|U)` returns the non-null pointer
`0xC0001000` after mapping `4097 / 4096 = 1` page, and the immediately following
`memory_validate_vptr_len(0xC0001000, 4097, R|U)` returns -1 because the second
page of the range was never mapped; with size 100 no page at all is mapped. -/
theorem alloc_range_then_validate_fails :
    (memory_alloc_and_map_range sampleSpace 0xC0001000 4097 (PTE_R ||| PTE_U)).val
      = some 0xC0001000 ∧
    memory_validate_vptr_len
      (memory_alloc_and_map_range sampleSpace 0xC0001000 4097 (PTE_R ||| PTE_U)).state
      0xC0001000 4097 (PTE_R ||| PTE_U) = some (-1) ∧
    (memory_alloc_and_map_range sampleSpace 0xC0001000 100 (PTE_R ||| PTE_U)).val
      = some 0xC0001000 ∧
    memory_validate_vptr_len
      (memory_alloc_and_map_range sampleSpace 0xC0001000 100 (PTE_R ||| PTE_U)).state
      0xC0001000 100 (PTE_R ||| PTE_U) = some (-1) := by
  decide


theorem init_free_loop_below (ram_end : Nat) (fuel : Nat) :
    ∀ (pp : Nat) (st : MemState) (a : Nat), a < pp →
      (init_free_loop ram_end fuel pp st).mem a = st.mem a := by
  induction fuel with
  | zero => intro pp st a _; rfl
  | succ fuel ih =>
    intro pp st a ha
    rw [init_free_loop]
    by_cases c : pp < ram_end
    · rw [if_pos c, ih (pp + PAGE_SIZE) _ a (by omega)]
      simp only [store]
      rw [if_neg (by omega)]
    · rw [if_neg c]

theorem memory_init_free_list_self_loop (st : MemState) (heap_end ram_end : Nat)
    (h : heap_end < ram_end) :
    (memory_init_free_list st heap_end ram_end).mem heap_end = heap_end := by
  unfold memory_init_free_list
  have hf : (ram_end - heap_end + (PAGE_SIZE - 1)) / PAGE_SIZE
      = ((ram_end - heap_end + (PAGE_SIZE - 1)) / PAGE_SIZE - 1) + 1 := by
    unfold PAGE_SIZE; omega
  rw [hf, init_free_loop, if_pos h, init_free_loop_below _ _ _ _ _ (by unfold PAGE_SIZE; omega)]
  simp [store]

theorem init_free_loop_closed (heap_end ram_end : Nat) (fuel : Nat) :
    ∀ (j : Nat) (st : MemState), PoolClosed heap_end j st →
      ∃ J, j ≤ J ∧
        PoolClosed heap_end J (init_free_loop ram_end fuel (heap_end + 4096 * j) st) := by
  induction fuel with
  | zero => intro j st h; exact ⟨j, le_refl _, h⟩
  | succ fuel ih =>
    intro j st h
    rw [init_free_loop]
    by_cases c : heap_end + 4096 * j < ram_end
    · rw [if_pos c]
      have hstep : PoolClosed heap_end (j + 1)
          { st with mem := store st.mem (heap_end + 4096 * j) st.free_list,
                    free_list := heap_end + 4096 * j } := by
        obtain ⟨⟨i0, hi0, hf⟩, hm⟩ := h
        refine ⟨⟨j, by omega, rfl⟩, ?_⟩
        intro i hi
        by_cases e : i = j
        · subst e
          refine ⟨i0, by omega, ?_⟩
          simp only [store, if_true]
          exact hf
        · obtain ⟨i2, hi2, hm2⟩ := hm i (by omega)
          refine ⟨i2, by omega, ?_⟩
          simp only [store]
          rw [if_neg (by omega)]
          exact hm2
      obtain ⟨J, hJ, hc⟩ := ih (j + 1) _ hstep
      have e : heap_end + 4096 * j + PAGE_SIZE = heap_end + 4096 * (j + 1) := by
        unfold PAGE_SIZE; omega
      rw [e]
      exact ⟨J, by omega, hc⟩
    · rw [if_neg c]
      exact ⟨j, le_refl _, h⟩

theorem memory_init_free_list_closed (st : MemState) (heap_end ram_end : Nat)
    (h : heap_end < ram_end) :
    ∃ J, PoolClosed heap_end J (memory_init_free_list st heap_end ram_end) := by
  unfold memory_init_free_list
  have hf : (ram_end - heap_end + (PAGE_SIZE - 1)) / PAGE_SIZE
      = ((ram_end - heap_end + (PAGE_SIZE - 1)) / PAGE_SIZE - 1) + 1 := by
    unfold PAGE_SIZE; omega
  rw [hf, init_free_loop, if_pos h]
  have h1 : PoolClosed heap_end 1
      { mem := store st.mem heap_end heap_end, free_list := heap_end, satp := st.satp } := by
    refine ⟨⟨0, by omega, rfl⟩, ?_⟩
    intro i hi
    have : i = 0 := by omega
    subst this
    exact ⟨0, by omega, by simp [store]⟩
  obtain ⟨J, _, hc⟩ := init_free_loop_closed heap_end ram_end
    ((ram_end - heap_end + (PAGE_SIZE - 1)) / PAGE_SIZE - 1) 1 _ h1
  have e : heap_end + PAGE_SIZE = heap_end + 4096 * 1 := by unfold PAGE_SIZE; omega
  rw [e]
  exact ⟨J, hc⟩

theorem pool_closed_chain (heap_end J : Nat) (st : MemState) (h0 : 0 < heap_end)
    (h : PoolClosed heap_end J st) : ∀ n, Nat.iterate st.mem n st.free_list ≠ 0 := by
  have key : ∀ n, ∃ i, i < J ∧ Nat.iterate st.mem n st.free_list = heap_end + 4096 * i := by
    intro n
    induction n with
    | zero => exact h.1
    | succ n ih =>
      obtain ⟨i, hi, e⟩ := ih
      obtain ⟨i2, hi2, e2⟩ := h.2 i hi
      refine ⟨i2, hi2, ?_⟩
      rw [Function.iterate_succ_apply', e, e2]
  intro n
  obtain ⟨i, _, e⟩ := key n
  omega

/-- C10 (failing input): `memory_init` starts the list with
`free_list = heap_end` instead of NULL, so the first page linked points to
itself.  With `[heap_end, RAM_END) = [0x80100000, 0x80800000)` the word at
`heap_end` is `heap_end` and following the links from `free_list` never reaches
NULL; with a two-page pool the third `memory_alloc_page` does not panic but
hands out the page the second one already returned. -/
theorem memory_init_free_list_not_null_terminated :
    bootPool.mem 0x80100000 = 0x80100000 ∧
    (∀ n, Nat.iterate bootPool.mem n bootPool.free_list ≠ 0) ∧
    (memory_alloc_page twoPagePool).val = some 0x80101000 ∧
    (memory_alloc_page (memory_alloc_page twoPagePool).state).val = some 0x80100000 ∧
    (memory_alloc_page (memory_alloc_page (memory_alloc_page twoPagePool).state).state).val
      = some 0x80100000 := by
  refine ⟨?_, ?_, by decide, by decide, by decide⟩
  · unfold bootPool
    exact memory_init_free_list_self_loop
      { mem := fun _ => 0, free_list := 0, satp := 0 } 0x80100000 0x80800000 (by norm_num)
  · unfold bootPool
    obtain ⟨J, hJ⟩ := memory_init_free_list_closed
      { mem := fun _ => 0, free_list := 0, satp := 0 } 0x80100000 0x80800000 (by norm_num)
    exact pool_closed_chain 0x80100000 J _ (by norm_num) hJ

/-! ## Theorems: page-table walks in a well-formed address space -/

theorem pte_flags_set_flags (w f : Nat) : pte_flags (pte_set_flags w f) = f % 256 := by
  unfold pte_flags pte_set_flags; omega
theorem pte_ppn_set_flags (w f : Nat) : pte_ppn (pte_set_flags w f) = pte_ppn w := by
  unfold pte_ppn pte_set_flags; omega
theorem pte_ppn_set_ppn (w p : Nat) : pte_ppn (pte_set_ppn w p) = p % 2 ^ 44 := by
  unfold pte_ppn pte_set_ppn; omega
theorem pte_flags_set_ppn (w p : Nat) : pte_flags (pte_set_ppn w p) = pte_flags w := by
  unfold pte_flags pte_set_ppn; omega
theorem pte_flags_mk (f p : Nat) : pte_flags (mk_pte f p) = f % 256 := by
  unfold pte_flags mk_pte; omega
theorem pte_ppn_mk (f p : Nat) : pte_ppn (mk_pte f p) = p % 2 ^ 44 := by
  unfold pte_ppn mk_pte; omega
theorem page_target_eq (p : Nat) (h1 : p % 4096 = 0) (h2 : p < 2 ^ 56) :
    ((p / 2 ^ PAGE_ORDER) % 2 ^ 44) * 2 ^ PAGE_ORDER = p := by
  unfold PAGE_ORDER; omega


theorem walk_level_no_create (st : MemState) (pt idx : Nat) :
    walk_level st pt idx false = Res.ok (next_table st.mem pt idx) st := by
  unfold walk_level next_table pte_valid pte_rwx
  by_cases h1 : pt ≠ 0 ∧ pte_flags (st.mem (pt + 8 * idx)) &&& PTE_V ≠ 0
  · by_cases h2 : pte_flags (st.mem (pt + 8 * idx)) &&& (PTE_R ||| PTE_W ||| PTE_X) ≠ 0
    · simp only [if_pos h1, if_pos h2]
      rw [if_neg (by tauto)]
    · simp only [if_pos h1, if_neg h2]
      rw [if_pos (by tauto)]
      rfl
  · have h3 : ¬ (pt ≠ 0 ∧ pte_flags (st.mem (pt + 8 * idx)) &&& PTE_V ≠ 0 ∧
        ¬ pte_flags (st.mem (pt + 8 * idx)) &&& (PTE_R ||| PTE_W ||| PTE_X) ≠ 0) := by tauto
    rw [if_neg h1, if_neg h3]
    rfl

theorem walk_pt_no_create (st : MemState) (root va : Nat) :
    walk_pt st root va false = Res.ok (lookup st.mem root va) st := by
  unfold walk_pt lookup
  rw [walk_level_no_create]
  cases h1 : next_table st.mem root (VPN2 va) with
  | none => rfl
  | some t1 =>
    simp only
    rw [walk_level_no_create]
    cases h0 : next_table st.mem t1 (VPN1 va) with
    | none => rfl
    | some t0 => rfl

theorem walk_pt_lookup_eq (st : MemState) (root va : Nat) :
    walk_pt_lookup st root va = lookup st.mem root va := by
  unfold walk_pt_lookup
  rw [walk_pt_no_create]

theorem leaf_mapping_eq (st : MemState) (root va : Nat) :
    leaf_mapping st root va = leaf_of st.mem root va := by
  unfold leaf_mapping leaf_of
  rw [walk_pt_lookup_eq]

theorem walk_level_table (st : MemState) (pt idx t : Nat) (create : Bool)
    (h : next_table st.mem pt idx = some t) :
    walk_level st pt idx create = Res.ok (some t) st := by
  unfold next_table pte_valid pte_rwx at h
  unfold walk_level
  by_cases c : pt ≠ 0 ∧ pte_flags (st.mem (pt + 8 * idx)) &&& PTE_V ≠ 0 ∧
      ¬ pte_flags (st.mem (pt + 8 * idx)) &&& (PTE_R ||| PTE_W ||| PTE_X) ≠ 0
  · rw [if_pos c] at h
    simp only
    rw [if_pos ⟨c.1, c.2.1⟩, if_neg c.2.2]
    unfold pte_target at h
    rw [Option.some.inj h]
  · rw [if_neg c] at h
    exact absurd h (by simp)

theorem walk_level_create (st : MemState) (pt idx : Nat)
    (h : ¬ (pt ≠ 0 ∧ pte_valid (st.mem (pt + 8 * idx)))) (hf : st.free_list ≠ 0) :
    walk_level st pt idx true = Res.ok (some st.free_list)
      { mem := install_table st.mem (pt + 8 * idx) st.free_list,
        free_list := st.mem st.free_list, satp := st.satp } := by
  unfold pte_valid at h
  unfold walk_level memory_alloc_page install_table
  simp only [if_neg h, if_neg hf, if_true]

theorem pte_valid_zero : ¬ pte_valid 0 := by decide

theorem installed_word (w p : Nat) (h1 : p % 4096 = 0) (h2 : p < 2 ^ 56) :
    pte_valid (pte_set_flags (pte_set_ppn w (p / 2 ^ PAGE_ORDER)) PTE_V) ∧
    ¬ pte_rwx (pte_set_flags (pte_set_ppn w (p / 2 ^ PAGE_ORDER)) PTE_V) ∧
    pte_target (pte_set_flags (pte_set_ppn w (p / 2 ^ PAGE_ORDER)) PTE_V) = p := by
  unfold pte_valid pte_rwx pte_target
  rw [pte_flags_set_flags, pte_ppn_set_flags, pte_ppn_set_ppn, page_target_eq p h1 h2]
  exact ⟨by decide, by decide, rfl⟩


theorem install_table_self (m : Mem) (e p : Nat) :
    install_table m e p e
      = pte_set_flags (pte_set_ppn (zero_page m p e) (p / 2 ^ PAGE_ORDER)) PTE_V := by
  unfold install_table store
  rw [if_pos rfl]

theorem install_table_page (m : Mem) (e p a : Nat) (hne : a ≠ e)
    (hin : p ≤ a ∧ a < p + 4096) : install_table m e p a = 0 := by
  unfold install_table store zero_page PAGE_SIZE
  rw [if_neg hne, if_pos hin]

theorem install_table_other (m : Mem) (e p a : Nat) (hne : a ≠ e)
    (hout : ¬ (p ≤ a ∧ a < p + 4096)) : install_table m e p a = m a := by
  unfold install_table store zero_page PAGE_SIZE
  rw [if_neg hne, if_neg hout]

theorem typed_root_ne {m : Mem} {root : Nat} {τ : Nat → Option Role}
    (hT : TypedSpace m root τ) : root ≠ 0 := by
  intro h
  have h1 := hT.root_role
  rw [h, hT.null_role] at h1
  exact absurd h1 (by simp)

theorem typed_l1_of_next {m : Mem} {root : Nat} {τ : Nat → Option Role}
    (hT : TypedSpace m root τ) (i t1 : Nat) (hi : i < 512)
    (h : next_table m root i = some t1) : τ t1 = some (Role.l1 i) := by
  unfold next_table at h
  by_cases c : root ≠ 0 ∧ pte_valid (m (root + 8 * i)) ∧ ¬ pte_rwx (m (root + 8 * i))
  · rw [if_pos c] at h
    rw [← Option.some.inj h]
    exact hT.l1_role i hi c.2.1 c.2.2
  · rw [if_neg c] at h
    exact absurd h (by simp)

theorem typed_l0_of_next {m : Mem} {root : Nat} {τ : Nat → Option Role}
    (hT : TypedSpace m root τ) (t1 i j t0 : Nat) (hj : j < 512)
    (h1 : τ t1 = some (Role.l1 i))
    (h : next_table m t1 j = some t0) : τ t0 = some (Role.l0 i j) := by
  unfold next_table at h
  by_cases c : t1 ≠ 0 ∧ pte_valid (m (t1 + 8 * j)) ∧ ¬ pte_rwx (m (t1 + 8 * j))
  · rw [if_pos c] at h
    rw [← Option.some.inj h]
    exact hT.l0_role t1 i j h1 hj c.2.1 c.2.2
  · rw [if_neg c] at h
    exact absurd h (by simp)

theorem next_table_congr (m m2 : Mem) (pt idx : Nat) (h : m2 (pt + 8 * idx) = m (pt + 8 * idx)) :
    next_table m2 pt idx = next_table m pt idx := by
  unfold next_table
  rw [h]

theorem install_l1_typed (m : Mem) (root : Nat) (τ : Nat → Option Role) (i p : Nat)
    (hT : TypedSpace m root τ) (hi : i < 512) (hinv : ¬ pte_valid (m (root + 8 * i)))
    (hp0 : p ≠ 0) (hpa : p % 4096 = 0) (hps : p < 2 ^ 56) (hpf : τ p = none) :
    TypedSpace (install_table m (root + 8 * i) p) root
      (Function.update τ p (some (Role.l1 i))) := by
  have hra := hT.aligned root _ hT.root_role
  have hrp : root ≠ p := by
    intro h
    have h1 := hT.root_role
    rw [h, hpf] at h1
    exact absurd h1 (by simp)
  have hw := installed_word (zero_page m p (root + 8 * i)) p hpa hps
  have hτ : ∀ t r, τ t = some r → Function.update τ p (some (Role.l1 i)) t = some r := by
    intro t r h
    rw [Function.update_noteq (by intro e; rw [e, hpf] at h; exact absurd h (by simp)), h]
  refine ⟨hτ _ _ hT.root_role, ?_, ?_, ?_, ?_⟩
  · rw [Function.update_noteq (Ne.symm hp0)]; exact hT.null_role
  · intro t r h
    by_cases e : t = p
    · rw [e]; exact hpa
    · rw [Function.update_noteq e] at h; exact hT.aligned t r h
  · intro i2 hi2 hv hr
    by_cases e : i2 = i
    · subst e
      rw [install_table_self] at hv hr ⊢
      rw [hw.2.2, Function.update_same]
    · rw [install_table_other _ _ _ _ (by omega) (by omega)] at hv hr ⊢
      exact hτ _ _ (hT.l1_role i2 hi2 hv hr)
  · intro t i2 j h1 hj hv hr
    by_cases e : t = p
    · subst e
      rw [install_table_page _ _ _ _ (by omega) (by omega)] at hv
      exact absurd hv pte_valid_zero
    · rw [Function.update_noteq e] at h1
      have hta := hT.aligned t _ h1
      have htr : t ≠ root := by
        intro h; rw [h, hT.root_role] at h1; exact absurd h1 (by simp)
      rw [install_table_other _ _ _ _ (by omega) (by omega)] at hv hr ⊢
      exact hτ _ _ (hT.l0_role t i2 j h1 hj hv hr)

theorem install_l1_next (m : Mem) (root i p : Nat) (hr : root ≠ 0)
    (hpa : p % 4096 = 0) (hps : p < 2 ^ 56) :
    next_table (install_table m (root + 8 * i) p) root i = some p := by
  have hw := installed_word (zero_page m p (root + 8 * i)) p hpa hps
  unfold next_table
  rw [install_table_self, if_pos ⟨hr, hw.1, hw.2.1⟩, hw.2.2]

theorem vpn2_lt (va : Nat) : VPN2 va < 512 := by unfold VPN2; omega
theorem vpn1_lt (va : Nat) : VPN1 va < 512 := by unfold VPN1; omega
theorem vpn0_lt (va : Nat) : VPN0 va < 512 := by unfold VPN0; omega

theorem slots_preserved_refl (m : Mem) (root : Nat) : SlotsPreserved m m root := by
  intro va
  exact ⟨fun _ => ⟨rfl, rfl⟩, fun h => Or.inl h⟩

theorem slots_preserved_trans {m m2 m3 : Mem} {root : Nat}
    (h1 : SlotsPreserved m m2 root) (h2 : SlotsPreserved m2 m3 root) :
    SlotsPreserved m m3 root := by
  intro va
  obtain ⟨a1, a2⟩ := h1 va
  obtain ⟨b1, b2⟩ := h2 va
  constructor
  · intro h
    obtain ⟨e1, e2⟩ := a1 h
    have h' : lookup m2 root va ≠ 0 := by rw [e1]; exact h
    obtain ⟨e3, e4⟩ := b1 h'
    rw [e1] at e3 e4
    exact ⟨e3, by rw [e4, e2]⟩
  · intro h
    rcases a2 h with c | c
    · exact b2 c
    · by_cases z : lookup m2 root va = 0
      · exact b2 z
      · obtain ⟨e3, e4⟩ := b1 z
        right
        rw [e3, e4, c]

theorem leaf_of_of_slots {m m2 : Mem} {root : Nat} (h : SlotsPreserved m m2 root) (va : Nat) :
    leaf_of m2 root va = leaf_of m root va := by
  obtain ⟨a1, a2⟩ := h va
  unfold leaf_of
  by_cases c : lookup m root va = 0
  · have hR : ¬ (lookup m root va ≠ 0 ∧ pte_valid (m (lookup m root va))) := by tauto
    have hL : ¬ (lookup m2 root va ≠ 0 ∧ pte_valid (m2 (lookup m2 root va))) := by
      rcases a2 c with z | z
      · tauto
      · intro hh
        rw [z] at hh
        exact pte_valid_zero hh.2
    rw [if_neg hL, if_neg hR]
  · obtain ⟨e1, e2⟩ := a1 c
    rw [e1, e2]

theorem install_l1_slots (m : Mem) (root : Nat) (τ : Nat → Option Role) (i p : Nat)
    (hT : TypedSpace m root τ) (hi : i < 512) (hinv : ¬ pte_valid (m (root + 8 * i)))
    (hpa : p % 4096 = 0) (hps : p < 2 ^ 56) (hpf : τ p = none) :
    SlotsPreserved m (install_table m (root + 8 * i) p) root := by
  intro va
  have hra := hT.aligned root _ hT.root_role
  have hr0 := typed_root_ne hT
  have hrp : root ≠ p := by
    intro h
    have h1 := hT.root_role
    rw [h, hpf] at h1
    exact absurd h1 (by simp)
  by_cases e : VPN2 va = i
  · -- the walk goes through the new, empty table
    have h1 : lookup m root va = 0 := by
      unfold lookup
      have : next_table m root (VPN2 va) = none := by
        unfold next_table
        rw [e, if_neg (by tauto)]
      rw [this]
    have h2 : lookup (install_table m (root + 8 * i) p) root va = 0 := by
      unfold lookup
      rw [e, install_l1_next m root i p hr0 hpa hps]
      simp only
      have : next_table (install_table m (root + 8 * i) p) p (VPN1 va) = none := by
        unfold next_table
        have hj := vpn1_lt va
        rw [install_table_page _ _ _ _ (by omega) (by omega), if_neg (by
          intro h; exact pte_valid_zero h.2.1)]
      rw [this]
    exact ⟨fun h => absurd h1 h, fun _ => Or.inl h2⟩
  · have hi2 := vpn2_lt va
    have hj := vpn1_lt va
    have hk := vpn0_lt va
    have n2 : next_table (install_table m (root + 8 * i) p) root (VPN2 va)
        = next_table m root (VPN2 va) :=
      next_table_congr _ _ _ _ (install_table_other _ _ _ _ (by omega) (by omega))
    have hl : lookup (install_table m (root + 8 * i) p) root va = lookup m root va ∧
        (lookup m root va ≠ 0 →
          install_table m (root + 8 * i) p (lookup m root va) = m (lookup m root va)) := by
      unfold lookup
      rw [n2]
      cases h1 : next_table m root (VPN2 va) with
      | none => simp
      | some t1 =>
        simp only
        have ht1 := typed_l1_of_next hT _ _ hi2 h1
        have hta := hT.aligned t1 _ ht1
        have htr : t1 ≠ root := by
          intro h; rw [h, hT.root_role] at ht1; exact absurd ht1 (by simp)
        have htp : t1 ≠ p := by
          intro h; rw [h, hpf] at ht1; exact absurd ht1 (by simp)
        have n1 : next_table (install_table m (root + 8 * i) p) t1 (VPN1 va)
            = next_table m t1 (VPN1 va) :=
          next_table_congr _ _ _ _ (install_table_other _ _ _ _ (by omega) (by omega))
        rw [n1]
        cases h0 : next_table m t1 (VPN1 va) with
        | none => simp
        | some t0 =>
          simp only
          have ht0 := typed_l0_of_next hT _ _ _ _ hj ht1 h0
          have ht0a := hT.aligned t0 _ ht0
          have ht0r : t0 ≠ root := by
            intro h; rw [h, hT.root_role] at ht0; exact absurd ht0 (by simp)
          have ht0p : t0 ≠ p := by
            intro h; rw [h, hpf] at ht0; exact absurd ht0 (by simp)
          exact ⟨trivial, fun _ => install_table_other _ _ _ _ (by omega) (by omega)⟩
    exact ⟨fun h => ⟨hl.1, hl.2 h⟩, fun h => Or.inl (by rw [hl.1]; exact h)⟩


theorem install_l0_typed (m : Mem) (root : Nat) (τ : Nat → Option Role) (t1 i j p : Nat)
    (hT : TypedSpace m root τ) (ht1 : τ t1 = some (Role.l1 i)) (hj : j < 512)
    (hpa : p % 4096 = 0) (hps : p < 2 ^ 56) (hp0 : p ≠ 0) (hpf : τ p = none) :
    TypedSpace (install_table m (t1 + 8 * j) p) root
      (Function.update τ p (some (Role.l0 i j))) := by
  have hra := hT.aligned root _ hT.root_role
  have hta := hT.aligned t1 _ ht1
  have htr : t1 ≠ root := by
    intro h; rw [h, hT.root_role] at ht1; exact absurd ht1 (by simp)
  have htp : t1 ≠ p := by
    intro h; rw [h, hpf] at ht1; exact absurd ht1 (by simp)
  have hrp : root ≠ p := by
    intro h
    have h1 := hT.root_role
    rw [h, hpf] at h1
    exact absurd h1 (by simp)
  have hw := installed_word (zero_page m p (t1 + 8 * j)) p hpa hps
  have hτ : ∀ t r, τ t = some r → Function.update τ p (some (Role.l0 i j)) t = some r := by
    intro t r h
    rw [Function.update_noteq (by intro e; rw [e, hpf] at h; exact absurd h (by simp)), h]
  refine ⟨hτ _ _ hT.root_role, ?_, ?_, ?_, ?_⟩
  · rw [Function.update_noteq (Ne.symm hp0)]; exact hT.null_role
  · intro t r h
    by_cases e : t = p
    · rw [e]; exact hpa
    · rw [Function.update_noteq e] at h; exact hT.aligned t r h
  · intro i2 hi2 hv hr
    rw [install_table_other _ _ _ _ (by omega) (by omega)] at hv hr ⊢
    exact hτ _ _ (hT.l1_role i2 hi2 hv hr)
  · intro t i2 j2 h1 hj2 hv hr
    have e : t ≠ p := by
      intro e
      rw [e, Function.update_same] at h1
      exact absurd h1 (by simp)
    rw [Function.update_noteq e] at h1
    have hta2 := hT.aligned t _ h1
    by_cases c : t + 8 * j2 = t1 + 8 * j
    · have e1 : t = t1 := by omega
      have e2 : j2 = j := by omega
      subst e1 e2
      rw [ht1] at h1
      have e3 : i = i2 := by
        have := Option.some.inj h1
        injection this
      subst e3
      rw [install_table_self, hw.2.2, Function.update_same]
    · rw [install_table_other _ _ _ _ c (by omega)] at hv hr ⊢
      exact hτ _ _ (hT.l0_role t i2 j2 h1 hj2 hv hr)

theorem install_l0_next (m : Mem) (t1 j p : Nat) (ht : t1 ≠ 0)
    (hpa : p % 4096 = 0) (hps : p < 2 ^ 56) :
    next_table (install_table m (t1 + 8 * j) p) t1 j = some p := by
  have hw := installed_word (zero_page m p (t1 + 8 * j)) p hpa hps
  unfold next_table
  rw [install_table_self, if_pos ⟨ht, hw.1, hw.2.1⟩, hw.2.2]

theorem install_l0_slots (m : Mem) (root : Nat) (τ : Nat → Option Role) (t1 i j p : Nat)
    (hT : TypedSpace m root τ) (ht1 : τ t1 = some (Role.l1 i)) (hj : j < 512)
    (hinv : ¬ pte_valid (m (t1 + 8 * j)))
    (hpa : p % 4096 = 0) (hps : p < 2 ^ 56) (hpf : τ p = none) :
    SlotsPreserved m (install_table m (t1 + 8 * j) p) root := by
  intro va
  have hra := hT.aligned root _ hT.root_role
  have hta := hT.aligned t1 _ ht1
  have htr : t1 ≠ root := by
    intro h; rw [h, hT.root_role] at ht1; exact absurd ht1 (by simp)
  have htp : t1 ≠ p := by
    intro h; rw [h, hpf] at ht1; exact absurd ht1 (by simp)
  have ht10 : t1 ≠ 0 := by
    intro h; rw [h, hT.null_role] at ht1; exact absurd ht1 (by simp)
  have hrp : root ≠ p := by
    intro h
    have h1 := hT.root_role
    rw [h, hpf] at h1
    exact absurd h1 (by simp)
  have hi2 := vpn2_lt va
  have hj2 := vpn1_lt va
  have hk := vpn0_lt va
  have n2 : next_table (install_table m (t1 + 8 * j) p) root (VPN2 va)
      = next_table m root (VPN2 va) :=
    next_table_congr _ _ _ _ (install_table_other _ _ _ _ (by omega) (by omega))
  unfold lookup
  rw [n2]
  cases h1 : next_table m root (VPN2 va) with
  | none => simp
  | some t =>
    simp only
    have ht := typed_l1_of_next hT _ _ hi2 h1
    have hta2 := hT.aligned t _ ht
    have htr2 : t ≠ root := by
      intro h; rw [h, hT.root_role] at ht; exact absurd ht (by simp)
    have htp2 : t ≠ p := by
      intro h; rw [h, hpf] at ht; exact absurd ht (by simp)
    by_cases c : t + 8 * VPN1 va = t1 + 8 * j
    · have e1 : t = t1 := by omega
      have e2 : VPN1 va = j := by omega
      subst e1
      have hn : next_table m t (VPN1 va) = none := by
        unfold next_table
        rw [e2, if_neg (by tauto)]
      rw [hn, e2, install_l0_next m t j p ht10 hpa hps]
      simp only
      refine ⟨fun h => absurd rfl h, fun _ => Or.inr ?_⟩
      exact install_table_page _ _ _ _ (by omega) (by omega)
    · have n1 : next_table (install_table m (t1 + 8 * j) p) t (VPN1 va)
          = next_table m t (VPN1 va) :=
        next_table_congr _ _ _ _ (install_table_other _ _ _ _ c (by omega))
      rw [n1]
      cases h0 : next_table m t (VPN1 va) with
      | none => simp
      | some t0 =>
        simp only
        have ht0 := typed_l0_of_next hT _ _ _ _ hj2 ht h0
        have ht0a := hT.aligned t0 _ ht0
        have ht0t : t0 ≠ t1 := by
          intro h; rw [h, ht1] at ht0; exact absurd ht0 (by simp)
        have ht0p : t0 ≠ p := by
          intro h; rw [h, hpf] at ht0; exact absurd ht0 (by simp)
        exact ⟨fun _ => ⟨trivial, install_table_other _ _ _ _ (by omega) (by omega)⟩,
          fun h => Or.inl h⟩


theorem free_chain_congr (m m2 : Mem) (l : List Nat) :
    ∀ head, (∀ p, p ∈ l → m2 p = m p) → FreeChain m head l → FreeChain m2 head l := by
  induction l with
  | nil => intro _ _ _; trivial
  | cons p ps ih =>
    intro head h hc
    obtain ⟨h1, h2⟩ := hc
    refine ⟨h1, ?_⟩
    rw [h p (List.mem_cons_self _ _)]
    exact ih _ (fun q hq => h q (List.mem_cons_of_mem _ hq)) h2

theorem fresh_tail (τ : Nat → Option Role) (p : Nat) (ps : List Nat) (r : Role)
    (h : FreshPages τ (p :: ps)) : FreshPages (Function.update τ p (some r)) ps := by
  have hnd := List.nodup_cons.mp h.nodup
  refine ⟨hnd.2, ?_, ?_, ?_, ?_⟩
  · intro q hq; exact h.ne_null q (List.mem_cons_of_mem _ hq)
  · intro q hq; exact h.aligned q (List.mem_cons_of_mem _ hq)
  · intro q hq; exact h.small q (List.mem_cons_of_mem _ hq)
  · intro q hq
    have : q ≠ p := by
      intro e; rw [e] at hq; exact hnd.1 hq
    rw [Function.update_noteq this]
    exact h.unused q (List.mem_cons_of_mem _ hq)

/-- After a fresh table `p` was installed in entry `e` of a typed page `t`, the
rest of the free list is still chained. -/
theorem free_chain_install (m : Mem) (τ : Nat → Option Role) (t r idx p : Nat) (ps : List Nat)
    (role : Role) (ht : τ t = some role) (hta : t % 4096 = 0) (hidx : idx < 512)
    (_hr : r = t + 8 * idx)
    (hfr : FreshPages τ (p :: ps)) (hc : FreeChain m p (p :: ps)) :
    FreeChain (install_table m (t + 8 * idx) p) (m p) ps := by
  have hnd := List.nodup_cons.mp hfr.nodup
  apply free_chain_congr m _ ps _ _ hc.2
  intro q hq
  have hqa := hfr.aligned q (List.mem_cons_of_mem _ hq)
  have hpa := hfr.aligned p (List.mem_cons_self _ _)
  have hqp : q ≠ p := by
    intro e; rw [e] at hq; exact hnd.1 hq
  have hqt : q ≠ t := by
    intro e
    have := hfr.unused q (List.mem_cons_of_mem _ hq)
    rw [e, ht] at this
    exact absurd this (by simp)
  exact install_table_other _ _ _ _ (by omega) (by omega)

theorem walk_level2_step (st : MemState) (root : Nat) (τ : Nat → Option Role) (i : Nat)
    (fl : List Nat) (hT : TypedSpace st.mem root τ) (hi : i < 512)
    (hnl : ¬ (pte_valid (st.mem (root + 8 * i)) ∧ pte_rwx (st.mem (root + 8 * i))))
    (hc : FreeChain st.mem st.free_list fl) (hfr : FreshPages τ fl) (hlen : 1 ≤ fl.length) :
    ∃ (st1 : MemState) (τ1 : Nat → Option Role) (n t1 : Nat),
      walk_level st root i true = Res.ok (some t1) st1 ∧ n ≤ 1 ∧
      st1.satp = st.satp ∧
      TypedSpace st1.mem root τ1 ∧
      FreeChain st1.mem st1.free_list (fl.drop n) ∧
      FreshPages τ1 (fl.drop n) ∧
      τ1 t1 = some (Role.l1 i) ∧
      next_table st1.mem root i = some t1 ∧
      SlotsPreserved st.mem st1.mem root ∧
      (∀ t r, τ t = some r → τ1 t = some r) ∧
      (∀ a, a ≠ root + 8 * i → (∀ p, p ∈ fl.take n → ¬ (p ≤ a ∧ a < p + 4096)) →
        st1.mem a = st.mem a) ∧
      (next_table st.mem root i = some t1 ∨ t1 ∈ fl.take n) ∧
      (∀ t r, τ1 t = some r → τ t = some r ∨ t ∈ fl.take n) ∧
      (∀ a, a ≠ root + 8 * i → (∃ p, p ∈ fl.take n ∧ p ≤ a ∧ a < p + 4096) →
        st1.mem a = 0) := by
  have hr0 := typed_root_ne hT
  have hra := hT.aligned root _ hT.root_role
  by_cases hv : pte_valid (st.mem (root + 8 * i))
  · -- the entry points to a table already
    have hrwx : ¬ pte_rwx (st.mem (root + 8 * i)) := fun h => hnl ⟨hv, h⟩
    have hn : next_table st.mem root i = some (pte_target (st.mem (root + 8 * i))) := by
      unfold next_table
      rw [if_pos ⟨hr0, hv, hrwx⟩]
    refine ⟨st, τ, 0, _, walk_level_table st root i _ true hn, by omega, rfl, hT, hc, hfr,
      hT.l1_role i hi hv hrwx, hn, slots_preserved_refl _ _, fun _ _ h => h, fun _ _ _ => rfl,
      Or.inl hn, fun _ _ h => Or.inl h, ?_⟩
    intro a _ h
    obtain ⟨p, hp, _⟩ := h
    exact absurd hp (by simp)
  · -- a table is created
    cases fl with
    | nil => simp at hlen
    | cons p ps =>
      obtain ⟨hh, hct⟩ := hc
      have hp0 := hfr.ne_null p (List.mem_cons_self _ _)
      have hpa := hfr.aligned p (List.mem_cons_self _ _)
      have hps := hfr.small p (List.mem_cons_self _ _)
      have hpf := hfr.unused p (List.mem_cons_self _ _)
      have hw := walk_level_create st root i (by tauto) (by rw [hh]; exact hp0)
      rw [hh] at hw
      refine ⟨_, Function.update τ p (some (Role.l1 i)), 1, p, hw, by omega, rfl,
        install_l1_typed _ _ _ _ _ hT hi hv hp0 hpa hps hpf, ?_, fresh_tail _ _ _ _ hfr,
        Function.update_same _ _ _, install_l1_next _ _ _ _ hr0 hpa hps,
        install_l1_slots _ _ _ _ _ hT hi hv hpa hps hpf, ?_, ?_, Or.inr (by simp), ?_, ?_⟩
      · exact free_chain_install st.mem τ root _ i p ps _ hT.root_role hra hi rfl hfr
          ⟨rfl, hct⟩
      · intro t r h
        rw [Function.update_noteq (by intro e; rw [e, hpf] at h; exact absurd h (by simp)), h]
      · intro a ha hpg
        exact install_table_other _ _ _ _ ha (hpg p (by simp))
      · intro t r h
        by_cases e : t = p
        · exact Or.inr (by rw [e]; simp)
        · rw [Function.update_noteq e] at h
          exact Or.inl h
      · intro a ha h
        obtain ⟨q, hq, hin⟩ := h
        have hqp : q = p := by simpa using hq
        rw [hqp] at hin
        exact install_table_page _ _ _ _ ha hin

theorem walk_level1_step (st : MemState) (root : Nat) (τ : Nat → Option Role) (t1 i j : Nat)
    (fl : List Nat) (hT : TypedSpace st.mem root τ) (ht1 : τ t1 = some (Role.l1 i))
    (hj : j < 512)
    (hnl : ¬ (pte_valid (st.mem (t1 + 8 * j)) ∧ pte_rwx (st.mem (t1 + 8 * j))))
    (hc : FreeChain st.mem st.free_list fl) (hfr : FreshPages τ fl) (hlen : 1 ≤ fl.length) :
    ∃ (st1 : MemState) (τ1 : Nat → Option Role) (n t0 : Nat),
      walk_level st t1 j true = Res.ok (some t0) st1 ∧ n ≤ 1 ∧
      st1.satp = st.satp ∧
      TypedSpace st1.mem root τ1 ∧
      FreeChain st1.mem st1.free_list (fl.drop n) ∧
      FreshPages τ1 (fl.drop n) ∧
      τ1 t0 = some (Role.l0 i j) ∧
      next_table st1.mem t1 j = some t0 ∧
      SlotsPreserved st.mem st1.mem root ∧
      (∀ t r, τ t = some r → τ1 t = some r) ∧
      (∀ a, a ≠ t1 + 8 * j → (∀ p, p ∈ fl.take n → ¬ (p ≤ a ∧ a < p + 4096)) →
        st1.mem a = st.mem a) ∧
      (next_table st.mem t1 j = some t0 ∨ t0 ∈ fl.take n) ∧
      (∀ t r, τ1 t = some r → τ t = some r ∨ t ∈ fl.take n) ∧
      (∀ a, a ≠ t1 + 8 * j → (∃ p, p ∈ fl.take n ∧ p ≤ a ∧ a < p + 4096) →
        st1.mem a = 0) := by
  have ht10 : t1 ≠ 0 := by
    intro h; rw [h, hT.null_role] at ht1; exact absurd ht1 (by simp)
  have hta := hT.aligned t1 _ ht1
  by_cases hv : pte_valid (st.mem (t1 + 8 * j))
  · have hrwx : ¬ pte_rwx (st.mem (t1 + 8 * j)) := fun h => hnl ⟨hv, h⟩
    have hn : next_table st.mem t1 j = some (pte_target (st.mem (t1 + 8 * j))) := by
      unfold next_table
      rw [if_pos ⟨ht10, hv, hrwx⟩]
    refine ⟨st, τ, 0, _, walk_level_table st t1 j _ true hn, by omega, rfl, hT, hc, hfr,
      hT.l0_role t1 i j ht1 hj hv hrwx, hn, slots_preserved_refl _ _, fun _ _ h => h,
      fun _ _ _ => rfl, Or.inl hn, fun _ _ h => Or.inl h, ?_⟩
    intro a _ h
    obtain ⟨p, hp, _⟩ := h
    exact absurd hp (by simp)
  · cases fl with
    | nil => simp at hlen
    | cons p ps =>
      obtain ⟨hh, hct⟩ := hc
      have hp0 := hfr.ne_null p (List.mem_cons_self _ _)
      have hpa := hfr.aligned p (List.mem_cons_self _ _)
      have hps := hfr.small p (List.mem_cons_self _ _)
      have hpf := hfr.unused p (List.mem_cons_self _ _)
      have hw := walk_level_create st t1 j (by tauto) (by rw [hh]; exact hp0)
      rw [hh] at hw
      refine ⟨_, Function.update τ p (some (Role.l0 i j)), 1, p, hw, by omega, rfl,
        install_l0_typed _ _ _ _ _ _ _ hT ht1 hj hpa hps hp0 hpf, ?_, fresh_tail _ _ _ _ hfr,
        Function.update_same _ _ _, install_l0_next _ _ _ _ ht10 hpa hps,
        install_l0_slots _ _ _ _ _ _ _ hT ht1 hj hv hpa hps hpf, ?_, ?_, Or.inr (by simp),
        ?_, ?_⟩
      · exact free_chain_install st.mem τ t1 _ j p ps _ ht1 hta hj rfl hfr ⟨rfl, hct⟩
      · intro t r h
        rw [Function.update_noteq (by intro e; rw [e, hpf] at h; exact absurd h (by simp)), h]
      · intro a ha hpg
        exact install_table_other _ _ _ _ ha (hpg p (by simp))
      · intro t r h
        by_cases e : t = p
        · exact Or.inr (by rw [e]; simp)
        · rw [Function.update_noteq e] at h
          exact Or.inl h
      · intro a ha h
        obtain ⟨q, hq, hin⟩ := h
        have hqp : q = p := by simpa using hq
        rw [hqp] at hin
        exact install_table_page _ _ _ _ ha hin

/-- What `walk_pt` with `create` does in a well-formed address space when no
large page lies on the path and two free pages are at hand: it returns the
level-0 entry of `va`, having installed at most two fresh tables, and changes
no level-0 entry. -/
theorem walk_pt_create_spec (st : MemState) (root : Nat) (τ : Nat → Option Role) (va : Nat)
    (fl : List Nat) (hT : TypedSpace st.mem root τ) (hnl : no_large_leaf st.mem root va)
    (hc : FreeChain st.mem st.free_list fl) (hfr : FreshPages τ fl) (hlen : 2 ≤ fl.length) :
    ∃ (st1 : MemState) (τ1 : Nat → Option Role) (n t1 t0 : Nat),
      walk_pt st root va true = Res.ok (t0 + 8 * VPN0 va) st1 ∧ n ≤ 2 ∧
      st1.satp = st.satp ∧
      TypedSpace st1.mem root τ1 ∧
      FreeChain st1.mem st1.free_list (fl.drop n) ∧
      FreshPages τ1 (fl.drop n) ∧
      τ1 t1 = some (Role.l1 (VPN2 va)) ∧
      τ1 t0 = some (Role.l0 (VPN2 va) (VPN1 va)) ∧
      next_table st1.mem root (VPN2 va) = some t1 ∧
      next_table st1.mem t1 (VPN1 va) = some t0 ∧
      SlotsPreserved st.mem st1.mem root ∧
      (∀ t r, τ t = some r → τ1 t = some r) ∧
      (∀ a, a ≠ root + 8 * VPN2 va → a ≠ t1 + 8 * VPN1 va →
        (∀ p, p ∈ fl.take n → ¬ (p ≤ a ∧ a < p + 4096)) → st1.mem a = st.mem a) ∧
      (next_table st.mem root (VPN2 va) = some t1 ∨ t1 ∈ fl.take n) ∧
      (∀ t r, τ1 t = some r → τ t = some r ∨ t ∈ fl.take n) ∧
      (∀ a, a ≠ root + 8 * VPN2 va → a ≠ t1 + 8 * VPN1 va →
        (∃ p, p ∈ fl.take n ∧ p ≤ a ∧ a < p + 4096) → st1.mem a = 0) := by
  have hi := vpn2_lt va
  have hj := vpn1_lt va
  obtain ⟨sa, τa, na, t1, wa, hna, a1, a2, a3, a4, a5, a6, a7, a8, a9, a10, a11, a12⟩ :=
    walk_level2_step st root τ (VPN2 va) fl hT hi hnl.1 hc hfr (by omega)
  -- the level-1 entry is not a large leaf in the new state either
  have hra := hT.aligned root _ hT.root_role
  have hta := a2.aligned t1 _ a5
  have htr : t1 ≠ root := by
    intro h; rw [h, a2.root_role] at a5; exact absurd a5 (by simp)
  have hnl1 : ¬ (pte_valid (sa.mem (t1 + 8 * VPN1 va)) ∧ pte_rwx (sa.mem (t1 + 8 * VPN1 va))) := by
    rcases a10 with old | new
    · have hin : ∀ p, p ∈ fl.take na → ¬ (p ≤ t1 + 8 * VPN1 va ∧ t1 + 8 * VPN1 va < p + 4096) := by
        intro p hp
        have hpm : p ∈ fl := List.mem_of_mem_take hp
        have hpa := hfr.aligned p hpm
        have hpf := hfr.unused p hpm
        have ht1τ := typed_l1_of_next hT _ _ hi old
        have : t1 ≠ p := by
          intro e; rw [e, hpf] at ht1τ; exact absurd ht1τ (by simp)
        have hta0 := hT.aligned t1 _ ht1τ
        omega
      rw [a9 _ (by omega) hin]
      exact hnl.2 t1 old
    · -- a new table is empty
      intro hh
      have hs := (a7 va).2
      -- the word is zero because the page was just zeroed
      have hna1 : na = 1 := by
        rcases Nat.lt_or_ge 0 na with h | h
        · omega
        · have : na = 0 := by omega
          rw [this] at new
          simp at new
      cases fl with
      | nil => simp at hlen
      | cons p ps =>
        rw [hna1] at new
        simp at new
        -- t1 = p; the entry was installed by `walk_level_create`
        have hv : ¬ pte_valid (st.mem (root + 8 * VPN2 va)) := by
          intro hv
          have hrwx : ¬ pte_rwx (st.mem (root + 8 * VPN2 va)) := fun h => hnl.1 ⟨hv, h⟩
          have hn : next_table st.mem root (VPN2 va)
              = some (pte_target (st.mem (root + 8 * VPN2 va))) := by
            unfold next_table
            rw [if_pos ⟨typed_root_ne hT, hv, hrwx⟩]
          have hw := walk_level_table st root (VPN2 va) _ true hn
          rw [hw] at wa
          injection wa with e1 e2
          have e3 := Option.some.inj e1
          have hτ := hT.l1_role _ hi hv hrwx
          rw [e3, new, hfr.unused p (List.mem_cons_self _ _)] at hτ
          exact absurd hτ (by simp)
        have hw := walk_level_create st root (VPN2 va) (by tauto)
          (by rw [hc.1]; exact hfr.ne_null p (List.mem_cons_self _ _))
        rw [hw] at wa
        injection wa with e1 e2
        rw [← e2] at hh
        simp only at hh
        rw [hc.1, new, install_table_page _ _ _ _ (by omega) (by omega)] at hh
        exact pte_valid_zero hh.1
  obtain ⟨sb, τb, nb, t0, wb, hnb, b1, b2, b3, b4, b5, b6, b7, b8, b9, _, b11, b12⟩ :=
    walk_level1_step sa root τa t1 (VPN2 va) (VPN1 va) (fl.drop na) a2 a5 hj hnl1 a3 a4
      (by rw [List.length_drop]; omega)
  have hw : walk_pt st root va true = Res.ok (t0 + 8 * VPN0 va) sb := by
    unfold walk_pt
    rw [wa]
    simp only
    rw [wb]
  refine ⟨sb, τb, na + nb, t1, t0, hw, by omega, by rw [b1, a1], b2, ?_, ?_, b8 _ _ a5, b5, ?_,
    b6, slots_preserved_trans a7 b7, fun t r h => b8 t r (a8 t r h), ?_,
    a10.imp id (fun h => by rw [List.take_add]; exact List.mem_append_left _ h), ?_, ?_⟩
  · rw [← List.drop_drop]; exact b3
  · rw [← List.drop_drop]; exact b4
  · rw [next_table_congr _ _ _ _ (b9 _ (by omega) (by
      intro p hp
      have hpm : p ∈ fl.drop na := List.mem_of_mem_take hp
      have hpa := a4.aligned p hpm
      have hpf := a4.unused p hpm
      have : root ≠ p := by
        intro e
        have h1 := a2.root_role
        rw [e, hpf] at h1
        exact absurd h1 (by simp)
      omega))]
    exact a6
  · intro a h1 h2 h3
    rw [b9 a h2 (by
      intro p hp
      apply h3
      rw [List.take_add]
      exact List.mem_append_right _ hp)]
    exact a9 a h1 (by
      intro p hp
      apply h3
      rw [List.take_add]
      exact List.mem_append_left _ hp)
  · intro t r h
    rcases b11 t r h with h1 | h1
    · rcases a11 t r h1 with h2 | h2
      · exact Or.inl h2
      · exact Or.inr (by rw [List.take_add]; exact List.mem_append_left _ h2)
    · exact Or.inr (by rw [List.take_add]; exact List.mem_append_right _ h1)
  · intro a h1 h2 h
    obtain ⟨p, hp, hin⟩ := h
    rw [List.take_add] at hp
    rcases List.mem_append.mp hp with hp1 | hp2
    · rw [b9 a h2 (by
        intro q hq
        have hqm : q ∈ fl.drop na := List.mem_of_mem_take hq
        have hne : p ≠ q := by
          intro e
          rw [← e] at hqm
          exact List.disjoint_take_drop hfr.nodup (Nat.le_refl na) hp1 hqm
        have hpa := hfr.aligned p (List.mem_of_mem_take hp1)
        have hqa := hfr.aligned q (List.mem_of_mem_drop hqm)
        omega)]
      exact a12 a h1 ⟨p, hp1, hin⟩
    · exact b12 a h2 ⟨p, hp2, hin⟩

theorem unmapped_no_large (m : Mem) (root va : Nat) (h : page_unmapped m root va) :
    no_large_leaf m root va := by
  unfold no_large_leaf
  rcases h with h | ⟨t1, h1, h2⟩ | ⟨t1, t0, h1, h2, _⟩
  · refine ⟨fun hh => h hh.1, ?_⟩
    intro t1 ht
    unfold next_table at ht
    split_ifs at ht with hc
    exact absurd hc.2.1 h
  · refine ⟨?_, ?_⟩
    · intro hh
      unfold next_table at h1
      split_ifs at h1 with hc
      exact hc.2.2 hh.2
    · intro t ht
      rw [h1] at ht
      injection ht with e
      subst e
      exact fun hh => h2 hh.1
  · refine ⟨?_, ?_⟩
    · intro hh
      unfold next_table at h1
      split_ifs at h1 with hc
      exact hc.2.2 hh.2
    · intro t ht
      rw [h1] at ht
      injection ht with e
      subst e
      intro hh
      unfold next_table at h2
      split_ifs at h2 with hc
      exact hc.2.2 hh.2

theorem typed_frame {m m2 : Mem} {root : Nat} {τ : Nat → Option Role}
    (hT : TypedSpace m root τ)
    (h : ∀ t r i, τ t = some r → i < 512 → m2 (t + 8 * i) = m (t + 8 * i)) :
    TypedSpace m2 root τ := by
  refine ⟨hT.root_role, hT.null_role, hT.aligned, ?_, ?_⟩
  · intro i hi
    rw [h root _ i hT.root_role hi]
    exact hT.l1_role i hi
  · intro t i j ht hj
    rw [h t _ j ht hj]
    exact hT.l0_role t i j ht hj

theorem lookup_frame {m m2 : Mem} {root : Nat} {τ : Nat → Option Role}
    (hT : TypedSpace m root τ)
    (h : ∀ t r i, τ t = some r → (∀ a b, r ≠ Role.l0 a b) → i < 512 →
      m2 (t + 8 * i) = m (t + 8 * i)) (va : Nat) :
    lookup m2 root va = lookup m root va := by
  unfold lookup
  rw [next_table_congr m m2 root (VPN2 va)
    (h root _ _ hT.root_role (by intros; simp) (vpn2_lt va))]
  cases h1 : next_table m root (VPN2 va) with
  | none => rfl
  | some t1 =>
    simp only
    rw [next_table_congr m m2 t1 (VPN1 va)
      (h t1 _ _ (typed_l1_of_next hT _ _ (vpn2_lt va) h1) (by intros; simp) (vpn1_lt va))]

theorem lookup_typed {m : Mem} {root : Nat} {τ : Nat → Option Role}
    (hT : TypedSpace m root τ) (va : Nat) (h : lookup m root va ≠ 0) :
    ∃ t1 t0, next_table m root (VPN2 va) = some t1 ∧ next_table m t1 (VPN1 va) = some t0 ∧
      τ t1 = some (Role.l1 (VPN2 va)) ∧ τ t0 = some (Role.l0 (VPN2 va) (VPN1 va)) ∧
      lookup m root va = t0 + 8 * VPN0 va := by
  unfold lookup at h ⊢
  cases h1 : next_table m root (VPN2 va) with
  | none => rw [h1] at h; exact absurd rfl h
  | some t1 =>
    rw [h1] at h
    simp only at h ⊢
    have ht1 := typed_l1_of_next hT _ _ (vpn2_lt va) h1
    cases h0 : next_table m t1 (VPN1 va) with
    | none => rw [h0] at h; exact absurd rfl h
    | some t0 =>
      exact ⟨t1, t0, rfl, h0, ht1, typed_l0_of_next hT _ _ _ _ (vpn1_lt va) ht1 h0, rfl⟩

theorem lookup_of_next (m : Mem) (root va t1 t0 : Nat)
    (h1 : next_table m root (VPN2 va) = some t1) (h0 : next_table m t1 (VPN1 va) = some t0) :
    lookup m root va = t0 + 8 * VPN0 va := by
  unfold lookup
  rw [h1]
  simp only
  rw [h0]

theorem typed_ne_null {m : Mem} {root : Nat} {τ : Nat → Option Role}
    (hT : TypedSpace m root τ) (t : Nat) (r : Role) (h : τ t = some r) : t ≠ 0 := by
  intro e
  rw [e, hT.null_role] at h
  exact absurd h (by simp)

theorem alloc_page_cons (st : MemState) (p : Nat) (ps : List Nat) (hp : p ≠ 0)
    (hc : FreeChain st.mem st.free_list (p :: ps)) :
    memory_alloc_page st
      = Res.ok p { mem := zero_page st.mem p, free_list := st.mem p, satp := st.satp } := by
  obtain ⟨hh, _⟩ := hc
  unfold memory_alloc_page
  rw [if_neg (by rw [hh]; exact hp), hh]

theorem zero_page_outside (m : Mem) (p a : Nat) (h : ¬ (p ≤ a ∧ a < p + 4096)) :
    zero_page m p a = m a := by
  unfold zero_page PAGE_SIZE
  rw [if_neg h]

theorem zero_page_inside (m : Mem) (p a : Nat) (h : p ≤ a ∧ a < p + 4096) :
    zero_page m p a = 0 := by
  unfold zero_page PAGE_SIZE
  rw [if_pos h]

theorem store_same (m : Mem) (e v : Nat) : store m e v e = v := by
  unfold store
  rw [if_pos rfl]

theorem store_other (m : Mem) (e v a : Nat) (h : a ≠ e) : store m e v a = m a := by
  unfold store
  rw [if_neg h]

theorem wellformed_small (va : Nat) (h : va < 2 ^ 38) : wellformed_vma va = true := by
  unfold wellformed_vma U64
  have h1 : va % 2 ^ 64 < 2 ^ 38 := by omega
  rw [Bool.or_eq_true, decide_eq_true_eq]
  exact Or.inl h1


theorem typed_slot_outside {m : Mem} {root : Nat} {τ : Nat → Option Role}
    (hT : TypedSpace m root τ) (t : Nat) (r : Role) (i p : Nat) (ht : τ t = some r)
    (hi : i < 512) (hpa : p % 4096 = 0) (hpf : τ p = none) :
    ¬ (p ≤ t + 8 * i ∧ t + 8 * i < p + 4096) := by
  have hta := hT.aligned t r ht
  have hne : t ≠ p := by
    intro e
    rw [e, hpf] at ht
    exact absurd ht (by simp)
  omega

theorem typed_slot_ne {m : Mem} {root : Nat} {τ : Nat → Option Role}
    (hT : TypedSpace m root τ) (t t2 : Nat) (r r2 : Role) (i k : Nat) (ht : τ t = some r)
    (ht2 : τ t2 = some r2) (hr : r ≠ r2) (hi : i < 512) (hk : k < 512) :
    t + 8 * i ≠ t2 + 8 * k := by
  have hta := hT.aligned t r ht
  have hta2 := hT.aligned t2 r2 ht2
  have hne : t ≠ t2 := by
    intro e
    rw [e, ht2] at ht
    exact hr (Option.some.inj ht).symm
  omega

/-- Mapping a page whose tables exist: `memory_alloc_and_map_page` takes the
head of the free list, zeroes it and stores the leaf entry in the level-0
slot of `va`. -/
theorem alloc_and_map_page_spec (st : MemState) (root : Nat) (τ : Nat → Option Role)
    (va flags t1 t0 p : Nat) (ps : List Nat)
    (hroot : active_space_root st = root) (hT : TypedSpace st.mem root τ)
    (hwf : va < 2 ^ 38) (hal : va % 4096 = 0)
    (hn1 : next_table st.mem root (VPN2 va) = some t1)
    (hn0 : next_table st.mem t1 (VPN1 va) = some t0)
    (hc : FreeChain st.mem st.free_list (p :: ps)) (hfr : FreshPages τ (p :: ps)) :
    memory_alloc_and_map_page st va flags
      = Res.ok va { mem := store (zero_page st.mem p) (t0 + 8 * VPN0 va) (leaf_pte p flags),
                    free_list := st.mem p, satp := st.satp } := by
  have hp0 := hfr.ne_null p (List.mem_cons_self _ _)
  have hpa := hfr.aligned p (List.mem_cons_self _ _)
  have hpf := hfr.unused p (List.mem_cons_self _ _)
  have ht1 := typed_l1_of_next hT _ _ (vpn2_lt va) hn1
  have ht0 := typed_l0_of_next hT _ _ _ _ (vpn1_lt va) ht1 hn0
  have hz1 : next_table (zero_page st.mem p) root (VPN2 va) = some t1 := by
    rw [next_table_congr st.mem _ root (VPN2 va)
      (zero_page_outside _ _ _ (typed_slot_outside hT root _ _ p hT.root_role (vpn2_lt va)
        hpa hpf))]
    exact hn1
  have hz0 : next_table (zero_page st.mem p) t1 (VPN1 va) = some t0 := by
    rw [next_table_congr st.mem _ t1 (VPN1 va)
      (zero_page_outside _ _ _ (typed_slot_outside hT t1 _ _ p ht1 (vpn1_lt va) hpa hpf))]
    exact hn0
  have ht00 := typed_ne_null hT t0 _ ht0
  have hw : walk_pt { mem := zero_page st.mem p, free_list := st.mem p, satp := st.satp }
      root va true = Res.ok (t0 + 8 * VPN0 va)
        { mem := zero_page st.mem p, free_list := st.mem p, satp := st.satp } := by
    unfold walk_pt
    rw [walk_level_table _ root (VPN2 va) t1 true hz1]
    simp only
    rw [walk_level_table _ t1 (VPN1 va) t0 true hz0]
  unfold memory_alloc_and_map_page
  have hwfb : (!wellformed_vma va || !aligned_addr va PAGE_SIZE) = false := by
    rw [wellformed_small va hwf]
    unfold aligned_addr PAGE_SIZE
    simp [hal]
  rw [hwfb, alloc_page_cons st p ps hp0 hc]
  simp only [Bool.false_eq_true, if_false, if_neg hp0]
  have hr2 : active_space_root
      { mem := zero_page st.mem p, free_list := st.mem p, satp := st.satp } = root := hroot
  rw [hr2, hw]
  simp only
  rw [if_neg (by omega)]


theorem map_page_lookup {m : Mem} {root : Nat} {τ : Nat → Option Role}
    (hT : TypedSpace m root τ) (va t1 t0 p v : Nat)
    (hn1 : next_table m root (VPN2 va) = some t1)
    (hn0 : next_table m t1 (VPN1 va) = some t0)
    (hpa : p % 4096 = 0) (hpf : τ p = none) (vb : Nat) :
    lookup (store (zero_page m p) (t0 + 8 * VPN0 va) v) root vb = lookup m root vb := by
  have ht1 := typed_l1_of_next hT _ _ (vpn2_lt va) hn1
  have ht0 := typed_l0_of_next hT _ _ _ _ (vpn1_lt va) ht1 hn0
  apply lookup_frame hT
  intro t r i ht hr hi
  rw [store_other _ _ _ _ (typed_slot_ne hT t t0 r _ i _ ht ht0 (hr _ _) hi (vpn0_lt va)),
    zero_page_outside _ _ _ (typed_slot_outside hT t r i p ht hi hpa hpf)]

theorem map_page_self {m : Mem} {root : Nat} {τ : Nat → Option Role}
    (hT : TypedSpace m root τ) (va t1 t0 p v : Nat)
    (hn1 : next_table m root (VPN2 va) = some t1)
    (hn0 : next_table m t1 (VPN1 va) = some t0)
    (hpa : p % 4096 = 0) (hpf : τ p = none) (hv : pte_valid v) :
    leaf_of (store (zero_page m p) (t0 + 8 * VPN0 va) v) root va = some v := by
  have ht1 := typed_l1_of_next hT _ _ (vpn2_lt va) hn1
  have ht0 := typed_l0_of_next hT _ _ _ _ (vpn1_lt va) ht1 hn0
  have ht00 := typed_ne_null hT t0 _ ht0
  unfold leaf_of
  rw [map_page_lookup hT va t1 t0 p v hn1 hn0 hpa hpf va, lookup_of_next m root va t1 t0 hn1 hn0,
    store_same]
  rw [if_pos ⟨by omega, hv⟩]

theorem map_page_other {m : Mem} {root : Nat} {τ : Nat → Option Role}
    (hT : TypedSpace m root τ) (va t1 t0 p v : Nat)
    (hn1 : next_table m root (VPN2 va) = some t1)
    (hn0 : next_table m t1 (VPN1 va) = some t0)
    (hpa : p % 4096 = 0) (hpf : τ p = none) (vb : Nat)
    (hne : ¬ (VPN2 vb = VPN2 va ∧ VPN1 vb = VPN1 va ∧ VPN0 vb = VPN0 va)) :
    leaf_of (store (zero_page m p) (t0 + 8 * VPN0 va) v) root vb = leaf_of m root vb := by
  have ht1 := typed_l1_of_next hT _ _ (vpn2_lt va) hn1
  have ht0 := typed_l0_of_next hT _ _ _ _ (vpn1_lt va) ht1 hn0
  unfold leaf_of
  rw [map_page_lookup hT va t1 t0 p v hn1 hn0 hpa hpf vb]
  by_cases hz : lookup m root vb = 0
  · rw [if_neg (fun h => h.1 hz), if_neg (fun h => h.1 hz)]
  · obtain ⟨s1, s0, _, _, _, hs0, hl⟩ := lookup_typed hT vb hz
    have hne2 : lookup m root vb ≠ t0 + 8 * VPN0 va := by
      rw [hl]
      by_cases hr : Role.l0 (VPN2 vb) (VPN1 vb) = Role.l0 (VPN2 va) (VPN1 va)
      · injection hr with e2 e1
        have h0 : VPN0 vb ≠ VPN0 va := fun e0 => hne ⟨e2, e1, e0⟩
        have a1 := hT.aligned s0 _ hs0
        have a2 := hT.aligned t0 _ ht0
        have b1 := vpn0_lt vb
        have b2 := vpn0_lt va
        omega
      · exact typed_slot_ne hT s0 t0 _ _ _ _ hs0 ht0 hr (vpn0_lt vb) (vpn0_lt va)
    rw [store_other _ _ _ _ hne2, hl,
      zero_page_outside _ _ _ (typed_slot_outside hT s0 _ _ p hs0 (vpn0_lt vb) hpa hpf)]

theorem leaf_pte_user_flags (p : Nat) :
    pte_flags (leaf_pte p (PTE_R ||| PTE_W ||| PTE_U))
      = PTE_R ||| PTE_W ||| PTE_U ||| PTE_A ||| PTE_D ||| PTE_V := by
  unfold leaf_pte
  rw [pte_flags_mk]
  decide

theorem leaf_pte_user_valid (p : Nat) : pte_valid (leaf_pte p (PTE_R ||| PTE_W ||| PTE_U)) := by
  unfold pte_valid
  rw [leaf_pte_user_flags]
  decide

theorem leaf_pte_target (p f : Nat) (hpa : p % 4096 = 0) (hps : p < 2 ^ 56) :
    pte_target (leaf_pte p f) = p := by
  unfold pte_target leaf_pte
  rw [pte_ppn_mk]
  exact page_target_eq p hpa hps

theorem sample_root : active_space_root sampleSpace = 0x80200000 := by decide

theorem sample_typed : TypedSpace sampleMem 0x80200000 sampleRoles := by
  refine ⟨by decide, by decide, ?_, ?_, ?_⟩
  · intro t r h
    unfold sampleRoles at h
    split_ifs at h <;> omega
  · intro i hi hv _
    by_cases h3 : i = 3
    · subst h3
      decide
    · have hz : sampleMem (0x80200000 + 8 * i) = 0 := by
        unfold sampleMem
        rw [if_neg (by omega), if_neg (by omega), if_neg (by omega), if_neg (by omega),
          if_neg (by omega)]
      rw [hz] at hv
      exact absurd hv pte_valid_zero
  · intro t i j ht hj hv _
    unfold sampleRoles at ht
    split_ifs at ht with h1 h2 h3 h4
    · exact absurd ht (by simp)
    · injection ht with e
      injection e with e
      subst e
      subst h2
      by_cases h0 : j = 0
      · subst h0
        decide
      · have hz : sampleMem (0x80201000 + 8 * j) = 0 := by
          unfold sampleMem
          rw [if_neg (by omega), if_neg (by omega), if_neg (by omega), if_neg (by omega),
            if_neg (by omega)]
        rw [hz] at hv
        exact absurd hv pte_valid_zero
    · exact absurd ht (by simp)
    · exact absurd ht (by simp)

theorem sample_chain :
    FreeChain sampleMem 0x80400000 [0x80400000, 0x80401000, 0x80402000] :=
  ⟨rfl, by decide, by decide, trivial⟩

theorem sample_fresh : FreshPages sampleRoles [0x80400000, 0x80401000, 0x80402000] := by
  refine ⟨by decide, ?_, ?_, ?_, ?_⟩ <;>
  · intro p hp
    simp only [List.mem_cons, List.mem_singleton, List.not_mem_nil, or_false] at hp
    rcases hp with rfl | rfl | rfl <;> decide


/-! ## Page faults -/


/-- C8 (amended): in a well-formed active address space with three pages on
the free list, a fault at a user address `a` whose page is not mapped makes
`memory_handle_page_fault` return with the page of `a` mapped by a valid
level-0 leaf with flags `R|W|U|A|D|V` to a zero-filled page taken from the
free list, the leaf mapping of every other page being what it was; and for
every address outside `[USER_START_VMA, USER_END_VMA)` it panics with the
state unchanged. -/
theorem page_fault_maps_page (L : Layout) (st : MemState) (τ : Nat → Option Role)
    (fl : List Nat) (a : Nat)
    (hS : PAGE_SIZE ≤ L.USER_START_VMA) (hL : L.USER_END_VMA ≤ 2 ^ 38)
    (ha : L.USER_START_VMA ≤ a ∧ a < L.USER_END_VMA)
    (hT : TypedSpace st.mem (active_space_root st) τ)
    (hun : page_unmapped st.mem (active_space_root st) (round_down_addr a PAGE_SIZE))
    (hc : FreeChain st.mem st.free_list fl) (hfr : FreshPages τ fl) (hlen : 3 ≤ fl.length) :
    (∃ (st2 : MemState) (pp : Nat),
      memory_handle_page_fault L st a = Res.ok () st2 ∧
      active_space_root st2 = active_space_root st ∧ pp ∈ fl ∧
      leaf_mapping st2 (active_space_root st2) (round_down_addr a PAGE_SIZE)
        = some (leaf_pte pp (PTE_R ||| PTE_W ||| PTE_U)) ∧
      pte_flags (leaf_pte pp (PTE_R ||| PTE_W ||| PTE_U))
        = PTE_R ||| PTE_W ||| PTE_U ||| PTE_A ||| PTE_D ||| PTE_V ∧
      pte_target (leaf_pte pp (PTE_R ||| PTE_W ||| PTE_U)) = pp ∧
      (∀ b, pp ≤ b → b < pp + PAGE_SIZE → st2.mem b = 0) ∧
      (∀ vb, ¬ (VPN2 vb = VPN2 (round_down_addr a PAGE_SIZE) ∧
                VPN1 vb = VPN1 (round_down_addr a PAGE_SIZE) ∧
                VPN0 vb = VPN0 (round_down_addr a PAGE_SIZE)) →
        leaf_mapping st2 (active_space_root st2) vb
          = leaf_mapping st (active_space_root st) vb)) ∧
    (∀ b, b < L.USER_START_VMA ∨ b ≥ L.USER_END_VMA →
      memory_handle_page_fault L st b = Res.panic st) := by
  refine ⟨?_, ?_⟩
  swap
  · intro b hb
    unfold memory_handle_page_fault
    rw [if_pos hb]
  generalize hroot : active_space_root st = root at hT hun ⊢
  generalize hva : round_down_addr a PAGE_SIZE = va at hun ⊢
  have hPS : PAGE_SIZE = 4096 := rfl
  have hval : va % 4096 = 0 ∧ va ≤ a ∧ a < va + 4096 := by
    rw [← hva]
    unfold round_down_addr PAGE_SIZE
    omega
  obtain ⟨st1, τ1, n, t1, t0, hw, hn, hsatp, hT1, hc1, hfr1, ht1, ht0, hn1, hn0, hsl, _, _, _⟩ :=
    walk_pt_create_spec st root τ va fl hT (unmapped_no_large _ _ _ hun) hc hfr (by omega)
  have hroot1 : active_space_root st1 = root := by
    rw [← hroot]
    unfold active_space_root
    rw [hsatp]
  cases hd : fl.drop n with
  | nil =>
    have := congrArg List.length hd
    rw [List.length_drop] at this
    simp at this
    omega
  | cons pp ps =>
    rw [hd] at hc1 hfr1
    have hpa := hfr1.aligned pp (List.mem_cons_self _ _)
    have hps := hfr1.small pp (List.mem_cons_self _ _)
    have hpf := hfr1.unused pp (List.mem_cons_self _ _)
    have hmap := alloc_and_map_page_spec st1 root τ1 va (PTE_R ||| PTE_W ||| PTE_U) t1 t0 pp ps
      hroot1 hT1 (by omega) hval.1 hn1 hn0 hc1 hfr1
    have ht00 := typed_ne_null hT1 t0 _ ht0
    obtain ⟨st2, hmap2, hmem2, hsatp2⟩ : ∃ st2 : MemState,
        memory_alloc_and_map_page st1 va (PTE_R ||| PTE_W ||| PTE_U) = Res.ok va st2 ∧
        st2.mem = store (zero_page st1.mem pp) (t0 + 8 * VPN0 va)
          (leaf_pte pp (PTE_R ||| PTE_W ||| PTE_U)) ∧
        st2.satp = st1.satp := ⟨_, hmap, rfl, rfl⟩
    have hroot2 : active_space_root st2 = root := by
      rw [← hroot1]
      unfold active_space_root
      rw [hsatp2]
    refine ⟨st2, pp, ?_, hroot2, ?_, ?_, leaf_pte_user_flags pp, leaf_pte_target pp _ hpa hps,
      ?_, ?_⟩
    · unfold memory_handle_page_fault
      rw [if_neg (by omega), hva]
      have hal : (!aligned_addr va PAGE_SIZE) = false := by
        unfold aligned_addr PAGE_SIZE
        simp [hval.1]
      simp only
      rw [hal, hroot, hw]
      simp only [Bool.false_eq_true, if_false]
      rw [if_neg (by omega), hmap2]
      simp only
      rw [if_neg (by omega)]
    · have : pp ∈ fl.drop n := by rw [hd]; exact List.mem_cons_self _ _
      exact List.mem_of_mem_drop this
    · rw [leaf_mapping_eq, hroot2, hmem2]
      exact map_page_self hT1 va t1 t0 pp _ hn1 hn0 hpa hpf (leaf_pte_user_valid pp)
    · intro b hb1 hb2
      rw [hmem2]
      have hne : b ≠ t0 + 8 * VPN0 va := by
        intro e
        exact typed_slot_outside hT1 t0 _ (VPN0 va) pp ht0 (vpn0_lt va) hpa hpf
          ⟨by omega, by omega⟩
      rw [store_other _ _ _ _ hne, zero_page_inside _ _ _ ⟨hb1, by omega⟩]
    · intro vb hvb
      rw [leaf_mapping_eq, leaf_mapping_eq, hroot2, hmem2,
        map_page_other hT1 va t1 t0 pp _ hn1 hn0 hpa hpf vb hvb]
      exact leaf_of_of_slots hsl vb

/-- Instance of `page_fault_maps_page`: a fault at `0xC0001234` in the sample
address space, whose page `0xC0001000` is not mapped. -/
theorem page_fault_maps_page_witness :
    (∃ (st2 : MemState) (pp : Nat),
      memory_handle_page_fault sampleLayout sampleSpace 0xC0001234 = Res.ok () st2 ∧
      active_space_root st2 = active_space_root sampleSpace ∧
      pp ∈ [0x80400000, 0x80401000, 0x80402000] ∧
      leaf_mapping st2 (active_space_root st2) (round_down_addr 0xC0001234 PAGE_SIZE)
        = some (leaf_pte pp (PTE_R ||| PTE_W ||| PTE_U)) ∧
      pte_flags (leaf_pte pp (PTE_R ||| PTE_W ||| PTE_U))
        = PTE_R ||| PTE_W ||| PTE_U ||| PTE_A ||| PTE_D ||| PTE_V ∧
      pte_target (leaf_pte pp (PTE_R ||| PTE_W ||| PTE_U)) = pp ∧
      (∀ b, pp ≤ b → b < pp + PAGE_SIZE → st2.mem b = 0) ∧
      (∀ vb, ¬ (VPN2 vb = VPN2 (round_down_addr 0xC0001234 PAGE_SIZE) ∧
                VPN1 vb = VPN1 (round_down_addr 0xC0001234 PAGE_SIZE) ∧
                VPN0 vb = VPN0 (round_down_addr 0xC0001234 PAGE_SIZE)) →
        leaf_mapping st2 (active_space_root st2) vb
          = leaf_mapping sampleSpace (active_space_root sampleSpace) vb)) ∧
    (∀ b, b < sampleLayout.USER_START_VMA ∨ b ≥ sampleLayout.USER_END_VMA →
      memory_handle_page_fault sampleLayout sampleSpace b = Res.panic sampleSpace) :=
  page_fault_maps_page sampleLayout sampleSpace sampleRoles
    [0x80400000, 0x80401000, 0x80402000] 0xC0001234 (by decide) (by decide) (by decide)
    (by rw [sample_root]; exact sample_typed)
    (by
      rw [sample_root]
      exact Or.inr (Or.inr ⟨0x80201000, 0x80202000, by decide, by decide, by decide⟩))
    sample_chain sample_fresh (by decide)

/-- C8 counterexample: with an empty free-page list, a fault at the user
address `0xC0001234`, whose page is not mapped, makes
`memory_handle_page_fault` panic (in `memory_alloc_page`), and the page is
still not mapped afterwards. -/
theorem page_fault_without_free_pages :
    sampleLayout.USER_START_VMA ≤ 0xC0001234 ∧ 0xC0001234 < sampleLayout.USER_END_VMA ∧
    leaf_mapping sampleSpaceNoFree (active_space_root sampleSpaceNoFree) 0xC0001000 = none ∧
    (memory_handle_page_fault sampleLayout sampleSpaceNoFree 0xC0001234).val = none ∧
    leaf_mapping (memory_handle_page_fault sampleLayout sampleSpaceNoFree 0xC0001234).state
      (active_space_root sampleSpaceNoFree) 0xC0001000 = none := by
  decide


/-! ## Unmapping the user region -/


theorem vpn_inj (va vb : Nat) (ha : va < 2 ^ 39) (hb : vb < 2 ^ 39)
    (ha0 : va % 4096 = 0) (hb0 : vb % 4096 = 0)
    (h2 : VPN2 va = VPN2 vb) (h1 : VPN1 va = VPN1 vb) (h0 : VPN0 va = VPN0 vb) : va = vb := by
  unfold VPN2 at h2
  unfold VPN1 at h1
  unfold VPN0 at h0
  omega

theorem upper_typed {m m2 : Mem} {root : Nat} {τ : Nat → Option Role}
    (hT : TypedSpace m root τ)
    (h : ∀ t r i, τ t = some r → (r = Role.root ∨ ∃ k, r = Role.l1 k) → i < 512 →
      m2 (t + 8 * i) = m (t + 8 * i)) :
    TypedSpace m2 root τ := by
  refine ⟨hT.root_role, hT.null_role, hT.aligned, ?_, ?_⟩
  · intro i hi
    rw [h root _ i hT.root_role (Or.inl rfl) hi]
    exact hT.l1_role i hi
  · intro t i j ht hj
    rw [h t _ j ht (Or.inr ⟨i, rfl⟩) hj]
    exact hT.l0_role t i j ht hj

theorem upper_lookup {m m2 : Mem} {root : Nat} {τ : Nat → Option Role}
    (hT : TypedSpace m root τ)
    (h : ∀ t r i, τ t = some r → (r = Role.root ∨ ∃ k, r = Role.l1 k) → i < 512 →
      m2 (t + 8 * i) = m (t + 8 * i)) (va : Nat) :
    lookup m2 root va = lookup m root va := by
  unfold lookup
  rw [next_table_congr m m2 root (VPN2 va) (h root _ _ hT.root_role (Or.inl rfl) (vpn2_lt va))]
  cases h1 : next_table m root (VPN2 va) with
  | none => rfl
  | some t1 =>
    simp only
    rw [next_table_congr m m2 t1 (VPN1 va)
      (h t1 _ _ (typed_l1_of_next hT _ _ (vpn2_lt va) h1) (Or.inr ⟨_, rfl⟩) (vpn1_lt va))]

theorem upper_no_large {m m2 : Mem} {root : Nat} {τ : Nat → Option Role}
    (hT : TypedSpace m root τ)
    (h : ∀ t r i, τ t = some r → (r = Role.root ∨ ∃ k, r = Role.l1 k) → i < 512 →
      m2 (t + 8 * i) = m (t + 8 * i)) (va : Nat) (hn : no_large_leaf m root va) :
    no_large_leaf m2 root va := by
  have e2 := h root _ _ hT.root_role (Or.inl rfl) (vpn2_lt va)
  unfold no_large_leaf
  rw [e2, next_table_congr m m2 root (VPN2 va) e2]
  refine ⟨hn.1, ?_⟩
  intro t1 ht1
  rw [h t1 _ _ (typed_l1_of_next hT _ _ (vpn2_lt va) ht1) (Or.inr ⟨_, rfl⟩) (vpn1_lt va)]
  exact hn.2 t1 ht1

theorem lookup_inj {m : Mem} {root : Nat} {τ : Nat → Option Role}
    (hT : TypedSpace m root τ) (va vb : Nat) (hz : lookup m root va ≠ 0)
    (he : lookup m root va = lookup m root vb) :
    VPN2 va = VPN2 vb ∧ VPN1 va = VPN1 vb ∧ VPN0 va = VPN0 vb := by
  obtain ⟨_, s0, _, _, _, hs0, hl⟩ := lookup_typed hT va hz
  obtain ⟨_, t0, _, _, _, ht0, hl2⟩ := lookup_typed hT vb (by rw [← he]; exact hz)
  rw [hl, hl2] at he
  have a1 := hT.aligned s0 _ hs0
  have a2 := hT.aligned t0 _ ht0
  have b1 := vpn0_lt va
  have b2 := vpn0_lt vb
  have e0 : s0 = t0 := by omega
  rw [e0, ht0] at hs0
  injection hs0 with e
  injection e with e2 e1
  exact ⟨e2.symm, e1.symm, by omega⟩

theorem typed_page_disjoint {m : Mem} {root : Nat} {τ : Nat → Option Role}
    (hT : TypedSpace m root τ) (t p : Nat) (r r2 : Role) (ht : τ t = some r)
    (hp : τ p = some r2) (hr : r ≠ r2) (a : Nat) (ha : t ≤ a ∧ a < t + 4096) :
    ¬ (p ≤ a ∧ a < p + 4096) := by
  have hta := hT.aligned t r ht
  have hpa := hT.aligned p r2 hp
  have hne : t ≠ p := by
    intro e
    rw [e, hp] at ht
    exact hr (Option.some.inj ht).symm
  omega

theorem pte_target_aligned (w : Nat) : pte_target w % 4096 = 0 := by
  unfold pte_target PAGE_ORDER
  omega

theorem pte_cleared_invalid (w : Nat) : ¬ pte_valid (pte_set_flags w 0) := by
  unfold pte_valid
  rw [pte_flags_set_flags]
  decide

theorem pte_cleared_target (w : Nat) : pte_target (pte_set_flags w 0) = pte_target w := by
  unfold pte_target
  rw [pte_ppn_set_flags]

theorem user_leaf_at_iff (st : MemState) (root va : Nat) :
    user_leaf_at st root va ↔ leaf_slot st.mem root va := by
  unfold user_leaf_at leaf_slot
  rw [walk_pt_lookup_eq]

theorem user_page_next (L : Layout) (va vb : Nat) (ha : user_page L va) (hb : user_page L vb)
    (h : vb < va + 4096) : vb < va ∨ vb = va := by
  unfold user_page PAGE_SIZE at ha hb
  omega


theorem table_role_l0 (i j : Nat) : table_role (Role.l0 i j) := by
  intro a b c h
  exact Role.noConfusion h

theorem table_role_upper (r : Role) (h : r = Role.root ∨ ∃ k, r = Role.l1 k) :
    table_role r := by
  intro a b c e
  rcases h with h | ⟨k, h⟩ <;> rw [h] at e <;> exact Role.noConfusion e

theorem user_page_small (L : Layout) (va : Nat) (hE : L.USER_END_VMA ≤ 2 ^ 39)
    (h : user_page L va) : va < 2 ^ 39 ∧ va % 4096 = 0 := by
  unfold user_page PAGE_SIZE at h
  omega

theorem unmap_inv_upper {L : Layout} {m0 : Mem} {root : Nat} {τ : Nat → Option Role}
    {v : Nat} {st : MemState} {l : List Nat} (hT : TypedSpace m0 root τ)
    (hI : UnmapInv L m0 root τ v st l) :
    ∀ t r i, τ t = some r → (r = Role.root ∨ ∃ k, r = Role.l1 k) → i < 512 →
      st.mem (t + 8 * i) = m0 (t + 8 * i) := by
  intro t r i ht hr hi
  apply hI.kept t r i ht (table_role_upper r hr) hi
  intro vb _ _ hs
  obtain ⟨_, s0, _, _, _, hs0, hl⟩ := lookup_typed hT vb hs.1
  rw [hl]
  apply typed_slot_ne hT s0 t _ r _ _ hs0 ht _ (vpn0_lt vb) hi
  intro e
  rcases hr with h | ⟨k, h⟩ <;> rw [h] at e <;> exact Role.noConfusion e

theorem unmap_inv_current {L : Layout} {m0 : Mem} {root : Nat} {τ : Nat → Option Role}
    {va : Nat} {st : MemState} {l : List Nat} (hE : L.USER_END_VMA ≤ 2 ^ 39)
    (hT : TypedSpace m0 root τ) (hva : user_page L va)
    (hI : UnmapInv L m0 root τ va st l) (hz : lookup m0 root va ≠ 0) :
    st.mem (lookup m0 root va) = m0 (lookup m0 root va) := by
  obtain ⟨_, t0, _, _, _, ht0, hl⟩ := lookup_typed hT va hz
  rw [hl]
  apply hI.kept t0 _ _ ht0 (table_role_l0 _ _) (vpn0_lt va)
  intro vb hu hlt hs heq
  rw [← hl] at heq
  obtain ⟨e2, e1, e0⟩ := lookup_inj hT vb va hs.1 heq
  have h1 := user_page_small L vb hE hu
  have h2 := user_page_small L va hE hva
  have := vpn_inj vb va h1.1 h2.1 h1.2 h2.2 e2 e1 e0
  omega

theorem unmap_inv_skip {L : Layout} {m0 : Mem} {root : Nat} {τ : Nat → Option Role}
    {va : Nat} {st : MemState} {l : List Nat} (hva : user_page L va)
    (hI : UnmapInv L m0 root τ va st l) (hno : ¬ leaf_slot m0 root va) :
    UnmapInv L m0 root τ (va + 4096) st l := by
  have hlt : ∀ vb, user_page L vb → vb < va + 4096 → leaf_slot m0 root vb → vb < va := by
    intro vb hu hlt hs
    rcases user_page_next L va vb hva hu hlt with h | h
    · exact h
    · rw [h] at hs
      exact absurd hs hno
  refine ⟨?_, ?_, hI.chain, ?_, ?_, hI.zeroed⟩
  · intro vb hu hl hs
    exact hI.cleared vb hu (hlt vb hu hl hs) hs
  · intro t r i ht hr hi h
    exact hI.kept t r i ht hr hi (fun vb hu hl hs => h vb hu (by omega) hs)
  · intro vb hu hl hs
    exact hI.freed vb hu (hlt vb hu hl hs) hs
  · intro p hp
    obtain ⟨vb, hu, hl, hτ⟩ := hI.from_user p hp
    exact ⟨vb, hu, by omega, hτ⟩


theorem unmap_inv_free {L : Layout} {m0 : Mem} {root : Nat} {τ : Nat → Option Role}
    {va : Nat} {st : MemState} {l : List Nat} (hE : L.USER_END_VMA ≤ 2 ^ 39)
    (hT : TypedSpace m0 root τ) (hva : user_page L va)
    (hI : UnmapInv L m0 root τ va st l) (hs : leaf_slot m0 root va) (p : Nat)
    (hp : p = pte_target (m0 (lookup m0 root va)))
    (hτ : τ p = some (Role.data (VPN2 va) (VPN1 va) (VPN0 va))) (m2 : Mem) (fl2 : Nat)
    (hm2 : m2 = store (zero_page (store st.mem (lookup m0 root va)
      (pte_set_flags (m0 (lookup m0 root va)) 0)) p) p st.free_list) (hfl2 : fl2 = p) :
    UnmapInv L m0 root τ (va + 4096) { mem := m2, free_list := fl2, satp := st.satp }
      (p :: l) := by
  obtain ⟨_, t0, _, _, _, ht0, hl⟩ := lookup_typed hT va hs.1
  have hsm := user_page_small L va hE hva
  have hpa := hT.aligned p _ hτ
  have ht0a := hT.aligned t0 _ ht0
  have hk0 := vpn0_lt va
  -- a page-table entry lies outside the freed page
  have hout : ∀ t r i, τ t = some r → table_role r → i < 512 →
      ¬ (p ≤ t + 8 * i ∧ t + 8 * i < p + 4096) := by
    intro t r i ht hr hi
    have hta := hT.aligned t r ht
    exact typed_page_disjoint hT t p r _ ht hτ (hr _ _ _) _ ⟨by omega, by omega⟩
  have htab : ∀ t r i, τ t = some r → table_role r → i < 512 →
      m2 (t + 8 * i) = store st.mem (lookup m0 root va)
        (pte_set_flags (m0 (lookup m0 root va)) 0) (t + 8 * i) := by
    intro t r i ht hr hi
    have ho := hout t r i ht hr hi
    rw [hm2, store_other _ _ _ _ (by omega), zero_page_outside _ _ _ ho]
  -- a page freed earlier is another page
  have hold : ∀ q, q ∈ l → q % 4096 = 0 ∧ q ≠ p ∧
      ¬ (q ≤ lookup m0 root va ∧ lookup m0 root va < q + 4096) := by
    intro q hq
    obtain ⟨vb, hu, hlt, hτq⟩ := hI.from_user q hq
    have hqa := hT.aligned q _ hτq
    refine ⟨hqa, ?_, ?_⟩
    · intro e
      rw [e, hτ] at hτq
      injection hτq with e
      injection e with e2 e1 e0
      have hb := user_page_small L vb hE hu
      have := vpn_inj va vb hsm.1 hb.1 hsm.2 hb.2 e2 e1 e0
      omega
    · rw [hl]
      exact typed_page_disjoint hT t0 q _ _ ht0 hτq (fun e => Role.noConfusion e) _
        ⟨by omega, by omega⟩
  refine ⟨?_, ?_, ?_, ?_, ?_, ?_⟩
  · intro vb hu hlt hsb
    obtain ⟨_, s0, _, _, _, hs0, hlb⟩ := lookup_typed hT vb hsb.1
    show m2 _ = _
    rw [hlb, htab s0 _ _ hs0 (table_role_l0 _ _) (vpn0_lt vb), ← hlb]
    rcases user_page_next L va vb hva hu hlt with h | h
    · have hne : lookup m0 root vb ≠ lookup m0 root va := by
        intro e
        obtain ⟨e2, e1, e0⟩ := lookup_inj hT vb va hsb.1 e
        have hb := user_page_small L vb hE hu
        have := vpn_inj vb va hb.1 hsm.1 hb.2 hsm.2 e2 e1 e0
        omega
      rw [store_other _ _ _ _ hne]
      exact hI.cleared vb hu h hsb
    · rw [h, store_same]
  · intro t r i ht hr hi h
    show m2 _ = _
    rw [htab t r i ht hr hi, store_other _ _ _ _ (fun e => h va hva (by omega) hs e.symm)]
    exact hI.kept t r i ht hr hi (fun vb hu hlt hsb => h vb hu (by omega) hsb)
  · refine ⟨hfl2, ?_⟩
    show FreeChain m2 (m2 p) l
    have hmp : m2 p = st.free_list := by rw [hm2, store_same]
    rw [hmp]
    apply free_chain_congr st.mem m2 l _ _ hI.chain
    intro q hq
    obtain ⟨hqa, hqp, hqe⟩ := hold q hq
    rw [hm2, store_other _ _ _ _ hqp, zero_page_outside _ _ _ (by omega),
      store_other _ _ _ _ (by omega)]
  · intro vb hu hlt hsb
    rcases user_page_next L va vb hva hu hlt with h | h
    · exact List.mem_cons_of_mem _ (hI.freed vb hu h hsb)
    · rw [h, ← hp]
      exact List.mem_cons_self _ _
  · intro q hq
    rcases List.mem_cons.mp hq with h | h
    · exact ⟨va, hva, by omega, by rw [h]; exact hτ⟩
    · obtain ⟨vb, hu, hlt, hτq⟩ := hI.from_user q h
      exact ⟨vb, hu, by omega, hτq⟩
  · intro q hq b hb1 hb2
    show m2 b = 0
    rcases List.mem_cons.mp hq with h | h
    · rw [hm2, store_other _ _ _ _ (by omega), zero_page_inside _ _ _ ⟨by omega, by omega⟩]
    · obtain ⟨hqa, hqp, hqe⟩ := hold q h
      rw [hm2, store_other _ _ _ _ (by omega), zero_page_outside _ _ _ (by omega),
        store_other _ _ _ _ (by omega)]
      exact hI.zeroed q h b hb1 hb2


theorem unmap_user_page_step {L : Layout} {m0 : Mem} {root : Nat} {τ : Nat → Option Role}
    {va : Nat} {st : MemState} {l : List Nat} (hE : L.USER_END_VMA ≤ 2 ^ 39)
    (hT : TypedSpace m0 root τ)
    (hD : ∀ va, user_page L va → leaf_slot m0 root va →
      τ (pte_target (m0 (lookup m0 root va)))
        = some (Role.data (VPN2 va) (VPN1 va) (VPN0 va)))
    (hva : user_page L va) (hI : UnmapInv L m0 root τ va st l) :
    ∃ st2 l2, unmap_user_page st root va = Res.ok () st2 ∧ st2.satp = st.satp ∧
      UnmapInv L m0 root τ (va + 4096) st2 l2 := by
  have hlk : walk_pt_lookup st root va = lookup m0 root va := by
    rw [walk_pt_lookup_eq]
    exact upper_lookup hT (unmap_inv_upper hT hI) va
  unfold unmap_user_page
  simp only
  rw [hlk]
  by_cases hz : lookup m0 root va = 0
  · rw [if_pos (Or.inl hz)]
    exact ⟨st, l, rfl, rfl, unmap_inv_skip hva hI (fun h => h.1 hz)⟩
  · have hcur := unmap_inv_current hE hT hva hI hz
    rw [hcur]
    by_cases hv : pte_flags (m0 (lookup m0 root va)) &&& PTE_V = 0
    · rw [if_pos (Or.inr hv)]
      exact ⟨st, l, rfl, rfl, unmap_inv_skip hva hI (fun h => h.2.1 hv)⟩
    · rw [if_neg (not_or.mpr ⟨hz, hv⟩)]
      by_cases hu : pte_flags (m0 (lookup m0 root va)) &&& PTE_U = 0
      · rw [if_pos hu]
        exact ⟨st, l, rfl, rfl, unmap_inv_skip hva hI (fun h => h.2.2.1 hu)⟩
      · rw [if_neg hu]
        by_cases hr : pte_flags (m0 (lookup m0 root va)) &&& (PTE_R ||| PTE_W ||| PTE_X) ≠ 0
        · rw [if_pos hr]
          have hs : leaf_slot m0 root va := ⟨hz, hv, hu, hr⟩
          have hτ := hD va hva hs
          have hp0 := typed_ne_null hT _ _ hτ
          have hpa := pte_target_aligned (m0 (lookup m0 root va))
          have hpp : pte_ppn (store st.mem (lookup m0 root va)
              (pte_set_flags (m0 (lookup m0 root va)) 0) (lookup m0 root va)) * 2 ^ 12
              = pte_target (m0 (lookup m0 root va)) := by
            rw [store_same, pte_ppn_set_flags]
            rfl
          rw [hpp]
          unfold memory_free_page
          rw [if_neg (by
            unfold PAGE_SIZE
            intro h
            rcases h with h | h
            · exact h hpa
            · exact hp0 h)]
          exact ⟨_, _, rfl, rfl,
            unmap_inv_free hE hT hva hI hs _ rfl hτ _ _ rfl rfl⟩
        · rw [if_neg hr]
          exact ⟨st, l, rfl, rfl, unmap_inv_skip hva hI (fun h => hr h.2.2.2)⟩

theorem unmap_user_loop_spec {L : Layout} {m0 : Mem} {root : Nat} {τ : Nat → Option Role}
    (hE : L.USER_END_VMA ≤ 2 ^ 39) (hT : TypedSpace m0 root τ)
    (hD : ∀ va, user_page L va → leaf_slot m0 root va →
      τ (pte_target (m0 (lookup m0 root va)))
        = some (Role.data (VPN2 va) (VPN1 va) (VPN0 va))) (fuel : Nat) :
    ∀ (v : Nat) (st : MemState) (l : List Nat),
      L.USER_START_VMA ≤ v → v % 4096 = 0 → L.USER_END_VMA ≤ v + 4096 * fuel →
      UnmapInv L m0 root τ v st l →
      ∃ st2 l2 v2, unmap_user_loop L root fuel v st = Res.ok () st2 ∧ st2.satp = st.satp ∧
        L.USER_END_VMA ≤ v2 ∧ UnmapInv L m0 root τ v2 st2 l2 := by
  induction fuel with
  | zero =>
    intro v st l _ _ hend hI
    exact ⟨st, l, v, rfl, rfl, by omega, hI⟩
  | succ k ih =>
    intro v st l hs ha hend hI
    unfold unmap_user_loop
    by_cases hlt : v < L.USER_END_VMA
    · rw [if_pos hlt]
      obtain ⟨s1, l1, h1, hsat, hI1⟩ :=
        unmap_user_page_step hE hT hD (show user_page L v from ⟨hs, hlt, ha⟩) hI
      rw [h1]
      simp only
      obtain ⟨s2, l2, v2, h2, hsat2, hv2, hI2⟩ :=
        ih (v + 4096) s1 l1 (by omega) (by omega) (by omega) hI1
      exact ⟨s2, l2, v2, h2, by rw [hsat2, hsat], hv2, hI2⟩
    · rw [if_neg hlt]
      exact ⟨st, l, v, rfl, rfl, by omega, hI⟩


theorem sample_entry_cases (a : Nat) :
    sampleMem a = 0 ∨ a = 0x80200018 ∨ a = 0x80201000 ∨ a = 0x80202000 ∨ a = 0x80400000 ∨
      a = 0x80401000 := by
  unfold sampleMem
  split_ifs <;> tauto

theorem sample_user_data (L : Layout) :
    UserData L sampleSpace 0x80200000 sampleRoles := by
  refine ⟨?_, ?_⟩
  · intro va _ h
    rw [user_leaf_at_iff] at h
    obtain ⟨_, t0, _, _, _, ht0, hl⟩ := lookup_typed sample_typed va h.1
    have hv := h.2.1
    unfold mapped_page
    rw [walk_pt_lookup_eq]
    rw [show sampleSpace.mem = sampleMem from rfl] at hv ⊢
    rw [hl] at hv ⊢
    have hk := vpn0_lt va
    unfold sampleRoles at ht0
    split_ifs at ht0 with h1 h2 h3 h4
    · exact absurd ht0 (by simp)
    · exact absurd ht0 (by simp)
    · injection ht0 with e
      injection e with e2 e1
      rw [← e2, ← e1]
      subst h3
      rcases sample_entry_cases (0x80202000 + 8 * VPN0 va) with hz | hz | hz | hz | hz | hz
      · rw [hz] at hv
        exact absurd hv pte_valid_zero
      · omega
      · omega
      · have h0 : VPN0 va = 0 := by omega
        rw [h0]
        decide
      · omega
      · omega
    · exact absurd ht0 (by simp)
  · intro va _
    have hk2 := vpn2_lt va
    have hk1 := vpn1_lt va
    refine ⟨?_, ?_⟩
    · rw [show sampleSpace.mem = sampleMem from rfl]
      rcases sample_entry_cases (0x80200000 + 8 * VPN2 va) with hz | hz | hz | hz | hz | hz
      · rw [hz]
        exact fun h => pte_valid_zero h.1
      · rw [hz]
        decide
      · omega
      · omega
      · omega
      · omega
    · intro t1 ht1
      have hτ := typed_l1_of_next sample_typed _ _ hk2 ht1
      rw [show sampleSpace.mem = sampleMem from rfl]
      unfold sampleRoles at hτ
      split_ifs at hτ with h1 h2 h3 h4
      · exact absurd hτ (by simp)
      · subst h2
        rcases sample_entry_cases (0x80201000 + 8 * VPN1 va) with hz | hz | hz | hz | hz | hz
        · rw [hz]
          exact fun h => pte_valid_zero h.1
        · omega
        · rw [hz]
          decide
        · omega
        · omega
        · omega
      · exact absurd hτ (by simp)
      · exact absurd hτ (by simp)


/-- C9 (amended): in a well-formed active address space whose user mappings
are level-0 leaves to data pages of their own, `memory_unmap_and_free_user`
returns; afterwards no user page has a valid leaf carrying `U`, the pages that
were so mapped are linked on the free list (the list `l` at its head) and are
zero after their first word, which holds the link, and every page-table entry
without `U` is unchanged. -/
theorem unmap_and_free_user_spec (L : Layout) (st : MemState) (τ : Nat → Option Role)
    (hA : L.USER_START_VMA % PAGE_SIZE = 0) (hE : L.USER_END_VMA ≤ 2 ^ 39)
    (hT : TypedSpace st.mem (active_space_root st) τ)
    (hD : UserData L st (active_space_root st) τ) :
    ∃ (st2 : MemState) (l : List Nat),
      memory_unmap_and_free_user L st = Res.ok () st2 ∧
      active_space_root st2 = active_space_root st ∧
      (∀ va, user_page L va →
        ¬ user_leaf_at st2 (active_space_root st2) va ∧
        no_large_leaf st2.mem (active_space_root st2) va) ∧
      FreeChain st2.mem st2.free_list l ∧
      (∀ va, user_page L va → user_leaf_at st (active_space_root st) va →
        mapped_page st (active_space_root st) va ∈ l ∧
        ∀ b, mapped_page st (active_space_root st) va < b →
          b < mapped_page st (active_space_root st) va + PAGE_SIZE → st2.mem b = 0) ∧
      (∀ t r i, τ t = some r → table_role r → i < 512 →
        pte_flags (st.mem (t + 8 * i)) &&& PTE_U = 0 →
        st2.mem (t + 8 * i) = st.mem (t + 8 * i)) := by
  obtain ⟨hD1, hD2⟩ := hD
  generalize hroot : active_space_root st = root at hT hD1 hD2 ⊢
  have hmp : ∀ va, mapped_page st root va = pte_target (st.mem (lookup st.mem root va)) := by
    intro va
    unfold mapped_page
    rw [walk_pt_lookup_eq]
  have hD3 : ∀ va, user_page L va → leaf_slot st.mem root va →
      τ (pte_target (st.mem (lookup st.mem root va)))
        = some (Role.data (VPN2 va) (VPN1 va) (VPN0 va)) := by
    intro va hu hs
    rw [← hmp]
    exact hD1 va hu ((user_leaf_at_iff st root va).mpr hs)
  have hI0 : UnmapInv L st.mem root τ L.USER_START_VMA st [] := by
    refine ⟨?_, ?_, trivial, ?_, ?_, ?_⟩
    · intro va hu hlt
      exact absurd hu.1 (by omega)
    · intro t r i _ _ _ _
      rfl
    · intro va hu hlt
      exact absurd hu.1 (by omega)
    · intro p hp
      exact absurd hp (List.not_mem_nil p)
    · intro p hp
      exact absurd hp (List.not_mem_nil p)
  obtain ⟨st2, l, v2, hrun, hsat, hv2, hI⟩ :=
    unmap_user_loop_spec hE hT hD3 (user_pages L) L.USER_START_VMA st [] (Nat.le_refl _)
      (by unfold PAGE_SIZE at hA; exact hA)
      (by unfold user_pages PAGE_SIZE; omega) hI0
  have hroot2 : active_space_root st2 = root := by
    rw [← hroot]
    unfold active_space_root
    rw [hsat]
  have hup := unmap_inv_upper hT hI
  refine ⟨st2, l, ?_, hroot2, ?_, hI.chain, ?_, ?_⟩
  · unfold memory_unmap_and_free_user
    have hr : mtag_to_root st.satp = root := hroot
    rw [hr]
    exact hrun
  · intro va hu
    rw [hroot2]
    refine ⟨?_, upper_no_large hT hup va (hD2 va hu)⟩
    rw [user_leaf_at_iff]
    intro h
    unfold leaf_slot at h
    rw [upper_lookup hT hup va] at h
    by_cases hs : leaf_slot st.mem root va
    · rw [hI.cleared va hu (by have := hu.2.1; omega) hs] at h
      exact pte_cleared_invalid _ h.2.1
    · obtain ⟨_, t0, _, _, _, ht0, hl⟩ := lookup_typed hT va h.1
      have hk : st2.mem (lookup st.mem root va) = st.mem (lookup st.mem root va) := by
        rw [hl]
        apply hI.kept t0 _ _ ht0 (table_role_l0 _ _) (vpn0_lt va)
        intro vb _ _ hsb e
        rw [← hl] at e
        apply hs
        refine ⟨h.1, ?_⟩
        rw [← e]
        exact hsb.2
      rw [hk] at h
      exact hs h
  · intro va hu hs
    rw [user_leaf_at_iff] at hs
    rw [hmp]
    refine ⟨hI.freed va hu (by have := hu.2.1; omega) hs, ?_⟩
    intro b hb1 hb2
    exact hI.zeroed _ (hI.freed va hu (by have := hu.2.1; omega) hs) b hb1
      (by unfold PAGE_SIZE at hb2; exact hb2)
  · intro t r i ht hr hi hnu
    apply hI.kept t r i ht hr hi
    intro vb _ _ hsb e
    have h2 := hsb.2.2.1
    rw [e] at h2
    exact h2 hnu

/-- Instance of `unmap_and_free_user_spec`: the sample address space, whose
one user mapping `0xC0000000 -> 0x80300000` lies in the user region of
`smallLayout`. -/
theorem unmap_and_free_user_spec_witness :
    ∃ (st2 : MemState) (l : List Nat),
      memory_unmap_and_free_user smallLayout sampleSpace = Res.ok () st2 ∧
      active_space_root st2 = active_space_root sampleSpace ∧
      (∀ va, user_page smallLayout va →
        ¬ user_leaf_at st2 (active_space_root st2) va ∧
        no_large_leaf st2.mem (active_space_root st2) va) ∧
      FreeChain st2.mem st2.free_list l ∧
      (∀ va, user_page smallLayout va → user_leaf_at sampleSpace (active_space_root sampleSpace) va →
        mapped_page sampleSpace (active_space_root sampleSpace) va ∈ l ∧
        ∀ b, mapped_page sampleSpace (active_space_root sampleSpace) va < b →
          b < mapped_page sampleSpace (active_space_root sampleSpace) va + PAGE_SIZE →
          st2.mem b = 0) ∧
      (∀ t r i, sampleRoles t = some r → table_role r → i < 512 →
        pte_flags (sampleSpace.mem (t + 8 * i)) &&& PTE_U = 0 →
        st2.mem (t + 8 * i) = sampleSpace.mem (t + 8 * i)) :=
  unmap_and_free_user_spec smallLayout sampleSpace sampleRoles (by decide) (by decide)
    (by rw [sample_root]; exact sample_typed)
    (by rw [sample_root]; exact sample_user_data smallLayout)

/-- C9 counterexample: the user page `0xC0000000` of the sample address space
is mapped by a valid `U` leaf to the physical page `0x80300000`; after
`memory_unmap_and_free_user` that page is the head of the free list and its
first word is the link `0x80400000` to the former head, not zero. -/
theorem freed_page_not_zero_filled :
    smallLayout.USER_START_VMA ≤ 0xC0000000 ∧ 0xC0000000 < smallLayout.USER_END_VMA ∧
    walk_pt_lookup sampleSpace (active_space_root sampleSpace) 0xC0000000 ≠ 0 ∧
    pte_user_leaf (sampleSpace.mem
      (walk_pt_lookup sampleSpace (active_space_root sampleSpace) 0xC0000000)) ∧
    mapped_page sampleSpace (active_space_root sampleSpace) 0xC0000000 = 0x80300000 ∧
    (memory_unmap_and_free_user smallLayout sampleSpace).val = some () ∧
    (memory_unmap_and_free_user smallLayout sampleSpace).state.free_list = 0x80300000 ∧
    (memory_unmap_and_free_user smallLayout sampleSpace).state.mem 0x80300000
      = 0x80400000 := by
  decide


/-! ## Rollback of a range mapping -/


/-- C11: `memory_alloc_and_map_range` on the two pages at `0x3FFFFFF000` maps
the first, fails on the second (`0x4000000000` is not a well-formed address)
and returns NULL; the rollback calls `memory_free_page` with the virtual
address, so the page installed stays validly mapped to `0x80400000`, and the
free list now starts at the virtual address `0x3FFFFFF000` instead of holding
the physical page again. -/
theorem alloc_range_rollback_keeps_mapping :
    leaf_mapping sampleSpace (active_space_root sampleSpace) 0x3FFFFFF000 = none ∧
    sampleSpace.free_list = 0x80400000 ∧
    (memory_alloc_and_map_range sampleSpace 0x3FFFFFF000 8192
      (PTE_R ||| PTE_W ||| PTE_U)).val = some 0 ∧
    leaf_mapping
      (memory_alloc_and_map_range sampleSpace 0x3FFFFFF000 8192
        (PTE_R ||| PTE_W ||| PTE_U)).state
      (active_space_root sampleSpace) 0x3FFFFFF000
      = some (leaf_pte 0x80400000 (PTE_R ||| PTE_W ||| PTE_U)) ∧
    (memory_alloc_and_map_range sampleSpace 0x3FFFFFF000 8192
      (PTE_R ||| PTE_W ||| PTE_U)).state.free_list = 0x3FFFFFF000 := by
  decide


/-! ## Block device: positions, sector numbers and the device end -/


/-- C12 (failing input): on a device of `2^42` bytes with 512-byte blocks,
`vioblk_write` of one byte `0xAB` at position `2^41` (so `p + k <= size`)
returns 1 and advances `pos`, but the byte lands at device byte 0 and device
byte `2^41` keeps its old value: the sector number `pos / blksz = 2^32` is
held in a `uint32_t` and becomes 0. -/
theorem vioblk_write_truncates_sector :
    hugeDev.pos + 1 ≤ hugeDev.size ∧
    (vioblk_write hugeDev (fun _ => 0xAB) 1).2 = 1 ∧
    (vioblk_write hugeDev (fun _ => 0xAB) 1).1.pos = 2 ^ 41 + 1 ∧
    hugeDev.disk 0 = 0 ∧
    (vioblk_write hugeDev (fun _ => 0xAB) 1).1.disk 0 = 0xAB ∧
    (vioblk_write hugeDev (fun _ => 0xAB) 1).1.disk (2 ^ 41) = 0 := by
  decide

/-- C13 (failing input): on the writable sample device positioned 100 bytes
before its end, `vioblk_write` of 200 bytes writes 100 bytes (`pos` advances
from 12188 to 12288 and the device bytes change) and then returns 0, not
100. -/
theorem vioblk_write_returns_zero_at_end :
    sampleDevNearEnd.readonly = false ∧
    (vioblk_write sampleDevNearEnd (fun _ => 0xAB) 200).2 = 0 ∧
    (vioblk_write sampleDevNearEnd (fun _ => 0xAB) 200).1.pos = sampleDevNearEnd.pos + 100 ∧
    sampleDevNearEnd.disk 12188 ≠ 0xAB ∧
    (vioblk_write sampleDevNearEnd (fun _ => 0xAB) 200).1.disk 12188 = 0xAB ∧
    (vioblk_write sampleDevNearEnd (fun _ => 0xAB) 200).1.disk 12287 = 0xAB := by
  decide

/-- C14 (failing input): a device that reports a capacity of one sector
(`size = 512`) and a block size of 4096 satisfies `pos <= size` after attach
and open, and one `vioblk_read` of 4096 bytes leaves `pos = 4096 > size`: the
byte count of an iteration is bounded by the block, not by the device end. -/
theorem vioblk_read_passes_device_end :
    bigBlockDev.size = 512 ∧ bigBlockDev.blksz = 4096 ∧ bigBlockDev.opened = true ∧
    bigBlockDev.pos ≤ bigBlockDev.size ∧
    (vioblk_read bigBlockDev (fun _ => 0) 4096).1.pos = 4096 ∧
    (vioblk_read bigBlockDev (fun _ => 0) 4096).2.2 = 4096 ∧
    ¬ ((vioblk_read bigBlockDev (fun _ => 0) 4096).1.pos
        ≤ (vioblk_read bigBlockDev (fun _ => 0) 4096).1.size) := by
  decide


/-! ## Theorems: ELF loader -/


theorem elf_load_phdr_codes {σ : Type} (L : Layout) (stack : Nat) (io : io_intf σ) (s : σ)
    (st : MemState) (hdr : Buf) (i : Nat) (c : Int) (s1 : σ) (st1 : MemState)
    (e : Option Nat)
    (h : elf_load_phdr L stack io s st hdr i = ElfRes.ret c s1 st1 e) :
    (c = 0 ∨ (-11 ≤ c ∧ c ≤ -1)) ∧ e = none := by
  unfold elf_load_phdr at h
  simp only at h
  generalize io.seek s ((e_phoff hdr + i * e_phentsize hdr) % U64) = sk at h
  generalize ioread_full io sk.1 56 = r at h
  generalize memory_alloc_and_map_range st (round_down_addr (p_vaddr r.buf) PAGE_SIZE)
    (round_up_size (p_memsz r.buf) PAGE_SIZE) (elf_pte_flags (p_flags r.buf) ||| PTE_W) = mr at h
  generalize io.seek r.ios (p_offset r.buf) = sk2 at h
  generalize ioread_full io sk2.1 (p_filesz r.buf) = rd at h
  by_cases c1 : sk.2 ≠ 0
  · rw [if_pos c1] at h
    injection h with h1 h2 h3 h4; subst h1; subst h4; exact ⟨by omega, rfl⟩
  rw [if_neg c1] at h
  by_cases c2 : r.ret ≠ 56
  · rw [if_pos c2] at h
    injection h with h1 h2 h3 h4; subst h1; subst h4; exact ⟨by omega, rfl⟩
  rw [if_neg c2] at h
  by_cases c3 : (p_vaddr r.buf + p_memsz r.buf) % U64 > stack
  · rw [if_pos c3] at h
    injection h with h1 h2 h3 h4; subst h1; subst h4; exact ⟨by omega, rfl⟩
  rw [if_neg c3] at h
  by_cases c4 : p_type r.buf = PT_LOAD
  swap
  · rw [if_neg c4] at h
    injection h with h1 h2 h3 h4; subst h1; subst h4; exact ⟨by omega, rfl⟩
  rw [if_pos c4] at h
  by_cases c5 : p_vaddr r.buf < L.USER_START_VMA ∨
      (p_vaddr r.buf + p_memsz r.buf) % U64 > L.USER_END_VMA
  · rw [if_pos c5] at h
    injection h with h1 h2 h3 h4; subst h1; subst h4; exact ⟨by omega, rfl⟩
  rw [if_neg c5] at h
  cases mr with
  | panic m1 => exact ElfRes.noConfusion h
  | ok v m1 =>
    simp only at h
    by_cases c6 : v = 0
    · rw [if_pos c6] at h
      injection h with h1 h2 h3 h4; subst h1; subst h4; exact ⟨by omega, rfl⟩
    rw [if_neg c6] at h
    by_cases c7 : sk2.2 ≠ 0
    · rw [if_pos c7] at h
      injection h with h1 h2 h3 h4; subst h1; subst h4; exact ⟨by omega, rfl⟩
    rw [if_neg c7] at h
    generalize vstore_range m1 (p_paddr r.buf) rd.buf rd.stored = vs at h
    cases vs with
    | panic m2 => exact ElfRes.noConfusion h
    | ok u m2 =>
      simp only at h
      by_cases c8 : rd.ret % (U64 : Int) ≠ (p_filesz r.buf : Int)
      · rw [if_pos c8] at h
        injection h with h1 h2 h3 h4; subst h1; subst h4; exact ⟨by omega, rfl⟩
      rw [if_neg c8] at h
      generalize (if p_memsz r.buf > p_filesz r.buf then
          vstore_range m2 ((p_vaddr r.buf + p_filesz r.buf) % U64) (fun _ => 0)
            (p_memsz r.buf - p_filesz r.buf)
        else Res.ok () m2) = ms at h
      cases ms with
      | panic m3 => exact ElfRes.noConfusion h
      | ok u3 m3 =>
        simp only at h
        injection h with h1 h2 h3 h4; subst h1; subst h4; exact ⟨by omega, rfl⟩

theorem elf_load_loop_codes {σ : Type} (L : Layout) (stack : Nat) (io : io_intf σ)
    (hdr : Buf) (fuel : Nat) :
    ∀ (i : Nat) (s : σ) (st : MemState) (c : Int) (s1 : σ) (st1 : MemState) (e : Option Nat),
      elf_load_loop L stack io hdr fuel i s st = ElfRes.ret c s1 st1 e →
      (c = 0 ∨ (-11 ≤ c ∧ c ≤ -1)) ∧ e = none := by
  induction fuel with
  | zero =>
    intro i s st c s1 st1 e h
    unfold elf_load_loop at h
    injection h with h1 h2 h3 h4
    exact ⟨Or.inl h1.symm, h4.symm⟩
  | succ k ih =>
    intro i s st c s1 st1 e h
    unfold elf_load_loop at h
    by_cases hi : i < e_phnum hdr
    · rw [if_pos hi] at h
      cases hp : elf_load_phdr L stack io s st hdr i with
      | fault s2 st2 =>
        rw [hp] at h
        exact ElfRes.noConfusion h
      | ret c2 s2 st2 e2 =>
        rw [hp] at h
        simp only at h
        by_cases hc : c2 = 0
        · rw [if_pos hc] at h
          exact ih _ _ _ _ _ _ _ h
        · rw [if_neg hc] at h
          injection h with h1 h2 h3 h4
          subst h1; subst h4
          exact elf_load_phdr_codes L stack io s st hdr i _ _ _ _ hp
    · rw [if_neg hi] at h
      injection h with h1 h2 h3 h4
      exact ⟨Or.inl h1.symm, h4.symm⟩

/-- C15: the header checks of `elf_load` and its return values.  A short read
of the header gives -1, bad magic -2, wrong type or machine -3, wrong data
encoding -9, tested in that order, each time with the memory unchanged and
nothing stored in `*entryptr`; every code returned is 0 or lies in
`[-11, -1]`; and when 0 is returned the header passed all four checks and
`*entryptr` holds `e_entry`, while no other return stores it. -/
theorem elf_load_header_checks {σ : Type} (L : Layout) (USER_STACK_VMA : Nat)
    (io : io_intf σ) (s : σ) (st : MemState) :
    ((ioread_full io s 64).ret ≠ 64 →
      elf_load L USER_STACK_VMA io s st = ElfRes.ret (-1) (ioread_full io s 64).ios st none) ∧
    ((ioread_full io s 64).ret = 64 → ELF_MAGIC_OK (ioread_full io s 64).buf = false →
      elf_load L USER_STACK_VMA io s st = ElfRes.ret (-2) (ioread_full io s 64).ios st none) ∧
    ((ioread_full io s 64).ret = 64 → ELF_MAGIC_OK (ioread_full io s 64).buf = true →
      (e_type (ioread_full io s 64).buf ≠ 2 ∨
        e_machine (ioread_full io s 64).buf ≠ RV64_MACHINE) →
      elf_load L USER_STACK_VMA io s st = ElfRes.ret (-3) (ioread_full io s 64).ios st none) ∧
    ((ioread_full io s 64).ret = 64 → ELF_MAGIC_OK (ioread_full io s 64).buf = true →
      e_type (ioread_full io s 64).buf = 2 →
      e_machine (ioread_full io s 64).buf = RV64_MACHINE →
      e_ident (ioread_full io s 64).buf 5 ≠ ELFDATA2LSB →
      elf_load L USER_STACK_VMA io s st = ElfRes.ret (-9) (ioread_full io s 64).ios st none) ∧
    (∀ (c : Int) (s1 : σ) (st1 : MemState) (e : Option Nat),
      elf_load L USER_STACK_VMA io s st = ElfRes.ret c s1 st1 e →
      (c = 0 ∨ (-11 ≤ c ∧ c ≤ -1)) ∧
      (c = 0 →
        (ioread_full io s 64).ret = 64 ∧ ELF_MAGIC_OK (ioread_full io s 64).buf = true ∧
        e_type (ioread_full io s 64).buf = 2 ∧
        e_machine (ioread_full io s 64).buf = RV64_MACHINE ∧
        e_ident (ioread_full io s 64).buf 5 = ELFDATA2LSB ∧
        e = some (e_entry (ioread_full io s 64).buf)) ∧
      (c ≠ 0 → e = none)) := by
  generalize hr : ioread_full io s 64 = r
  have hdef : elf_load L USER_STACK_VMA io s st =
      (if r.ret ≠ 64 then ElfRes.ret (-1) r.ios st none
      else if !ELF_MAGIC_OK r.buf then ElfRes.ret (-2) r.ios st none
      else if e_type r.buf ≠ 2 ∨ e_machine r.buf ≠ RV64_MACHINE then
        ElfRes.ret (-3) r.ios st none
      else if e_ident r.buf 5 ≠ ELFDATA2LSB then ElfRes.ret (-9) r.ios st none
      else
        match elf_load_loop L USER_STACK_VMA io r.buf (e_phnum r.buf) 0 r.ios st with
        | ElfRes.ret c s1 st1 e =>
          if c = 0 then ElfRes.ret 0 s1 st1 (some (e_entry r.buf)) else ElfRes.ret c s1 st1 e
        | ElfRes.fault s1 st1 => ElfRes.fault s1 st1) := by
    unfold elf_load
    rw [hr]
  rw [hdef]
  refine ⟨?_, ?_, ?_, ?_, ?_⟩
  · intro h1
    rw [if_pos h1]
  · intro h1 h2
    rw [if_neg (not_not.mpr h1), h2]
    rfl
  · intro h1 h2 h3
    rw [if_neg (not_not.mpr h1), h2, if_neg (by simp), if_pos h3]
  · intro h1 h2 h3 h4 h5
    rw [if_neg (not_not.mpr h1), h2, if_neg (by simp), if_neg (by tauto), if_pos h5]
  · intro c s1 st1 e h
    by_cases c1 : r.ret ≠ 64
    · rw [if_pos c1] at h
      injection h with h1 h2 h3 h4
      subst h1; subst h4
      exact ⟨by omega, fun h0 => absurd h0 (by omega), fun _ => rfl⟩
    rw [if_neg c1] at h
    by_cases c2 : (!ELF_MAGIC_OK r.buf) = true
    · rw [if_pos c2] at h
      injection h with h1 h2 h3 h4
      subst h1; subst h4
      exact ⟨by omega, fun h0 => absurd h0 (by omega), fun _ => rfl⟩
    rw [if_neg c2] at h
    by_cases c3 : e_type r.buf ≠ 2 ∨ e_machine r.buf ≠ RV64_MACHINE
    · rw [if_pos c3] at h
      injection h with h1 h2 h3 h4
      subst h1; subst h4
      exact ⟨by omega, fun h0 => absurd h0 (by omega), fun _ => rfl⟩
    rw [if_neg c3] at h
    by_cases c4 : e_ident r.buf 5 ≠ ELFDATA2LSB
    · rw [if_pos c4] at h
      injection h with h1 h2 h3 h4
      subst h1; subst h4
      exact ⟨by omega, fun h0 => absurd h0 (by omega), fun _ => rfl⟩
    rw [if_neg c4] at h
    have hm : ELF_MAGIC_OK r.buf = true := by
      cases hb : ELF_MAGIC_OK r.buf with
      | true => rfl
      | false => rw [hb] at c2; exact absurd rfl c2
    cases hl : elf_load_loop L USER_STACK_VMA io r.buf (e_phnum r.buf) 0 r.ios st with
    | fault s2 st2 =>
      rw [hl] at h
      exact ElfRes.noConfusion h
    | ret c2 s2 st2 e2 =>
      rw [hl] at h
      simp only at h
      have hc := elf_load_loop_codes L USER_STACK_VMA io r.buf _ _ _ _ _ _ _ _ hl
      by_cases c0 : c2 = 0
      · rw [if_pos c0] at h
        injection h with h1 h2 h3 h4
        subst h1; subst h4
        exact ⟨Or.inl rfl, fun _ => ⟨not_not.mp c1, hm, by tauto, by tauto, not_not.mp c4, rfl⟩,
          fun h0 => absurd rfl h0⟩
      · rw [if_neg c0] at h
        injection h with h1 h2 h3 h4
        subst h1; subst h4
        exact ⟨hc.1, fun h0 => absurd h0 c0, fun _ => hc.2⟩


/-- C16 (failing input): a `PT_LOAD` header with `p_vaddr = 0xC0000000` and
`p_memsz = 2^64 - 0xBFFFF000`.  The true end `p_vaddr + p_memsz = 2^64 + 0x1000`
lies far above `USER_STACK_VMA`, but the 64-bit sum is `0x1000`, so neither
the stack test nor the range test rejects the header: `elf_load` does not
return -11 or -6, it starts mapping pages at `0xC0000000` (the page
`0xC0001000`, unmapped before, is mapped afterwards) until the free list is
empty and the kernel panics. -/
theorem elf_load_bounds_check_wraps :
    p_vaddr (fun i => sampleElf 0xC0000000 0xC0000000 0 0xFFFFFFFF40001000 (64 + i))
      = 0xC0000000 ∧
    p_memsz (fun i => sampleElf 0xC0000000 0xC0000000 0 0xFFFFFFFF40001000 (64 + i))
      = 0xFFFFFFFF40001000 ∧
    p_type (fun i => sampleElf 0xC0000000 0xC0000000 0 0xFFFFFFFF40001000 (64 + i)) = PT_LOAD ∧
    ¬ (0xC0000000 + 0xFFFFFFFF40001000 ≤ 0x100000000) ∧
    leaf_mapping sampleSpace (active_space_root sampleSpace) 0xC0001000 = none ∧
    (elf_load sampleLayout 0x100000000 iolit
      (sampleElfLit 0xC0000000 0xC0000000 0 0xFFFFFFFF40001000) sampleSpace).code = none ∧
    leaf_mapping
      (elf_load sampleLayout 0x100000000 iolit
        (sampleElfLit 0xC0000000 0xC0000000 0 0xFFFFFFFF40001000) sampleSpace).mst
      (active_space_root sampleSpace) 0xC0001000
      = some (leaf_pte 0x80401000 (PTE_R ||| PTE_W ||| PTE_U)) := by
  decide


/-- C17 (failing input): the sample image has one `PT_LOAD` header with
`p_offset = 120`, `p_vaddr = 0xC0001000`, `p_filesz = 2`, `p_memsz = 4` and
`p_paddr = 0xC0001800`, and the file bytes `0x11 0x22` at offset 120.
`elf_load` returns 0, yet the bytes at `p_vaddr` and `p_vaddr + 1` are 0: the
segment was read to the address `p_paddr`, where the two bytes are found.
With `p_paddr = p_vaddr` the same image is loaded at `p_vaddr`. -/
theorem elf_load_reads_into_paddr :
    p_type (fun i => sampleElf 0xC0001000 0xC0001800 2 4 (64 + i)) = PT_LOAD ∧
    p_offset (fun i => sampleElf 0xC0001000 0xC0001800 2 4 (64 + i)) = 120 ∧
    p_vaddr (fun i => sampleElf 0xC0001000 0xC0001800 2 4 (64 + i)) = 0xC0001000 ∧
    p_filesz (fun i => sampleElf 0xC0001000 0xC0001800 2 4 (64 + i)) = 2 ∧
    p_paddr (fun i => sampleElf 0xC0001000 0xC0001800 2 4 (64 + i)) = 0xC0001800 ∧
    sampleElf 0xC0001000 0xC0001800 2 4 120 = 0x11 ∧
    sampleElf 0xC0001000 0xC0001800 2 4 121 = 0x22 ∧
    (elf_load sampleLayout 0x100000000 iolit (sampleElfLit 0xC0001000 0xC0001800 2 4)
      sampleSpace).code = some 0 ∧
    vload (elf_load sampleLayout 0x100000000 iolit (sampleElfLit 0xC0001000 0xC0001800 2 4)
      sampleSpace).mst 0xC0001000 = some 0 ∧
    vload (elf_load sampleLayout 0x100000000 iolit (sampleElfLit 0xC0001000 0xC0001800 2 4)
      sampleSpace).mst 0xC0001001 = some 0 ∧
    vload (elf_load sampleLayout 0x100000000 iolit (sampleElfLit 0xC0001000 0xC0001800 2 4)
      sampleSpace).mst 0xC0001800 = some 0x11 ∧
    vload (elf_load sampleLayout 0x100000000 iolit (sampleElfLit 0xC0001000 0xC0001800 2 4)
      sampleSpace).mst 0xC0001801 = some 0x22 ∧
    (elf_load sampleLayout 0x100000000 iolit (sampleElfLit 0xC0001000 0xC0001000 2 4)
      sampleSpace).code = some 0 ∧
    vload (elf_load sampleLayout 0x100000000 iolit (sampleElfLit 0xC0001000 0xC0001000 2 4)
      sampleSpace).mst 0xC0001000 = some 0x11 := by
  decide


/-! ## Theorems: fork and signals -/

/-- C18 (failing input): the main process (slot 0) forks while slots 0 and 1
are taken, so slot 2 is reserved for the child, and thread creation fails
with -1.  `sysfork` returns -1 and the reference count of the parent's
endpoint is back at 2, but the table is not what it was: slot 0, the main
process, is now empty, and slot 2 still points to the (zeroed) child struct,
because `proctab[child_proc->id] = NULL` runs after `memset` has set
`child_proc->id` to 0. -/
theorem sysfork_failure_clears_slot_zero :
    (sampleProcs.proctab 0).isSome = true ∧
    (sampleProcs.proctab 2).isSome = false ∧
    sampleProcs.refcnt 5 = 2 ∧
    (sysfork sampleProcs process_zero (fun c => (-1, c))).2 = -1 ∧
    ((sysfork sampleProcs process_zero (fun c => (-1, c))).1.proctab 0).isSome = false ∧
    ((sysfork sampleProcs process_zero (fun c => (-1, c))).1.proctab 2).isSome = true ∧
    (sysfork sampleProcs process_zero (fun c => (-1, c))).1.refcnt 5 = 2 := by
  decide

/-- C20 (failing input): the running process 0 sends `SIGKILL` to the
existing process 1.  `syssignal` returns without a value (not 0), the caller
does not exit, and the target is untouched: its descriptor 0 is still open
and the reference count of its endpoint is still 2, because
`process_terminate` only acts when the target is the calling process. -/
theorem syssignal_kill_other_does_nothing :
    (find_process_by_pid sampleProcs 1).isSome = true ∧
    (syssignal sampleProcs 1 SIGKILL).value = none ∧
    (syssignal sampleProcs 1 SIGKILL).hasExited = false ∧
    ((syssignal sampleProcs 1 SIGKILL).state.proctab 1).map (fun p => p.iotab 0) = some 5 ∧
    (syssignal sampleProcs 1 SIGKILL).state.refcnt 5 = 2 ∧
    (syssignal sampleProcs 0 SIGKILL).hasExited = true ∧
    (syssignal sampleProcs 0 SIGKILL).state.refcnt 5 = 1 ∧
    (syssignal sampleProcs 7 SIGKILL).value = some (-EINVAL) := by
  decide

/-- C19 counterexample: with `pending = 1` (bit 0, as `signal(pid, 0)` sets
it) and nothing blocked, `pending & ~blocked` is non-zero, yet
`signal_deliver` clears nothing, since the loop starts at signal 1; and with
`pending = 2 + 2^40` it clears bit 1 together with bit 40, since the mask is
an `unsigned int`. -/
theorem signal_deliver_skips_bit_zero :
    (sampleProc 0 1 0).pending_signals &&& (U64 - 1 - (sampleProc 0 1 0).blocked_signals) ≠ 0 ∧
    (signal_deliver (sampleProc 0 1 0)).1.pending_signals = 1 ∧
    (signal_deliver (sampleProc 0 (2 + 2 ^ 40) 0)).1.pending_signals = 0 := by
  decide


theorem and_two_pow_ne_zero (u i : Nat) : u &&& 2 ^ i ≠ 0 ↔ u.testBit i = true := by
  rw [Nat.and_two_pow]
  have h2 : 0 < 2 ^ i := Nat.two_pow_pos i
  cases h : u.testBit i
  · simp
  · simp only [Bool.toNat_true, one_mul, ne_eq, iff_true]
    omega

theorem sig_pow_mod (sig : Nat) (h : sig < NSIG) : 2 ^ sig % U32 = 2 ^ sig := by
  apply Nat.mod_eq_of_lt
  unfold U32
  exact Nat.pow_lt_pow_right (by decide) (by unfold NSIG at h; omega)

theorem unmasked_testBit (pend blk i : Nat) :
    ((pend &&& (U64 - 1 - blk % U64)) % U32).testBit i
      = (decide (i < 32) && (pend.testBit i && !blk.testBit i)) := by
  unfold U64 U32
  have e : 2 ^ 64 - 1 - blk % 2 ^ 64 = 2 ^ 64 - (blk % 2 ^ 64 + 1) := by omega
  rw [Nat.testBit_mod_two_pow, Nat.testBit_and, e,
    Nat.testBit_two_pow_sub_succ (Nat.mod_lt _ (by norm_num)), Nat.testBit_mod_two_pow]
  by_cases h : i < 32
  · have h64 : i < 64 := by omega
    simp [h, h64]
  · simp [h]

theorem signal_deliver_loop_spec (u k : Nat) (hk : k < NSIG) (hset : u.testBit k = true)
    (fuel : Nat) :
    ∀ sig, sig ≤ k → k - sig < fuel → (∀ i, sig ≤ i → i < k → u.testBit i = false) →
      signal_deliver_loop u fuel sig = some k := by
  induction fuel with
  | zero => intro sig _ h; omega
  | succ n ih =>
    intro sig hle hf hlow
    unfold signal_deliver_loop
    have hs : sig < NSIG := by omega
    rw [if_pos hs, sig_pow_mod sig hs]
    by_cases e : sig = k
    · subst e
      rw [if_pos ((and_two_pow_ne_zero u sig).mpr hset)]
    · have hb := hlow sig (Nat.le_refl _) (by omega)
      have hn : ¬ (u &&& 2 ^ sig ≠ 0) := by
        rw [and_two_pow_ne_zero, hb]
        simp
      rw [if_neg hn]
      exact ih (sig + 1) (by omega) (by omega) (fun i h1 h2 => hlow i (by omega) h2)

theorem signal_deliver_loop_none (u : Nat) (fuel : Nat) :
    ∀ sig, (∀ i, sig ≤ i → i < NSIG → u.testBit i = false) →
      signal_deliver_loop u fuel sig = none := by
  induction fuel with
  | zero => intro sig _; rfl
  | succ n ih =>
    intro sig hlow
    unfold signal_deliver_loop
    by_cases hs : sig < NSIG
    · rw [if_pos hs, sig_pow_mod sig hs]
      have hn : ¬ (u &&& 2 ^ sig ≠ 0) := by
        rw [and_two_pow_ne_zero, hlow sig (Nat.le_refl _) hs]
        simp
      rw [if_neg hn]
      exact ih (sig + 1) (fun i h1 h2 => hlow i (by omega) h2)
    · rw [if_neg hs]

/-- C19 (amended): for a process whose pending set fits 32 bits, if `k` is the
lowest signal number in `1..NSIG-1` that is pending and not blocked, one call
of `signal_deliver` clears bit `k` of `pending` and no other bit and leaves
`blocked` unchanged; and if no signal number in `1..NSIG-1` is pending and not
blocked, `signal_deliver` changes nothing. -/
theorem signal_deliver_clears_lowest (p : process) (hp : p.pending_signals < 2 ^ 32) :
    (∀ k, 1 ≤ k → k < NSIG →
      p.pending_signals.testBit k = true → p.blocked_signals.testBit k = false →
      (∀ i, 1 ≤ i → i < k →
        ¬ (p.pending_signals.testBit i = true ∧ p.blocked_signals.testBit i = false)) →
      (∀ j, (signal_deliver p).1.pending_signals.testBit j
          = (p.pending_signals.testBit j && decide (j ≠ k))) ∧
      (signal_deliver p).1.blocked_signals = p.blocked_signals) ∧
    ((∀ i, 1 ≤ i → i < NSIG →
        ¬ (p.pending_signals.testBit i = true ∧ p.blocked_signals.testBit i = false)) →
      signal_deliver p = (p, false)) := by
  refine ⟨?_, ?_⟩
  · intro k hk1 hk hset hun hlow
    have hk32 : k < 32 := by unfold NSIG at hk; omega
    have hu : ((p.pending_signals &&& (U64 - 1 - p.blocked_signals % U64)) % U32).testBit k
        = true := by
      rw [unmasked_testBit, hset, hun]
      simp [hk32]
    have hne : (p.pending_signals &&& (U64 - 1 - p.blocked_signals % U64)) % U32 ≠ 0 := by
      intro h0
      rw [h0] at hu
      simp at hu
    have hloop := signal_deliver_loop_spec _ k hk hu NSIG 1 hk1 (by unfold NSIG at hk ⊢; omega)
      (by
        intro i h1 h2
        rw [unmasked_testBit]
        have := hlow i h1 h2
        cases ha : p.pending_signals.testBit i <;> cases hb : p.blocked_signals.testBit i <;>
          simp_all)
    unfold signal_deliver
    simp only
    rw [if_neg hne, hloop]
    simp only
    refine ⟨?_, trivial⟩
    intro j
    rw [Nat.testBit_and, sig_pow_mod k hk]
    have e : U32 - 1 - 2 ^ k = 2 ^ 32 - (2 ^ k + 1) := by unfold U32; omega
    have hlt : 2 ^ k < 2 ^ 32 := Nat.pow_lt_pow_right (by decide) hk32
    rw [e, Nat.testBit_two_pow_sub_succ hlt, Nat.testBit_two_pow]
    by_cases hj : j < 32
    · by_cases hjk : k = j
      · subst hjk; simp
      · have : j ≠ k := fun h => hjk h.symm
        simp [hj, hjk, this]
    · have hfalse : p.pending_signals.testBit j = false := by
        apply Nat.testBit_lt_two_pow
        exact Nat.lt_of_lt_of_le hp (Nat.pow_le_pow_right (by decide) (by omega))
      simp [hfalse]
  · intro hnone
    unfold signal_deliver
    simp only
    by_cases h0 : (p.pending_signals &&& (U64 - 1 - p.blocked_signals % U64)) % U32 = 0
    · rw [if_pos h0]
    · rw [if_neg h0, signal_deliver_loop_none _ NSIG 1 (by
        intro i h1 h2
        rw [unmasked_testBit]
        have := hnone i h1 h2
        cases ha : p.pending_signals.testBit i <;> cases hb : p.blocked_signals.testBit i <;>
          simp_all)]

/-- Instance of `signal_deliver_clears_lowest`: signals 3 and 5 pending
(`pending = 40`), signal 3 blocked (`blocked = 8`): signal 5 is delivered. -/
theorem signal_deliver_clears_lowest_witness :
    (sampleProc 0 40 8).pending_signals < 2 ^ 32 ∧
    (∀ j, (signal_deliver (sampleProc 0 40 8)).1.pending_signals.testBit j
        = ((sampleProc 0 40 8).pending_signals.testBit j && decide (j ≠ 5))) ∧
    (signal_deliver (sampleProc 0 40 8)).1.blocked_signals
      = (sampleProc 0 40 8).blocked_signals :=
  ⟨by decide,
    (signal_deliver_clears_lowest (sampleProc 0 40 8) (by decide)).1 5 (by decide) (by decide)
      (by decide) (by decide)
      (by
        intro i h1 h2
        have : i = 1 ∨ i = 2 ∨ i = 3 ∨ i = 4 := by omega
        rcases this with rfl | rfl | rfl | rfl <;> decide)⟩


/-! ## Cloning an address space -/


theorem fresh_cons_tail {τ : Nat → Option Role} {p : Nat} {ps : List Nat}
    (h : FreshPages τ (p :: ps)) : FreshPages τ ps := by
  have hnd := List.nodup_cons.mp h.nodup
  exact ⟨hnd.2, fun q hq => h.ne_null q (List.mem_cons_of_mem _ hq),
    fun q hq => h.aligned q (List.mem_cons_of_mem _ hq),
    fun q hq => h.small q (List.mem_cons_of_mem _ hq),
    fun q hq => h.unused q (List.mem_cons_of_mem _ hq)⟩

theorem copy_page_outside (m : Mem) (dst src a : Nat) (h : ¬ (dst ≤ a ∧ a < dst + 4096)) :
    copy_page m dst src a = m a := by
  unfold copy_page PAGE_SIZE
  rw [if_neg h]

theorem copy_page_inside (m : Mem) (dst src i : Nat) (h : i < 4096) :
    copy_page m dst src (dst + i) = m (src + i) := by
  unfold copy_page PAGE_SIZE
  rw [if_pos ⟨by omega, by omega⟩]
  congr 1
  omega

/-- The entries `copy_global_entries` has not reached yet are as they were,
as is every address that is no entry of the child root. -/
theorem copy_global_entries_spec (main croot : Nat) (hm : main % 4096 = 0)
    (hc : croot % 4096 = 0) (hne : main ≠ croot) (fuel : Nat) :
    ∀ (i : Nat) (m : Mem),
      (∀ a, (∀ j, j < 512 → a ≠ croot + 8 * j) →
        copy_global_entries main croot fuel i m a = m a) ∧
      (∀ j, j < 512 →
        copy_global_entries main croot fuel i m (croot + 8 * j)
          = if i ≤ j ∧ j < i + fuel ∧ pte_flags (m (main + 8 * j)) &&& PTE_G ≠ 0
            then m (main + 8 * j) else m (croot + 8 * j)) := by
  induction fuel with
  | zero =>
    intro i m
    refine ⟨fun a _ => rfl, ?_⟩
    intro j _
    rw [if_neg (by omega)]
    rfl
  | succ n ih =>
    intro i m
    unfold copy_global_entries
    by_cases hi : i < PTE_CNT
    · rw [if_pos hi]
      have hi2 : i < 512 := hi
      by_cases hg : pte_flags (m (main + 8 * i)) &&& PTE_G ≠ 0
      · rw [if_pos hg]
        obtain ⟨ih1, ih2⟩ := ih (i + 1) (store m (croot + 8 * i) (m (main + 8 * i)))
        refine ⟨?_, ?_⟩
        · intro a ha
          rw [ih1 a ha, store_other _ _ _ _ (ha i hi2)]
        · intro j hj
          rw [ih2 j hj]
          have hmain : ∀ j2, j2 < 512 →
              store m (croot + 8 * i) (m (main + 8 * i)) (main + 8 * j2) = m (main + 8 * j2) := by
            intro j2 hj2
            exact store_other _ _ _ _ (by omega)
          rw [hmain j hj]
          by_cases e : j = i
          · subst e
            rw [if_neg (by omega), store_same, if_pos ⟨Nat.le_refl _, by omega, hg⟩]
          · rw [store_other _ _ _ _ (by omega)]
            by_cases c : i + 1 ≤ j ∧ j < i + 1 + n ∧ pte_flags (m (main + 8 * j)) &&& PTE_G ≠ 0
            · rw [if_pos c, if_pos ⟨by omega, by omega, c.2.2⟩]
            · rw [if_neg c, if_neg (by
                intro h
                exact c ⟨by omega, by omega, h.2.2⟩)]
      · rw [if_neg hg]
        obtain ⟨ih1, ih2⟩ := ih (i + 1) m
        refine ⟨ih1, ?_⟩
        intro j hj
        rw [ih2 j hj]
        by_cases e : j = i
        · subst e
          rw [if_neg (by omega), if_neg (fun h => hg h.2.2)]
        · by_cases c : i + 1 ≤ j ∧ j < i + 1 + n ∧ pte_flags (m (main + 8 * j)) &&& PTE_G ≠ 0
          · rw [if_pos c, if_pos ⟨by omega, by omega, c.2.2⟩]
          · rw [if_neg c, if_neg (by
              intro h
              exact c ⟨by omega, by omega, h.2.2⟩)]
    · rw [if_neg hi]
      refine ⟨fun a _ => rfl, ?_⟩
      intro j hj
      have : ¬ i < 512 := hi
      rw [if_neg (by omega)]


theorem clone_root_mem (m0 : Mem) (main croot : Nat) (hm : main % 4096 = 0)
    (hc : croot % 4096 = 0) (hne : main ≠ croot) :
    (∀ a, ¬ (croot ≤ a ∧ a < croot + 4096) →
      copy_global_entries main croot PTE_CNT 0 (zero_page (zero_page m0 croot) croot) a
        = m0 a) ∧
    (∀ j, j < 512 →
      copy_global_entries main croot PTE_CNT 0 (zero_page (zero_page m0 croot) croot)
          (croot + 8 * j)
        = if pte_flags (m0 (main + 8 * j)) &&& PTE_G ≠ 0 then m0 (main + 8 * j) else 0) := by
  obtain ⟨h1, h2⟩ := copy_global_entries_spec main croot hm hc hne PTE_CNT 0
    (zero_page (zero_page m0 croot) croot)
  refine ⟨?_, ?_⟩
  · intro a ha
    rw [h1 a (by intro j hj; omega), zero_page_outside _ _ _ ha, zero_page_outside _ _ _ ha]
  · intro j hj
    rw [h2 j hj]
    have e1 : zero_page (zero_page m0 croot) croot (main + 8 * j) = m0 (main + 8 * j) := by
      rw [zero_page_outside _ _ _ (by omega), zero_page_outside _ _ _ (by omega)]
    have e2 : zero_page (zero_page m0 croot) croot (croot + 8 * j) = 0 :=
      zero_page_inside _ _ _ ⟨by omega, by omega⟩
    rw [e1, e2]
    by_cases hg : pte_flags (m0 (main + 8 * j)) &&& PTE_G ≠ 0
    · rw [if_pos hg, if_pos ⟨Nat.zero_le _, by unfold PTE_CNT; omega, hg⟩]
    · rw [if_neg hg, if_neg (fun h => hg h.2.2)]

theorem clone_inv_init_aux (L : Layout) (m0 m3 : Mem) (proot croot : Nat) (rest : List Nat)
    (τg : Nat → Option Role) (satp : Nat)
    (hK : KernelPart L m0 τg) (hFg : FreshPages τg (croot :: rest))
    (hch : FreeChain m0 croot (croot :: rest))
    (ho : ∀ a, ¬ (croot ≤ a ∧ a < croot + 4096) → m3 a = m0 a)
    (hi : ∀ j, j < 512 → m3 (croot + 8 * j)
      = if pte_flags (m0 (L.main_pt2 + 8 * j)) &&& PTE_G ≠ 0 then m0 (L.main_pt2 + 8 * j)
        else 0) :
    CloneInv L m0 proot croot τg (croot :: rest) L.USER_START_VMA
      { mem := m3, free_list := m0 croot, satp := satp }
      (Function.update τg croot (some Role.root)) 1 := by
  have hc0 := hFg.ne_null croot (List.mem_cons_self _ _)
  have hca := hFg.aligned croot (List.mem_cons_self _ _)
  have hcf := hFg.unused croot (List.mem_cons_self _ _)
  have hnd := List.nodup_cons.mp hFg.nodup
  -- a typed kernel table lies outside the new root
  have hkt : ∀ t r, τg t = some r → ∀ i, i < 512 →
      ¬ (croot ≤ t + 8 * i ∧ t + 8 * i < croot + 4096) := by
    intro t r ht i hi2
    have hta := hK.aligned t r ht
    have : t ≠ croot := by
      intro e
      rw [e, hcf] at ht
      exact absurd ht (by simp)
    omega
  have hup : ∀ t r, τg t = some r → Function.update τg croot (some Role.root) t = some r := by
    intro t r ht
    rw [Function.update_noteq (by intro e; rw [e, hcf] at ht; exact absurd ht (by simp)), ht]
  refine ⟨⟨Function.update_same _ _ _, ?_, ?_, ?_, ?_⟩, ?_, by simp, ?_, fresh_tail _ _ _ _ hFg,
    ?_, ?_, ?_, ?_, ?_, by omega⟩
  · rw [Function.update_noteq (fun e => hc0 e.symm)]
    exact hK.null_role
  · intro t r h
    by_cases e : t = croot
    · rw [e]; exact hca
    · rw [Function.update_noteq e] at h
      exact hK.aligned t r h
  · intro i hi2
    show pte_valid (m3 (croot + 8 * i)) → ¬ pte_rwx (m3 (croot + 8 * i)) →
      Function.update τg croot (some Role.root) (pte_target (m3 (croot + 8 * i)))
        = some (Role.l1 i)
    rw [hi i hi2]
    by_cases hg : pte_flags (m0 (L.main_pt2 + 8 * i)) &&& PTE_G ≠ 0
    · rw [if_pos hg]
      intro hv hr
      exact hup _ _ (hK.l1_role i hi2 hg hv hr)
    · rw [if_neg hg]
      intro hv
      exact absurd hv pte_valid_zero
  · intro t i j ht hj
    have htc : t ≠ croot := by
      intro e
      rw [e, Function.update_same] at ht
      exact Role.noConfusion (Option.some.inj ht)
    rw [Function.update_noteq htc] at ht
    show pte_valid (m3 (t + 8 * j)) → ¬ pte_rwx (m3 (t + 8 * j)) →
      Function.update τg croot (some Role.root) (pte_target (m3 (t + 8 * j)))
        = some (Role.l0 i j)
    rw [ho _ (hkt t _ ht j hj)]
    intro hv hr
    exact hup _ _ (hK.l0_role t i j ht hj hv hr)
  · intro t r h
    by_cases e : t = croot
    · exact Or.inr (by rw [e]; simp)
    · rw [Function.update_noteq e] at h
      exact Or.inl h
  · show FreeChain m3 (m0 croot) rest
    apply free_chain_congr m0 _ rest _ _ hch.2
    intro q hq
    have hqa := hFg.aligned q (List.mem_cons_of_mem _ hq)
    have hqc : q ≠ croot := by
      intro e; rw [e] at hq; exact hnd.1 hq
    exact ho q (by omega)
  · intro a ha
    exact ho a (ha croot (by simp))
  · intro va hu
    show ¬ (pte_valid (m3 (croot + 8 * VPN2 va)) ∧ pte_rwx (m3 (croot + 8 * VPN2 va)))
    rw [hi _ (vpn2_lt va), if_neg (not_not.mpr (hK.user_free va hu))]
    exact fun h => pte_valid_zero h.1
  · intro t i j ht hin
    have e : t = croot := by simpa using hin
    rw [e, Function.update_same] at ht
    exact Role.noConfusion (Option.some.inj ht)
  · intro va hu hlt
    exact absurd hu.1 (by omega)
  · intro va hu _
    left
    show lookup m3 croot va = 0
    unfold lookup
    have hn : next_table m3 croot (VPN2 va) = none := by
      unfold next_table
      rw [hi _ (vpn2_lt va), if_neg (not_not.mpr (hK.user_free va hu))]
      rw [if_neg (fun h => pte_valid_zero h.2.1)]
    rw [hn]


theorem typed_outside_free {τ : Nat → Option Role} {fl : List Nat} (hF : FreshPages τ fl)
    (t : Nat) (r : Role) (ht : τ t = some r) (hta : t % 4096 = 0) (p : Nat) (hp : p ∈ fl)
    (a : Nat) (ha : t ≤ a ∧ a < t + 4096) : ¬ (p ≤ a ∧ a < p + 4096) := by
  have hpa := hF.aligned p hp
  have hne : t ≠ p := by
    intro e
    have := hF.unused p hp
    rw [← e, ht] at this
    exact absurd this (by simp)
  omega

theorem mem_take_add {l : List Nat} {k n p : Nat} :
    p ∈ l.take (k + n) ↔ p ∈ l.take k ∨ p ∈ (l.drop k).take n := by
  rw [List.take_add, List.mem_append]

theorem free_pages_disjoint {l : List Nat} (hnd : l.Nodup)
    (hal : ∀ p, p ∈ l → p % 4096 = 0) {k : Nat} {p q : Nat}
    (hp : p ∈ l.take k) (hq : q ∈ l.drop k) (a : Nat) (ha : p ≤ a ∧ a < p + 4096) :
    ¬ (q ≤ a ∧ a < q + 4096) := by
  have h1 := hal p (List.mem_of_mem_take hp)
  have h2 := hal q (List.mem_of_mem_drop hq)
  have hne : p ≠ q := by
    intro e
    rw [e] at hp
    exact List.disjoint_take_drop hnd (Nat.le_refl k) hp hq
  omega

theorem clone_parent_entries {L : Layout} {m0 : Mem} {proot croot : Nat}
    {τg τp τc : Nat → Option Role} {fl0 : List Nat} {v k : Nat} {st : MemState}
    (hTp : TypedSpace m0 proot τp) (hFp : FreshPages τp fl0)
    (hI : CloneInv L m0 proot croot τg fl0 v st τc k) :
    ∀ t r i, τp t = some r → i < 512 → st.mem (t + 8 * i) = m0 (t + 8 * i) := by
  intro t r i ht hi
  apply hI.frame
  intro p hp
  exact typed_outside_free hFp t r ht (hTp.aligned t r ht) p (List.mem_of_mem_take hp) _
    ⟨by omega, by omega⟩

theorem clone_parent_lookup {L : Layout} {m0 : Mem} {proot croot : Nat}
    {τg τp τc : Nat → Option Role} {fl0 : List Nat} {v k : Nat} {st : MemState}
    (hTp : TypedSpace m0 proot τp) (hFp : FreshPages τp fl0)
    (hI : CloneInv L m0 proot croot τg fl0 v st τc k) (va : Nat) :
    lookup st.mem proot va = lookup m0 proot va ∧
    (lookup m0 proot va ≠ 0 → st.mem (lookup m0 proot va) = m0 (lookup m0 proot va)) := by
  have he := clone_parent_entries hTp hFp hI
  refine ⟨upper_lookup hTp (fun t r i ht _ hi => he t r i ht hi) va, ?_⟩
  intro hz
  obtain ⟨_, t0, _, _, _, ht0, hl⟩ := lookup_typed hTp va hz
  rw [hl]
  exact he t0 _ _ ht0 (vpn0_lt va)

theorem clone_inv_skip {L : Layout} {m0 : Mem} {proot croot : Nat}
    {τg τc : Nat → Option Role} {fl0 : List Nat} {va k : Nat} {st : MemState}
    (hva : user_page L va)
    (hI : CloneInv L m0 proot croot τg fl0 va st τc k) (hno : ¬ mapped_slot m0 proot va) :
    CloneInv L m0 proot croot τg fl0 (va + 4096) st τc k := by
  refine ⟨hI.typed, hI.origin, hI.root_taken, hI.chain, hI.fresh, hI.frame, hI.root_small,
    hI.l1_small, ?_, ?_, ?_⟩
  · intro vb hu hlt hm
    rcases user_page_next L va vb hva hu hlt with h | h
    · exact hI.copied vb hu h hm
    · rw [h] at hm
      exact absurd hm hno
  · intro vb hu h
    apply hI.empty vb hu
    rcases h with h | h
    · exact Or.inl (by omega)
    · exact Or.inr h
  · have := hI.count
    have h1 := hva.1
    omega


theorem clone_inv_map {L : Layout} {m0 : Mem} {proot croot : Nat}
    {τg τc : Nat → Option Role} {fl0 : List Nat} {va k : Nat} {st : MemState}
    (hE : L.USER_END_VMA ≤ 2 ^ 39) (hK : KernelPart L m0 τg) (hFg : FreshPages τg fl0)
    (hva : user_page L va) (hm : mapped_slot m0 proot va)
    (hI : CloneInv L m0 proot croot τg fl0 va st τc k)
    (st1 : MemState) (τ1 : Nat → Option Role) (n t1 t0 q : Nat) (rest : List Nat)
    (hn : n ≤ 2)
    (hT1 : TypedSpace st1.mem croot τ1)
    (hc1 : FreeChain st1.mem st1.free_list ((fl0.drop k).drop n))
    (hf1 : FreshPages τ1 ((fl0.drop k).drop n))
    (ht1 : τ1 t1 = some (Role.l1 (VPN2 va)))
    (ht0 : τ1 t0 = some (Role.l0 (VPN2 va) (VPN1 va)))
    (hn1 : next_table st1.mem croot (VPN2 va) = some t1)
    (hn0 : next_table st1.mem t1 (VPN1 va) = some t0)
    (hsl : SlotsPreserved st.mem st1.mem croot)
    (hfr : ∀ a, a ≠ croot + 8 * VPN2 va → a ≠ t1 + 8 * VPN1 va →
      (∀ p, p ∈ (fl0.drop k).take n → ¬ (p ≤ a ∧ a < p + 4096)) → st1.mem a = st.mem a)
    (hnew : ∀ t r, τ1 t = some r → τc t = some r ∨ t ∈ (fl0.drop k).take n)
    (hzero : ∀ a, a ≠ croot + 8 * VPN2 va → a ≠ t1 + 8 * VPN1 va →
      (∃ p, p ∈ (fl0.drop k).take n ∧ p ≤ a ∧ a < p + 4096) → st1.mem a = 0)
    (hq : (fl0.drop k).drop n = q :: rest)
    (mf : Mem) (fl2 : Nat) (hfl2 : fl2 = st1.mem q)
    (M1 : ∀ a, ¬ (q ≤ a ∧ a < q + 4096) → a ≠ t0 + 8 * VPN0 va → mf a = st1.mem a)
    (M2 : pte_valid (mf (t0 + 8 * VPN0 va)) ∧
      pte_flags (mf (t0 + 8 * VPN0 va)) = pte_flags (m0 (lookup m0 proot va)) ∧
      pte_target (mf (t0 + 8 * VPN0 va)) = q)
    (M3 : ∀ i, i < 4096 → mf (q + i) = m0 (pte_target (m0 (lookup m0 proot va)) + i))
    (satp : Nat) :
    CloneInv L m0 proot croot τg fl0 (va + 4096)
      { mem := mf, free_list := fl2, satp := satp } τ1 (k + n + 1) := by
  -- the free list
  have hnd := hFg.nodup
  have hal := hFg.aligned
  have hdk : (fl0.drop k).Nodup := List.Nodup.sublist (List.drop_sublist k fl0) hnd
  have hdrop : fl0.drop (k + n) = q :: rest := by rw [← List.drop_drop, hq]
  have hdrop1 : fl0.drop (k + n + 1) = rest := by
    rw [← List.drop_drop, hdrop]
    rfl
  have hmem : ∀ p, p ∈ fl0.take (k + n + 1) ↔
      p ∈ fl0.take k ∨ p ∈ (fl0.drop k).take n ∨ p = q := by
    intro p
    rw [mem_take_add, mem_take_add, hdrop]
    simp only [List.take_succ_cons, List.take_zero, List.mem_singleton]
    tauto
  have hqd : q ∈ (fl0.drop k).drop n := by rw [hq]; exact List.mem_cons_self _ _
  have hqk : q ∈ fl0.drop k := List.mem_of_mem_drop hqd
  have hq0 : q ∈ fl0 := List.mem_of_mem_drop hqk
  have hqa := hal q hq0
  have hqf : τ1 q = none := hf1.unused q hqd
  have hNk : ∀ p, p ∈ (fl0.drop k).take n → p ∈ fl0.drop k := fun p hp =>
    List.mem_of_mem_take hp
  have hN0 : ∀ p, p ∈ (fl0.drop k).take n → p ∈ fl0 := fun p hp =>
    List.mem_of_mem_drop (hNk p hp)
  have hU0 : ∀ p, p ∈ fl0.take k → p ∈ fl0 := fun p hp => List.mem_of_mem_take hp
  -- typed pages
  have hin : ∀ t r i, τ1 t = some r → i < 512 → t ≤ t + 8 * i ∧ t + 8 * i < t + 4096 :=
    fun t r i _ hi => ⟨by omega, by omega⟩
  have hcr : τ1 croot = some Role.root := hT1.root_role
  have hta1 := hT1.aligned t1 _ ht1
  have hta0 := hT1.aligned t0 _ ht0
  have hcra := hT1.aligned croot _ hcr
  have hk0 := vpn0_lt va
  have hk1 := vpn1_lt va
  have hk2 := vpn2_lt va
  -- typed pages lie outside the page `q`
  have hoq : ∀ t r a, τ1 t = some r → t ≤ a ∧ a < t + 4096 → ¬ (q ≤ a ∧ a < q + 4096) :=
    fun t r a ht ha => typed_outside_free hf1 t r ht (hT1.aligned t r ht) q hqd a ha
  -- the origin of the pages typed by `τ1`
  have hor : ∀ t r, τ1 t = some r →
      τg t = some r ∨ t ∈ fl0.take k ∨ t ∈ (fl0.drop k).take n := by
    intro t r h
    rcases hnew t r h with h1 | h1
    · rcases hI.origin t r h1 with h2 | h2
      · exact Or.inl h2
      · exact Or.inr (Or.inl h2)
    · exact Or.inr (Or.inr h1)
  have ht1o : t1 ∈ fl0.take k ∨ t1 ∈ (fl0.drop k).take n := by
    rcases hor t1 _ ht1 with h | h
    · exact absurd rfl (hK.user_roles t1 _ va h hva).1
    · exact h
  have ht0o : t0 ∈ fl0.take k ∨ t0 ∈ (fl0.drop k).take n := by
    rcases hor t0 _ ht0 with h | h
    · exact absurd rfl ((hK.user_roles t0 _ va h hva).2 _)
    · exact h
  -- the upper tables are unchanged by the last stores
  have hupper : ∀ t r i, τ1 t = some r → (r = Role.root ∨ ∃ k, r = Role.l1 k) → i < 512 →
      mf (t + 8 * i) = st1.mem (t + 8 * i) := by
    intro t r i ht hr hi
    apply M1 _ (hoq t r _ ht (hin t r i ht hi))
    apply typed_slot_ne hT1 t t0 r _ i _ ht ht0 _ hi hk0
    intro e
    rcases hr with h | ⟨k, h⟩ <;> rw [h] at e <;> exact Role.noConfusion e
  have hl0 : ∀ t i j a, τ1 t = some (Role.l0 i j) → t ≤ a ∧ a < t + 4096 →
      a ≠ t0 + 8 * VPN0 va → mf a = st1.mem a := by
    intro t i j a ht ha hne
    exact M1 a (hoq t _ a ht ha) hne
  have hTf : TypedSpace mf croot τ1 := upper_typed hT1 hupper
  have hlk : ∀ vb, lookup mf croot vb = lookup st1.mem croot vb := upper_lookup hT1 hupper
  have hlkva : lookup st1.mem croot va = t0 + 8 * VPN0 va := lookup_of_next _ _ _ _ _ hn1 hn0
  -- a slot of another page
  have hother : ∀ vb, user_page L vb → vb ≠ va → lookup st1.mem croot vb ≠ 0 →
      lookup st1.mem croot vb ≠ t0 + 8 * VPN0 va ∧
      mf (lookup st1.mem croot vb) = st1.mem (lookup st1.mem croot vb) := by
    intro vb hu hne hz
    have h1 : lookup st1.mem croot vb ≠ t0 + 8 * VPN0 va := by
      intro e
      rw [← hlkva] at e
      obtain ⟨e2, e1, e0⟩ := lookup_inj hT1 vb va hz e
      have hb := user_page_small L vb hE hu
      have ha := user_page_small L va hE hva
      exact hne (vpn_inj vb va hb.1 ha.1 hb.2 ha.2 e2 e1 e0)
    refine ⟨h1, ?_⟩
    obtain ⟨_, s0, _, _, _, hs0, hl⟩ := lookup_typed hT1 vb hz
    rw [hl] at h1 ⊢
    exact hl0 s0 _ _ _ hs0 (hin s0 _ _ hs0 (vpn0_lt vb)) h1
  -- the frame of the walk, for addresses in pages taken before or outside the free list
  have hwalk : ∀ a, (∀ t r, τ1 t = some r → ¬ (t ≤ a ∧ a < t + 4096)) →
      (∀ p, p ∈ (fl0.drop k).take n → ¬ (p ≤ a ∧ a < p + 4096)) → st1.mem a = st.mem a := by
    intro a hty hN
    apply hfr a _ _ hN
    · intro e
      exact hty croot _ hcr ⟨by omega, by omega⟩
    · intro e
      exact hty t1 _ ht1 ⟨by omega, by omega⟩
  refine ⟨hTf, ?_, ?_, ?_, ?_, ?_, ?_, ?_, ?_, ?_, ?_⟩
  · -- origin
    intro t r h
    rcases hor t r h with h1 | h1 | h1
    · exact Or.inl h1
    · exact Or.inr ((hmem t).mpr (Or.inl h1))
    · exact Or.inr ((hmem t).mpr (Or.inr (Or.inl h1)))
  · exact (hmem croot).mpr (Or.inl hI.root_taken)
  · -- chain
    rw [hdrop1, hfl2]
    rw [hq] at hc1
    apply free_chain_congr st1.mem mf rest _ _ hc1.2
    intro r hr
    have hrd : r ∈ (fl0.drop k).drop n := by rw [hq]; exact List.mem_cons_of_mem _ hr
    have hra := hal r (List.mem_of_mem_drop (List.mem_of_mem_drop hrd))
    have hrq : r ≠ q := by
      intro e
      have := hf1.nodup
      rw [hq] at this
      rw [e] at hr
      exact (List.nodup_cons.mp this).1 hr
    apply M1 r (by omega)
    intro e
    exact typed_outside_free hf1 t0 _ ht0 hta0 r hrd r ⟨by omega, by omega⟩
      ⟨Nat.le_refl _, by omega⟩
  · rw [hdrop1]
    rw [hq] at hf1
    exact fresh_cons_tail hf1
  · -- frame
    intro a ha
    have hU : ∀ p, p ∈ fl0.take k → ¬ (p ≤ a ∧ a < p + 4096) :=
      fun p hp => ha p ((hmem p).mpr (Or.inl hp))
    have hN : ∀ p, p ∈ (fl0.drop k).take n → ¬ (p ≤ a ∧ a < p + 4096) :=
      fun p hp => ha p ((hmem p).mpr (Or.inr (Or.inl hp)))
    have hQ : ¬ (q ≤ a ∧ a < q + 4096) := ha q ((hmem q).mpr (Or.inr (Or.inr rfl)))
    have hUN : ∀ p, (p ∈ fl0.take k ∨ p ∈ (fl0.drop k).take n) → ¬ (p ≤ a ∧ a < p + 4096) := by
      intro p hp
      rcases hp with h | h
      · exact hU p h
      · exact hN p h
    show mf a = m0 a
    rw [M1 a hQ (by
      intro e
      exact hUN t0 ht0o ⟨by omega, by omega⟩)]
    rw [hfr a (by
        intro e
        exact hU croot hI.root_taken ⟨by omega, by omega⟩) (by
        intro e
        exact hUN t1 ht1o ⟨by omega, by omega⟩) hN]
    exact hI.frame a hU
  · -- root_small
    intro vb hu
    show ¬ (pte_valid (mf (croot + 8 * VPN2 vb)) ∧ pte_rwx (mf (croot + 8 * VPN2 vb)))
    rw [hupper croot _ _ hcr (Or.inl rfl) (vpn2_lt vb)]
    by_cases e : VPN2 vb = VPN2 va
    · rw [e]
      unfold next_table at hn1
      split_ifs at hn1 with hc
      exact fun h => hc.2.2 h.2
    · rw [hfr _ (by omega)
        (typed_slot_ne hT1 croot t1 _ _ _ _ hcr ht1 (fun e => Role.noConfusion e)
          (vpn2_lt vb) hk1)
        (fun p hp => typed_outside_free hI.fresh croot _ hI.typed.root_role hcra p (hNk p hp) _
          ⟨by omega, by have := vpn2_lt vb; omega⟩)]
      exact hI.root_small vb hu
  · -- l1_small
    intro t i j ht hin2 hj
    show ¬ (pte_valid (mf (t + 8 * j)) ∧ pte_rwx (mf (t + 8 * j)))
    rw [hupper t _ j ht (Or.inr ⟨i, rfl⟩) hj]
    have hta := hT1.aligned t _ ht
    by_cases e : t + 8 * j = t1 + 8 * VPN1 va
    · rw [e]
      unfold next_table at hn0
      split_ifs at hn0 with hc
      exact fun h => hc.2.2 h.2
    · have hne2 : t + 8 * j ≠ croot + 8 * VPN2 va :=
        typed_slot_ne hT1 t croot _ _ _ _ ht hcr (fun e => Role.noConfusion e) hj hk2
      rcases (hmem t).mp hin2 with hU | hN | hQ
      · have hτc : τc t = some (Role.l1 i) := by
          rcases hnew t _ ht with h | h
          · exact h
          · exact absurd (hNk t h) (fun h2 => List.disjoint_take_drop hnd (Nat.le_refl k) hU h2)
        rw [hfr _ hne2 e (fun p hp => typed_outside_free hI.fresh t _ hτc hta p (hNk p hp) _
          ⟨by omega, by omega⟩)]
        exact hI.l1_small t i j hτc hU hj
      · rw [hzero _ hne2 e ⟨t, hN, by omega, by omega⟩]
        exact fun h => pte_valid_zero h.1
      · rw [hQ, hqf] at ht
        exact absurd ht (by simp)
  · -- copied
    intro vb hu hlt hmb
    show mapped_slot mf croot vb ∧
      pte_flags (mf (lookup mf croot vb)) = pte_flags (m0 (lookup m0 proot vb)) ∧
      pte_target (mf (lookup mf croot vb)) ∈ fl0.take (k + n + 1) ∧
      τ1 (pte_target (mf (lookup mf croot vb))) = none ∧
      ∀ i, i < 4096 → mf (pte_target (mf (lookup mf croot vb)) + i)
        = m0 (pte_target (m0 (lookup m0 proot vb)) + i)
    unfold mapped_slot
    rw [hlk]
    rcases user_page_next L va vb hva hu hlt with h | h
    · obtain ⟨hms, hfl, htg, hτ, hcont⟩ := hI.copied vb hu h hmb
      obtain ⟨hE1, hW1⟩ := (hsl vb).1 hms.1
      have hz1 : lookup st1.mem croot vb ≠ 0 := by rw [hE1]; exact hms.1
      obtain ⟨_, hW2⟩ := hother vb hu (by omega) hz1
      rw [hW2, hE1, hW1]
      have htga := pte_target_aligned (st.mem (lookup st.mem croot vb))
      have hτ1 : τ1 (pte_target (st.mem (lookup st.mem croot vb))) = none := by
        cases hc : τ1 (pte_target (st.mem (lookup st.mem croot vb))) with
        | none => rfl
        | some r =>
          rcases hnew _ r hc with h2 | h2
          · rw [hτ] at h2
            exact absurd h2 (by simp)
          · exact absurd (hNk _ h2)
              (fun h3 => List.disjoint_take_drop hnd (Nat.le_refl k) htg h3)
      refine ⟨⟨hms.1, hms.2⟩, hfl, (hmem _).mpr (Or.inl htg), hτ1, ?_⟩
      intro i hi
      have hnty : ∀ t r, τ1 t = some r →
          ¬ (t ≤ pte_target (st.mem (lookup st.mem croot vb)) + i ∧
            pte_target (st.mem (lookup st.mem croot vb)) + i < t + 4096) := by
        intro t r ht
        have hta := hT1.aligned t r ht
        have : t ≠ pte_target (st.mem (lookup st.mem croot vb)) := by
          intro e
          rw [e, hτ1] at ht
          exact absurd ht (by simp)
        omega
      rw [M1 _ (free_pages_disjoint hnd hal htg hqk _ ⟨by omega, by omega⟩)
        (fun e => hnty t0 _ ht0 ⟨by omega, by omega⟩),
        hwalk _ hnty (fun p hp => by
          have := free_pages_disjoint hnd hal htg (hNk p hp)
            (pte_target (st.mem (lookup st.mem croot vb)) + i) ⟨by omega, by omega⟩
          exact this)]
      exact hcont i hi
    · subst h
      rw [hlkva]
      refine ⟨⟨by have := typed_ne_null hT1 t0 _ ht0; omega, M2.1⟩, M2.2.1, ?_, ?_, ?_⟩
      · rw [M2.2.2]
        exact (hmem q).mpr (Or.inr (Or.inr rfl))
      · rw [M2.2.2]
        exact hqf
      · rw [M2.2.2]
        exact M3
  · -- empty
    intro vb hu h
    show lookup mf croot vb = 0 ∨ mf (lookup mf croot vb) = 0
    rw [hlk]
    have hne : vb ≠ va := by
      intro e
      rw [e] at h
      rcases h with h | h
      · omega
      · exact h hm
    have hold := hI.empty vb hu (by
      rcases h with h | h
      · exact Or.inl (by omega)
      · exact Or.inr h)
    by_cases hz1 : lookup st1.mem croot vb = 0
    · exact Or.inl hz1
    · right
      rw [(hother vb hu hne hz1).2]
      by_cases hz : lookup st.mem croot vb = 0
      · rcases (hsl vb).2 hz with h2 | h2
        · exact absurd h2 hz1
        · exact h2
      · obtain ⟨hE1, hW1⟩ := (hsl vb).1 hz
        rw [hE1, hW1]
        rcases hold with h2 | h2
        · exact absurd h2 hz
        · exact h2
  · have := hI.count
    have h1 := hva.1
    omega


theorem clone_user_page_step {L : Layout} {m0 : Mem} {proot croot : Nat}
    {τg τp τc : Nat → Option Role} {fl0 : List Nat} {va k : Nat} {st : MemState}
    (hE : L.USER_END_VMA ≤ 2 ^ 39) (hK : KernelPart L m0 τg) (hFg : FreshPages τg fl0)
    (hTp : TypedSpace m0 proot τp) (hFp : FreshPages τp fl0)
    (hP : ∀ va, user_page L va → mapped_slot m0 proot va →
      pte_target (m0 (lookup m0 proot va)) ∉ fl0)
    (hva : user_page L va)
    (hI : CloneInv L m0 proot croot τg fl0 va st τc k) (hlen : k + 3 ≤ fl0.length) :
    ∃ st2 τ2 k2, clone_user_page st proot croot va = Res.ok () st2 ∧ st2.satp = st.satp ∧
      k2 ≤ k + 3 ∧ CloneInv L m0 proot croot τg fl0 (va + 4096) st2 τ2 k2 := by
  obtain ⟨hpl1, hpl2⟩ := clone_parent_lookup hTp hFp hI va
  have hlk : walk_pt_lookup st proot va = lookup m0 proot va := by
    rw [walk_pt_lookup_eq, hpl1]
  by_cases hm : mapped_slot m0 proot va
  swap
  · refine ⟨st, τc, k, ?_, rfl, by omega, clone_inv_skip hva hI hm⟩
    unfold clone_user_page
    simp only
    rw [hlk]
    by_cases hz : lookup m0 proot va = 0
    · rw [if_pos (Or.inl hz)]
    · rw [hpl2 hz]
      have hv : pte_flags (m0 (lookup m0 proot va)) &&& PTE_V = 0 := by
        by_contra h
        exact hm ⟨hz, h⟩
      rw [if_pos (Or.inr hv)]
  obtain ⟨hz, hv⟩ := id hm
  have hep := hpl2 hz
  -- the walk in the child
  have hk2 := vpn2_lt va
  have hk1 := vpn1_lt va
  have hk0 := vpn0_lt va
  have hnl : no_large_leaf st.mem croot va := by
    refine ⟨hI.root_small va hva, ?_⟩
    intro t1 ht1
    have hτ := typed_l1_of_next hI.typed _ _ hk2 ht1
    have hin : t1 ∈ fl0.take k := by
      rcases hI.origin t1 _ hτ with h | h
      · exact absurd rfl (hK.user_roles t1 _ va h hva).1
      · exact h
    exact hI.l1_small t1 _ _ hτ hin hk1
  obtain ⟨st1, τ1, n, t1, t0, hw, hn, hsatp, hT1, hc1, hf1, ht1, ht0, hn1, hn0, hsl, _, hfr,
      _, hnew, hzero⟩ :=
    walk_pt_create_spec st croot τc va (fl0.drop k) hI.typed hnl hI.chain hI.fresh
      (by rw [List.length_drop]; omega)
  cases hq : (fl0.drop k).drop n with
  | nil =>
    have := congrArg List.length hq
    rw [List.length_drop, List.length_drop] at this
    simp at this
    omega
  | cons q rest =>
    rw [hq] at hc1
    have hqd : q ∈ (fl0.drop k).drop n := by rw [hq]; exact List.mem_cons_self _ _
    have hq0 : q ∈ fl0 := List.mem_of_mem_drop (List.mem_of_mem_drop hqd)
    have hqa := hFg.aligned q hq0
    have hqs := hFg.small q hq0
    have hqn := hFg.ne_null q hq0
    have hqf : τ1 q = none := hf1.unused q hqd
    have hta0 := hT1.aligned t0 _ ht0
    have ht00 := typed_ne_null hT1 t0 _ ht0
    have halloc := alloc_page_cons st1 q rest hqn hc1
    -- the pieces of the final memory
    generalize hmz : zero_page st1.mem q = mz at halloc
    generalize he : t0 + 8 * VPN0 va = e at hw
    generalize hepd : lookup m0 proot va = ep at hlk hep hz hv
    generalize hm1 : store mz e (pte_set_ppn (mz e) (q / 2 ^ PAGE_ORDER)) = m1
    generalize hm2 : store m1 e
      (pte_set_flags (m1 e) (pte_flags (m1 e) ||| pte_flags (m1 ep))) = m2
    have hres : clone_user_page st proot croot va = Res.ok ()
        { mem := copy_page m2 (pte_ppn (m2 e) * 2 ^ PAGE_ORDER)
            (pte_ppn (m0 ep) * 2 ^ PAGE_ORDER),
          free_list := st1.mem q, satp := st1.satp } := by
      unfold clone_user_page
      simp only
      rw [hlk, hep, if_neg (not_or.mpr ⟨hz, hv⟩), hw]
      simp only
      rw [halloc]
      simp only
      rw [hm1, hm2]
    -- where the pages involved lie
    have hal := hFg.aligned
    have hNk : ∀ p, p ∈ (fl0.drop k).take n → p ∈ fl0 := fun p hp =>
      List.mem_of_mem_drop (List.mem_of_mem_take hp)
    have hcr0 : croot ∈ fl0 := List.mem_of_mem_take hI.root_taken
    have ht1o : t1 ∈ fl0 := by
      rcases hnew t1 _ ht1 with h | h
      · rcases hI.origin t1 _ h with h2 | h2
        · exact absurd rfl (hK.user_roles t1 _ va h2 hva).1
        · exact List.mem_of_mem_take h2
      · exact hNk t1 h
    have ht0o : t0 ∈ fl0 := by
      rcases hnew t0 _ ht0 with h | h
      · rcases hI.origin t0 _ h with h2 | h2
        · exact absurd rfl ((hK.user_roles t0 _ va h2 hva).2 _)
        · exact List.mem_of_mem_take h2
      · exact hNk t0 h
    have hout1 : ∀ a, (∀ p, p ∈ fl0 → ¬ (p ≤ a ∧ a < p + 4096)) → st1.mem a = m0 a := by
      intro a ha
      have h1 := hal croot hcr0
      have h2 := hal t1 ht1o
      rw [hfr a (fun e => ha croot hcr0 ⟨by omega, by omega⟩)
        (fun e => ha t1 ht1o ⟨by omega, by omega⟩) (fun p hp => ha p (hNk p hp))]
      exact hI.frame a (fun p hp => ha p (List.mem_of_mem_take hp))
    have hein : t0 ≤ e ∧ e < t0 + 4096 := by rw [← he]; omega
    have heq : ¬ (q ≤ e ∧ e < q + 4096) :=
      typed_outside_free hf1 t0 _ ht0 hta0 q hqd e hein
    have hlk1 : lookup st1.mem croot va = e := by
      rw [lookup_of_next _ _ _ _ _ hn1 hn0, he]
    have he0 : st1.mem e = 0 := by
      have hold := hI.empty va hva (Or.inl (Nat.le_refl _))
      by_cases hz0 : lookup st.mem croot va = 0
      · rcases (hsl va).2 hz0 with h2 | h2
        · rw [hlk1] at h2; omega
        · rw [hlk1] at h2; exact h2
      · obtain ⟨hE1, hW1⟩ := (hsl va).1 hz0
        rw [hlk1] at hE1
        rw [← hE1] at hW1 hold
        rcases hold with h2 | h2
        · omega
        · rw [hW1]; exact h2
    have hmze : mz e = 0 := by
      rw [← hmz, zero_page_outside _ _ _ heq, he0]
    -- the parent entry
    obtain ⟨_, s0, _, _, _, hs0, hls⟩ := lookup_typed hTp va (by rw [hepd]; exact hz)
    rw [hepd] at hls
    have hs0a := hTp.aligned s0 _ hs0
    have hepout : ∀ p, p ∈ fl0 → ¬ (p ≤ ep ∧ ep < p + 4096) := by
      intro p hp
      rw [hls]
      exact typed_outside_free hFp s0 _ hs0 hs0a p hp _ ⟨by omega, by omega⟩
    have hm1ep : m1 ep = m0 ep := by
      rw [← hm1, store_other _ _ _ _ (fun h => hepout t0 ht0o (by rw [h]; exact hein)), ← hmz,
        zero_page_outside _ _ _ (hepout q hq0)]
      exact hout1 ep hepout
    have hm1e : m1 e = pte_set_ppn 0 (q / 2 ^ PAGE_ORDER) := by
      rw [← hm1, store_same, hmze]
    have hfl1 : pte_flags (m1 e) = 0 := by
      rw [hm1e, pte_flags_set_ppn]
      rfl
    have hm2e : m2 e = pte_set_flags (m1 e) (pte_flags (m0 ep)) := by
      rw [← hm2, store_same, hfl1, hm1ep, Nat.zero_or]
    have hfl2 : pte_flags (m2 e) = pte_flags (m0 ep) := by
      rw [hm2e, pte_flags_set_flags]
      unfold pte_flags
      omega
    have htg2 : pte_ppn (m2 e) * 2 ^ PAGE_ORDER = q := by
      rw [hm2e, pte_ppn_set_flags, hm1e, pte_ppn_set_ppn]
      exact page_target_eq q hqa hqs
    rw [htg2] at hres
    have hpp := hP va hva hm
    rw [hepd] at hpp
    have hppa := pte_target_aligned (m0 ep)
    have hppout : ∀ i, i < 4096 → ∀ p, p ∈ fl0 →
        ¬ (p ≤ pte_target (m0 ep) + i ∧ pte_target (m0 ep) + i < p + 4096) := by
      intro i hi p hp
      have h1 := hal p hp
      have : p ≠ pte_target (m0 ep) := fun e => hpp (e ▸ hp)
      omega
    have hrest : ∀ a, a ≠ e → m2 a = mz a := by
      intro a ha
      rw [← hm2, store_other _ _ _ _ ha, ← hm1, store_other _ _ _ _ ha]
    refine ⟨_, τ1, k + n + 1, hres, hsatp, by omega, ?_⟩
    subst he
    subst hepd
    apply clone_inv_map hE hK hFg hva hm hI st1 τ1 n t1 t0 q rest hn hT1 (by rw [hq]; exact hc1)
      hf1 ht1 ht0 hn1 hn0 hsl hfr hnew hzero hq _ _ rfl
    · intro a ha1 ha2
      rw [copy_page_outside _ _ _ _ ha1, hrest a ha2, ← hmz, zero_page_outside _ _ _ ha1]
    · rw [copy_page_outside _ _ _ _ heq]
      refine ⟨?_, hfl2, ?_⟩
      · unfold pte_valid
        rw [hfl2]
        exact hv
      · unfold pte_target
        exact htg2
    · intro i hi
      rw [copy_page_inside _ _ _ _ hi]
      have hpt : pte_ppn (m0 (lookup m0 proot va)) * 2 ^ PAGE_ORDER
          = pte_target (m0 (lookup m0 proot va)) := rfl
      rw [hpt]
      have hne : pte_target (m0 (lookup m0 proot va)) + i ≠ t0 + 8 * VPN0 va :=
        fun h => hppout i hi t0 ht0o (by
          rw [h]
          exact hein)
      rw [hrest _ hne, ← hmz, zero_page_outside _ _ _ (hppout i hi q hq0)]
      exact hout1 _ (hppout i hi)


theorem clone_user_loop_spec {L : Layout} {m0 : Mem} {proot croot : Nat}
    {τg τp : Nat → Option Role} {fl0 : List Nat}
    (hE : L.USER_END_VMA ≤ 2 ^ 39) (hK : KernelPart L m0 τg) (hFg : FreshPages τg fl0)
    (hTp : TypedSpace m0 proot τp) (hFp : FreshPages τp fl0)
    (hP : ∀ va, user_page L va → mapped_slot m0 proot va →
      pte_target (m0 (lookup m0 proot va)) ∉ fl0) (fuel : Nat) :
    ∀ (v : Nat) (st : MemState) (τc : Nat → Option Role) (k : Nat),
      L.USER_START_VMA ≤ v → v % 4096 = 0 → L.USER_END_VMA ≤ v + 4096 * fuel →
      CloneInv L m0 proot croot τg fl0 v st τc k → k + 3 * fuel ≤ fl0.length →
      ∃ st2 τ2 k2 v2, clone_user_loop L proot croot fuel v st = Res.ok () st2 ∧
        st2.satp = st.satp ∧ L.USER_END_VMA ≤ v2 ∧
        CloneInv L m0 proot croot τg fl0 v2 st2 τ2 k2 := by
  induction fuel with
  | zero =>
    intro v st τc k _ _ hend hI _
    exact ⟨st, τc, k, v, rfl, rfl, by omega, hI⟩
  | succ n ih =>
    intro v st τc k hs ha hend hI hlen
    unfold clone_user_loop
    by_cases hlt : v < L.USER_END_VMA
    · rw [if_pos hlt]
      obtain ⟨s1, τ1, k1, h1, hsat, hk1, hI1⟩ :=
        clone_user_page_step hE hK hFg hTp hFp hP (show user_page L v from ⟨hs, hlt, ha⟩) hI
          (by omega)
      rw [h1]
      simp only
      obtain ⟨s2, τ2, k2, v2, h2, hsat2, hv2, hI2⟩ :=
        ih (v + 4096) s1 τ1 k1 (by omega) (by omega) (by omega) hI1 (by omega)
      exact ⟨s2, τ2, k2, v2, h2, by rw [hsat2, hsat], hv2, hI2⟩
    · rw [if_neg hlt]
      exact ⟨st, τc, k, v, rfl, rfl, by omega, hI⟩

theorem leaf_of_some_iff (m : Mem) (root va w : Nat) :
    leaf_of m root va = some w ↔ mapped_slot m root va ∧ w = m (lookup m root va) := by
  unfold leaf_of mapped_slot
  by_cases h : lookup m root va ≠ 0 ∧ pte_valid (m (lookup m root va))
  · rw [if_pos h]
    constructor
    · intro e
      exact ⟨h, (Option.some.inj e).symm⟩
    · intro e
      rw [e.2]
  · rw [if_neg h]
    constructor
    · intro e
      exact absurd e (by simp)
    · intro e
      exact absurd e.1 h

theorem leaf_of_none_iff (m : Mem) (root va : Nat) :
    leaf_of m root va = none ↔ ¬ mapped_slot m root va := by
  unfold leaf_of mapped_slot
  by_cases h : lookup m root va ≠ 0 ∧ pte_valid (m (lookup m root va))
  · rw [if_pos h]
    constructor
    · intro e
      exact absurd e (by simp)
    · intro e
      exact absurd h e
  · rw [if_neg h]
    exact ⟨fun _ => h, fun _ => rfl⟩

/-- The root page of the tag `memory_space_clone` builds from the page
`croot`: shifting out mode and ASID gives `croot` back. -/
theorem mtag_to_root_clone (asid croot : Nat) (ha : croot % 4096 = 0) (hs : croot < 2 ^ 56) :
    mtag_to_root ((8 * 2 ^ 60) ||| ((asid * 2 ^ 44) % U64) ||| (croot / 2 ^ PAGE_ORDER))
      = croot := by
  have hx : ((8 * 2 ^ 60) ||| ((asid * 2 ^ 44) % U64)) % 2 ^ 44 = 0 := by
    apply Nat.zero_of_testBit_eq_false
    intro i
    rw [Nat.testBit_mod_two_pow, Nat.testBit_or]
    by_cases hi : i < 44
    · have h1 : (8 * 2 ^ 60).testBit i = false := by
        have : 8 * 2 ^ 60 = 2 ^ 63 := by norm_num
        rw [this, Nat.testBit_two_pow]
        simp
        omega
      have h2 : ((asid * 2 ^ 44) % U64).testBit i = false := by
        unfold U64
        rw [Nat.testBit_mod_two_pow, Nat.mul_comm, Nat.testBit_mul_pow_two]
        simp
        omega
      rw [h1, h2]
      simp
    · simp [hi]
  generalize (8 * 2 ^ 60) ||| ((asid * 2 ^ 44) % U64) = X at hx
  have hX : X = 2 ^ 44 * (X / 2 ^ 44) := by omega
  have hp : croot / 2 ^ PAGE_ORDER < 2 ^ 44 := by
    unfold PAGE_ORDER
    omega
  rw [hX, ← Nat.mul_add_lt_is_or hp]
  unfold mtag_to_root U64 PAGE_ORDER
  unfold PAGE_ORDER at hp
  omega


/-- C6: `memory_space_clone`, given a free list long enough for the whole user
region, returns a tag whose address space maps every user page that the
parent maps, with the same flag byte, to a page taken from the free list,
hence different from every page the parent maps, holding a copy of the
parent's page, so that a store to any byte of the child's page leaves every
byte of every parent user page as it was; it maps no user page that the
parent does not map; and the parent's user mappings and the contents of the
parent's pages are unchanged. -/
theorem memory_space_clone_spec (L : Layout) (st : MemState) (parent_mtag asid : Nat)
    (τp τg : Nat → Option Role) (fl : List Nat)
    (hA : L.USER_START_VMA % PAGE_SIZE = 0) (hE : L.USER_END_VMA ≤ 2 ^ 39)
    (hTp : TypedSpace st.mem (mtag_to_root parent_mtag) τp)
    (hK : KernelPart L st.mem τg)
    (hc : FreeChain st.mem st.free_list fl)
    (hFp : FreshPages τp fl) (hFg : FreshPages τg fl)
    (hP : ∀ va w, user_page L va →
      leaf_mapping st (mtag_to_root parent_mtag) va = some w → pte_target w ∉ fl)
    (hlen : 1 + 3 * user_pages L ≤ fl.length) :
    ∃ (st2 : MemState) (mtag : Nat),
      memory_space_clone L st parent_mtag asid = Res.ok mtag st2 ∧
      mtag_to_root mtag ∈ fl ∧
      (∀ va w, user_page L va → leaf_mapping st (mtag_to_root parent_mtag) va = some w →
        ∃ wc, leaf_mapping st2 (mtag_to_root mtag) va = some wc ∧
          pte_flags wc = pte_flags w ∧ pte_target wc ∈ fl ∧
          (∀ vb w2, user_page L vb →
            leaf_mapping st (mtag_to_root parent_mtag) vb = some w2 →
            pte_target wc ≠ pte_target w2) ∧
          (∀ vb w2 i j b, user_page L vb →
            leaf_mapping st (mtag_to_root parent_mtag) vb = some w2 →
            i < PAGE_SIZE → j < PAGE_SIZE →
            store st2.mem (pte_target wc + i) b (pte_target w2 + j)
              = st2.mem (pte_target w2 + j)) ∧
          (∀ i, i < PAGE_SIZE → st2.mem (pte_target wc + i) = st.mem (pte_target w + i))) ∧
      (∀ va, user_page L va → leaf_mapping st (mtag_to_root parent_mtag) va = none →
        leaf_mapping st2 (mtag_to_root mtag) va = none) ∧
      (∀ va w, user_page L va → leaf_mapping st (mtag_to_root parent_mtag) va = some w →
        leaf_mapping st2 (mtag_to_root parent_mtag) va = some w ∧
        ∀ i, i < PAGE_SIZE → st2.mem (pte_target w + i) = st.mem (pte_target w + i)) := by
  generalize hproot : mtag_to_root parent_mtag = proot at hTp hP ⊢
  cases fl with
  | nil => simp at hlen
  | cons croot rest =>
    have hc0 := hFg.ne_null croot (List.mem_cons_self _ _)
    have hca := hFg.aligned croot (List.mem_cons_self _ _)
    have hcs := hFg.small croot (List.mem_cons_self _ _)
    have hcf := hFg.unused croot (List.mem_cons_self _ _)
    have hma := hK.aligned _ _ hK.main_role
    have hmc : L.main_pt2 ≠ croot := by
      intro e
      have := hK.main_role
      rw [e, hcf] at this
      exact absurd this (by simp)
    obtain ⟨ho, hi⟩ := clone_root_mem st.mem L.main_pt2 croot hma hca hmc
    have hfl : st.free_list = croot := hc.1
    have hI0 := clone_inv_init_aux L st.mem _ proot croot rest τg st.satp hK hFg
      ⟨rfl, hc.2⟩ ho hi
    have hP2 : ∀ va, user_page L va → mapped_slot st.mem proot va →
        pte_target (st.mem (lookup st.mem proot va)) ∉ croot :: rest := by
      intro va hu hm
      apply hP va _ hu
      rw [leaf_mapping_eq, leaf_of_some_iff]
      exact ⟨hm, rfl⟩
    obtain ⟨st4, τ4, k4, v4, hrun, hsat, hv4, hI⟩ :=
      clone_user_loop_spec hE hK hFg hTp hFp hP2 (user_pages L) L.USER_START_VMA _ _ 1
        (Nat.le_refl _) (by unfold PAGE_SIZE at hA; exact hA)
        (by unfold user_pages PAGE_SIZE; omega) hI0 (by omega)
    have htag := mtag_to_root_clone asid croot hca hcs
    refine ⟨st4, (8 * 2 ^ 60) ||| ((asid * 2 ^ 44) % U64) ||| (croot / 2 ^ PAGE_ORDER),
      ?_, ?_, ?_, ?_, ?_⟩
    · unfold memory_space_clone
      rw [alloc_page_cons st croot rest hc0 hc]
      simp only
      rw [if_neg hc0, hproot, hrun]
    · rw [htag]
      exact List.mem_cons_self _ _
    · intro va w hu hw
      rw [htag]
      rw [leaf_mapping_eq, leaf_of_some_iff] at hw
      obtain ⟨hm, hwe⟩ := hw
      obtain ⟨hms, hfl2, htg, _, hcont⟩ := hI.copied va hu (by have := hu.2.1; omega) hm
      have hne : ∀ vb w2, user_page L vb → leaf_mapping st proot vb = some w2 →
          pte_target (st4.mem (lookup st4.mem croot va)) ≠ pte_target w2 := by
        intro vb w2 hub hw2 e
        apply hP vb w2 hub hw2
        rw [← e]
        exact List.mem_of_mem_take htg
      refine ⟨st4.mem (lookup st4.mem croot va), ?_, ?_, List.mem_of_mem_take htg, hne, ?_, ?_⟩
      · rw [leaf_mapping_eq, leaf_of_some_iff]
        exact ⟨hms, rfl⟩
      · rw [hfl2, hwe]
      · intro vb w2 i j b hub hw2 hi2 hj2
        apply store_other
        have h1 := hne vb w2 hub hw2
        have h2 := pte_target_aligned (st4.mem (lookup st4.mem croot va))
        have h3 := pte_target_aligned w2
        unfold PAGE_SIZE at hi2 hj2
        omega
      · intro i hi2
        rw [hwe]
        exact hcont i (by unfold PAGE_SIZE at hi2; exact hi2)
    · intro va hu hn
      rw [htag, leaf_mapping_eq, leaf_of_none_iff]
      rw [leaf_mapping_eq, leaf_of_none_iff] at hn
      intro hms
      rcases hI.empty va hu (Or.inr hn) with h | h
      · exact hms.1 h
      · have := hms.2
        rw [h] at this
        exact pte_valid_zero this
    · intro va w hu hw
      have hpp := hP va w hu hw
      rw [leaf_mapping_eq, leaf_of_some_iff] at hw
      obtain ⟨hm, hwe⟩ := hw
      obtain ⟨hl1, hl2⟩ := clone_parent_lookup hTp hFp hI va
      refine ⟨?_, ?_⟩
      · rw [leaf_mapping_eq, leaf_of_some_iff]
        unfold mapped_slot
        rw [hl1, hl2 hm.1]
        exact ⟨hm, hwe⟩
      · intro i hi2
        apply hI.frame
        intro p hp
        have hpm : p ∈ croot :: rest := List.mem_of_mem_take hp
        have hpa := hFg.aligned p hpm
        have hta := pte_target_aligned w
        have : p ≠ pte_target w := fun e => hpp (e ▸ hpm)
        unfold PAGE_SIZE at hi2
        omega


theorem clone_mem_eq (a : Nat) (h : a ≠ 0x80402000) : cloneMem a = sampleMem a := by
  unfold cloneMem
  rw [if_neg h]

theorem clone_mem_zero (a : Nat) (h : a < 0x80200000) : cloneMem a = 0 := by
  rw [clone_mem_eq a (by omega)]
  rcases sample_entry_cases a with hz | hz | hz | hz | hz | hz
  · exact hz
  all_goals omega

theorem clone_typed : TypedSpace cloneMem 0x80200000 sampleRoles := by
  apply upper_typed sample_typed
  intro t r i ht _ hi
  apply clone_mem_eq
  unfold sampleRoles at ht
  split_ifs at ht <;> omega

theorem clone_kernel_part : KernelPart tinyLayout cloneMem kernelRoles := by
  have hz : ∀ i, i < 512 → cloneMem (tinyLayout.main_pt2 + 8 * i) = 0 := by
    intro i hi
    apply clone_mem_zero
    show 0x80010000 + 8 * i < 0x80200000
    omega
  refine ⟨by decide, ?_, by decide, ?_, ?_, ?_, ?_⟩
  · intro t r h
    unfold kernelRoles at h
    split_ifs at h
    omega
  · intro i hi hg
    rw [hz i hi] at hg
    exact absurd hg (by decide)
  · intro t i j h
    unfold kernelRoles at h
    split_ifs at h
    exact Role.noConfusion (Option.some.inj h)
  · intro va _
    rw [hz _ (vpn2_lt va)]
    decide
  · intro t r va h _
    unfold kernelRoles at h
    split_ifs at h
    have e := Option.some.inj h
    rw [← e]
    exact ⟨fun h2 => Role.noConfusion h2, fun j h2 => Role.noConfusion h2⟩

theorem clone_chain :
    FreeChain cloneMem 0x80400000 [0x80400000, 0x80401000, 0x80402000, 0x80403000] :=
  ⟨rfl, by decide, by decide, by decide, trivial⟩

theorem clone_fresh_parent :
    FreshPages sampleRoles [0x80400000, 0x80401000, 0x80402000, 0x80403000] := by
  refine ⟨by decide, ?_, ?_, ?_, ?_⟩ <;>
  · intro p hp
    simp only [List.mem_cons, List.mem_singleton, List.not_mem_nil, or_false] at hp
    rcases hp with rfl | rfl | rfl | rfl <;> decide

theorem clone_fresh_kernel :
    FreshPages kernelRoles [0x80400000, 0x80401000, 0x80402000, 0x80403000] := by
  refine ⟨by decide, ?_, ?_, ?_, ?_⟩ <;>
  · intro p hp
    simp only [List.mem_cons, List.mem_singleton, List.not_mem_nil, or_false] at hp
    rcases hp with rfl | rfl | rfl | rfl <;> decide

theorem tiny_user_page (va : Nat) (h : user_page tinyLayout va) : va = 0xC0000000 := by
  obtain ⟨h1, h2, h3⟩ := h
  have e1 : tinyLayout.USER_START_VMA = 0xC0000000 := rfl
  have e2 : tinyLayout.USER_END_VMA = 0xC0001000 := rfl
  unfold PAGE_SIZE at h3
  omega

/-- Instance of `memory_space_clone_spec`: the sample address space, with four
pages on the free list, cloned for a user region of one page. -/
theorem memory_space_clone_spec_witness :
    ∃ (st2 : MemState) (mtag : Nat),
      memory_space_clone tinyLayout cloneSpace cloneSpace.satp 1 = Res.ok mtag st2 ∧
      mtag_to_root mtag ∈ [0x80400000, 0x80401000, 0x80402000, 0x80403000] ∧
      (∀ va w, user_page tinyLayout va →
        leaf_mapping cloneSpace (mtag_to_root cloneSpace.satp) va = some w →
        ∃ wc, leaf_mapping st2 (mtag_to_root mtag) va = some wc ∧
          pte_flags wc = pte_flags w ∧
          pte_target wc ∈ [0x80400000, 0x80401000, 0x80402000, 0x80403000] ∧
          (∀ vb w2, user_page tinyLayout vb →
            leaf_mapping cloneSpace (mtag_to_root cloneSpace.satp) vb = some w2 →
            pte_target wc ≠ pte_target w2) ∧
          (∀ vb w2 i j b, user_page tinyLayout vb →
            leaf_mapping cloneSpace (mtag_to_root cloneSpace.satp) vb = some w2 →
            i < PAGE_SIZE → j < PAGE_SIZE →
            store st2.mem (pte_target wc + i) b (pte_target w2 + j)
              = st2.mem (pte_target w2 + j)) ∧
          (∀ i, i < PAGE_SIZE →
            st2.mem (pte_target wc + i) = cloneSpace.mem (pte_target w + i))) ∧
      (∀ va, user_page tinyLayout va →
        leaf_mapping cloneSpace (mtag_to_root cloneSpace.satp) va = none →
        leaf_mapping st2 (mtag_to_root mtag) va = none) ∧
      (∀ va w, user_page tinyLayout va →
        leaf_mapping cloneSpace (mtag_to_root cloneSpace.satp) va = some w →
        leaf_mapping st2 (mtag_to_root cloneSpace.satp) va = some w ∧
        ∀ i, i < PAGE_SIZE → st2.mem (pte_target w + i) = cloneSpace.mem (pte_target w + i)) :=
  memory_space_clone_spec tinyLayout cloneSpace cloneSpace.satp 1 sampleRoles kernelRoles
    [0x80400000, 0x80401000, 0x80402000, 0x80403000] (by decide) (by decide)
    (by
      have e : mtag_to_root cloneSpace.satp = 0x80200000 := by decide
      rw [e]
      exact clone_typed)
    clone_kernel_part clone_chain clone_fresh_parent clone_fresh_kernel
    (by
      intro va w hu hw
      have e := tiny_user_page va hu
      subst e
      have h2 : leaf_mapping cloneSpace (mtag_to_root cloneSpace.satp) 0xC0000000
          = some (leaf_pte 0x80300000 (PTE_R ||| PTE_W ||| PTE_U)) := by decide
      rw [h2] at hw
      have e2 := Option.some.inj hw
      rw [← e2]
      decide)
    (by decide)


/-! ## Filesystem: a second mount, device offsets and block indices -/


/-- C25 (failing input): the filesystem is mounted on the handle at `0x1000`
and thread 3 holds `fs_lock`; `fs_mount` is called with the handle at
`0x2000`.  The call returns -1, the boot block and the open-file pool are
untouched, but the recorded handle is now `0x2000` and the lock has no
holder: `lock_init` and `vioblk_io = blkio` come before the test of
`fs_initialized`. -/
theorem fs_mount_twice_overwrites_handle :
    mountedKfs.fs_initialized = true ∧
    mountedKfs.vioblk_io = 0x1000 ∧ mountedKfs.fs_lock.tid = 3 ∧
    (fs_mount mountedKfs 0x2000 sampleDev).1 = -1 ∧
    (fs_mount mountedKfs 0x2000 sampleDev).2.1.vioblk_io = 0x2000 ∧
    (fs_mount mountedKfs 0x2000 sampleDev).2.1.fs_lock.tid = -1 ∧
    (fs_mount mountedKfs 0x2000 sampleDev).2.1.fs_initialized = true := by
  decide


/-- C27 (failing input): the boot block records `num_inodes = 0xFFFFF` and
inode 0 has `data_block_num[0] = 1`, so the exact offset of the file's first
byte is `4096 + 0xFFFFF * 4096 + 1 * 4096 = 2^32 + 4096`, where the device
holds `0x41`.  `fs_read` of one byte returns the byte at device offset 4096
(the first byte of the inode block, 10) and leaves the device at `4096 + 4096`;
`fs_write` of the byte `0x55` stores it at device offset 4096 and leaves the
byte at `2^32 + 4096` as it was.  The inode offset of inode number `0xFFFFF`
is computed as 0, not `2^32`. -/
theorem fs_offsets_wrap_around :
    num_inodes wrapFs.boot_block = 0xFFFFF ∧
    data_block_num (disk_inode wrapFs 0) 0 = 1 ∧
    4096 + 0xFFFFF * 4096 + 1 * 4096 + 0 % 4096 = 2 ^ 32 + 4096 ∧
    2 ^ 32 + 4096 + 4096 ≤ wrapFs.blkdev.size ∧
    wrapFs.blkdev.disk (2 ^ 32 + 4096) = 0x41 ∧ wrapFs.blkdev.disk 4096 = 10 ∧
    (fs_read wrapFs (some 0) (some (fun _ => 0)) 1).1 = 1 ∧
    (fs_read wrapFs (some 0) (some (fun _ => 0)) 1).2.2.map (fun b => b 0) = some 10 ∧
    (fs_read wrapFs (some 0) (some (fun _ => 0)) 1).2.1.blkdev.pos = 4096 + 4096 ∧
    (fs_write wrapFs (some 0) (some (fun _ => 0x55)) 1).1 = 1 ∧
    (fs_write wrapFs (some 0) (some (fun _ => 0x55)) 1).2.blkdev.disk 4096 = 0x55 ∧
    (fs_write wrapFs (some 0) (some (fun _ => 0x55)) 1).2.blkdev.disk (2 ^ 32 + 4096) = 0x41 ∧
    (fs_write wrapFs (some 0) (some (fun _ => 0x55)) 1).2.blkdev.pos = 4096 + 1 ∧
    inode_offset 0xFFFFF = 0 := by
  decide

/-- C28 (failing input): the open file has `file_size = 1024 * 4096` (the
inode on the device records the same `byte_len`) and `file_position =
1023 * 4096`.  `fs_read` and `fs_write` of one byte pass the test
`block_index >= sizeof(struct inode_t)` with `block_index = 1023` and use
`inode.data_block_num[1023]`, the four bytes behind the 4096-byte inode: the
data block they seek to is the one whose number lies there (device position
afterwards `4096 + 4096 + behind * 4096` plus the bytes transferred). -/
theorem fs_block_index_passes_array_end :
    ((longFs 0).file_structs 0).file_position / FS_BLKSZ = 1023 ∧
    ((longFs 0).file_structs 0).file_position < ((longFs 0).file_structs 0).file_size ∧
    byte_len (disk_inode (longFs 0) 0) = 1024 * 4096 ∧
    (fs_read (longFs 0) (some 0) (some (fun _ => 0)) 1).1 = 1 ∧
    (fs_read (longFs 0) (some 0) (some (fun _ => 0)) 1).2.1.blkdev.pos = 8192 + 4096 ∧
    (fs_read (longFs 2) (some 0) (some (fun _ => 0)) 1).1 = 1 ∧
    (fs_read (longFs 2) (some 0) (some (fun _ => 0)) 1).2.1.blkdev.pos = 16384 + 4096 ∧
    (fs_write (longFs 0) (some 0) (some (fun _ => 0x55)) 1).1 = 1 ∧
    (fs_write (longFs 0) (some 0) (some (fun _ => 0x55)) 1).2.blkdev.disk 8192 = 0x55 ∧
    (fs_write (longFs 2) (some 0) (some (fun _ => 0x55)) 1).1 = 1 ∧
    (fs_write (longFs 2) (some 0) (some (fun _ => 0x55)) 1).2.blkdev.disk 16384 = 0x55 ∧
    (fs_write (longFs 2) (some 0) (some (fun _ => 0x55)) 1).2.blkdev.disk 8192 = 0 := by
  decide


/-! ## Sleep locks on the return paths -/


/-- The loop of `vioblk_write` with the lock computes the same device and the
same return value as the loop without it. -/
theorem vioblk_write_loop_lk_eq (fuel : Nat) :
    ∀ (dev : vioblk_device) (lk : lock) (buf : Buf) (n total : Nat),
      (vioblk_write_loop_lk fuel dev lk buf n total).1 = (vioblk_write_loop fuel dev buf n total).1 ∧
      (vioblk_write_loop_lk fuel dev lk buf n total).2.2
        = (vioblk_write_loop fuel dev buf n total).2 := by
  induction fuel with
  | zero => intro dev lk buf n total; exact ⟨rfl, rfl⟩
  | succ f ih =>
    intro dev lk buf n total
    unfold vioblk_write_loop_lk vioblk_write_loop
    by_cases h1 : total < n
    · by_cases h2 : dev.pos ≥ dev.size
      · simp only [if_pos h1, if_pos h2, and_self]
      · simp only [if_pos h1, if_neg h2]
        exact ih _ _ _ _ _
    · simp only [if_neg h1, and_self]

/-- C29 (failing input): with the lock free and thread 1 running,
`vioblk_write` of one byte on the sample device positioned at its end,
`vioblk_ioctl` with the unknown command 99 and `fs_ioctl` on an open file with
the unknown command 99 all return (0, `-ENOTSUP`, `-ENOTSUP`) with the lock
still held by thread 1, so that the next `lock_acquire` never comes back;
with a known command the lock is free again. -/
theorem lock_left_held_on_early_return :
    (vioblk_write_lk { sampleDev with pos := 12288 } lock_init 1 (fun _ => 0) 1).map
      (fun o => (o.ret, o.io_lock.tid)) = some (0, 1) ∧
    (vioblk_ioctl_lk sampleDev lock_init 1 99 (some 0)).map
      (fun o => (o.ret, o.io_lock.tid)) = some (-ENOTSUP, 1) ∧
    (fs_ioctl_lk sampleFs lock_init 1 0 99 (some 0)).map
      (fun o => (o.ret, o.fs_lock.tid)) = some (-ENOTSUP, 1) ∧
    (vioblk_ioctl_lk sampleDev { tid := 1 } 1 IOCTL_GETLEN (some 0)).isNone = true ∧
    (vioblk_ioctl_lk sampleDev lock_init 1 IOCTL_GETLEN (some 0)).map
      (fun o => (o.ret, o.io_lock.tid)) = some (0, -1) ∧
    (fs_ioctl_lk sampleFs lock_init 1 0 IOCTL_GETLEN (some 0)).map
      (fun o => (o.ret, o.fs_lock.tid)) = some (0, -1) ∧
    (vioblk_write_lk sampleDev lock_init 1 (fun _ => 0) 1).map
      (fun o => (o.ret, o.io_lock.tid)) = some (1, -1) := by
  decide


/-! ## ELF loader: the pages of a segment -/


/-- C30 (failing input): a `PT_LOAD` header with `p_vaddr = 0xC0001FFE`,
`p_filesz = 2` and `p_memsz = 4` passes the stack test and the range test; the
segment `[0xC0001FFE, 0xC0002002)` has bytes in the pages `0xC0001000` and
`0xC0002000`, but `elf_load` maps `round_up(p_memsz) = 4096` bytes from
`round_down(p_vaddr)`, one page: the page `0xC0002000` is not mapped when the
two bytes behind the file part are zeroed, and the store faults.  And a header
with `p_filesz = 2 > p_memsz = 1` is accepted too: `elf_load` returns 0 and
both file bytes have been copied. -/
theorem elf_load_maps_too_few_pages :
    p_type (fun i => sampleElf 0xC0001FFE 0xC0001FFE 2 4 (64 + i)) = PT_LOAD ∧
    p_vaddr (fun i => sampleElf 0xC0001FFE 0xC0001FFE 2 4 (64 + i)) = 0xC0001FFE ∧
    p_memsz (fun i => sampleElf 0xC0001FFE 0xC0001FFE 2 4 (64 + i)) = 4 ∧
    sampleLayout.USER_START_VMA ≤ 0xC0001FFE ∧ 0xC0001FFE + 4 ≤ sampleLayout.USER_END_VMA ∧
    (elf_load sampleLayout 0x100000000 iolit (sampleElfLit 0xC0001FFE 0xC0001FFE 2 4)
      sampleSpace).code = none ∧
    (leaf_mapping
      (elf_load sampleLayout 0x100000000 iolit (sampleElfLit 0xC0001FFE 0xC0001FFE 2 4)
        sampleSpace).mst (active_space_root sampleSpace) 0xC0001000).isSome = true ∧
    leaf_mapping
      (elf_load sampleLayout 0x100000000 iolit (sampleElfLit 0xC0001FFE 0xC0001FFE 2 4)
        sampleSpace).mst (active_space_root sampleSpace) 0xC0002000 = none ∧
    p_filesz (fun i => sampleElf 0xC0001000 0xC0001000 2 1 (64 + i)) = 2 ∧
    p_memsz (fun i => sampleElf 0xC0001000 0xC0001000 2 1 (64 + i)) = 1 ∧
    (elf_load sampleLayout 0x100000000 iolit (sampleElfLit 0xC0001000 0xC0001000 2 1)
      sampleSpace).code = some 0 ∧
    vload (elf_load sampleLayout 0x100000000 iolit (sampleElfLit 0xC0001000 0xC0001000 2 1)
      sampleSpace).mst 0xC0001000 = some 0x11 ∧
    vload (elf_load sampleLayout 0x100000000 iolit (sampleElfLit 0xC0001000 0xC0001000 2 1)
      sampleSpace).mst 0xC0001001 = some 0x22 := by
  decide


/-! ## System calls: the descriptor checks -/


/-- C21: when `fd` is outside `[0, PROCESS_IOMAX)` or `iotab[fd]` is unset,
`sysclose`, `sysread`, `syswrite`, `sysioctl` and `sysexec` return `-EBADFD`
and leave the descriptor table and the rest of the kernel as they were,
whatever the buffer, the command, the argument and the outcome of any pointer
validation would be; when `fd` is outside `[0, PROCESS_IOMAX)`, `sysdevopen`
and `sysfsopen` return `-EMFILE` in the same way, whatever the name. -/
theorem descriptor_checks_come_first {ω : Type} (K : Services ω)
    (process_exec : SysState ω → Nat → Int × SysState ω) (s : SysState ω) (fd : Int)
    (h : fd < 0 ∨ fd ≥ (PROCESS_IOMAX : Int) ∨ s.iotab fd.toNat = 0) :
    sysclose K s fd = (-EBADFD, s) ∧
    (∀ buf bufsz, sysread K s fd buf bufsz = (-EBADFD, s)) ∧
    (∀ buf len, syswrite K s fd buf len = (-EBADFD, s)) ∧
    (∀ cmd arg, sysioctl K s fd cmd arg = (-EBADFD, s)) ∧
    sysexec process_exec s fd = (-EBADFD, s) ∧
    ((fd < 0 ∨ fd ≥ (PROCESS_IOMAX : Int)) →
      (∀ name instno, sysdevopen K s fd name instno = (-EMFILE, s)) ∧
      (∀ name, sysfsopen K s fd name = (-EMFILE, s))) := by
  refine ⟨?_, ?_, ?_, ?_, ?_, ?_⟩
  · unfold sysclose; rw [if_pos h]
  · intro buf bufsz; unfold sysread; rw [if_pos h]
  · intro buf len; unfold syswrite; rw [if_pos h]
  · intro cmd arg; unfold sysioctl; rw [if_pos h]
  · unfold sysexec; rw [if_pos h]
  · intro h2
    refine ⟨?_, ?_⟩
    · intro name instno; unfold sysdevopen; rw [if_pos h2]
    · intro name; unfold sysfsopen; rw [if_pos h2]

/-- Instance of `descriptor_checks_come_first`: descriptor 16 with services
that would accept every pointer, and the unset descriptor 1. -/
theorem descriptor_checks_come_first_witness :
    (sysclose okServices oneFdState 16 = (-EBADFD, oneFdState) ∧
     (∀ buf bufsz, sysread okServices oneFdState 16 buf bufsz = (-EBADFD, oneFdState)) ∧
     (∀ buf len, syswrite okServices oneFdState 16 buf len = (-EBADFD, oneFdState)) ∧
     (∀ cmd arg, sysioctl okServices oneFdState 16 cmd arg = (-EBADFD, oneFdState)) ∧
     sysexec (fun s _ => (0, s)) oneFdState 16 = (-EBADFD, oneFdState) ∧
     (((16 : Int) < 0 ∨ (16 : Int) ≥ (PROCESS_IOMAX : Int)) →
       (∀ name instno, sysdevopen okServices oneFdState 16 name instno = (-EMFILE, oneFdState)) ∧
       (∀ name, sysfsopen okServices oneFdState 16 name = (-EMFILE, oneFdState)))) ∧
    ((16 : Int) < 0 ∨ (16 : Int) ≥ (PROCESS_IOMAX : Int)) ∧
    (sysclose okServices oneFdState 0).1 = 0 ∧
    (sysread okServices oneFdState 0 0x1000 4).1 = 0 :=
  ⟨descriptor_checks_come_first okServices (fun s _ => (0, s)) oneFdState 16
      (Or.inr (Or.inl (by decide))),
    Or.inr (by decide), by decide, by decide⟩


/-! ## Control calls of the handles -/


/-- C23 counterexample: the memory-buffer handle answers `IOCTL_GETBLKSZ`
with `-ENOTSUP`, not with 0. -/
theorem lit_ioctl_rejects_getblksz :
    (lit_ioctl (sampleElfLit 0 0 0 0) IOCTL_GETBLKSZ 0).1 = -ENOTSUP ∧ -ENOTSUP ≠ (0 : Int) := by
  decide

/-- C23 (amended): with a non-null argument whose target holds `v`, the control
call of an open filesystem file and of a block device returns 0 for `GETLEN`,
`GETPOS`, `GETBLKSZ` (storing the size, the position, the block size) and for
`SETPOS` to a position not beyond the size (which becomes the position), and
`-ENOTSUP` for every other command; the control call of a memory-buffer handle
returns 0 for `GETLEN`, `GETPOS` and `SETPOS` to a position not beyond the
size, and `-ENOTSUP` for every other command, `GETBLKSZ` included. -/
theorem ioctl_commands (s : FsState) (fd : Nat) (dev : vioblk_device) (lit : io_lit)
    (cmd : Int) (v : Nat) (hopen : (s.file_structs fd).flags ≠ 0)
    (hcmd : cmd ≠ IOCTL_GETLEN ∧ cmd ≠ IOCTL_GETPOS ∧ cmd ≠ IOCTL_SETPOS ∧ cmd ≠ IOCTL_GETBLKSZ) :
    (fs_ioctl s fd IOCTL_GETLEN (some v) = (0, s, some (s.file_structs fd).file_size) ∧
     fs_ioctl s fd IOCTL_GETPOS (some v) = (0, s, some (s.file_structs fd).file_position) ∧
     fs_ioctl s fd IOCTL_GETBLKSZ (some v) = (0, s, some FS_BLKSZ) ∧
     (v ≤ (s.file_structs fd).file_size →
       (fs_ioctl s fd IOCTL_SETPOS (some v)).1 = 0 ∧
       ((fs_ioctl s fd IOCTL_SETPOS (some v)).2.1.file_structs fd).file_position = v) ∧
     (∀ arg, fs_ioctl s fd cmd arg = (-ENOTSUP, s, arg))) ∧
    (vioblk_ioctl dev IOCTL_GETLEN (some v) = (0, dev, some dev.size) ∧
     vioblk_ioctl dev IOCTL_GETPOS (some v) = (0, dev, some dev.pos) ∧
     (vioblk_ioctl dev IOCTL_GETBLKSZ (some v)).1 = 0 ∧
     (vioblk_ioctl dev IOCTL_GETBLKSZ (some v)).2.1 = dev ∧
     (v ≤ dev.size →
       (vioblk_ioctl dev IOCTL_SETPOS (some v)).1 = 0 ∧
       (vioblk_ioctl dev IOCTL_SETPOS (some v)).2.1.pos = v) ∧
     (∀ arg, vioblk_ioctl dev cmd arg = (-ENOTSUP, dev, arg))) ∧
    (lit_ioctl lit IOCTL_GETLEN v = (0, lit, lit.size) ∧
     lit_ioctl lit IOCTL_GETPOS v = (0, lit, lit.pos) ∧
     (v ≤ lit.size → lit_ioctl lit IOCTL_SETPOS v = (0, { lit with pos := v }, v)) ∧
     lit_ioctl lit cmd v = (-ENOTSUP, lit, v) ∧
     lit_ioctl lit IOCTL_GETBLKSZ v = (-ENOTSUP, lit, v)) := by
  obtain ⟨c1, c2, c3, c4⟩ := hcmd
  have d12 : IOCTL_GETPOS ≠ IOCTL_GETLEN := by decide
  have d13 : IOCTL_SETPOS ≠ IOCTL_GETLEN := by decide
  have d14 : IOCTL_GETBLKSZ ≠ IOCTL_GETLEN := by decide
  have d23 : IOCTL_SETPOS ≠ IOCTL_GETPOS := by decide
  have d24 : IOCTL_GETBLKSZ ≠ IOCTL_GETPOS := by decide
  have d34 : IOCTL_GETBLKSZ ≠ IOCTL_SETPOS := by decide
  refine ⟨⟨?_, ?_, ?_, ?_, ?_⟩, ⟨?_, ?_, ?_, ?_, ?_, ?_⟩, ⟨?_, ?_, ?_, ?_, ?_⟩⟩
  · unfold fs_ioctl
    simp only [if_neg hopen, if_true]
  · unfold fs_ioctl
    simp only [if_neg hopen, if_neg d12, if_true]
  · unfold fs_ioctl
    simp only [if_neg hopen, if_neg d14, if_neg d24, if_neg d34, if_true]
  · intro hv
    unfold fs_ioctl fs_setpos
    simp only [if_neg hopen, if_neg d13, if_neg d23, if_true, if_neg (Nat.not_lt.mpr hv),
      Function.update_same, and_self]
  · intro arg
    unfold fs_ioctl
    simp only [if_neg hopen, if_neg c1, if_neg c2, if_neg c3, if_neg c4]
  · unfold vioblk_ioctl vioblk_getlen
    simp only [if_true]
  · unfold vioblk_ioctl vioblk_getpos
    simp only [if_neg d12, if_true]
  · unfold vioblk_ioctl vioblk_getblksz
    simp only [if_neg d14, if_neg d24, if_neg d34, if_true]
  · unfold vioblk_ioctl vioblk_getblksz
    simp only [if_neg d14, if_neg d24, if_neg d34, if_true]
  · intro hv
    unfold vioblk_ioctl vioblk_setpos
    simp only [if_neg d13, if_neg d23, if_true, if_neg (Nat.not_lt.mpr hv), and_self]
  · intro arg
    unfold vioblk_ioctl
    simp only [if_neg c1, if_neg c2, if_neg c3, if_neg c4]
  · unfold lit_ioctl
    simp only [if_true]
  · unfold lit_ioctl
    simp only [if_neg d12, if_true]
  · intro hv
    unfold lit_ioctl
    simp only [if_neg d13, if_neg d23, if_true, if_neg (Nat.not_lt.mpr hv)]
  · unfold lit_ioctl
    simp only [if_neg c1, if_neg c2, if_neg c3]
  · unfold lit_ioctl
    simp only [if_neg d14, if_neg d24, if_neg d34]

/-- Instance of `ioctl_commands`: slot 0 of the sample filesystem, the sample
device, a memory buffer of 122 bytes, the unknown command 99 and the value 5. -/
theorem ioctl_commands_witness :
    (fs_ioctl sampleFs 0 IOCTL_GETLEN (some 5)).1 = 0 ∧
    (fs_ioctl sampleFs 0 IOCTL_SETPOS (some 5)).1 = 0 ∧
    (fs_ioctl sampleFs 0 99 (some 5)).1 = -ENOTSUP ∧
    (vioblk_ioctl sampleDev IOCTL_GETBLKSZ (some 5)).1 = 0 ∧
    (vioblk_ioctl sampleDev IOCTL_SETPOS (some 5)).2.1.pos = 5 ∧
    (vioblk_ioctl sampleDev 99 (some 5)).1 = -ENOTSUP ∧
    (lit_ioctl (sampleElfLit 0 0 0 0) IOCTL_GETPOS 5).1 = 0 ∧
    (lit_ioctl (sampleElfLit 0 0 0 0) IOCTL_SETPOS 5).2.1.pos = 5 ∧
    (lit_ioctl (sampleElfLit 0 0 0 0) 99 5).1 = -ENOTSUP := by
  have h := ioctl_commands sampleFs 0 sampleDev (sampleElfLit 0 0 0 0) 99 5 (by decide)
    (by decide)
  obtain ⟨⟨f1, _, _, f4, f5⟩, ⟨_, _, b3, _, b5, b6⟩, ⟨_, l2, l3, l4, _⟩⟩ := h
  refine ⟨?_, (f4 (by decide)).1, ?_, b3, (b5 (by decide)).2, ?_, ?_, ?_, ?_⟩
  · rw [f1]
  · rw [f5]
  · rw [b6]
  · rw [l2]
  · rw [l3 (by decide)]
  · rw [l4]


/-! ## The read-fully loop -/


theorem toLong_le (x : Nat) : toLong x ≤ (x : Int) := by
  unfold toLong U64
  split_ifs <;> omega

theorem ioread_full_loop_spec {σ : Type} (io : io_intf σ) (n : Nat) (hn : n < 2 ^ 63)
    (hb : ∀ s k, (io.read s k).2.2 ≤ (k : Int)) (fuel : Nat) :
    ∀ (s : σ) (buf : Buf) (acc : Nat), n - acc ≤ fuel → acc ≤ n →
      ∃ tr : List (σ × Buf × Int), read_run io n s acc tr ∧
        (ioread_full_loop io fuel s buf n acc).stored = acc + run_total tr ∧
        (∀ i, (ioread_full_loop io fuel s buf n acc).buf i =
          if i < acc then buf i
          else if i < acc + run_total tr then concat_chunks tr (i - acc) else buf i) ∧
        ((acc + run_total tr = n ∧ (ioread_full_loop io fuel s buf n acc).ret = (n : Int) ∧
            (ioread_full_loop io fuel s buf n acc).ios = run_end s tr) ∨
         (acc + run_total tr < n ∧
            (io.read (run_end s tr) (n - (acc + run_total tr))).2.2 = 0 ∧
            (ioread_full_loop io fuel s buf n acc).ret = ((acc + run_total tr : Nat) : Int) ∧
            (ioread_full_loop io fuel s buf n acc).ios
              = (io.read (run_end s tr) (n - (acc + run_total tr))).1) ∨
         (acc + run_total tr < n ∧
            (io.read (run_end s tr) (n - (acc + run_total tr))).2.2 < 0 ∧
            (ioread_full_loop io fuel s buf n acc).ret
              = (io.read (run_end s tr) (n - (acc + run_total tr))).2.2 ∧
            (ioread_full_loop io fuel s buf n acc).ios
              = (io.read (run_end s tr) (n - (acc + run_total tr))).1)) := by
  induction fuel with
  | zero =>
    intro s buf acc hf ha
    have e : acc = n := by omega
    refine ⟨[], trivial, rfl, ?_, Or.inl ⟨by simpa [run_total] using e, ?_, rfl⟩⟩
    · intro i
      simp only [run_total, Nat.add_zero]
      unfold ioread_full_loop
      split_ifs <;> rfl
    · unfold ioread_full_loop
      simp only
      rw [e, toLong_small n hn]
  | succ f ih =>
    intro s buf acc hf ha
    by_cases h1 : acc < n
    · by_cases h2 : (io.read s (n - acc)).2.2 < 0
      · refine ⟨[], trivial, ?_, ?_, Or.inr (Or.inr ⟨?_, ?_, ?_, ?_⟩)⟩
        · unfold ioread_full_loop
          simp only [if_pos h1, if_pos h2, run_total, Nat.add_zero]
        · intro i
          unfold ioread_full_loop
          simp only [if_pos h1, if_pos h2, run_total, Nat.add_zero]
          split_ifs <;> rfl
        · simpa [run_total] using h1
        · simpa [run_total, run_end] using h2
        · unfold ioread_full_loop
          simp only [if_pos h1, if_pos h2, run_total, run_end, Nat.add_zero]
        · unfold ioread_full_loop
          simp only [if_pos h1, if_pos h2, run_total, run_end, Nat.add_zero]
      · by_cases h3 : (io.read s (n - acc)).2.2 = 0
        · refine ⟨[], trivial, ?_, ?_, Or.inr (Or.inl ⟨?_, ?_, ?_, ?_⟩)⟩
          · unfold ioread_full_loop
            simp only [if_pos h1, if_neg h2, if_pos h3, run_total, Nat.add_zero]
          · intro i
            unfold ioread_full_loop
            simp only [if_pos h1, if_neg h2, if_pos h3, run_total, Nat.add_zero]
            split_ifs <;> rfl
          · simpa [run_total] using h1
          · simpa [run_total, run_end] using h3
          · unfold ioread_full_loop
            simp only [if_pos h1, if_neg h2, if_pos h3, run_total, Nat.add_zero]
            exact toLong_small acc (by omega)
          · unfold ioread_full_loop
            simp only [if_pos h1, if_neg h2, if_pos h3, run_total, run_end, Nat.add_zero]
        · have hle := hb s (n - acc)
          have hpos : 0 < (io.read s (n - acc)).2.2 := by omega
          have hc : ((io.read s (n - acc)).2.2.toNat : Int) = (io.read s (n - acc)).2.2 :=
            Int.toNat_of_nonneg (by omega)
          have hc1 : 1 ≤ (io.read s (n - acc)).2.2.toNat := by omega
          have hc2 : (io.read s (n - acc)).2.2.toNat ≤ n - acc := by omega
          have hstep : ioread_full_loop io (f + 1) s buf n acc
              = ioread_full_loop io f (io.read s (n - acc)).1
                  (memcpy buf acc (io.read s (n - acc)).2.1 0 (io.read s (n - acc)).2.2.toNat)
                  n (acc + (io.read s (n - acc)).2.2.toNat) := by
            conv => lhs; unfold ioread_full_loop
            simp only [if_pos h1, if_neg h2, if_neg h3]
          rw [hstep]
          obtain ⟨tr, hrun, hst, hbuf, hend⟩ := ih (io.read s (n - acc)).1
            (memcpy buf acc (io.read s (n - acc)).2.1 0 (io.read s (n - acc)).2.2.toNat)
            (acc + (io.read s (n - acc)).2.2.toNat) (by omega) (by omega)
          have htot : acc + run_total (io.read s (n - acc) :: tr)
              = acc + (io.read s (n - acc)).2.2.toNat + run_total tr := by
            simp only [run_total]; omega
          refine ⟨io.read s (n - acc) :: tr, ⟨h1, rfl, hpos, hrun⟩, ?_, ?_, ?_⟩
          · rw [hst, htot]
          · intro i
            rw [hbuf i, htot]
            unfold memcpy
            simp only [concat_chunks]
            by_cases c1 : i < acc
            · rw [if_pos (by omega), if_neg (by omega), if_pos c1]
            · by_cases c2 : i < acc + (io.read s (n - acc)).2.2.toNat
              · rw [if_pos c2, if_pos ⟨by omega, c2⟩, if_neg c1, if_pos (by omega),
                  if_pos (by omega), Nat.zero_add]
              · rw [if_neg c2, if_neg c1]
                by_cases c3 : i < acc + (io.read s (n - acc)).2.2.toNat + run_total tr
                · rw [if_pos c3, if_pos c3, if_neg (by omega)]
                  congr 1
                  omega
                · rw [if_neg c3, if_neg c3, if_neg (by omega)]
          · rw [htot]
            exact hend
    · have e : acc = n := by omega
      refine ⟨[], trivial, ?_, ?_, Or.inl ⟨by simpa [run_total] using e, ?_, ?_⟩⟩
      · unfold ioread_full_loop
        simp only [if_neg h1, run_total, Nat.add_zero]
      · intro i
        unfold ioread_full_loop
        simp only [if_neg h1, run_total, Nat.add_zero]
        split_ifs <;> rfl
      · unfold ioread_full_loop
        simp only [if_neg h1]
        rw [e, toLong_small n hn]
      · unfold ioread_full_loop
        simp only [if_neg h1, run_end]


theorem lit_read_le (lit : io_lit) (k : Nat) : (lit_read lit k).2.2 ≤ (k : Int) := by
  unfold lit_read
  by_cases h : lit.pos ≥ lit.size
  · rw [if_pos h]
    exact Int.ofNat_nonneg k
  · rw [if_neg h]
    simp only
    have := toLong_le (if k < lit.size - lit.pos then k else lit.size - lit.pos)
    split_ifs at this ⊢ <;> omega

/-- C22: for an endpoint whose reads never deliver more than they are asked
for and `n < 2^63`: without a read operation `ioread_full` returns `-ENOTSUP`
and leaves the endpoint alone; with one, it issues reads for the bytes still
missing as long as they deliver a positive count (the run `tr`), the buffer
then holds the chunks of the run one after another, and it returns `n` when
the run delivered `n` bytes, the count so far (below `n`) when the next read
returned 0, and the value of the next read when that was negative. -/
theorem ioread_full_contract {σ : Type} (io : io_intf σ) (s : σ) (n : Nat) (hn : n < 2 ^ 63)
    (hb : ∀ s k, (io.read s k).2.2 ≤ (k : Int)) :
    (io.has_read = false →
      (ioread_full io s n).ret = -ENOTSUP ∧ (ioread_full io s n).ios = s ∧
      (ioread_full io s n).stored = 0) ∧
    (io.has_read = true →
      ∃ tr : List (σ × Buf × Int), read_run io n s 0 tr ∧
        (ioread_full io s n).stored = run_total tr ∧
        (∀ i, i < run_total tr → (ioread_full io s n).buf i = concat_chunks tr i) ∧
        ((run_total tr = n ∧ (ioread_full io s n).ret = (n : Int) ∧
            (ioread_full io s n).ios = run_end s tr) ∨
         (run_total tr < n ∧ (io.read (run_end s tr) (n - run_total tr)).2.2 = 0 ∧
            (ioread_full io s n).ret = (run_total tr : Int) ∧
            (ioread_full io s n).ios = (io.read (run_end s tr) (n - run_total tr)).1) ∨
         (run_total tr < n ∧ (io.read (run_end s tr) (n - run_total tr)).2.2 < 0 ∧
            (ioread_full io s n).ret = (io.read (run_end s tr) (n - run_total tr)).2.2 ∧
            (ioread_full io s n).ios = (io.read (run_end s tr) (n - run_total tr)).1))) := by
  refine ⟨?_, ?_⟩
  · intro h
    unfold ioread_full
    simp only [h, Bool.not_false, if_true, and_self]
  · intro h
    obtain ⟨tr, hrun, hst, hbuf, hend⟩ :=
      ioread_full_loop_spec io n hn hb n s (fun _ => 0) 0 (by omega) (by omega)
    have e : ioread_full io s n = ioread_full_loop io n s (fun _ => 0) n 0 := by
      unfold ioread_full
      simp only [h, Bool.not_true, Bool.false_eq_true, if_false]
    rw [e]
    simp only [Nat.zero_add] at hst hbuf hend
    refine ⟨tr, hrun, hst, ?_, hend⟩
    intro i hi
    rw [hbuf i, if_neg (by omega), if_pos hi]
    rfl

/-- Instance of `ioread_full_contract`: four bytes from a memory buffer of 122
bytes; the call returns 4. -/
theorem ioread_full_contract_witness :
    ((iolit.has_read = false →
      (ioread_full iolit (sampleElfLit 0 0 0 0) 4).ret = -ENOTSUP ∧
      (ioread_full iolit (sampleElfLit 0 0 0 0) 4).ios = sampleElfLit 0 0 0 0 ∧
      (ioread_full iolit (sampleElfLit 0 0 0 0) 4).stored = 0) ∧
    (iolit.has_read = true →
      ∃ tr : List (io_lit × Buf × Int), read_run iolit 4 (sampleElfLit 0 0 0 0) 0 tr ∧
        (ioread_full iolit (sampleElfLit 0 0 0 0) 4).stored = run_total tr ∧
        (∀ i, i < run_total tr →
          (ioread_full iolit (sampleElfLit 0 0 0 0) 4).buf i = concat_chunks tr i) ∧
        ((run_total tr = 4 ∧ (ioread_full iolit (sampleElfLit 0 0 0 0) 4).ret = ((4 : Nat) : Int) ∧
            (ioread_full iolit (sampleElfLit 0 0 0 0) 4).ios = run_end (sampleElfLit 0 0 0 0) tr) ∨
         (run_total tr < 4 ∧
            (iolit.read (run_end (sampleElfLit 0 0 0 0) tr) (4 - run_total tr)).2.2 = 0 ∧
            (ioread_full iolit (sampleElfLit 0 0 0 0) 4).ret = (run_total tr : Int) ∧
            (ioread_full iolit (sampleElfLit 0 0 0 0) 4).ios
              = (iolit.read (run_end (sampleElfLit 0 0 0 0) tr) (4 - run_total tr)).1) ∨
         (run_total tr < 4 ∧
            (iolit.read (run_end (sampleElfLit 0 0 0 0) tr) (4 - run_total tr)).2.2 < 0 ∧
            (ioread_full iolit (sampleElfLit 0 0 0 0) 4).ret
              = (iolit.read (run_end (sampleElfLit 0 0 0 0) tr) (4 - run_total tr)).2.2 ∧
            (ioread_full iolit (sampleElfLit 0 0 0 0) 4).ios
              = (iolit.read (run_end (sampleElfLit 0 0 0 0) tr) (4 - run_total tr)).1)))) ∧
    (ioread_full iolit (sampleElfLit 0 0 0 0) 4).ret = 4 ∧
    (ioread_full iolit (sampleElfLit 0 0 0 0) 4).buf 1 = 69 :=
  ⟨ioread_full_contract iolit (sampleElfLit 0 0 0 0) 4 (by norm_num) lit_read_le,
    by decide, by decide⟩


/-! ## Opening a file -/


theorem strncmp_eq_iff (n : Nat) : ∀ (a b : Buf),
    strncmp_eq a b n = true ↔ ∀ j, j < n → (∀ k, k < j → a k ≠ 0) → a j = b j := by
  induction n with
  | zero =>
    intro a b
    unfold strncmp_eq
    simp
  | succ n ih =>
    intro a b
    unfold strncmp_eq
    by_cases h0 : a 0 ≠ b 0
    · rw [if_pos h0]
      constructor
      · intro h; exact absurd h (by simp)
      · intro h
        exact absurd (h 0 (by omega) (fun k hk => absurd hk (by omega))) h0
    · rw [if_neg h0]
      have e0 : a 0 = b 0 := by
        by_contra c; exact h0 c
      by_cases hz : a 0 = 0
      · rw [if_pos hz]
        constructor
        · intro _ j hj hnz
          cases j with
          | zero => exact e0
          | succ j => exact absurd hz (hnz 0 (by omega))
        · intro _; rfl
      · rw [if_neg hz, ih]
        constructor
        · intro h j hj hnz
          cases j with
          | zero => exact e0
          | succ j =>
            exact h j (by omega) (fun k hk => hnz (k + 1) (by omega))
        · intro h j hj hnz
          apply h (j + 1) (by omega)
          intro k hk
          cases k with
          | zero => exact hz
          | succ k => exact hnz k (by omega)

theorem strncpy_name_eq (src : Buf) (j : Nat) (hj : j < FS_NAMELEN)
    (hnz : ∀ k, k < j → src k ≠ 0) : strncpy_name src j = src j := by
  unfold strncpy_name
  by_cases c : j < FS_NAMELEN ∧ (List.range (j + 1)).all (fun k => src k != 0) = true
  · rw [if_pos c]
  · rw [if_neg c]
    by_contra hne
    apply c
    refine ⟨hj, ?_⟩
    rw [List.all_eq_true]
    intro k hk
    rw [List.mem_range] at hk
    have hk2 : src k ≠ 0 := by
      by_cases e : k = j
      · rw [e]; exact fun h => hne h.symm
      · exact hnz k (by omega)
    simpa using hk2

theorem name_matches_strncpy (name src : Buf) :
    name_matches name (strncpy_name src) ↔ name_matches name src := by
  unfold name_matches
  constructor
  · intro h
    have key : ∀ j, j < FS_NAMELEN → (∀ k, k < j → name k ≠ 0) →
        name j = strncpy_name src j ∧ strncpy_name src j = src j := by
      intro j
      induction j using Nat.strong_induction_on with
      | _ j ih =>
        intro hj hnz
        have h1 := h j hj hnz
        refine ⟨h1, strncpy_name_eq src j hj ?_⟩
        intro k hk
        have hk2 := ih k hk (by omega) (fun k2 hk2 => hnz k2 (by omega))
        rw [← hk2.2, ← hk2.1]
        exact hnz k hk
    intro j hj hnz
    rw [(key j hj hnz).1, (key j hj hnz).2]
  · intro h
    have key : ∀ j, j < FS_NAMELEN → (∀ k, k < j → name k ≠ 0) →
        name j = src j ∧ strncpy_name src j = src j := by
      intro j
      induction j using Nat.strong_induction_on with
      | _ j ih =>
        intro hj hnz
        have h1 := h j hj hnz
        refine ⟨h1, strncpy_name_eq src j hj ?_⟩
        intro k hk
        have hk2 := ih k hk (by omega) (fun k2 hk2 => hnz k2 (by omega))
        rw [← hk2.1]
        exact hnz k hk
    intro j hj hnz
    rw [(key j hj hnz).1, (key j hj hnz).2]

theorem strncmp_name_iff (name src : Buf) :
    strncmp_eq name (strncpy_name src) FS_NAMELEN = true ↔ name_matches name src := by
  rw [strncmp_eq_iff, ← name_matches_strncpy]
  rfl

theorem dentry_search_none (bb name : Buf) (fuel : Nat) : ∀ i,
    (∀ k, i ≤ k → k < i + fuel → ¬ name_matches name (dentry_name bb k)) →
    dentry_search bb name fuel i = none := by
  induction fuel with
  | zero => intro i _; rfl
  | succ f ih =>
    intro i h
    unfold dentry_search
    have h0 := h i (by omega) (by omega)
    rw [← strncmp_name_iff] at h0
    rw [if_neg h0]
    exact ih (i + 1) (fun k hk1 hk2 => h k (by omega) (by omega))

theorem dentry_search_some (bb name : Buf) (fuel : Nat) : ∀ i d,
    i ≤ d → d < i + fuel → name_matches name (dentry_name bb d) →
    (∀ k, i ≤ k → k < d → ¬ name_matches name (dentry_name bb k)) →
    dentry_search bb name fuel i = some d := by
  induction fuel with
  | zero => intro i d h1 h2; omega
  | succ f ih =>
    intro i d h1 h2 hm hfirst
    unfold dentry_search
    by_cases e : i = d
    · rw [e, if_pos ((strncmp_name_iff _ _).mpr hm)]
    · have h0 := hfirst i (by omega) (by omega)
      rw [← strncmp_name_iff] at h0
      rw [if_neg h0]
      exact ih (i + 1) d (by omega) (by omega) hm (fun k hk1 hk2 => hfirst k (by omega) hk2)

theorem find_free_slot_some (fs : Nat → file_struct) (fuel : Nat) : ∀ i slot,
    i ≤ slot → slot < i + fuel → (fs slot).flags = 0 →
    (∀ k, i ≤ k → k < slot → (fs k).flags ≠ 0) →
    find_free_slot fs fuel i = some slot := by
  induction fuel with
  | zero => intro i d h1 h2; omega
  | succ f ih =>
    intro i d h1 h2 hm hfirst
    unfold find_free_slot
    by_cases e : i = d
    · rw [e, if_pos hm]
    · rw [if_neg (hfirst i (by omega) (by omega))]
      exact ih (i + 1) d (by omega) (by omega) hm (fun k hk1 hk2 => hfirst k (by omega) hk2)

theorem strncmp_eq_congr (n : Nat) (a a2 b : Buf) (h : ∀ j, j < n → a2 j = a j) :
    strncmp_eq a2 b n = strncmp_eq a b n := by
  have key : strncmp_eq a2 b n = true ↔ strncmp_eq a b n = true := by
    rw [strncmp_eq_iff, strncmp_eq_iff]
    constructor
    · intro h1 j hj hnz
      rw [← h j hj]
      exact h1 j hj (fun k hk => by rw [h k (by omega)]; exact hnz k hk)
    · intro h1 j hj hnz
      rw [h j hj]
      exact h1 j hj (fun k hk => by rw [← h k (by omega)]; exact hnz k hk)
  cases h1 : strncmp_eq a2 b n <;> cases h2 : strncmp_eq a b n <;> simp_all

theorem dentry_search_congr (bb name name2 : Buf) (h : ∀ j, j < FS_NAMELEN → name2 j = name j)
    (fuel : Nat) : ∀ i, dentry_search bb name2 fuel i = dentry_search bb name fuel i := by
  induction fuel with
  | zero => intro i; rfl
  | succ f ih =>
    intro i
    unfold dentry_search
    rw [strncmp_eq_congr FS_NAMELEN name name2 _ h, ih]


theorem u32le_lt (b : Buf) (off : Nat) : u32le b off < 2 ^ 32 := by
  unfold u32le
  omega

/-- C24: on a mounted filesystem whose first free open-file slot is `slot`:
when no entry among the first `num_dentry` matches `name`, `fs_open` returns
-1 and changes nothing; when `d` is the first matching entry and the inode
block of that entry lies on the device (within its first 4 GiB), `fs_open`
returns 0 and hands out the handle of `slot`, whose file has the inode number
of entry `d`, position 0, the size `byte_len` recorded in that inode on the
device, and is marked in use, the other slots being unchanged; and `fs_open`
gives the same result for two names that agree on their first 32 bytes. -/
theorem fs_open_contract (s : FsState) (name : Buf) (slot : Nat)
    (hinit : s.fs_initialized = true)
    (hslot : slot < FS_MAXOPEN) (hfree : (s.file_structs slot).flags = 0)
    (hfirst : ∀ k, k < slot → (s.file_structs k).flags ≠ 0) :
    ((∀ i, i < num_dentry s.boot_block → ¬ name_matches name (dentry_name s.boot_block i)) →
      fs_open s name = (-1, s, none)) ∧
    (∀ d, d < num_dentry s.boot_block → name_matches name (dentry_name s.boot_block d) →
      (∀ i, i < d → ¬ name_matches name (dentry_name s.boot_block i)) →
      0 < s.blkdev.blksz →
      FS_BLKSZ + dentry_inode s.boot_block d * FS_BLKSZ + 4096 ≤ s.blkdev.size →
      s.blkdev.size ≤ 2 ^ 32 →
      ∃ s2 : FsState, fs_open s name = (0, s2, some slot) ∧
        s2.file_structs slot =
          { refcnt := 1, file_position := 0,
            file_size := byte_len (fun j =>
              s.blkdev.disk (FS_BLKSZ + dentry_inode s.boot_block d * FS_BLKSZ + j)),
            inode_number := dentry_inode s.boot_block d, flags := 1 } ∧
        (∀ k, k ≠ slot → s2.file_structs k = s.file_structs k) ∧
        s2.blkdev.disk = s.blkdev.disk ∧ s2.boot_block = s.boot_block ∧
        s2.fs_initialized = true) ∧
    (∀ name2 : Buf, (∀ j, j < FS_NAMELEN → name2 j = name j) →
      fs_open s name2 = fs_open s name) := by
  have hff : find_free_slot s.file_structs FS_MAXOPEN 0 = some slot :=
    find_free_slot_some s.file_structs FS_MAXOPEN 0 slot (by omega) (by omega) hfree
      (fun k _ hk => hfirst k hk)
  refine ⟨?_, ?_, ?_⟩
  · intro hno
    have hds := dentry_search_none s.boot_block name (num_dentry s.boot_block) 0
      (fun k _ hk => hno k (by omega))
    unfold fs_open
    simp only [hinit, Bool.not_true, Bool.false_eq_true, if_false, hff, hds]
  · intro d hd hm hfd hblk hsz h32
    have hds := dentry_search_some s.boot_block name (num_dentry s.boot_block) 0 d
      (by omega) (by omega) hm (fun k _ hk => hfd k hk)
    have hlt := u32le_lt s.boot_block (64 + 64 * d + 32)
    have hoff : (FS_BLKSZ + dentry_inode s.boot_block d * FS_BLKSZ) % U64
        = FS_BLKSZ + dentry_inode s.boot_block d * FS_BLKSZ := by
      apply Nat.mod_eq_of_lt
      unfold U64
      omega
    obtain ⟨k1, k2, _, _, _, k6, _, _, k9⟩ := vioblk_read_block s.blkdev s.inode
      (FS_BLKSZ + dentry_inode s.boot_block d * FS_BLKSZ) hblk hsz (by unfold U32; omega)
    have hbl : byte_len (fun i => if i < 4096
          then s.blkdev.disk (FS_BLKSZ + dentry_inode s.boot_block d * FS_BLKSZ + i)
          else s.inode i)
        = byte_len (fun j =>
            s.blkdev.disk (FS_BLKSZ + dentry_inode s.boot_block d * FS_BLKSZ + j)) := by
      unfold byte_len u32le
      simp
    have hres : fs_open s name
        = (0, { s with
            blkdev := (vioblk_read (vioblk_setpos s.blkdev
              (FS_BLKSZ + dentry_inode s.boot_block d * FS_BLKSZ)).1 s.inode 4096).1,
            inode := (vioblk_read (vioblk_setpos s.blkdev
              (FS_BLKSZ + dentry_inode s.boot_block d * FS_BLKSZ)).1 s.inode 4096).2.1,
            file_structs := Function.update
              (Function.update s.file_structs slot
                { s.file_structs slot with
                  file_position := 0, inode_number := dentry_inode s.boot_block d })
              slot
              { refcnt := 1, file_position := 0,
                file_size := byte_len (vioblk_read (vioblk_setpos s.blkdev
                  (FS_BLKSZ + dentry_inode s.boot_block d * FS_BLKSZ)).1 s.inode 4096).2.1,
                inode_number := dentry_inode s.boot_block d, flags := 1 } },
           some slot) := by
      unfold fs_open
      simp only [hinit, Bool.not_true, Bool.false_eq_true, if_false, hff, hds, hoff]
      rw [if_neg (by rw [k2]; simp), if_neg (by rw [k1]; simp)]
    refine ⟨_, hres, ?_, ?_, ?_, ?_, ?_⟩
    · simp only [Function.update_same, k9, hbl]
    · intro k hk
      simp only [Function.update_idem, Function.update_noteq hk]
    · exact k6
    · rfl
    · exact hinit
  · intro name2 h2
    unfold fs_open
    rw [dentry_search_congr s.boot_block name name2 h2]

/-- Instance of `fs_open_contract`: the image with one entry named by 32
letters `a`, opened under a name of 40 letters `a`. -/
theorem fs_open_contract_witness :
    ((∀ i, i < num_dentry dirFs.boot_block →
        ¬ name_matches (fun j => if j < 40 then 97 else 0) (dentry_name dirFs.boot_block i)) →
      fs_open dirFs (fun j => if j < 40 then 97 else 0) = (-1, dirFs, none)) ∧
    (∃ s2 : FsState, fs_open dirFs (fun j => if j < 40 then 97 else 0) = (0, s2, some 0) ∧
        s2.file_structs 0 =
          { refcnt := 1, file_position := 0,
            file_size := byte_len (fun j =>
              dirFs.blkdev.disk (FS_BLKSZ + dentry_inode dirFs.boot_block 0 * FS_BLKSZ + j)),
            inode_number := dentry_inode dirFs.boot_block 0, flags := 1 } ∧
        (∀ k, k ≠ 0 → s2.file_structs k = dirFs.file_structs k) ∧
        s2.blkdev.disk = dirFs.blkdev.disk ∧ s2.boot_block = dirFs.boot_block ∧
        s2.fs_initialized = true) ∧
    byte_len (fun j =>
      dirFs.blkdev.disk (FS_BLKSZ + dentry_inode dirFs.boot_block 0 * FS_BLKSZ + j)) = 10 := by
  have h := fs_open_contract dirFs (fun j => if j < 40 then 97 else 0) 0 rfl (by decide)
    (by decide) (fun k hk => absurd hk (by omega))
  refine ⟨h.1, ?_, by decide⟩
  apply h.2.1 0 (by decide) ?_ (fun i hi => absurd hi (by omega)) (by decide) (by decide)
    (by decide)
  intro j hj _
  have hj2 : j < 32 := hj
  show (if j < 40 then 97 else 0) = dirDisk (64 + 64 * 0 + j)
  unfold dirDisk
  rw [if_pos (by omega), if_neg (by omega), if_neg (by omega), if_pos (by omega)]


/-! ## The page-table walk -/


theorem next_table_some_iff (m : Mem) (pt idx t : Nat) :
    next_table m pt idx = some t ↔
      pt ≠ 0 ∧ pte_valid (m (pt + 8 * idx)) ∧ ¬ pte_rwx (m (pt + 8 * idx)) ∧
        pte_target (m (pt + 8 * idx)) = t := by
  unfold next_table
  by_cases c : pt ≠ 0 ∧ pte_valid (m (pt + 8 * idx)) ∧ ¬ pte_rwx (m (pt + 8 * idx))
  · rw [if_pos c]
    constructor
    · intro h; exact ⟨c.1, c.2.1, c.2.2, Option.some.inj h⟩
    · intro h; rw [h.2.2.2]
  · rw [if_neg c]
    constructor
    · intro h; exact absurd h (by simp)
    · intro h; exact absurd ⟨h.1, h.2.1, h.2.2.1⟩ c

theorem next_table_none_iff (m : Mem) (pt idx : Nat) :
    next_table m pt idx = none ↔
      ¬ (pt ≠ 0 ∧ pte_valid (m (pt + 8 * idx)) ∧ ¬ pte_rwx (m (pt + 8 * idx))) := by
  unfold next_table
  by_cases c : pt ≠ 0 ∧ pte_valid (m (pt + 8 * idx)) ∧ ¬ pte_rwx (m (pt + 8 * idx))
  · rw [if_pos c]
    constructor
    · intro h; exact absurd h (by simp)
    · intro h; exact absurd c h
  · rw [if_neg c]
    constructor
    · intro _; exact c
    · intro _; rfl

theorem install_flags (m : Mem) (e p : Nat) : pte_flags (install_table m e p e) = PTE_V := by
  rw [install_table_self, pte_flags_set_flags]
  rfl

theorem install_target (m : Mem) (e p : Nat) (hpa : p % 4096 = 0) (hps : p < 2 ^ 56) :
    pte_target (install_table m e p e) = p := by
  rw [install_table_self]
  exact (installed_word _ p hpa hps).2.2

theorem lookup_zero_iff {m : Mem} {root : Nat} {τ : Nat → Option Role}
    (hT : TypedSpace m root τ) (va : Nat) :
    lookup m root va = 0 ↔ meets_large_leaf m root va ∨ meets_invalid m root va := by
  have hr := typed_root_ne hT
  unfold lookup meets_large_leaf meets_invalid
  cases h1 : next_table m root (VPN2 va) with
  | none =>
    refine ⟨fun _ => ?_, fun _ => rfl⟩
    rw [next_table_none_iff] at h1
    by_cases v : pte_valid (m (root + 8 * VPN2 va))
    · exact Or.inl (Or.inl ⟨v, by_contra (fun c => h1 ⟨hr, v, c⟩)⟩)
    · exact Or.inr (Or.inl v)
  | some t1 =>
    have ht1 := typed_l1_of_next hT (VPN2 va) t1 (vpn2_lt va) h1
    have ht1n := typed_ne_null hT t1 _ ht1
    have h1c := (next_table_some_iff m root (VPN2 va) t1).mp h1
    show (match next_table m t1 (VPN1 va) with
      | none => 0
      | some t0 => t0 + 8 * VPN0 va) = 0 ↔ _
    cases h0 : next_table m t1 (VPN1 va) with
    | none =>
      refine ⟨fun _ => ?_, fun _ => rfl⟩
      rw [next_table_none_iff] at h0
      by_cases v : pte_valid (m (t1 + 8 * VPN1 va))
      · have r : pte_rwx (m (t1 + 8 * VPN1 va)) := by_contra (fun c => h0 ⟨ht1n, v, c⟩)
        left; right
        exact ⟨t1, rfl, v, r⟩
      · right; right
        exact ⟨t1, rfl, v⟩
    | some t0 =>
      have ht0 := typed_l0_of_next hT t1 (VPN2 va) (VPN1 va) t0 (vpn1_lt va) ht1 h0
      have ht0n := typed_ne_null hT t0 _ ht0
      have h0c := (next_table_some_iff m t1 (VPN1 va) t0).mp h0
      refine ⟨fun h => ?_, fun h => ?_⟩
      · have h2 : t0 + 8 * VPN0 va = 0 := h
        omega
      · exfalso
        rcases h with (⟨_, r⟩ | ⟨t, e, v, r⟩) | (v | ⟨t, e, v⟩)
        · exact absurd r h1c.2.2.1
        · have := Option.some.inj e
          subst this
          exact absurd r h0c.2.2.1
        · exact absurd h1c.2.1 v
        · have := Option.some.inj e
          subst this
          exact absurd h0c.2.1 v

theorem walk_pt_large_leaf {m : Mem} {root : Nat} {τ : Nat → Option Role} (st : MemState)
    (hm : st.mem = m) (hT : TypedSpace m root τ) (va : Nat) (create : Bool)
    (h : meets_large_leaf m root va) : walk_pt st root va create = Res.ok 0 st := by
  subst hm
  have hr := typed_root_ne hT
  rcases h with ⟨v, r⟩ | ⟨t1, h1, v, r⟩
  · unfold walk_pt walk_level
    unfold pte_valid at v
    unfold pte_rwx at r
    simp only [if_pos (And.intro hr v), if_pos r]
  · have ht1 := typed_l1_of_next hT (VPN2 va) t1 (vpn2_lt va) h1
    have ht1n := typed_ne_null hT t1 _ ht1
    unfold walk_pt
    rw [walk_level_table st root (VPN2 va) t1 create h1]
    simp only
    unfold walk_level
    unfold pte_valid at v
    unfold pte_rwx at r
    simp only [if_pos (And.intro ht1n v), if_pos r]


/-- C26 (amended): in a well-formed address space (the page-table pages form a
tree, typed by `τ`) with at least two usable pages on the free list.  Without
`create`, `walk_pt` changes nothing and returns null exactly when the walk
meets a leaf above level 0 or an entry that is not valid, and otherwise the
slot `VPN0` of the level-0 table reached.  With `create`, it returns null,
changing nothing, exactly when the walk meets a leaf above level 0; otherwise
it returns the slot `VPN0` of the level-0 table `t0` reached through the
level-1 table `t1`, a valid entry on the path is left as it was, an entry that
was not valid now has the flag byte `V` and points to a page taken from the
free list, which is zero-filled (but for the path entry installed in it), and
no other entry of any page-table page is modified. -/
theorem walk_pt_contract (st : MemState) (root : Nat) (τ : Nat → Option Role) (va : Nat)
    (fl : List Nat) (hT : TypedSpace st.mem root τ)
    (hc : FreeChain st.mem st.free_list fl) (hfr : FreshPages τ fl) (hlen : 2 ≤ fl.length) :
    (walk_pt st root va false = Res.ok (lookup st.mem root va) st ∧
     (lookup st.mem root va = 0 ↔
        meets_large_leaf st.mem root va ∨ meets_invalid st.mem root va) ∧
     (lookup st.mem root va ≠ 0 → ∃ t1 t0,
        next_table st.mem root (VPN2 va) = some t1 ∧ next_table st.mem t1 (VPN1 va) = some t0 ∧
        lookup st.mem root va = t0 + 8 * VPN0 va)) ∧
    ∃ (p : Nat) (st1 : MemState), walk_pt st root va true = Res.ok p st1 ∧
      (p = 0 ↔ meets_large_leaf st.mem root va) ∧
      (p = 0 → st1 = st) ∧
      (p ≠ 0 → ∃ t1 t0,
        next_table st1.mem root (VPN2 va) = some t1 ∧
        next_table st1.mem t1 (VPN1 va) = some t0 ∧
        p = t0 + 8 * VPN0 va ∧
        (pte_valid (st.mem (root + 8 * VPN2 va)) →
          st1.mem (root + 8 * VPN2 va) = st.mem (root + 8 * VPN2 va)) ∧
        (¬ pte_valid (st.mem (root + 8 * VPN2 va)) →
          pte_flags (st1.mem (root + 8 * VPN2 va)) = PTE_V ∧ t1 ∈ fl ∧
          ∀ a, t1 ≤ a → a < t1 + 4096 → a ≠ t1 + 8 * VPN1 va → st1.mem a = 0) ∧
        (pte_valid (st.mem (root + 8 * VPN2 va)) → pte_valid (st.mem (t1 + 8 * VPN1 va)) →
          st1.mem (t1 + 8 * VPN1 va) = st.mem (t1 + 8 * VPN1 va)) ∧
        (¬ pte_valid (st.mem (root + 8 * VPN2 va)) ∨ ¬ pte_valid (st.mem (t1 + 8 * VPN1 va)) →
          pte_flags (st1.mem (t1 + 8 * VPN1 va)) = PTE_V ∧ t0 ∈ fl ∧
          ∀ a, t0 ≤ a → a < t0 + 4096 → st1.mem a = 0) ∧
        (∀ t r i, τ t = some r → i < 512 → t + 8 * i ≠ root + 8 * VPN2 va →
          t + 8 * i ≠ t1 + 8 * VPN1 va → st1.mem (t + 8 * i) = st.mem (t + 8 * i))) := by
  have hr := typed_root_ne hT
  refine ⟨⟨walk_pt_no_create st root va, lookup_zero_iff hT va, ?_⟩, ?_⟩
  · intro hne
    unfold lookup at hne
    cases h1 : next_table st.mem root (VPN2 va) with
    | none => rw [h1] at hne; exact absurd rfl hne
    | some t1 =>
      rw [h1] at hne
      have hne2 : (match next_table st.mem t1 (VPN1 va) with
        | none => 0
        | some t0 => t0 + 8 * VPN0 va) ≠ 0 := hne
      cases h0 : next_table st.mem t1 (VPN1 va) with
      | none => rw [h0] at hne2; exact absurd rfl hne2
      | some t0 => exact ⟨t1, t0, rfl, h0, lookup_of_next st.mem root va t1 t0 h1 h0⟩
  · rcases fl with _ | ⟨p1, _ | ⟨p2, ps⟩⟩
    · simp at hlen
    · simp at hlen
    have hfl : st.free_list = p1 := hc.1
    have hm1 : st.mem p1 = p2 := hc.2.1
    have hp1n := hfr.ne_null p1 (List.mem_cons_self _ _)
    have hp1a := hfr.aligned p1 (List.mem_cons_self _ _)
    have hp1s := hfr.small p1 (List.mem_cons_self _ _)
    have hp1u := hfr.unused p1 (List.mem_cons_self _ _)
    have hp2m : p2 ∈ p1 :: p2 :: ps := List.mem_cons_of_mem _ (List.mem_cons_self _ _)
    have hp2n := hfr.ne_null p2 hp2m
    have hp2a := hfr.aligned p2 hp2m
    have hp2s := hfr.small p2 hp2m
    have hp2u := hfr.unused p2 hp2m
    have hp12 : p1 ≠ p2 := by
      have := hfr.nodup
      rw [List.nodup_cons] at this
      intro e
      exact this.1 (e ▸ List.mem_cons_self _ _)
    by_cases hL : meets_large_leaf st.mem root va
    · exact ⟨0, st, walk_pt_large_leaf st rfl hT va true hL, ⟨fun _ => hL, fun _ => rfl⟩,
        fun _ => rfl, fun h => absurd rfl h⟩
    · by_cases v2 : pte_valid (st.mem (root + 8 * VPN2 va))
      · have r2 : ¬ pte_rwx (st.mem (root + 8 * VPN2 va)) := fun r => hL (Or.inl ⟨v2, r⟩)
        have h1 : next_table st.mem root (VPN2 va)
            = some (pte_target (st.mem (root + 8 * VPN2 va))) :=
          (next_table_some_iff _ _ _ _).mpr ⟨hr, v2, r2, rfl⟩
        generalize pte_target (st.mem (root + 8 * VPN2 va)) = t1 at h1
        have ht1 := typed_l1_of_next hT (VPN2 va) t1 (vpn2_lt va) h1
        have ht1n := typed_ne_null hT t1 _ ht1
        have hrole : Role.root ≠ Role.l1 (VPN2 va) := fun h => Role.noConfusion h
        have he21 : root + 8 * VPN2 va ≠ t1 + 8 * VPN1 va :=
          typed_slot_ne hT root t1 _ _ _ _ hT.root_role ht1 hrole (vpn2_lt va) (vpn1_lt va)
        by_cases v1 : pte_valid (st.mem (t1 + 8 * VPN1 va))
        · have r1 : ¬ pte_rwx (st.mem (t1 + 8 * VPN1 va)) :=
            fun r => hL (Or.inr ⟨t1, h1, v1, r⟩)
          have h0 : next_table st.mem t1 (VPN1 va)
              = some (pte_target (st.mem (t1 + 8 * VPN1 va))) :=
            (next_table_some_iff _ _ _ _).mpr ⟨ht1n, v1, r1, rfl⟩
          generalize pte_target (st.mem (t1 + 8 * VPN1 va)) = t0 at h0
          have ht0 := typed_l0_of_next hT t1 (VPN2 va) (VPN1 va) t0 (vpn1_lt va) ht1 h0
          have ht0n := typed_ne_null hT t0 _ ht0
          have hw : walk_pt st root va true = Res.ok (t0 + 8 * VPN0 va) st := by
            unfold walk_pt
            rw [walk_level_table st root (VPN2 va) t1 true h1]
            simp only
            rw [walk_level_table st t1 (VPN1 va) t0 true h0]
          refine ⟨t0 + 8 * VPN0 va, st, hw, ⟨fun h => by omega, fun h => absurd h hL⟩,
            fun h => by omega, fun _ => ⟨t1, t0, h1, h0, rfl, fun _ => rfl,
              fun h => absurd v2 h, fun _ _ => rfl, fun h => ?_, fun _ _ _ _ _ _ _ => rfl⟩⟩
          rcases h with h | h
          · exact absurd v2 h
          · exact absurd v1 h
        · have hw : walk_pt st root va true = Res.ok (p1 + 8 * VPN0 va)
              { mem := install_table st.mem (t1 + 8 * VPN1 va) p1, free_list := st.mem p1,
                satp := st.satp } := by
            unfold walk_pt
            rw [walk_level_table st root (VPN2 va) t1 true h1]
            simp only
            rw [walk_level_create st t1 (VPN1 va) (fun h => v1 h.2) (by rw [hfl]; exact hp1n)]
            simp only [hfl]
          have ho1 : ¬ (p1 ≤ t1 + 8 * VPN1 va ∧ t1 + 8 * VPN1 va < p1 + 4096) :=
            typed_slot_outside hT t1 _ (VPN1 va) p1 ht1 (vpn1_lt va) hp1a hp1u
          have ho2 : ¬ (p1 ≤ root + 8 * VPN2 va ∧ root + 8 * VPN2 va < p1 + 4096) :=
            typed_slot_outside hT root _ (VPN2 va) p1 hT.root_role (vpn2_lt va) hp1a hp1u
          have hm2 : install_table st.mem (t1 + 8 * VPN1 va) p1 (root + 8 * VPN2 va)
              = st.mem (root + 8 * VPN2 va) :=
            install_table_other _ _ _ _ he21 ho2
          refine ⟨p1 + 8 * VPN0 va, _, hw, ⟨fun h => by omega, fun h => absurd h hL⟩,
            fun h => by omega, fun _ => ⟨t1, p1, ?_, ?_, rfl, fun _ => hm2,
              fun h => absurd v2 h, fun _ h => absurd h v1, fun _ => ⟨?_, ?_, ?_⟩, ?_⟩⟩
          · show next_table (install_table st.mem (t1 + 8 * VPN1 va) p1) root (VPN2 va) = some t1
            rw [next_table_congr st.mem _ root (VPN2 va) hm2]
            exact h1
          · exact install_l0_next st.mem t1 (VPN1 va) p1 ht1n hp1a hp1s
          · exact install_flags _ _ _
          · exact List.mem_cons_self _ _
          · intro a ha1 ha2
            exact install_table_page _ _ _ a (fun e => ho1 (e ▸ ⟨ha1, ha2⟩)) ⟨ha1, ha2⟩
          · intro t r i ht hi _ hne1
            exact install_table_other _ _ _ _ hne1
              (typed_slot_outside hT t r i p1 ht hi hp1a hp1u)
      · have ho2 : ¬ (p1 ≤ root + 8 * VPN2 va ∧ root + 8 * VPN2 va < p1 + 4096) :=
          typed_slot_outside hT root _ (VPN2 va) p1 hT.root_role (vpn2_lt va) hp1a hp1u
        have ho2b : ¬ (p2 ≤ root + 8 * VPN2 va ∧ root + 8 * VPN2 va < p2 + 4096) :=
          typed_slot_outside hT root _ (VPN2 va) p2 hT.root_role (vpn2_lt va) hp2a hp2u
        have hv1 := vpn1_lt va
        have hin1 : p1 ≤ p1 + 8 * VPN1 va ∧ p1 + 8 * VPN1 va < p1 + 4096 := by omega
        have hne21 : p1 + 8 * VPN1 va ≠ root + 8 * VPN2 va := fun e => ho2 (e ▸ hin1)
        have hz : install_table st.mem (root + 8 * VPN2 va) p1 (p1 + 8 * VPN1 va) = 0 :=
          install_table_page _ _ _ _ hne21 hin1
        have hw : walk_pt st root va true = Res.ok (p2 + 8 * VPN0 va)
            { mem := install_table (install_table st.mem (root + 8 * VPN2 va) p1)
                (p1 + 8 * VPN1 va) p2,
              free_list := install_table st.mem (root + 8 * VPN2 va) p1 p2,
              satp := st.satp } := by
          unfold walk_pt
          rw [walk_level_create st root (VPN2 va) (fun h => v2 h.2) (by rw [hfl]; exact hp1n)]
          simp only [hfl]
          rw [walk_level_create _ p1 (VPN1 va)
            (fun h => pte_valid_zero (by
              have := h.2
              simp only at this
              rw [hz] at this
              exact this))
            (by simp only [hm1]; exact hp2n)]
          simp only [hm1]
        have hm2 : install_table (install_table st.mem (root + 8 * VPN2 va) p1)
              (p1 + 8 * VPN1 va) p2 (root + 8 * VPN2 va)
            = install_table st.mem (root + 8 * VPN2 va) p1 (root + 8 * VPN2 va) :=
          install_table_other _ _ _ _ (fun e => hne21 e.symm) ho2b
        refine ⟨p2 + 8 * VPN0 va, _, hw, ⟨fun h => by omega, fun h => absurd h hL⟩,
          fun h => by omega, fun _ => ⟨p1, p2, ?_, ?_, rfl, fun h => absurd h v2,
            fun _ => ⟨?_, ?_, ?_⟩, fun h => absurd h v2, fun _ => ⟨?_, ?_, ?_⟩, ?_⟩⟩
        · show next_table (install_table (install_table st.mem (root + 8 * VPN2 va) p1)
            (p1 + 8 * VPN1 va) p2) root (VPN2 va) = some p1
          rw [next_table_congr _ _ root (VPN2 va) hm2]
          exact install_l1_next st.mem root (VPN2 va) p1 hr hp1a hp1s
        · exact install_l0_next _ p1 (VPN1 va) p2 hp1n hp2a hp2s
        · show pte_flags (install_table (install_table st.mem (root + 8 * VPN2 va) p1)
            (p1 + 8 * VPN1 va) p2 (root + 8 * VPN2 va)) = PTE_V
          rw [hm2]
          exact install_flags _ _ _
        · exact List.mem_cons_self _ _
        · intro a ha1 ha2 hne
          show install_table (install_table st.mem (root + 8 * VPN2 va) p1)
            (p1 + 8 * VPN1 va) p2 a = 0
          rw [install_table_other _ _ _ a hne (by omega)]
          exact install_table_page _ _ _ a (fun e => ho2 (e ▸ ⟨ha1, ha2⟩)) ⟨ha1, ha2⟩
        · exact install_flags _ _ _
        · exact hp2m
        · intro a ha1 ha2
          exact install_table_page _ _ _ a (by omega) ⟨ha1, ha2⟩
        · intro t r i ht hi hne2 hne1
          show install_table (install_table st.mem (root + 8 * VPN2 va) p1)
            (p1 + 8 * VPN1 va) p2 (t + 8 * i) = st.mem (t + 8 * i)
          rw [install_table_other _ _ _ _ hne1 (typed_slot_outside hT t r i p2 ht hi hp2a hp2u),
            install_table_other _ _ _ _ hne2 (typed_slot_outside hT t r i p1 ht hi hp1a hp1u)]


/-- C26 counterexample: in the sample address space with an empty free-page
list, the walk for `0xC0200000` meets a valid pointer at level 2 and an entry
that is not valid at level 1, no leaf; with `create` set `walk_pt` neither
returns null nor a slot: it panics in `memory_alloc_page`. -/
theorem walk_pt_create_without_free_pages :
    pte_valid (sampleSpaceNoFree.mem (0x80200000 + 8 * VPN2 0xC0200000)) ∧
    ¬ pte_rwx (sampleSpaceNoFree.mem (0x80200000 + 8 * VPN2 0xC0200000)) ∧
    next_table sampleSpaceNoFree.mem 0x80200000 (VPN2 0xC0200000) = some 0x80201000 ∧
    ¬ pte_valid (sampleSpaceNoFree.mem (0x80201000 + 8 * VPN1 0xC0200000)) ∧
    (walk_pt sampleSpaceNoFree 0x80200000 0xC0200000 true).val = none ∧
    (walk_pt sampleSpaceNoFree 0x80200000 0xC0200000 false).val = some 0 := by
  decide

/-- Instance of `walk_pt_contract`: the sample address space with its three
free pages and the address `0xC0200000`, whose level-1 entry is not valid. -/
theorem walk_pt_contract_witness :
    ((walk_pt sampleSpace 0x80200000 0xC0200000 false
        = Res.ok (lookup sampleSpace.mem 0x80200000 0xC0200000) sampleSpace ∧
     (lookup sampleSpace.mem 0x80200000 0xC0200000 = 0 ↔
        meets_large_leaf sampleSpace.mem 0x80200000 0xC0200000 ∨
        meets_invalid sampleSpace.mem 0x80200000 0xC0200000) ∧
     (lookup sampleSpace.mem 0x80200000 0xC0200000 ≠ 0 → ∃ t1 t0,
        next_table sampleSpace.mem 0x80200000 (VPN2 0xC0200000) = some t1 ∧
        next_table sampleSpace.mem t1 (VPN1 0xC0200000) = some t0 ∧
        lookup sampleSpace.mem 0x80200000 0xC0200000 = t0 + 8 * VPN0 0xC0200000)) ∧
    ∃ (p : Nat) (st1 : MemState), walk_pt sampleSpace 0x80200000 0xC0200000 true = Res.ok p st1 ∧
      (p = 0 ↔ meets_large_leaf sampleSpace.mem 0x80200000 0xC0200000) ∧
      (p = 0 → st1 = sampleSpace) ∧
      (p ≠ 0 → ∃ t1 t0,
        next_table st1.mem 0x80200000 (VPN2 0xC0200000) = some t1 ∧
        next_table st1.mem t1 (VPN1 0xC0200000) = some t0 ∧
        p = t0 + 8 * VPN0 0xC0200000 ∧
        (pte_valid (sampleSpace.mem (0x80200000 + 8 * VPN2 0xC0200000)) →
          st1.mem (0x80200000 + 8 * VPN2 0xC0200000)
            = sampleSpace.mem (0x80200000 + 8 * VPN2 0xC0200000)) ∧
        (¬ pte_valid (sampleSpace.mem (0x80200000 + 8 * VPN2 0xC0200000)) →
          pte_flags (st1.mem (0x80200000 + 8 * VPN2 0xC0200000)) = PTE_V ∧
          t1 ∈ [0x80400000, 0x80401000, 0x80402000] ∧
          ∀ a, t1 ≤ a → a < t1 + 4096 → a ≠ t1 + 8 * VPN1 0xC0200000 → st1.mem a = 0) ∧
        (pte_valid (sampleSpace.mem (0x80200000 + 8 * VPN2 0xC0200000)) →
          pte_valid (sampleSpace.mem (t1 + 8 * VPN1 0xC0200000)) →
          st1.mem (t1 + 8 * VPN1 0xC0200000) = sampleSpace.mem (t1 + 8 * VPN1 0xC0200000)) ∧
        (¬ pte_valid (sampleSpace.mem (0x80200000 + 8 * VPN2 0xC0200000)) ∨
            ¬ pte_valid (sampleSpace.mem (t1 + 8 * VPN1 0xC0200000)) →
          pte_flags (st1.mem (t1 + 8 * VPN1 0xC0200000)) = PTE_V ∧
          t0 ∈ [0x80400000, 0x80401000, 0x80402000] ∧
          ∀ a, t0 ≤ a → a < t0 + 4096 → st1.mem a = 0) ∧
        (∀ t r i, sampleRoles t = some r → i < 512 →
          t + 8 * i ≠ 0x80200000 + 8 * VPN2 0xC0200000 →
          t + 8 * i ≠ t1 + 8 * VPN1 0xC0200000 →
          st1.mem (t + 8 * i) = sampleSpace.mem (t + 8 * i)))) ∧
    (walk_pt sampleSpace 0x80200000 0xC0200000 true).val = some 0x80400000 ∧
    (walk_pt sampleSpace 0x80200000 0xC0200000 false).val = some 0 :=
  ⟨walk_pt_contract sampleSpace 0x80200000 sampleRoles 0xC0200000
      [0x80400000, 0x80401000, 0x80402000] sample_typed sample_chain sample_fresh (by decide),
    by decide, by decide⟩


/-! ## Reading a file against the on-disk layout -/


theorem inode_offset_exact (n size : Nat) (h32 : size ≤ 2 ^ 32)
    (h : spec_inode_offset n + 4096 ≤ size) : inode_offset n = spec_inode_offset n := by
  unfold spec_inode_offset FS_BLKSZ at h
  unfold inode_offset spec_inode_offset FS_BLKSZ U32
  omega

theorem data_block_offset_exact (bb : Buf) (d size : Nat) (h32 : size ≤ 2 ^ 32)
    (h : spec_data_block_offset bb d + 4096 ≤ size) :
    data_block_offset bb d = spec_data_block_offset bb d := by
  unfold spec_data_block_offset FS_BLKSZ at h
  unfold data_block_offset spec_data_block_offset FS_BLKSZ U32
  omega

/-- Within the first 4 GiB of the device the code and the layout of the
specification agree: for an open file with position `p <= file_size`,
`file_size <= 1023*4096` and `p + n < 2^64`, whose inode block and data
blocks, at their exact offsets, lie on a device of at most `2^32` bytes,
`fs_read` returns `k = min n (file_size - p)`, stores exactly the file bytes
`p .. p+k-1` of the layout (`spec_file_byte`) and leaves `file_position =
p + k`; a read at `p = file_size` returns 0 and changes nothing. -/
theorem fs_read_within_4g (s : FsState) (fd : Nat) (buf : Buf) (n : Nat)
    (hinit : s.fs_initialized = true)
    (hopen : (s.file_structs fd).flags ≠ 0)
    (hblk : 0 < s.blkdev.blksz)
    (hp : (s.file_structs fd).file_position ≤ (s.file_structs fd).file_size)
    (hsz : (s.file_structs fd).file_size ≤ 1023 * 4096)
    (hn : (s.file_structs fd).file_position + n < 2 ^ 64)
    (h32 : s.blkdev.size ≤ 2 ^ 32)
    (hino : spec_inode_offset (s.file_structs fd).inode_number + 4096 ≤ s.blkdev.size)
    (hdata : ∀ i, i < (s.file_structs fd).file_size →
      spec_data_block_offset s.boot_block (data_block_num (spec_inode s fd) (i / FS_BLKSZ))
        + 4096 ≤ s.blkdev.size) :
    (fs_read s (some fd) (some buf) n).1
      = ((min n ((s.file_structs fd).file_size - (s.file_structs fd).file_position) : Nat) : Int) ∧
    (fs_read s (some fd) (some buf) n).2.2
      = some (fun j =>
          if j < min n ((s.file_structs fd).file_size - (s.file_structs fd).file_position)
          then spec_file_byte s fd ((s.file_structs fd).file_position + j) else buf j) ∧
    ((fs_read s (some fd) (some buf) n).2.1.file_structs fd).file_position
      = (s.file_structs fd).file_position
        + min n ((s.file_structs fd).file_size - (s.file_structs fd).file_position) ∧
    ((s.file_structs fd).file_position = (s.file_structs fd).file_size →
      fs_read s (some fd) (some buf) n = (0, s, some buf)) := by
  have hio := inode_offset_exact (s.file_structs fd).inode_number s.blkdev.size h32 hino
  have hdi : disk_inode s fd = spec_inode s fd := by
    unfold disk_inode spec_inode
    rw [hio]
  have hdo : ∀ i, i < (s.file_structs fd).file_size →
      data_block_offset s.boot_block (data_block_num (disk_inode s fd) (i / FS_BLKSZ))
        = spec_data_block_offset s.boot_block
            (data_block_num (spec_inode s fd) (i / FS_BLKSZ)) := by
    intro i hi
    rw [hdi]
    exact data_block_offset_exact _ _ _ h32 (hdata i hi)
  obtain ⟨g1, g2, g3, g4⟩ := fs_read_fetches s fd buf n hinit hopen hblk hp hsz hn
    (by rw [hio]; exact hino)
    (by intro i hi; rw [hdo i hi]; exact hdata i hi)
  refine ⟨g1, ?_, g3, g4⟩
  rw [g2]
  congr 1
  funext j
  by_cases c : j < min n ((s.file_structs fd).file_size - (s.file_structs fd).file_position)
  · rw [if_pos c, if_pos c]
    unfold fetch_byte fetch_addr spec_file_byte
    rw [hdo _ (by omega)]
  · rw [if_neg c, if_neg c]

/-- C1 (failing input): on the image whose boot block records
`num_inodes = 0xFFFFF`, the file open in slot 0 has position 0 and size 10,
and its inode maps block index 0 to data block 1, which the on-disk layout
places at `4096 + 0xFFFFF * 4096 + 1 * 4096 = 2^32 + 4096`, on the device: byte
0 of the file is the device byte `0x41` there.  `fs_read` of one byte returns
1 and leaves the position at 1, but the byte it stores is 10, the device byte
at offset 4096. -/
theorem fs_read_delivers_other_block :
    wrapFs.fs_initialized = true ∧ (wrapFs.file_structs 0).flags ≠ 0 ∧
    (wrapFs.file_structs 0).file_position = 0 ∧ (wrapFs.file_structs 0).file_size = 10 ∧
    data_block_num (spec_inode wrapFs 0) 0 = 1 ∧
    spec_data_block_offset wrapFs.boot_block 1 = 2 ^ 32 + 4096 ∧
    spec_data_block_offset wrapFs.boot_block 1 + 4096 ≤ wrapFs.blkdev.size ∧
    spec_file_byte wrapFs 0 0 = 0x41 ∧
    (fs_read wrapFs (some 0) (some (fun _ => 0)) 1).1 = 1 ∧
    ((fs_read wrapFs (some 0) (some (fun _ => 0)) 1).2.1.file_structs 0).file_position = 1 ∧
    (fs_read wrapFs (some 0) (some (fun _ => 0)) 1).2.2.map (fun b => b 0) = some 10 := by
  decide


end KOS
